import Mathlib

/-! tblis tensor front-end: shape normalisation.

A shallow embedding of `src/tblis_tensor.hpp`: index validation, diagonal extraction and
stride-based index folding, with the properties the specification states about them.

Conventions of the embedding.

* `idx_type` and `stride_type` are signed machine integers in the source; they are embedded as
  `Int`, so every statement is about exact arithmetic.
* An index string is a `List Char`; a vector is a `List`.  Reads use `List.getD`, which agrees
  with the source's unchecked `operator[]` on every index that is in range.
* A function that can abort on an `assert` is embedded twice: `f_body` is the computation on
  its own and `f` returns `none` when an assertion of the source fails and `some (f_body ..)`
  otherwise.
-/

namespace tblis

/-! ## Helpers the source takes from `stl_ext` and `MArray` -/

/-- Modelled from the spec: `stl_ext::sort(v, comp)`, the `std::sort` wrapper, which is not
part of the source file.  `comp` is a strict "less than"; elements that compare equivalent keep
their relative order (an insertion sort, as `std::sort` runs on short ranges). -/
def sort {α : Type} (comp : α → α → Bool) (v : List α) : List α :=
  v.insertionSort (fun a b => comp b a = false)

/-- Modelled from the spec: `MArray::range(n)`, the vector `0, 1, ..., n-1`. -/
def range (n : Nat) : List Nat := List.range n

/-- Modelled from the spec: `stl_ext::permuted(v, p)`, the vector `v[p[0]], v[p[1]], ...`. -/
def permuted (v : List Int) (p : List Nat) : List Int := p.map (fun i => v.getD i 0)

/-- Modelled from the spec: `stl_ext::prod(v)`, the product of the entries. -/
def prod (v : List Int) : Int := v.prod

/-! ## Shape algebra (`namespace detail`) -/

/-- The comparator `detail::sort_by_idx(idx)`: axis `i` before axis `j` iff `idx[i] < idx[j]`. -/
def sort_by_idx (idx : List Char) (i j : Nat) : Bool :=
  decide (idx.getD i default < idx.getD j default)

/-- The comparator `detail::sort_by_stride(strides...)`: axis `i` before axis `j` iff the least
stride of axis `i` over all the given stride vectors is below the least stride of axis `j`. -/
def sort_by_stride (strides : List (List Int)) (i j : Nat) : Bool :=
  let min_i := (strides.drop 1).foldl (fun m s => min m (s.getD i 0)) ((strides.headD []).getD i 0)
  let min_j := (strides.drop 1).foldl (fun m s => min m (s.getD j 0)) ((strides.headD []).getD j 0)
  decide (min_i < min_j)

/-- Modelled from the spec: the offsets an `MArray::viterator<>` over `(len, stride)` reports
through successive calls of `next(off)` starting from `off = 0`: every coordinate once, the
first axis running fastest, and nothing at all when some length is zero. -/
def viterator_offsets : List Int → List Int → List Int
  | [], _ => [0]
  | l :: len, stride =>
      (viterator_offsets len (stride.drop 1)).flatMap
        (fun off => (List.range l.toNat).map (fun (x : Nat) => (x : Int) * stride.headD 0 + off))

/-- The vector overload of `detail::are_compatible`, lines 110-138: `none` when one of its
assertions fails.  Its closing loop steps both iterators together and compares the offsets
entry by entry; the two enumerations have the same number of entries once the products of the
lengths agree, so the loop is the comparison of the two lists of offsets. -/
def are_compatible (len_A stride_A len_B stride_B : List Int) : Option Bool :=
  if len_A.length ≠ stride_A.length then none else
  let dims_A := sort (sort_by_stride [stride_A]) (range len_A.length)
  let len_Ar := permuted len_A dims_A
  let stride_Ar := permuted stride_A dims_A
  if len_B.length ≠ stride_B.length then none else
  let dims_B := sort (sort_by_stride [stride_B]) (range len_B.length)
  let len_Br := permuted len_B dims_B
  let stride_Br := permuted stride_B dims_B
  if prod len_Ar ≠ prod len_Br then some false
  else some (decide (viterator_offsets len_Ar stride_Ar = viterator_offsets len_Br stride_Br))

/-! ## Views -/

/-- A `const_tensor_view<T>` or `tensor_view<T>` (the source casts the one to the other): the
data pointer, as an element address, with the length and the stride of every axis. -/
structure tensor_view where
  /-- The vector `lengths()`. -/
  lengths : List Int
  /-- The pointer `data()`. -/
  data : Int
  /-- The vector `strides()`. -/
  strides : List Int
deriving DecidableEq, Repr

/-- The accessor `A.dimension()`. -/
def tensor_view.dimension (A : tensor_view) : Nat := A.lengths.length

/-- The accessor `A.length(i)`. -/
def tensor_view.length (A : tensor_view) (i : Nat) : Int := A.lengths.getD i 0

/-- The accessor `A.stride(i)`. -/
def tensor_view.stride (A : tensor_view) (i : Nat) : Int := A.strides.getD i 0

/-! ## Index validator -/

/-- The order `operator<` of `std::pair<char,idx_type>`, by which `sort(idx_len)` sorts. -/
def pair_less (x y : Char × Int) : Bool :=
  decide (x.1 < y.1) || (!decide (y.1 < x.1) && decide (x.2 < y.2))

/-- The pairs `(idx_A[i], A.length(i))` for `i < A.dimension()`, in axis order. -/
def idx_len_of (A : tensor_view) (idx_A : List Char) : List (Char × Int) :=
  (List.range A.dimension).map (fun i => (idx_A.getD i default, A.length i))

/-- The loop of lines 279-283 over the sorted pairs: every pair with the label of the pair
right before it has that pair's length. -/
def adjacent_lengths_agree : List (Char × Int) → Bool
  | [] => true
  | [_] => true
  | x :: y :: rest =>
      (if y.1 = x.1 then decide (y.2 = x.2) else true) && adjacent_lengths_agree (y :: rest)

/-- Modelled from the spec: `stl_ext::unique(s)`, which sorts `s` and drops repeated entries. -/
def unique (s : List Char) : List Char :=
  (sort (fun a b => decide (a < b)) s).dedup

/-- Modelled from the spec: `stl_ext::intersection(a, b)`, the sorted entries of `a` that
occur in `b`. -/
def intersection (a b : List Char) : List Char :=
  (sort (fun x y => decide (x < y)) a).filter (fun c => decide (c ∈ b))

/-- Modelled from the spec: `stl_ext::exclusion(a, b)`, the sorted entries of `a` that do not
occur in `b`. -/
def exclusion (a b : List Char) : List Char :=
  (sort (fun x y => decide (x < y)) a).filter (fun c => !decide (c ∈ b))

/-- Modelled from the spec: `stl_ext::select_from(v, idx_v, idx_i)`, the entries of `v` at the
positions where the labels of `idx_i` stand in `idx_v`. -/
def select_from (v : List Int) (idx_v idx_i : List Char) : List Int :=
  idx_i.map (fun c => v.getD (idx_v.indexOf c) 0)

/-- One-operand `detail::check_tensor_indices`, lines 149-173: `some 0` when every assertion
holds, `none` when one fails. -/
def check_tensor_indices (A : tensor_view) (idx_A : List Char) : Option Int :=
  if idx_A.length ≠ A.dimension then none else
  let idx_len := sort pair_less (idx_len_of A idx_A)
  if adjacent_lengths_agree idx_len then some 0 else none

/-- Two-operand `detail::check_tensor_indices`, lines 181-228. -/
def check_tensor_indices_AB (A : tensor_view) (idx_A : List Char)
    (B : tensor_view) (idx_B : List Char) (has_A_only has_B_only has_AB : Bool) : Option Int :=
  if idx_A.length ≠ A.dimension then none else
  if idx_B.length ≠ B.dimension then none else
  let idx_len := sort pair_less (idx_len_of A idx_A ++ idx_len_of B idx_B)
  if !adjacent_lengths_agree idx_len then none else
  let idx_A := unique idx_A
  let idx_B := unique idx_B
  let idx_AB := intersection idx_A idx_B
  let idx_A_only := exclusion idx_A idx_B
  let idx_B_only := exclusion idx_B idx_A
  if !(idx_A_only.isEmpty || has_A_only) then none else
  if !(idx_B_only.isEmpty || has_B_only) then none else
  if !(idx_AB.isEmpty || has_AB) then none else
  some 0

/-- Three-operand `detail::check_tensor_indices`, lines 240-306. -/
def check_tensor_indices_ABC (A : tensor_view) (idx_A : List Char)
    (B : tensor_view) (idx_B : List Char) (C : tensor_view) (idx_C : List Char)
    (has_A_only has_B_only has_C_only has_AB has_AC has_BC has_ABC : Bool) : Option Int :=
  if idx_A.length ≠ A.dimension then none else
  if idx_B.length ≠ B.dimension then none else
  if idx_C.length ≠ C.dimension then none else
  let idx_len := sort pair_less (idx_len_of A idx_A ++ idx_len_of B idx_B ++ idx_len_of C idx_C)
  if !adjacent_lengths_agree idx_len then none else
  let idx_A := unique idx_A
  let idx_B := unique idx_B
  let idx_C := unique idx_C
  let idx_ABC := intersection (intersection idx_A idx_B) idx_C
  let idx_AB := exclusion (intersection idx_A idx_B) idx_C
  let idx_AC := exclusion (intersection idx_A idx_C) idx_B
  let idx_BC := exclusion (intersection idx_B idx_C) idx_A
  let idx_A_only := exclusion (exclusion idx_A idx_B) idx_C
  let idx_B_only := exclusion (exclusion idx_B idx_A) idx_C
  let idx_C_only := exclusion (exclusion idx_C idx_A) idx_B
  if !(idx_A_only.isEmpty || has_A_only) then none else
  if !(idx_B_only.isEmpty || has_B_only) then none else
  if !(idx_C_only.isEmpty || has_C_only) then none else
  if !(idx_AB.isEmpty || has_AB) then none else
  if !(idx_AC.isEmpty || has_AC) then none else
  if !(idx_BC.isEmpty || has_BC) then none else
  if !(idx_ABC.isEmpty || has_ABC) then none else
  some 0

/-! ## Diagonalizer -/

/-- The local variables of `diagonal` that its loop updates, with `ok` recording whether every
assertion met so far held. -/
structure diagonal_state where
  /-- The string `idx_AD`, overwritten in place. -/
  idx_AD : List Char
  /-- The vector `len`. -/
  len : List Int
  /-- The vector `stride`. -/
  stride : List Int
  /-- The counter `ndim_AD`. -/
  ndim_AD : Nat
  /-- Whether no assertion has failed. -/
  ok : Bool
deriving DecidableEq, Repr

/-- One pass of the loop body of `diagonal`, lines 484-499, at the sorted position whose axis is
`cur`; `prev` is the axis at the position before, `none` at position 0. -/
def diagonal_step (AD : tensor_view) (idx : List Char) (prev : Option Nat) (cur : Nat)
    (st : diagonal_state) : diagonal_state :=
  if AD.length cur = 1 then st
  else if prev.all (fun p => decide (idx.getD cur default ≠ idx.getD p default)) then
    { idx_AD := st.idx_AD.set st.ndim_AD (idx.getD cur default)
      len := st.len.set st.ndim_AD (AD.length cur)
      stride := st.stride.set st.ndim_AD (AD.stride cur)
      ndim_AD := st.ndim_AD + 1
      ok := st.ok }
  else
    { st with
      ok := st.ok && decide (AD.length st.ndim_AD = AD.length cur)
      stride := st.stride.set st.ndim_AD (st.stride.getD st.ndim_AD 0 + AD.stride cur) }

/-- The loop of `diagonal`, lines 482-500, over the sorted axes still to visit. -/
def diagonal_loop (AD : tensor_view) (idx : List Char) :
    Option Nat → List Nat → diagonal_state → diagonal_state
  | _, [], st => st
  | prev, cur :: rest, st =>
      diagonal_loop AD idx (some cur) rest (diagonal_step AD idx prev cur st)

/-- The state in which `diagonal` leaves its loop. -/
def diagonal_run (AD : tensor_view) (idx_AD : List Char) : diagonal_state :=
  let ndim_A := AD.dimension
  let inds_A := sort (sort_by_idx idx_AD) (range ndim_A)
  diagonal_loop AD idx_AD none inds_A
    { idx_AD := idx_AD
      len := List.replicate ndim_A 0
      stride := List.replicate ndim_A 0
      ndim_AD := 0
      ok := true }

/-- The view and index string `diagonal` computes, lines 473-506. -/
def diagonal_body (AD : tensor_view) (idx_AD : List Char) : tensor_view × List Char :=
  let st := diagonal_run AD idx_AD
  ({ lengths := st.len.take st.ndim_AD
     data := AD.data
     strides := st.stride.take st.ndim_AD }, st.idx_AD.take st.ndim_AD)

/-- The function `diagonal`, lines 468-507, with its assertions: `none` when one fails. -/
def diagonal (AD : tensor_view) (idx_AD : List Char) : Option (tensor_view × List Char) :=
  if AD.dimension ≠ idx_AD.length then none
  else if (diagonal_run AD idx_AD).ok then some (diagonal_body AD idx_AD) else none

/-! ## Folder -/

/-- The three outputs of the core `fold`: it overwrites its arguments `lengths`, `strides`
and `idx` in place. -/
structure fold_state where
  /-- The vector `lengths`. -/
  lengths : List Int
  /-- The vectors `*strides[0]`, `*strides[1]`, ... -/
  strides : List (List Int)
  /-- The string `idx`. -/
  idx : List Char
deriving DecidableEq, Repr

/-- The statement `lengths.back() *= x`. -/
def mul_back (lengths : List Int) (x : Int) : List Int :=
  match lengths.getLast? with
  | none => lengths
  | some l => lengths.dropLast ++ [l * x]

/-- The test of lines 775-779 at the sorted position whose axis is `cur`, with `prev` the axis
at the position before (`none` at position 0): `true` when control reaches `nofold`. -/
def fold_nofold (oldlengths : List Int) (oldstrides : List (List Int))
    (prev : Option Nat) (cur : Nat) : Bool :=
  match prev with
  | none => true
  | some p => oldstrides.any (fun s => s.getD cur 0 != s.getD p 0 * oldlengths.getD p 0)

/-- The loop of the core `fold`, lines 773-789, over the sorted axes still to visit. -/
def fold_loop (oldlengths : List Int) (oldstrides : List (List Int)) (oldidx : List Char) :
    Option Nat → List Nat → fold_state → fold_state
  | _, [], st => st
  | prev, cur :: rest, st =>
      fold_loop oldlengths oldstrides oldidx (some cur) rest
        (if fold_nofold oldlengths oldstrides prev cur then
          { idx := st.idx ++ [oldidx.getD cur default]
            lengths := st.lengths ++ [oldlengths.getD cur 0]
            strides := List.zipWith (fun s o => s ++ [o.getD cur 0]) st.strides oldstrides }
        else
          { st with lengths := mul_back st.lengths (oldlengths.getD cur 0) })

/-- What the core `fold` computes, lines 761-789. -/
def fold_body (lengths : List Int) (strides : List (List Int)) (idx : List Char) : fold_state :=
  let ndim := lengths.length
  let inds := sort (sort_by_stride [strides.headD []]) (range ndim)
  fold_loop lengths strides idx none inds
    { idx := [], lengths := [], strides := strides.map (fun _ => []) }

/-- The closing assertions of the core `fold`, lines 791-795. -/
def fold_asserts (lengths : List Int) (strides : List (List Int)) (idx : List Char) : Bool :=
  let out := fold_body lengths strides idx
  (List.range strides.length).all (fun i =>
    are_compatible lengths (strides.getD i []) out.lengths (out.strides.getD i []) == some true)

/-- The core `fold`, lines 757-796, with its assertions: `none` when one fails. -/
def fold (lengths : List Int) (strides : List (List Int)) (idx : List Char) :
    Option fold_state :=
  if fold_asserts lengths strides idx then some (fold_body lengths strides idx) else none

/-- What the three-view `fold` computes, lines 872-918, from the core computation on each
class of labels. -/
def fold_ABC_body (AF : tensor_view) (idx_AF : List Char) (BF : tensor_view)
    (idx_BF : List Char) (CF : tensor_view) (idx_CF : List Char) :
    (tensor_view × List Char) × (tensor_view × List Char) × (tensor_view × List Char) :=
  let idx_ABC := intersection (intersection idx_AF idx_BF) idx_CF
  let len_ABC := select_from AF.lengths idx_AF idx_ABC
  let stride_A_ABC := select_from AF.strides idx_AF idx_ABC
  let stride_B_ABC := select_from BF.strides idx_BF idx_ABC
  let stride_C_ABC := select_from CF.strides idx_CF idx_ABC
  let idx_AB := exclusion (intersection idx_AF idx_BF) idx_ABC
  let len_AB := select_from AF.lengths idx_AF idx_AB
  let stride_A_AB := select_from AF.strides idx_AF idx_AB
  let stride_B_AB := select_from BF.strides idx_BF idx_AB
  let idx_AC := exclusion (intersection idx_AF idx_CF) idx_ABC
  let len_AC := select_from AF.lengths idx_AF idx_AC
  let stride_A_AC := select_from AF.strides idx_AF idx_AC
  let stride_C_AC := select_from CF.strides idx_CF idx_AC
  let idx_BC := exclusion (intersection idx_BF idx_CF) idx_ABC
  let len_BC := select_from BF.lengths idx_BF idx_BC
  let stride_B_BC := select_from BF.strides idx_BF idx_BC
  let stride_C_BC := select_from CF.strides idx_CF idx_BC
  let idx_A_only := exclusion (exclusion idx_AF idx_BF) idx_CF
  let len_A := select_from AF.lengths idx_AF idx_A_only
  let stride_A_A := select_from AF.strides idx_AF idx_A_only
  let idx_B_only := exclusion (exclusion idx_BF idx_AF) idx_CF
  let len_B := select_from BF.lengths idx_BF idx_B_only
  let stride_B_B := select_from BF.strides idx_BF idx_B_only
  let idx_C_only := exclusion (exclusion idx_CF idx_AF) idx_BF
  let len_C := select_from CF.lengths idx_CF idx_C_only
  let stride_C_C := select_from CF.strides idx_CF idx_C_only
  let fA := fold_body len_A [stride_A_A] idx_A_only
  let fB := fold_body len_B [stride_B_B] idx_B_only
  let fC := fold_body len_C [stride_C_C] idx_C_only
  let fAB := fold_body len_AB [stride_A_AB, stride_B_AB] idx_AB
  let fAC := fold_body len_AC [stride_A_AC, stride_C_AC] idx_AC
  let fBC := fold_body len_BC [stride_B_BC, stride_C_BC] idx_BC
  let fABC := fold_body len_ABC [stride_A_ABC, stride_B_ABC, stride_C_ABC] idx_ABC
  (({ lengths := fA.lengths ++ fAB.lengths ++ fAC.lengths ++ fABC.lengths
      data := AF.data
      strides := fA.strides.getD 0 [] ++ fAB.strides.getD 0 [] ++ fAC.strides.getD 0 []
        ++ fABC.strides.getD 0 [] },
    fA.idx ++ fAB.idx ++ fAC.idx ++ fABC.idx),
   ({ lengths := fB.lengths ++ fAB.lengths ++ fBC.lengths ++ fABC.lengths
      data := BF.data
      strides := fB.strides.getD 0 [] ++ fAB.strides.getD 1 [] ++ fBC.strides.getD 0 []
        ++ fABC.strides.getD 1 [] },
    fB.idx ++ fAB.idx ++ fBC.idx ++ fABC.idx),
   ({ lengths := fC.lengths ++ fAC.lengths ++ fBC.lengths ++ fABC.lengths
      data := CF.data
      strides := fC.strides.getD 0 [] ++ fAC.strides.getD 1 [] ++ fBC.strides.getD 1 []
        ++ fABC.strides.getD 2 [] },
    fC.idx ++ fAC.idx ++ fBC.idx ++ fABC.idx))

/-- The assertions of the three-view `fold`, lines 864-866, and of the seven calls of the core
`fold` it makes. -/
def fold_ABC_asserts (AF : tensor_view) (idx_AF : List Char) (BF : tensor_view)
    (idx_BF : List Char) (CF : tensor_view) (idx_CF : List Char) : Bool :=
  let idx_ABC := intersection (intersection idx_AF idx_BF) idx_CF
  let idx_AB := exclusion (intersection idx_AF idx_BF) idx_ABC
  let idx_AC := exclusion (intersection idx_AF idx_CF) idx_ABC
  let idx_BC := exclusion (intersection idx_BF idx_CF) idx_ABC
  let idx_A_only := exclusion (exclusion idx_AF idx_BF) idx_CF
  let idx_B_only := exclusion (exclusion idx_BF idx_AF) idx_CF
  let idx_C_only := exclusion (exclusion idx_CF idx_AF) idx_BF
  decide (AF.dimension = idx_AF.length) && decide (BF.dimension = idx_BF.length)
    && decide (CF.dimension = idx_CF.length)
    && fold_asserts (select_from AF.lengths idx_AF idx_A_only)
        [select_from AF.strides idx_AF idx_A_only] idx_A_only
    && fold_asserts (select_from BF.lengths idx_BF idx_B_only)
        [select_from BF.strides idx_BF idx_B_only] idx_B_only
    && fold_asserts (select_from CF.lengths idx_CF idx_C_only)
        [select_from CF.strides idx_CF idx_C_only] idx_C_only
    && fold_asserts (select_from AF.lengths idx_AF idx_AB)
        [select_from AF.strides idx_AF idx_AB, select_from BF.strides idx_BF idx_AB] idx_AB
    && fold_asserts (select_from AF.lengths idx_AF idx_AC)
        [select_from AF.strides idx_AF idx_AC, select_from CF.strides idx_CF idx_AC] idx_AC
    && fold_asserts (select_from BF.lengths idx_BF idx_BC)
        [select_from BF.strides idx_BF idx_BC, select_from CF.strides idx_CF idx_BC] idx_BC
    && fold_asserts (select_from AF.lengths idx_AF idx_ABC)
        [select_from AF.strides idx_AF idx_ABC, select_from BF.strides idx_BF idx_ABC,
          select_from CF.strides idx_CF idx_ABC] idx_ABC

/-- The three-view `fold`, lines 859-919, with its assertions: `none` when one fails. -/
def fold_ABC (AF : tensor_view) (idx_AF : List Char) (BF : tensor_view)
    (idx_BF : List Char) (CF : tensor_view) (idx_CF : List Char) :
    Option ((tensor_view × List Char) × (tensor_view × List Char) × (tensor_view × List Char)) :=
  if fold_ABC_asserts AF idx_AF BF idx_BF CF idx_CF then
    some (fold_ABC_body AF idx_AF BF idx_BF CF idx_CF)
  else none

/-! ## The reference description of folding (specification, section 4.4) -/

/-- Specification, step 2: axis `c`, visited right after axis `p`, joins the group of `p` iff
`s[c] = s[p] * len[p]` in every stride vector `s`. -/
def fold_ref_joins (lengths : List Int) (strides : List (List Int)) (p c : Nat) : Bool :=
  strides.all (fun s => decide (s.getD c 0 = s.getD p 0 * lengths.getD p 0))

/-- Specification, step 2: the groups into which the walk over the axes `π(0), π(1), ...`
splits them, in the order of the walk. -/
def fold_ref_groups (lengths : List Int) (strides : List (List Int)) :
    List Nat → List (List Nat)
  | [] => []
  | [a] => [[a]]
  | a :: b :: rest =>
      if fold_ref_joins lengths strides a b then
        match fold_ref_groups lengths strides (b :: rest) with
        | g :: gs => (a :: g) :: gs
        | [] => [[a]]
      else [a] :: fold_ref_groups lengths strides (b :: rest)

/-- Specification, steps 1 to 3: sort the axes by ascending stride in the first stride vector,
split them into groups, and emit one axis per group: the product of the group's lengths, and
the strides and label of the group's first axis. -/
def fold_ref (lengths : List Int) (strides : List (List Int)) (idx : List Char) : fold_state :=
  let first := strides.headD []
  let pi := sort (fun i j => decide (first.getD i 0 < first.getD j 0)) (range lengths.length)
  let groups := fold_ref_groups lengths strides pi
  { lengths := groups.map (fun g => (g.map (fun i => lengths.getD i 0)).prod)
    strides := strides.map (fun s => groups.map (fun g => s.getD (g.headD 0) 0))
    idx := groups.map (fun g => idx.getD (g.headD 0) default) }

/-! ## Offsets of a layout -/

/-- Every coordinate `x` of a layout: `0 ≤ x[i] < lengths[i]` on each axis `i`. -/
def coordinates : List Int → List (List Int)
  | [] => [[]]
  | l :: lengths =>
      (coordinates lengths).flatMap
        (fun xs => (List.range l.toNat).map (fun (x : Nat) => (x : Int) :: xs))

/-- The offset `sum_i x[i] * stride[i]` of the coordinate `x` under one stride vector. -/
def offset (x stride : List Int) : Int := (List.zipWith (fun a b => a * b) x stride).sum

/-- The offset tuples of a layout shared by several operands: for every coordinate, its offset
under each of the stride vectors. -/
def offset_tuples (lengths : List Int) (strides : List (List Int)) : List (List Int) :=
  (coordinates lengths).map (fun x => strides.map (offset x))

/-! ## Axes as records (a device of the proofs) -/

/-- One axis of a layout shared by several operands: its label, its length and its stride in
each operand. -/
structure axis where
  /-- The label of the axis. -/
  label : Char
  /-- The length of the axis. -/
  len : Int
  /-- The stride of the axis in each stride vector. -/
  strides : List Int
deriving DecidableEq, Repr

/-- Axis `i` of the layout `(lengths, strides, idx)`. -/
def axis_of (lengths : List Int) (strides : List (List Int)) (idx : List Char) (i : Nat) : axis :=
  { label := idx.getD i default
    len := lengths.getD i 0
    strides := strides.map (fun s => s.getD i 0) }

/-- The layout, over `K` stride vectors, whose axes are the given records. -/
def columns (K : Nat) (L : List axis) : fold_state :=
  { lengths := L.map (fun a => a.len)
    strides := (List.range K).map (fun k => L.map (fun a => a.strides.getD k 0))
    idx := L.map (fun a => a.label) }

/-- Merging along a list of axes: an axis absorbs the merged axis after it when that one's
strides are its own strides times its own length. -/
def merge_axes : List axis → List axis
  | [] => []
  | a :: rest =>
      match merge_axes rest with
      | [] => [a]
      | m :: ms =>
          if m.strides = a.strides.map (fun s => s * a.len) then
            { label := a.label, len := a.len * m.len, strides := a.strides } :: ms
          else a :: m :: ms

/-- The sum of two offset tuples. -/
def vadd (a b : List Int) : List Int := List.zipWith (fun x y => x + y) a b

/-- The offset tuples that the axes `L` reach, over `K` stride vectors. -/
def reach (K : Nat) : List axis → List Int → Prop
  | [], t => t = List.replicate K 0
  | a :: rest, t =>
      ∃ x : Int, 0 ≤ x ∧ x < a.len ∧
        ∃ u, reach K rest u ∧ t = vadd (a.strides.map (fun s => x * s)) u

/-- The axis that a group of the reference description yields: the label and the strides of the
group's first axis, and the product of the group's lengths. -/
def group_axis (lengths : List Int) (strides : List (List Int)) (idx : List Char)
    (g : List Nat) : axis :=
  { label := idx.getD (g.headD 0) default
    len := (g.map (fun i => lengths.getD i 0)).prod
    strides := strides.map (fun s => s.getD (g.headD 0) 0) }

/-! ## The axes `diagonal` keeps (a device of the proofs) -/

/-- The axes, among the sorted axes still to visit, at which the loop of `diagonal` opens a new
output axis: those of length other than 1 that stand first or whose label differs from the
label of the axis right before. -/
def diagonal_kept (AD : tensor_view) (idx : List Char) : Option Nat → List Nat → List Nat
  | _, [] => []
  | prev, cur :: rest =>
      if AD.length cur ≠ 1 ∧
          prev.all (fun p => decide (idx.getD cur default ≠ idx.getD p default)) = true then
        cur :: diagonal_kept AD idx (some cur) rest
      else diagonal_kept AD idx (some cur) rest

/-- Specification, P1: the coordinate of the input view that a coordinate `y` of the
diagonalized view stands for: on axis `i` it is `y[j]` for the position `j` of the label
`idx[i]` in the output index string `idx_AD`, and `0` when the axis was dropped. -/
def diagonal_preimage (idx idx_AD : List Char) (y : List Int) : List Int :=
  idx.map (fun c => if c ∈ idx_AD then y.getD (idx_AD.indexOf c) 0 else 0)

/-! ## The reference description of three-operand folding (specification, section 4.4) -/

/-- Specification, section 4.4: a class of labels, the labels of the index string `own`, in
sorted order, that satisfy the membership condition `keep` of the class. -/
def label_class (own : List Char) (keep : Char → Bool) : List Char :=
  (sort (fun x y => decide (x < y)) own).filter keep

/-- Specification, section 4.4: the class is folded on its own, from the lengths its labels
have in the operand `X` and the stride vectors of exactly the operands `ops` of the class. -/
def fold_class (cls : List Char) (X : tensor_view × List Char)
    (ops : List (tensor_view × List Char)) : fold_state :=
  fold_ref (select_from X.1.lengths X.2 cls) (ops.map (fun Y => select_from Y.1.strides Y.2 cls))
    cls

/-- Specification, section 4.4: the labels are split into the classes A-only, B-only, C-only,
AB, AC, BC and ABC, each class is folded on its own, and each operand gets its classes in the
order own-only, pairwise, shared. -/
def fold_ABC_ref (AF : tensor_view) (idx_AF : List Char) (BF : tensor_view)
    (idx_BF : List Char) (CF : tensor_view) (idx_CF : List Char) :
    (tensor_view × List Char) × (tensor_view × List Char) × (tensor_view × List Char) :=
  let A := (AF, idx_AF)
  let B := (BF, idx_BF)
  let C := (CF, idx_CF)
  let fA := fold_class (label_class idx_AF (fun c => !decide (c ∈ idx_BF) && !decide (c ∈ idx_CF)))
    A [A]
  let fB := fold_class (label_class idx_BF (fun c => !decide (c ∈ idx_AF) && !decide (c ∈ idx_CF)))
    B [B]
  let fC := fold_class (label_class idx_CF (fun c => !decide (c ∈ idx_AF) && !decide (c ∈ idx_BF)))
    C [C]
  let fAB := fold_class (label_class idx_AF (fun c => decide (c ∈ idx_BF) && !decide (c ∈ idx_CF)))
    A [A, B]
  let fAC := fold_class (label_class idx_AF (fun c => decide (c ∈ idx_CF) && !decide (c ∈ idx_BF)))
    A [A, C]
  let fBC := fold_class (label_class idx_BF (fun c => decide (c ∈ idx_CF) && !decide (c ∈ idx_AF)))
    B [B, C]
  let fABC := fold_class (label_class idx_AF (fun c => decide (c ∈ idx_BF) && decide (c ∈ idx_CF)))
    A [A, B, C]
  (({ lengths := fA.lengths ++ fAB.lengths ++ fAC.lengths ++ fABC.lengths
      data := AF.data
      strides := fA.strides.getD 0 [] ++ fAB.strides.getD 0 [] ++ fAC.strides.getD 0 []
        ++ fABC.strides.getD 0 [] },
    fA.idx ++ fAB.idx ++ fAC.idx ++ fABC.idx),
   ({ lengths := fB.lengths ++ fAB.lengths ++ fBC.lengths ++ fABC.lengths
      data := BF.data
      strides := fB.strides.getD 0 [] ++ fAB.strides.getD 1 [] ++ fBC.strides.getD 0 []
        ++ fABC.strides.getD 1 [] },
    fB.idx ++ fAB.idx ++ fBC.idx ++ fABC.idx),
   ({ lengths := fC.lengths ++ fAC.lengths ++ fBC.lengths ++ fABC.lengths
      data := CF.data
      strides := fC.strides.getD 0 [] ++ fAC.strides.getD 1 [] ++ fBC.strides.getD 1 []
        ++ fABC.strides.getD 2 [] },
    fC.idx ++ fAC.idx ++ fBC.idx ++ fABC.idx))

/-! ## Two-operand folding -/

/-- What the two-view `fold` computes, lines 828-848, from the core computation on each class
of labels. -/
def fold_AB_body (AF : tensor_view) (idx_AF : List Char) (BF : tensor_view)
    (idx_BF : List Char) : (tensor_view × List Char) × (tensor_view × List Char) :=
  let idx_AB := intersection idx_AF idx_BF
  let len_AB := select_from AF.lengths idx_AF idx_AB
  let stride_A_AB := select_from AF.strides idx_AF idx_AB
  let stride_B_AB := select_from BF.strides idx_BF idx_AB
  let idx_A_only := exclusion idx_AF idx_AB
  let len_A := select_from AF.lengths idx_AF idx_A_only
  let stride_A_A := select_from AF.strides idx_AF idx_A_only
  let idx_B_only := exclusion idx_BF idx_AB
  let len_B := select_from BF.lengths idx_BF idx_B_only
  let stride_B_B := select_from BF.strides idx_BF idx_B_only
  let fA := fold_body len_A [stride_A_A] idx_A_only
  let fB := fold_body len_B [stride_B_B] idx_B_only
  let fAB := fold_body len_AB [stride_A_AB, stride_B_AB] idx_AB
  (({ lengths := fA.lengths ++ fAB.lengths
      data := AF.data
      strides := fA.strides.getD 0 [] ++ fAB.strides.getD 0 [] },
    fA.idx ++ fAB.idx),
   ({ lengths := fB.lengths ++ fAB.lengths
      data := BF.data
      strides := fB.strides.getD 0 [] ++ fAB.strides.getD 1 [] },
    fB.idx ++ fAB.idx))

/-- The assertions of the two-view `fold`, lines 821-822, and of the three calls of the core
`fold` it makes. -/
def fold_AB_asserts (AF : tensor_view) (idx_AF : List Char) (BF : tensor_view)
    (idx_BF : List Char) : Bool :=
  let idx_AB := intersection idx_AF idx_BF
  let idx_A_only := exclusion idx_AF idx_AB
  let idx_B_only := exclusion idx_BF idx_AB
  decide (AF.dimension = idx_AF.length) && decide (BF.dimension = idx_BF.length)
    && fold_asserts (select_from AF.lengths idx_AF idx_A_only)
        [select_from AF.strides idx_AF idx_A_only] idx_A_only
    && fold_asserts (select_from BF.lengths idx_BF idx_B_only)
        [select_from BF.strides idx_BF idx_B_only] idx_B_only
    && fold_asserts (select_from AF.lengths idx_AF idx_AB)
        [select_from AF.strides idx_AF idx_AB, select_from BF.strides idx_BF idx_AB] idx_AB

/-- The two-view `fold`, lines 817-849, with its assertions: `none` when one fails. -/
def fold_AB (AF : tensor_view) (idx_AF : List Char) (BF : tensor_view) (idx_BF : List Char) :
    Option ((tensor_view × List Char) × (tensor_view × List Char)) :=
  if fold_AB_asserts AF idx_AF BF idx_BF then some (fold_AB_body AF idx_AF BF idx_BF) else none

/-! ## View shapers -/

/-- The call `std::equal(a + first, a + last, b + first2)`: the entries of `a` at the
positions `first, ..., last - 1` are the entries of `b` from position `first2` on. -/
def equal_range (a : List Int) (first last : Nat) (b : List Int) (first2 : Nat) : Bool :=
  decide ((a.drop first).take (last - first) = (b.drop first2).take (last - first))

/-- The function `detail::are_congruent_along`, lines 77-108.  After the swap `A` has the
larger dimension, so the test `B.dimension() == ndim-1` on unsigned integers is the test
`B.dimension() + 1 == ndim`. -/
def are_congruent_along (A B : tensor_view) (dim : Nat) : Bool :=
  let AB := if A.dimension < B.dimension then (B, A) else (A, B)
  let A := AB.1
  let B := AB.2
  let ndim := A.dimension
  if B.dimension = ndim then
    equal_range A.strides 0 ndim B.strides 0
      && equal_range A.lengths 0 dim B.lengths 0
      && equal_range A.lengths (dim + 1) ndim B.lengths (dim + 1)
  else if B.dimension + 1 = ndim then
    equal_range A.strides 0 dim B.strides 0
      && equal_range A.strides (dim + 1) ndim B.strides dim
      && equal_range A.lengths 0 dim B.lengths 0
      && equal_range A.lengths (dim + 1) ndim B.lengths dim
  else false

/-- The two views `(A0, A1)` that `partition` computes, lines 538-545. -/
def partition_body (A : tensor_view) (dim : Nat) (off : Int) : tensor_view × tensor_view :=
  let len := A.lengths
  let off := min off (len.getD dim 0)
  let len := len.set dim (len.getD dim 0 - off)
  let A1 : tensor_view := { lengths := len, data := A.data + off * A.stride dim, strides := A.strides }
  let len := len.set dim off
  let A0 : tensor_view := { lengths := len, data := A.data, strides := A.strides }
  (A0, A1)

/-- The function `partition`, lines 529-546, with its assertions on `dim` and `off`: `none`
when one fails.  The two results are distinct objects here, as the first assertion asks. -/
def partition (A : tensor_view) (dim : Nat) (off : Int) : Option (tensor_view × tensor_view) :=
  if ¬ dim < A.dimension then none
  else if ¬ 0 ≤ off then none
  else some (partition_body A dim off)

/-- The view that `unpartition` computes, lines 568-570. -/
def unpartition_body (A0 A1 : tensor_view) (dim : Nat) : tensor_view :=
  let len := A0.lengths
  let len := len.set dim (len.getD dim 0 + A1.length dim)
  { lengths := len, data := A0.data, strides := A0.strides }

/-- The function `unpartition`, lines 559-571, with its assertions: `none` when one fails. -/
def unpartition (A0 A1 : tensor_view) (dim : Nat) : Option tensor_view :=
  if ¬ dim < A0.dimension then none
  else if ¬ are_congruent_along A0 A1 dim then none
  else if ¬ A0.data + A0.length dim * A0.stride dim = A1.data then none
  else some (unpartition_body A0 A1 dim)

/-- The three views `(A0, a1, A2)` that `slice` computes, lines 593-604.  The pointer of `a1`
is computed from `stride[dim]` after axis `dim` has been erased from the local `stride`. -/
def slice_body (A : tensor_view) (dim : Nat) (off : Int) :
    tensor_view × tensor_view × tensor_view :=
  let len := A.lengths
  let stride := A.strides
  let len := len.set dim (len.getD dim 0 - (off + 1))
  let A2 : tensor_view :=
    { lengths := len, data := A.data + (off + 1) * stride.getD dim 0, strides := stride }
  let len := len.set dim off
  let A0 : tensor_view := { lengths := len, data := A.data, strides := stride }
  let len := len.eraseIdx dim
  let stride := stride.eraseIdx dim
  let a1 : tensor_view :=
    { lengths := len, data := A.data + off * stride.getD dim 0, strides := stride }
  (A0, a1, A2)

/-- The function `slice`, lines 583-605, with its assertions on `dim` and `off`: `none` when
one fails.  The three results are distinct objects here, as the first assertions ask. -/
def slice (A : tensor_view) (dim : Nat) (off : Int) :
    Option (tensor_view × tensor_view × tensor_view) :=
  if ¬ dim < A.dimension then none
  else if ¬ (0 ≤ off ∧ off < A.length dim) then none
  else some (slice_body A dim off)

/-- The view that `unslice` computes, lines 692-694. -/
def unslice_body (A0 A2 : tensor_view) (dim : Nat) : tensor_view :=
  let len := A0.lengths
  let len := len.set dim (len.getD dim 0 + (A2.length dim + 1))
  { lengths := len, data := A0.data, strides := A0.strides }

/-- The function `unslice`, lines 679-695, with its assertions: `none` when one fails. -/
def unslice (A0 a1 A2 : tensor_view) (dim : Nat) : Option tensor_view :=
  if ¬ dim < A0.dimension then none
  else if ¬ A0.dimension = a1.dimension + 1 then none
  else if ¬ A2.dimension = a1.dimension + 1 then none
  else if ¬ are_congruent_along A0 a1 dim then none
  else if ¬ are_congruent_along A0 A2 dim then none
  else if ¬ a1.data = A0.data + A0.length dim * A0.stride dim then none
  else if ¬ A2.data = A0.data + (A0.length dim + 1) * A0.stride dim then none
  else some (unslice_body A0 A2 dim)

/-! ## Operation dispatcher

The kernels `impl::tensor_*_impl` are not part of the source file; every primitive takes its
kernel as its first argument.  `T` is the element type. A primitive returns `none` when an
assertion fails on the way, and otherwise what its kernel returns. -/

/-- The primitive `tensor_mult`, lines 1003-1024. -/
def tensor_mult {T : Type}
    (tensor_mult_impl : T → tensor_view → List Char → tensor_view → List Char → T →
      tensor_view → List Char → Int)
    (alpha : T) (A : tensor_view) (idx_A : List Char) (B : tensor_view) (idx_B : List Char)
    (beta : T) (C : tensor_view) (idx_C : List Char) : Option Int := do
  let _ ← check_tensor_indices_ABC A idx_A B idx_B C idx_C true true true true true true true
  let a ← diagonal A idx_A
  let b ← diagonal B idx_B
  let c ← diagonal C idx_C
  let f ← fold_ABC a.1 a.2 b.1 b.2 c.1 c.2
  some (tensor_mult_impl alpha f.1.1 f.1.2 f.2.1.1 f.2.1.2 beta f.2.2.1 f.2.2.2)

/-- The primitive `tensor_contract`, lines 1056-1077. -/
def tensor_contract {T : Type}
    (tensor_contract_impl : T → tensor_view → List Char → tensor_view → List Char → T →
      tensor_view → List Char → Int)
    (alpha : T) (A : tensor_view) (idx_A : List Char) (B : tensor_view) (idx_B : List Char)
    (beta : T) (C : tensor_view) (idx_C : List Char) : Option Int := do
  let _ ← check_tensor_indices_ABC A idx_A B idx_B C idx_C false false false true true true false
  let a ← diagonal A idx_A
  let b ← diagonal B idx_B
  let c ← diagonal C idx_C
  let f ← fold_ABC a.1 a.2 b.1 b.2 c.1 c.2
  some (tensor_contract_impl alpha f.1.1 f.1.2 f.2.1.1 f.2.1.2 beta f.2.2.1 f.2.2.2)

/-- The primitive `tensor_weight`, lines 1109-1130. -/
def tensor_weight {T : Type}
    (tensor_weight_impl : T → tensor_view → List Char → tensor_view → List Char → T →
      tensor_view → List Char → Int)
    (alpha : T) (A : tensor_view) (idx_A : List Char) (B : tensor_view) (idx_B : List Char)
    (beta : T) (C : tensor_view) (idx_C : List Char) : Option Int := do
  let _ ← check_tensor_indices_ABC A idx_A B idx_B C idx_C false false false false true true true
  let a ← diagonal A idx_A
  let b ← diagonal B idx_B
  let c ← diagonal C idx_C
  let f ← fold_ABC a.1 a.2 b.1 b.2 c.1 c.2
  some (tensor_weight_impl alpha f.1.1 f.1.2 f.2.1.1 f.2.1.2 beta f.2.2.1 f.2.2.2)

/-- The primitive `tensor_outer_prod`, lines 1160-1181. -/
def tensor_outer_prod {T : Type}
    (tensor_outer_prod_impl : T → tensor_view → List Char → tensor_view → List Char → T →
      tensor_view → List Char → Int)
    (alpha : T) (A : tensor_view) (idx_A : List Char) (B : tensor_view) (idx_B : List Char)
    (beta : T) (C : tensor_view) (idx_C : List Char) : Option Int := do
  let _ ← check_tensor_indices_ABC A idx_A B idx_B C idx_C false false false false true true false
  let a ← diagonal A idx_A
  let b ← diagonal B idx_B
  let c ← diagonal C idx_C
  let f ← fold_ABC a.1 a.2 b.1 b.2 c.1 c.2
  some (tensor_outer_prod_impl alpha f.1.1 f.1.2 f.2.1.1 f.2.1.2 beta f.2.2.1 f.2.2.2)

/-- The primitive `tensor_sum`, lines 1211-1226. -/
def tensor_sum {T : Type}
    (tensor_sum_impl : T → tensor_view → List Char → T → tensor_view → List Char → Int)
    (alpha : T) (A : tensor_view) (idx_A : List Char)
    (beta : T) (B : tensor_view) (idx_B : List Char) : Option Int := do
  let _ ← check_tensor_indices_AB A idx_A B idx_B true true true
  let a ← diagonal A idx_A
  let b ← diagonal B idx_B
  let f ← fold_AB a.1 a.2 b.1 b.2
  some (tensor_sum_impl alpha f.1.1 f.1.2 beta f.2.1 f.2.2)

/-- The primitive `tensor_trace`, lines 1255-1270. -/
def tensor_trace {T : Type}
    (tensor_trace_impl : T → tensor_view → List Char → T → tensor_view → List Char → Int)
    (alpha : T) (A : tensor_view) (idx_A : List Char)
    (beta : T) (B : tensor_view) (idx_B : List Char) : Option Int := do
  let _ ← check_tensor_indices_AB A idx_A B idx_B true false true
  let a ← diagonal A idx_A
  let b ← diagonal B idx_B
  let f ← fold_AB a.1 a.2 b.1 b.2
  some (tensor_trace_impl alpha f.1.1 f.1.2 beta f.2.1 f.2.2)

/-- The primitive `tensor_replicate`, lines 1296-1311. -/
def tensor_replicate {T : Type}
    (tensor_replicate_impl : T → tensor_view → List Char → T → tensor_view → List Char → Int)
    (alpha : T) (A : tensor_view) (idx_A : List Char)
    (beta : T) (B : tensor_view) (idx_B : List Char) : Option Int := do
  let _ ← check_tensor_indices_AB A idx_A B idx_B false true true
  let a ← diagonal A idx_A
  let b ← diagonal B idx_B
  let f ← fold_AB a.1 a.2 b.1 b.2
  some (tensor_replicate_impl alpha f.1.1 f.1.2 beta f.2.1 f.2.2)

/-- The primitive `tensor_transpose`, lines 1337-1352. -/
def tensor_transpose {T : Type}
    (tensor_transpose_impl : T → tensor_view → List Char → T → tensor_view → List Char → Int)
    (alpha : T) (A : tensor_view) (idx_A : List Char)
    (beta : T) (B : tensor_view) (idx_B : List Char) : Option Int := do
  let _ ← check_tensor_indices_AB A idx_A B idx_B false false true
  let a ← diagonal A idx_A
  let b ← diagonal B idx_B
  let f ← fold_AB a.1 a.2 b.1 b.2
  some (tensor_transpose_impl alpha f.1.1 f.1.2 beta f.2.1 f.2.2)

/-- The primitive `tensor_dot` with the out-parameter `val`, lines 1383-1398: the kernel gives
the status and the value. -/
def tensor_dot {T : Type}
    (tensor_dot_impl : tensor_view → List Char → tensor_view → List Char → Int × T)
    (A : tensor_view) (idx_A : List Char) (B : tensor_view) (idx_B : List Char) :
    Option (Int × T) := do
  let _ ← check_tensor_indices_AB A idx_A B idx_B false false true
  let a ← diagonal A idx_A
  let b ← diagonal B idx_B
  let f ← fold_AB a.1 a.2 b.1 b.2
  some (tensor_dot_impl f.1.1 f.1.2 f.2.1 f.2.2)

/-! ## The label partition and the normalization, as the specification words them -/

/-- Specification, section 3: the labels of `a` that occur in neither `b` nor `c` (the class
"own-only" of the operand `a` among three operands). -/
@[reducible] def labels_only (a b c : List Char) : List Char :=
  label_class a (fun x => !decide (x ∈ b) && !decide (x ∈ c))

/-- Specification, section 3: the labels of `a` that occur in `b` and not in `c` (a pairwise
class among three operands). -/
@[reducible] def labels_pair (a b c : List Char) : List Char :=
  label_class a (fun x => decide (x ∈ b) && !decide (x ∈ c))

/-- Specification, section 3: the labels of `a` that occur in `b` and in `c` (the class ABC). -/
@[reducible] def labels_all (a b c : List Char) : List Char :=
  label_class a (fun x => decide (x ∈ b) && decide (x ∈ c))

/-- Specification, section 3: the labels of `a` that do not occur in `b` (the class
"own-only" of the operand `a` among two operands). -/
@[reducible] def labels_only_of_two (a b : List Char) : List Char :=
  label_class a (fun x => !decide (x ∈ b))

/-- Specification, section 3: the labels of `a` that occur in `b` (the class AB of two
operands). -/
@[reducible] def labels_both (a b : List Char) : List Char :=
  label_class a (fun x => decide (x ∈ b))

/-- Specification, section 3, first invariant: every operand's index string has as many labels
as the operand has axes. -/
def sizes_agree (ops : List (tensor_view × List Char)) : Prop :=
  ∀ X ∈ ops, X.2.length = X.1.dimension

/-- Specification, section 3, second invariant: any two axes with the same label, in one
operand or in two, have the same length. -/
def lengths_agree (ops : List (tensor_view × List Char)) : Prop :=
  ∀ X ∈ ops, ∀ Y ∈ ops, ∀ i, i < X.1.dimension → ∀ j, j < Y.1.dimension →
    X.2.getD i default = Y.2.getD j default → X.1.length i = Y.1.length j

/-- The statements that follow the validation in every three-operand primitive: `diagonal` on
each operand, then the three-view `fold`; `none` when an assertion fails on the way. -/
def normalize_ABC (A : tensor_view) (idx_A : List Char) (B : tensor_view) (idx_B : List Char)
    (C : tensor_view) (idx_C : List Char) :
    Option ((tensor_view × List Char) × (tensor_view × List Char) × (tensor_view × List Char)) := do
  let a ← diagonal A idx_A
  let b ← diagonal B idx_B
  let c ← diagonal C idx_C
  fold_ABC a.1 a.2 b.1 b.2 c.1 c.2

/-- The statements that follow the validation in every two-operand primitive: `diagonal` on
each operand, then the two-view `fold`; `none` when an assertion fails on the way. -/
def normalize_AB (A : tensor_view) (idx_A : List Char) (B : tensor_view) (idx_B : List Char) :
    Option ((tensor_view × List Char) × (tensor_view × List Char)) := do
  let a ← diagonal A idx_A
  let b ← diagonal B idx_B
  fold_AB a.1 a.2 b.1 b.2

/-! ## More view shapers -/

/-- The two views `(a0, A1)` that `slice_front` computes, lines 627-635. -/
def slice_front_body (A : tensor_view) (dim : Nat) : tensor_view × tensor_view :=
  let len := A.lengths
  let stride := A.strides
  let len := len.set dim (len.getD dim 0 - 1)
  let A1 : tensor_view :=
    { lengths := len, data := A.data + stride.getD dim 0, strides := stride }
  let len := len.eraseIdx dim
  let stride := stride.eraseIdx dim
  let a0 : tensor_view := { lengths := len, data := A.data, strides := stride }
  (a0, A1)

/-- The function `slice_front`, lines 619-636, with its assertion on `dim`: `none` when it
fails.  The two results are distinct objects here, as the first assertion asks. -/
def slice_front (A : tensor_view) (dim : Nat) : Option (tensor_view × tensor_view) :=
  if ¬ dim < A.dimension then none else some (slice_front_body A dim)

/-- The two views `(A0, a1)` that `slice_back` computes, lines 657-665.  The pointer of `a1` is
computed from `stride[dim]` after axis `dim` has been erased from the local `stride`. -/
def slice_back_body (A : tensor_view) (dim : Nat) : tensor_view × tensor_view :=
  let len := A.lengths
  let stride := A.strides
  let len := len.set dim (len.getD dim 0 - 1)
  let A0 : tensor_view := { lengths := len, data := A.data, strides := stride }
  let len := len.eraseIdx dim
  let stride := stride.eraseIdx dim
  let a1 : tensor_view :=
    { lengths := len, data := A.data + (A.length dim - 1) * stride.getD dim 0, strides := stride }
  (A0, a1)

/-- The function `slice_back`, lines 649-666, with its assertion on `dim`: `none` when it
fails.  The two results are distinct objects here, as the first assertion asks. -/
def slice_back (A : tensor_view) (dim : Nat) : Option (tensor_view × tensor_view) :=
  if ¬ dim < A.dimension then none else some (slice_back_body A dim)

/-- The view that `unslice_front` computes, lines 717-719. -/
def unslice_front_body (a0 A1 : tensor_view) (dim : Nat) : tensor_view :=
  let len := A1.lengths
  let len := len.set dim (len.getD dim 0 + 1)
  { lengths := len, data := a0.data, strides := A1.strides }

/-- The function `unslice_front`, lines 707-720, with its assertions: `none` when one fails. -/
def unslice_front (a0 A1 : tensor_view) (dim : Nat) : Option tensor_view :=
  if ¬ dim < A1.dimension then none
  else if ¬ A1.dimension = a0.dimension + 1 then none
  else if ¬ are_congruent_along a0 A1 dim then none
  else if ¬ A1.data = a0.data + A1.stride dim then none
  else some (unslice_front_body a0 A1 dim)

/-- The view that `unslice_back` computes, lines 742-744. -/
def unslice_back_body (A0 : tensor_view) (dim : Nat) : tensor_view :=
  let len := A0.lengths
  let len := len.set dim (len.getD dim 0 + 1)
  { lengths := len, data := A0.data, strides := A0.strides }

/-- The function `unslice_back`, lines 732-745, with its assertions: `none` when one fails. -/
def unslice_back (A0 a1 : tensor_view) (dim : Nat) : Option tensor_view :=
  if ¬ dim < A0.dimension then none
  else if ¬ A0.dimension = a1.dimension + 1 then none
  else if ¬ are_congruent_along A0 a1 dim then none
  else if ¬ a1.data = A0.data + A0.length dim * A0.stride dim then none
  else some (unslice_back_body A0 dim)

/-- The indices a loop `for (i = lo; i < hi; i++)` visits, in order. -/
def interval (lo hi : Nat) : List Nat := List.range' lo (hi - lo)

/-- A `const_matrix_view<T>` or `matrix_view<T>`: the shape `(m, n)`, the data pointer and the
row and column strides `(rs, cs)`. -/
structure matrix_view where
  /-- The shape `(m, n)`. -/
  lengths : Int × Int
  /-- The pointer `data()`. -/
  data : Int
  /-- The strides `(rs, cs)`. -/
  strides : Int × Int
deriving DecidableEq, Repr

/-- The assertions of `matricize`, lines 926-940: the bound on `split` and the contiguity of
the axes on each side of `split`, tested upwards when `A.stride(0) < A.stride(ndim-1)` and
downwards otherwise. -/
def matricize_asserts (A : tensor_view) (split : Nat) : Bool :=
  let ndim := A.dimension
  decide (split ≤ ndim) &&
    (if 0 < ndim ∧ A.stride 0 < A.stride (ndim - 1) then
      (interval 1 split).all
          (fun i => decide (A.stride i = A.stride (i - 1) * A.length (i - 1)))
        && (interval (split + 1) ndim).all
          (fun i => decide (A.stride i = A.stride (i - 1) * A.length (i - 1)))
    else
      (interval 0 (split - 1)).all
          (fun i => decide (A.stride i = A.stride (i + 1) * A.length (i + 1)))
        && (interval split (ndim - 1)).all
          (fun i => decide (A.stride i = A.stride (i + 1) * A.length (i + 1))))

/-- The matrix view that `matricize` computes, lines 942-981. -/
def matricize_body (A : tensor_view) (split : Nat) : matrix_view :=
  let ndim := A.dimension
  let m := (interval 0 split).foldl (fun m i => m * A.length i) 1
  let n := (interval split ndim).foldl (fun n i => n * A.length i) 1
  let rscs : Int × Int :=
    if ndim = 0 then (1, 1)
    else if m = 1 then (n, 1)
    else if n = 1 then (1, m)
    else if A.stride 0 < A.stride (ndim - 1) then
      (if split = 0 then 1 else A.stride 0, if split = ndim then m else A.stride split)
    else
      (if split = 0 then n else A.stride (split - 1),
        if split = ndim then 1 else A.stride (ndim - 1))
  { lengths := (m, n), data := A.data, strides := rscs }

/-- The function `matricize`, lines 921-982, with its assertions: `none` when one fails. -/
def matricize (A : tensor_view) (split : Nat) : Option matrix_view :=
  if matricize_asserts A split then some (matricize_body A split) else none

/-! ## Storage size helpers -/

/-- The function `tensor_size`, lines 1538-1550, in exact arithmetic. -/
def tensor_size (ndim : Nat) (len : List Int) : Int :=
  (interval 0 ndim).foldl (fun size i => size * len.getD i 0) 1

/-- The function `tensor_storage_size`, lines 1552-1570, in exact arithmetic; `stride` is
`none` for a null stride pointer. -/
def tensor_storage_size (ndim : Nat) (len : List Int) (stride : Option (List Int)) : Int :=
  match stride with
  | none => tensor_size ndim len
  | some stride =>
      (interval 0 ndim).foldl (fun size i => size + |stride.getD i 0| * (len.getD i 0 - 1)) 1


/-! ## One-operand folding and the one-operand primitives -/

/-- What the one-view `fold` computes, lines 803-808, from the core computation. -/
def fold_A_body (AF : tensor_view) (idx_AF : List Char) : tensor_view × List Char :=
  let f := fold_body AF.lengths [AF.strides] idx_AF
  ({ lengths := f.lengths, data := AF.data, strides := f.strides.getD 0 [] }, f.idx)

/-- The one-view `fold`, lines 798-809, with its assertion and those of the core `fold` it
calls: `none` when one fails. -/
def fold_A (AF : tensor_view) (idx_AF : List Char) : Option (tensor_view × List Char) :=
  if AF.dimension ≠ idx_AF.length then none
  else if fold_asserts AF.lengths [AF.strides] idx_AF then some (fold_A_body AF idx_AF)
  else none

/-- The primitive `tensor_scale`, lines 1435-1445. -/
def tensor_scale {T : Type} (tensor_scale_impl : T → tensor_view → List Char → Int)
    (alpha : T) (A : tensor_view) (idx_A : List Char) : Option Int := do
  let _ ← check_tensor_indices A idx_A
  let a ← diagonal A idx_A
  let f ← fold_A a.1 a.2
  some (tensor_scale_impl alpha f.1 f.2)

/-- The primitive `tensor_reduce` with the out-parameters `val` and `idx`, lines 1485-1495:
the kernel gives the status, the value and the position; `reduce_t` is the type of `op`. -/
def tensor_reduce {T reduce_t : Type}
    (tensor_reduce_impl : reduce_t → tensor_view → List Char → Int × T × Int)
    (op : reduce_t) (A : tensor_view) (idx_A : List Char) : Option (Int × T × Int) := do
  let _ ← check_tensor_indices A idx_A
  let a ← diagonal A idx_A
  let f ← fold_A a.1 a.2
  some (tensor_reduce_impl op f.1 f.2)

/-- The statements that follow the validation in the one-operand primitives: `diagonal`, then
the one-view `fold`; `none` when an assertion fails on the way. -/
def normalize_A (A : tensor_view) (idx_A : List Char) : Option (tensor_view × List Char) := do
  let a ← diagonal A idx_A
  fold_A a.1 a.2

/-! ## Offsets and linear indices, as the specification words them -/

/-- Specification, `are_compatible`: the offsets `sum_i x[i] * stride[i]` that a layout
enumerates, one for every coordinate `0 ≤ x[i] < len[i]`, the first axis running fastest. -/
def offsets (len stride : List Int) : List Int :=
  (coordinates len).map (fun x => offset x stride)

/-- Specification, `are_compatible`: the offsets of a layout, enumerated after its axes have
been put in ascending order of stride. -/
def offsets_in_stride_order (len stride : List Int) : List Int :=
  let dims := sort (sort_by_stride [stride]) (range len.length)
  offsets (permuted len dims) (permuted stride dims)

/-- Specification, `matricize`: the column-major linear index of a coordinate `x` in a block of
axes of lengths `len`, the first axis running fastest: `x[0] + len[0] * (x[1] + len[1] * ...)`. -/
def colmajor : List Int → List Int → Int
  | l :: len, x :: xs => x + l * colmajor len xs
  | _, _ => 0

/-- Specification, `matricize`: the row-major linear index of a coordinate `x` in a block of
axes of lengths `len`, the last axis running fastest: `sum_i x[i] * prod_(j > i) len[j]`. -/
def rowmajor : List Int → List Int → Int
  | _ :: len, x :: xs => x * len.prod + rowmajor len xs
  | _, _ => 0

/-- Specification, `matricize`: the row index of the coordinate `x`, the linear index of its
entries before `split`, column-major when `A.stride(0) < A.stride(d-1)` and row-major
otherwise. -/
def matricize_row (A : tensor_view) (split : Nat) (x : List Int) : Int :=
  if A.stride 0 < A.stride (A.dimension - 1) then
    colmajor (A.lengths.take split) (x.take split)
  else rowmajor (A.lengths.take split) (x.take split)

/-- Specification, `matricize`: the column index of the coordinate `x`, the linear index of its
entries from `split` on, column-major when `A.stride(0) < A.stride(d-1)` and row-major
otherwise. -/
def matricize_col (A : tensor_view) (split : Nat) (x : List Int) : Int :=
  if A.stride 0 < A.stride (A.dimension - 1) then
    colmajor (A.lengths.drop split) (x.drop split)
  else rowmajor (A.lengths.drop split) (x.drop split)

/-- Specification, `matricize`: the stride of the fastest-running axis among the row axes, the
axes before `split`: axis 0 when `A.stride(0) < A.stride(d-1)` and axis `split-1` otherwise. -/
def matricize_row_stride (A : tensor_view) (split : Nat) : Int :=
  if A.stride 0 < A.stride (A.dimension - 1) then A.stride 0 else A.stride (split - 1)

/-- Specification, `matricize`: the stride of the fastest-running axis among the column axes,
the axes from `split` on: axis `split` when `A.stride(0) < A.stride(d-1)` and axis `d-1`
otherwise. -/
def matricize_col_stride (A : tensor_view) (split : Nat) : Int :=
  if A.stride 0 < A.stride (A.dimension - 1) then A.stride split
  else A.stride (A.dimension - 1)

/-! ## Reads of the erased stride vector -/

/-- The entry `stride[dim]` that `slice` (line 604) and `slice_back` (line 665) read to compute
the pointer of `a1`, after `stride.erase(stride.begin()+dim)` has removed axis `dim` from the
local vector: `none` when the index `dim` is past the end of the erased vector. -/
def slice_a1_stride_read (A : tensor_view) (dim : Nat) : Option Int :=
  (A.strides.eraseIdx dim)[dim]?

/-! ## The diagonal of distinct labels, as the claim words it -/

/-- Specification: the axes of the input of length other than 1, arranged in increasing order
of their labels. -/
def diagonal_distinct_axes (AD : tensor_view) (idx : List Char) : List Nat :=
  (sort (sort_by_idx idx) (range AD.dimension)).filter (fun i => decide (AD.length i ≠ 1))

/-- Specification: what `diagonal` returns on distinct labels, the axes of
`diagonal_distinct_axes`, each with its own length, stride and label, on the data of the
input. -/
def diagonal_distinct_ref (AD : tensor_view) (idx : List Char) : tensor_view × List Char :=
  ({ lengths := (diagonal_distinct_axes AD idx).map (fun i => AD.length i)
     data := AD.data
     strides := (diagonal_distinct_axes AD idx).map (fun i => AD.stride i) },
    (diagonal_distinct_axes AD idx).map (fun i => idx.getD i default))
/-! ## Properties of the folder -/

theorem mul_back_append (l : List Int) (a x : Int) : mul_back (l ++ [a]) x = l ++ [a * x] := by
  simp [mul_back]

theorem mul_back_one (l : List Int) : mul_back l 1 = l := by
  rcases List.eq_nil_or_concat l with h | ⟨l', a, h⟩
  · subst h; rfl
  · subst h; simp [mul_back]

theorem mul_back_mul_back (l : List Int) (x y : Int) :
    mul_back (mul_back l x) y = mul_back l (x * y) := by
  rcases List.eq_nil_or_concat l with h | ⟨l', a, h⟩
  · subst h; rfl
  · subst h; simp [mul_back, mul_assoc]

theorem zipWith_map_self {α β γ : Type} (f : β → α → γ) (F : α → β) (l : List α) :
    List.zipWith f (l.map F) l = l.map (fun o => f (F o) o) := by
  induction l with
  | nil => rfl
  | cons a l ih => simp [ih]

theorem fold_nofold_some (lengths : List Int) (strides : List (List Int)) (p c : Nat) :
    fold_nofold lengths strides (some p) c = !fold_ref_joins lengths strides p c := by
  simp only [fold_nofold, fold_ref_joins]
  induction strides with
  | nil => rfl
  | cons s ss ih =>
    simp only [List.any_cons, List.all_cons, ih, Bool.not_and]
    congr 1

theorem fold_ref_groups_cons (lengths : List Int) (strides : List (List Int)) (a : Nat)
    (rest : List Nat) :
    ∃ t gs, fold_ref_groups lengths strides (a :: rest) = (a :: t) :: gs := by
  induction rest generalizing a with
  | nil => exact ⟨[], [], rfl⟩
  | cons b rest ih =>
    obtain ⟨t, gs, h⟩ := ih b
    by_cases hj : fold_ref_joins lengths strides a b
    · exact ⟨b :: t, gs, by simp [fold_ref_groups, hj, h]⟩
    · exact ⟨[], (b :: t) :: gs, by simp [fold_ref_groups, hj, h]⟩

theorem fold_loop_some (ol : List Int) (os : List (List Int)) (oi : List Char)
    (inds : List Nat) :
    ∀ (p : Nat) (ls : List Int) (F : List Int → List Int) (is : List Char),
      fold_loop ol os oi (some p) inds { lengths := ls, strides := os.map F, idx := is } =
        { lengths :=
            mul_back ls
              ((((fold_ref_groups ol os (p :: inds)).headD []).tail.map
                (fun i => ol.getD i 0)).prod)
            ++ (fold_ref_groups ol os (p :: inds)).tail.map
                (fun g => (g.map (fun i => ol.getD i 0)).prod)
          strides := os.map (fun o => F o ++
            (fold_ref_groups ol os (p :: inds)).tail.map (fun g => o.getD (g.headD 0) 0))
          idx := is ++
            (fold_ref_groups ol os (p :: inds)).tail.map (fun g => oi.getD (g.headD 0) default) } := by
  induction inds with
  | nil =>
    intro p ls F is
    simp [fold_loop, fold_ref_groups, mul_back_one]
  | cons cur rest ih =>
    intro p ls F is
    obtain ⟨t, gs, hg⟩ := fold_ref_groups_cons ol os cur rest
    by_cases hj : fold_ref_joins ol os p cur
    · have hG : fold_ref_groups ol os (p :: cur :: rest) = (p :: cur :: t) :: gs := by
        simp [fold_ref_groups, hj, hg]
      rw [fold_loop, fold_nofold_some, hj, hG]
      simp only [Bool.not_true, Bool.false_eq_true, if_false]
      rw [ih cur, hg]
      simp [mul_back_mul_back]
    · have hG : fold_ref_groups ol os (p :: cur :: rest) = [p] :: (cur :: t) :: gs := by
        simp [fold_ref_groups, hj, hg]
      rw [fold_loop, fold_nofold_some, hG]
      simp only [hj, Bool.not_false, if_true, zipWith_map_self]
      rw [ih cur, hg]
      simp [mul_back_append, mul_back_one]

theorem sort_by_stride_single (s : List Int) :
    sort_by_stride [s] = fun i j => decide (s.getD i 0 < s.getD j 0) := by
  funext i j
  simp [sort_by_stride]

theorem fold_body_eq_fold_ref (lengths : List Int) (strides : List (List Int))
    (idx : List Char) : fold_body lengths strides idx = fold_ref lengths strides idx := by
  simp only [fold_body, fold_ref, sort_by_stride_single]
  generalize sort (fun i j => decide ((strides.headD []).getD i 0 < (strides.headD []).getD j 0))
    (range lengths.length) = inds
  cases inds with
  | nil => simp [fold_loop, fold_ref_groups]
  | cons a rest =>
    obtain ⟨t, gs, hg⟩ := fold_ref_groups_cons lengths strides a rest
    rw [fold_loop]
    simp only [fold_nofold, if_true, zipWith_map_self, List.nil_append]
    rw [fold_loop_some, hg]
    simp [mul_back]

theorem vadd_left_comm (a b c : List Int) : vadd a (vadd b c) = vadd b (vadd a c) := by
  induction a generalizing b c with
  | nil => cases b <;> simp [vadd]
  | cons x a ih =>
    cases b with
    | nil => simp [vadd]
    | cons y b =>
      cases c with
      | nil => simp [vadd]
      | cons z c =>
        have := ih b c
        simp only [vadd] at this ⊢
        simp only [List.zipWith_cons_cons, this]
        congr 1
        ring

theorem vadd_merge (s u : List Int) (x y L : Int) :
    vadd (s.map (fun v => x * v)) (vadd ((s.map (fun v => v * L)).map (fun v => y * v)) u)
      = vadd (s.map (fun v => (x + L * y) * v)) u := by
  induction s generalizing u with
  | nil => simp [vadd]
  | cons a s ih =>
    cases u with
    | nil => simp [vadd]
    | cons b u =>
      have := ih u
      simp only [vadd] at this ⊢
      simp only [List.map_cons, List.zipWith_cons_cons, this]
      congr 1
      ring

theorem reach_perm (K : Nat) {L1 L2 : List axis} (h : L1.Perm L2) :
    ∀ t, reach K L1 t ↔ reach K L2 t := by
  induction h with
  | nil => intro t; rfl
  | cons a _ ih =>
    intro t
    simp only [reach]
    constructor
    · rintro ⟨x, h0, h1, u, hu, ht⟩
      exact ⟨x, h0, h1, u, (ih u).1 hu, ht⟩
    · rintro ⟨x, h0, h1, u, hu, ht⟩
      exact ⟨x, h0, h1, u, (ih u).2 hu, ht⟩
  | swap a b l =>
    intro t
    simp only [reach]
    constructor
    · rintro ⟨x, h0, h1, u, ⟨y, g0, g1, w, hw, hu⟩, ht⟩
      exact ⟨y, g0, g1, _, ⟨x, h0, h1, w, hw, rfl⟩, by rw [ht, hu, vadd_left_comm]⟩
    · rintro ⟨x, h0, h1, u, ⟨y, g0, g1, w, hw, hu⟩, ht⟩
      exact ⟨y, g0, g1, _, ⟨x, h0, h1, w, hw, rfl⟩, by rw [ht, hu, vadd_left_comm]⟩
  | trans _ _ ih1 ih2 => intro t; exact (ih1 t).trans (ih2 t)

theorem reach_merge_two (K : Nat) (a m : axis) (ms : List axis) (ha : 0 < a.len)
    (hm : m.strides = a.strides.map (fun s => s * a.len)) (t : List Int) :
    reach K ({ label := a.label, len := a.len * m.len, strides := a.strides } :: ms) t ↔
      reach K (a :: m :: ms) t := by
  simp only [reach]
  constructor
  · rintro ⟨z, z0, z1, u, hu, ht⟩
    refine ⟨z % a.len, Int.emod_nonneg _ (ne_of_gt ha), Int.emod_lt_of_pos _ ha, _,
      ⟨z / a.len, Int.ediv_nonneg z0 (le_of_lt ha), ?_, u, hu, rfl⟩, ?_⟩
    · exact Int.ediv_lt_of_lt_mul ha (by rw [mul_comm]; exact z1)
    · rw [ht, hm, vadd_merge, Int.emod_add_ediv]
  · rintro ⟨x, x0, x1, u, ⟨y, y0, y1, w, hw, hu⟩, ht⟩
    refine ⟨x + a.len * y, by positivity, ?_, w, hw, ?_⟩
    · have : a.len * y ≤ a.len * (m.len - 1) := by
        apply mul_le_mul_of_nonneg_left _ (le_of_lt ha); omega
      have h2 : a.len * (m.len - 1) = a.len * m.len - a.len := by ring
      omega
    · rw [ht, hu, hm, vadd_merge]

theorem reach_merge_axes (K : Nat) (L : List axis) (hL : ∀ a ∈ L, 0 < a.len) :
    ∀ t, reach K (merge_axes L) t ↔ reach K L t := by
  induction L with
  | nil => intro t; rfl
  | cons a rest ih =>
    have ih := ih (fun b hb => hL b (List.mem_cons_of_mem _ hb))
    have ha := hL a (List.mem_cons_self _ _)
    intro t
    rw [merge_axes]
    cases hM : merge_axes rest with
    | nil =>
      rw [hM] at ih
      simp only [reach]
      constructor
      · rintro ⟨x, h0, h1, u, hu, ht⟩
        exact ⟨x, h0, h1, u, (ih u).1 hu, ht⟩
      · rintro ⟨x, h0, h1, u, hu, ht⟩
        exact ⟨x, h0, h1, u, (ih u).2 hu, ht⟩
    | cons m ms =>
      rw [hM] at ih
      have step : reach K (a :: m :: ms) t ↔ reach K (a :: rest) t := by
        rw [reach, reach]
        constructor
        · rintro ⟨x, h0, h1, u, hu, ht⟩
          exact ⟨x, h0, h1, u, (ih u).1 hu, ht⟩
        · rintro ⟨x, h0, h1, u, hu, ht⟩
          exact ⟨x, h0, h1, u, (ih u).2 hu, ht⟩
      simp only
      split
      · rename_i hm
        exact (reach_merge_two K a m ms ha hm t).trans step
      · exact step

theorem getD_succ_tail {α : Type} (l : List α) (i : Nat) (d : α) :
    l.getD (i + 1) d = l.tail.getD i d := by
  cases l <;> simp

theorem axis_of_succ (l : Int) (ls : List Int) (S : List (List Int)) (I : List Char) (i : Nat) :
    axis_of (l :: ls) S I (i + 1) = axis_of ls (S.map List.tail) I.tail i := by
  simp only [axis_of, getD_succ_tail, List.tail_cons, List.map_map]
  rfl

theorem offset_cons (x : Int) (xs s : List Int) :
    offset (x :: xs) s = x * s.getD 0 0 + offset xs s.tail := by
  cases s <;> simp [offset]

theorem map_offset_cons (x : Int) (xs : List Int) (S : List (List Int)) :
    S.map (offset (x :: xs)) =
      vadd ((S.map (fun s => s.getD 0 0)).map (fun v => x * v)) ((S.map List.tail).map (offset xs)) := by
  induction S with
  | nil => rfl
  | cons s S ih =>
    simp only [vadd] at ih
    simp only [List.map_cons, vadd, List.zipWith_cons_cons, ih, offset_cons]

theorem mem_coordinates_cons (l : Int) (ls c : List Int) :
    c ∈ coordinates (l :: ls) ↔
      ∃ x xs, 0 ≤ x ∧ x < l ∧ xs ∈ coordinates ls ∧ c = x :: xs := by
  simp only [coordinates, List.mem_flatMap, List.mem_map, List.mem_range]
  constructor
  · rintro ⟨xs, hxs, k, hk, rfl⟩
    exact ⟨k, xs, Int.ofNat_nonneg k, by omega, hxs, rfl⟩
  · rintro ⟨x, xs, x0, x1, hxs, rfl⟩
    exact ⟨xs, hxs, x.toNat, by omega, by rw [Int.toNat_of_nonneg x0]⟩

theorem map_offset_nil (S : List (List Int)) :
    S.map (offset []) = List.replicate S.length 0 := by
  induction S with
  | nil => rfl
  | cons s S ih => simp [List.replicate_succ, ih, offset]

theorem mem_offset_tuples_iff_reach (lengths : List Int) :
    ∀ (strides : List (List Int)) (idx : List Char) (t : List Int),
      t ∈ offset_tuples lengths strides ↔
        reach strides.length ((List.range lengths.length).map (axis_of lengths strides idx)) t := by
  induction lengths with
  | nil =>
    intro S I t
    simp only [offset_tuples, coordinates, List.map_cons, List.map_nil, List.mem_singleton,
      List.length_nil, List.range_zero, reach, map_offset_nil]
  | cons l ls ih =>
    intro S I t
    rw [List.length_cons, List.range_succ_eq_map, List.map_cons, List.map_map]
    have hrows : (axis_of (l :: ls) S I ∘ Nat.succ) = axis_of ls (S.map List.tail) I.tail := by
      funext i; exact axis_of_succ l ls S I i
    rw [hrows, reach]
    have ih := ih (S.map List.tail) I.tail
    rw [List.length_map] at ih
    simp only [offset_tuples, List.mem_map, mem_coordinates_cons] at ih ⊢
    constructor
    · rintro ⟨c, ⟨x, xs, x0, x1, hxs, rfl⟩, rfl⟩
      refine ⟨x, x0, ?_, _, (ih _).1 ⟨xs, hxs, rfl⟩, ?_⟩
      · simpa only [axis_of, List.getD_cons_zero] using x1
      · simp only [axis_of]
        exact map_offset_cons _ _ _
    · rintro ⟨x, x0, x1, u, hu, ht⟩
      obtain ⟨xs, hxs, rfl⟩ := (ih u).2 hu
      simp only [axis_of, List.getD_cons_zero] at x1 ht
      refine ⟨x :: xs, ⟨x, xs, x0, x1, hxs, rfl⟩, ?_⟩
      rw [ht, map_offset_cons]

theorem fold_ref_joins_iff (l : List Int) (s : List (List Int)) (a b : Nat) :
    fold_ref_joins l s a b = true ↔
      s.map (fun o => o.getD b 0) = (s.map (fun o => o.getD a 0)).map (fun v => v * l.getD a 0) := by
  induction s with
  | nil => simp [fold_ref_joins]
  | cons o s ih =>
    simp only [fold_ref_joins, List.all_cons, Bool.and_eq_true, decide_eq_true_eq] at ih ⊢
    simp only [List.map_cons, List.cons.injEq, ih]

theorem merge_axes_map_axis_of (l : List Int) (s : List (List Int)) (idx : List Char)
    (pi : List Nat) :
    merge_axes (pi.map (axis_of l s idx)) = (fold_ref_groups l s pi).map (group_axis l s idx) := by
  induction pi with
  | nil => rfl
  | cons a rest ih =>
    cases rest with
    | nil => simp [merge_axes, fold_ref_groups, group_axis, axis_of]
    | cons b rest =>
      obtain ⟨t, gs, hg⟩ := fold_ref_groups_cons l s b rest
      rw [List.map_cons, merge_axes, ih, hg, fold_ref_groups, hg]
      simp only [List.map_cons]
      have hc : ((group_axis l s idx (b :: t)).strides =
          (axis_of l s idx a).strides.map (fun v => v * (axis_of l s idx a).len)) ↔
          fold_ref_joins l s a b = true := by
        rw [fold_ref_joins_iff]
        simp only [group_axis, axis_of, List.headD_cons]
      by_cases hj : fold_ref_joins l s a b = true
      · rw [if_pos (hc.2 hj), if_pos hj]
        simp only [List.map_cons, group_axis, axis_of, List.headD_cons, List.prod_cons]
      · rw [if_neg (fun h => hj (hc.1 h)), if_neg hj]
        simp only [List.map_cons, group_axis, axis_of, List.headD_cons, List.prod_cons,
          List.map_nil, List.prod_nil, mul_one]

theorem fold_ref_eq_columns (l : List Int) (s : List (List Int)) (idx : List Char) :
    fold_ref l s idx = columns s.length (merge_axes
      ((sort (fun i j => decide ((s.headD []).getD i 0 < (s.headD []).getD j 0))
        (range l.length)).map (axis_of l s idx))) := by
  rw [merge_axes_map_axis_of]
  simp only [fold_ref, columns, List.map_map]
  congr 1
  apply List.ext_getElem
  · simp
  · intro k h1 h2
    simp only [List.getElem_map, List.getElem_range, Function.comp, group_axis]
    apply List.map_congr_left
    intro g _
    simp only [List.length_map] at h1
    simp [group_axis, h1]

theorem axis_of_columns (K : Nat) (M : List axis) (hM : ∀ m ∈ M, m.strides.length = K) :
    (List.range M.length).map
      (axis_of (columns K M).lengths (columns K M).strides (columns K M).idx) = M := by
  apply List.ext_getElem
  · simp
  · intro i h1 h2
    simp only [List.getElem_map, List.getElem_range, axis_of, columns, List.map_map]
    have hK := hM _ (List.getElem_mem h2)
    have e : M[i] = ⟨M[i].label, M[i].len, M[i].strides⟩ := rfl
    rw [e]
    congr 1
    · simp [List.getD_eq_getElem?_getD, h2]
    · simp [List.getD_eq_getElem?_getD, h2]
    · apply List.ext_getElem
      · simp [hK]
      · intro k h3 h4
        simp [List.getD_eq_getElem?_getD, h2, h4]

theorem merge_axes_strides (L : List axis) :
    ∀ m ∈ merge_axes L, ∃ a ∈ L, m.strides = a.strides := by
  induction L with
  | nil => simp [merge_axes]
  | cons a rest ih =>
    intro m hm
    rw [merge_axes] at hm
    cases hM : merge_axes rest with
    | nil =>
      rw [hM] at hm
      simp only [List.mem_singleton] at hm
      exact ⟨a, List.mem_cons_self _ _, by rw [hm]⟩
    | cons m' ms =>
      rw [hM] at hm ih
      simp only at hm
      split at hm
      · rcases List.mem_cons.1 hm with h | h
        · exact ⟨a, List.mem_cons_self _ _, by rw [h]⟩
        · obtain ⟨b, hb, e⟩ := ih m (List.mem_cons_of_mem _ h)
          exact ⟨b, List.mem_cons_of_mem _ hb, e⟩
      · rcases List.mem_cons.1 hm with h | h
        · exact ⟨a, List.mem_cons_self _ _, by rw [h]⟩
        · obtain ⟨b, hb, e⟩ := ih m h
          exact ⟨b, List.mem_cons_of_mem _ hb, e⟩

theorem sort_perm {α : Type} (comp : α → α → Bool) (v : List α) : (sort comp v).Perm v :=
  List.perm_insertionSort _ v

theorem sort_pairwise_key {α β : Type} [LinearOrder β] (key : α → β) (v : List α) :
    (sort (fun a b => decide (key a < key b)) v).Pairwise (fun a b => key a ≤ key b) := by
  let r : α → α → Prop := fun a b => decide (key b < key a) = false
  haveI : IsTotal α r := ⟨fun a b => by
    simp only [r, decide_eq_false_iff_not, not_lt]
    exact le_total _ _⟩
  haveI : IsTrans α r := ⟨fun a b c h1 h2 => by
    simp only [r, decide_eq_false_iff_not, not_lt] at h1 h2 ⊢
    exact le_trans h1 h2⟩
  have h := List.sorted_insertionSort r v
  refine List.Pairwise.imp ?_ h
  intro a b hab
  simpa only [r, decide_eq_false_iff_not, not_lt] using hab

theorem sort_eq_self_of_pairwise {α β : Type} [LinearOrder β] (key : α → β) (v : List α)
    (h : v.Pairwise (fun a b => key a ≤ key b)) :
    sort (fun a b => decide (key a < key b)) v = v := by
  apply List.Sorted.insertionSort_eq
  refine List.Pairwise.imp ?_ h
  intro a b hab
  simpa only [decide_eq_false_iff_not, not_lt] using hab

theorem head_key_axis_of (l : List Int) (s : List (List Int)) (idx : List Char) (i : Nat) :
    (s.headD []).getD i 0 = (axis_of l s idx i).strides.getD 0 0 := by
  cases s <;> simp [axis_of]

theorem merge_axes_strides_sublist (L : List axis) :
    ((merge_axes L).map (fun a => a.strides)).Sublist (L.map (fun a => a.strides)) := by
  induction L with
  | nil => simp [merge_axes]
  | cons a rest ih =>
    rw [merge_axes]
    cases hM : merge_axes rest with
    | nil => simp
    | cons m ms =>
      rw [hM] at ih
      simp only
      split
      · simp only [List.map_cons, List.cons_sublist_cons]
        exact (List.sublist_cons_self _ _).trans ih
      · simpa only [List.map_cons, List.cons_sublist_cons] using ih

theorem merge_axes_chain (L : List axis) :
    (merge_axes L).Chain' (fun m m' => m'.strides ≠ m.strides.map (fun s => s * m.len)) := by
  induction L with
  | nil => simp [merge_axes]
  | cons a rest ih =>
    rw [merge_axes]
    cases hM : merge_axes rest with
    | nil => simp
    | cons m ms =>
      rw [hM] at ih
      simp only
      split
      · rename_i hm
        cases ms with
        | nil => simp
        | cons m2 ms =>
          rw [List.chain'_cons] at ih ⊢
          refine ⟨?_, ih.2⟩
          have h1 := ih.1
          simp only
          intro h
          apply h1
          rw [h, hm, List.map_map]
          apply List.map_congr_left
          intro v _
          simp only [Function.comp]
          ring
      · rename_i hm
        rw [List.chain'_cons]
        exact ⟨hm, ih⟩

theorem merge_axes_eq_self (M : List axis)
    (h : M.Chain' (fun m m' => m'.strides ≠ m.strides.map (fun s => s * m.len))) :
    merge_axes M = M := by
  induction M with
  | nil => rfl
  | cons a rest ih =>
    rw [merge_axes, ih (List.Chain'.tail h)]
    cases rest with
    | nil => rfl
    | cons m ms =>
      rw [List.chain'_cons] at h
      simp only [if_neg h.1]

theorem fold_body_eq_columns (l : List Int) (s : List (List Int)) (idx : List Char) :
    fold_body l s idx = columns s.length (merge_axes
      ((sort (fun i j => decide ((s.headD []).getD i 0 < (s.headD []).getD j 0))
        (range l.length)).map (axis_of l s idx))) := by
  rw [fold_body_eq_fold_ref, fold_ref_eq_columns]

theorem merge_axes_strides_length (l : List Int) (s : List (List Int)) (idx : List Char)
    (pi : List Nat) : ∀ m ∈ merge_axes (pi.map (axis_of l s idx)), m.strides.length = s.length := by
  intro m hm
  obtain ⟨a, ha, e⟩ := merge_axes_strides _ m hm
  obtain ⟨i, _, rfl⟩ := List.mem_map.1 ha
  rw [e]
  simp [axis_of]

theorem mem_offset_tuples_columns (K : Nat) (M : List axis)
    (hM : ∀ m ∈ M, m.strides.length = K) (t : List Int) :
    t ∈ offset_tuples (columns K M).lengths (columns K M).strides ↔ reach K M t := by
  rw [mem_offset_tuples_iff_reach _ _ (columns K M).idx]
  have h1 : (columns K M).strides.length = K := by simp [columns]
  have h2 : (columns K M).lengths.length = M.length := by simp [columns]
  rw [h1, h2, axis_of_columns K M hM]

theorem fold_body_offset_tuples (lengths : List Int) (strides : List (List Int))
    (idx : List Char) (hlen : ∀ l ∈ lengths, 1 ≤ l) (t : List Int) :
    t ∈ offset_tuples (fold_body lengths strides idx).lengths
        (fold_body lengths strides idx).strides ↔
      t ∈ offset_tuples lengths strides := by
  rw [fold_body_eq_columns, mem_offset_tuples_columns _ _ (merge_axes_strides_length _ _ _ _),
    mem_offset_tuples_iff_reach lengths strides idx]
  have hperm := sort_perm (fun i j => decide ((strides.headD []).getD i 0 <
    (strides.headD []).getD j 0)) (range lengths.length)
  rw [reach_merge_axes, reach_perm _ (hperm.map _)]
  · rfl
  · intro a ha
    obtain ⟨i, hi, rfl⟩ := List.mem_map.1 ha
    have hi2 : i < lengths.length := by
      have := hperm.mem_iff.1 hi
      simpa [range] using this
    have := hlen (lengths[i]) (List.getElem_mem hi2)
    simp only [axis_of, List.getD_eq_getElem?_getD, List.getElem?_eq_getElem hi2, Option.getD_some]
    omega

theorem fold_body_idempotent (lengths : List Int) (strides : List (List Int))
    (idx : List Char) :
    fold_body (fold_body lengths strides idx).lengths (fold_body lengths strides idx).strides
      (fold_body lengths strides idx).idx = fold_body lengths strides idx := by
  have hcol := fold_body_eq_columns lengths strides idx
  generalize hM : merge_axes ((sort (fun i j => decide ((strides.headD []).getD i 0 <
    (strides.headD []).getD j 0)) (range lengths.length)).map (axis_of lengths strides idx)) = M
    at hcol
  have hMK : ∀ m ∈ M, m.strides.length = strides.length := by
    rw [← hM]; exact merge_axes_strides_length _ _ _ _
  have hsorted : M.Pairwise (fun a b => a.strides.getD 0 0 ≤ b.strides.getD 0 0) := by
    have h1 := sort_pairwise_key (fun i => (strides.headD []).getD i 0) (range lengths.length)
    have h2 : ((sort (fun i j => decide ((strides.headD []).getD i 0 <
        (strides.headD []).getD j 0)) (range lengths.length)).map
        (axis_of lengths strides idx)).Pairwise
        (fun a b => a.strides.getD 0 0 ≤ b.strides.getD 0 0) := by
      rw [List.pairwise_map]
      refine List.Pairwise.imp ?_ h1
      intro a b hab
      rw [← head_key_axis_of, ← head_key_axis_of]
      exact hab
    have h3 := merge_axes_strides_sublist ((sort (fun i j => decide ((strides.headD []).getD i 0 <
        (strides.headD []).getD j 0)) (range lengths.length)).map (axis_of lengths strides idx))
    rw [hM] at h3
    have h4 : (M.map (fun a => a.strides)).Pairwise (fun u v => u.getD 0 0 ≤ v.getD 0 0) :=
      List.Pairwise.sublist h3 (by rw [List.pairwise_map]; exact h2)
    rw [List.pairwise_map] at h4
    exact h4
  have hchain := merge_axes_chain ((sort (fun i j => decide ((strides.headD []).getD i 0 <
        (strides.headD []).getD j 0)) (range lengths.length)).map (axis_of lengths strides idx))
  rw [hM] at hchain
  rw [hcol, fold_body_eq_columns]
  have h1 : (columns strides.length M).strides.length = strides.length := by simp [columns]
  have h2 : (columns strides.length M).lengths.length = M.length := by simp [columns]
  have hrows := axis_of_columns strides.length M hMK
  have hsort : sort (fun i j => decide (((columns strides.length M).strides.headD []).getD i 0 <
      ((columns strides.length M).strides.headD []).getD j 0)) (range M.length) = range M.length := by
    apply sort_eq_self_of_pairwise (fun i => ((columns strides.length M).strides.headD []).getD i 0)
    have h5 : ((List.range M.length).map (axis_of (columns strides.length M).lengths
        (columns strides.length M).strides (columns strides.length M).idx)).Pairwise
        (fun a b => a.strides.getD 0 0 ≤ b.strides.getD 0 0) := by
      rw [hrows]; exact hsorted
    rw [List.pairwise_map] at h5
    refine List.Pairwise.imp ?_ h5
    intro a b hab
    rw [head_key_axis_of _ _ (columns strides.length M).idx,
      head_key_axis_of _ _ (columns strides.length M).idx]
    exact hab
  rw [h1, h2, hsort]
  show columns strides.length (merge_axes ((List.range M.length).map _)) = _
  rw [hrows, merge_axes_eq_self M hchain]

theorem are_compatible_self (len stride : List Int) (h : len.length = stride.length) :
    are_compatible len stride len stride = some true := by
  simp [are_compatible, h]

theorem columns_strides_getD_length (K : Nat) (M : List axis) (i : Nat) (hi : i < K) :
    ((columns K M).strides.getD i []).length = (columns K M).lengths.length := by
  simp [columns, hi]

theorem fold_asserts_of_fixed (r : fold_state)
    (hsz : ∀ i, i < r.strides.length → (r.strides.getD i []).length = r.lengths.length)
    (hfix : fold_body r.lengths r.strides r.idx = r) :
    fold_asserts r.lengths r.strides r.idx = true := by
  simp only [fold_asserts, hfix, List.all_eq_true, List.mem_range, beq_iff_eq]
  intro i hi
  exact are_compatible_self _ _ (hsz i hi).symm

theorem fold_fold (lengths : List Int) (strides : List (List Int)) (idx : List Char) :
    fold (fold_body lengths strides idx).lengths (fold_body lengths strides idx).strides
      (fold_body lengths strides idx).idx = some (fold_body lengths strides idx) := by
  have hfix := fold_body_idempotent lengths strides idx
  have hsz : ∀ i, i < (fold_body lengths strides idx).strides.length →
      ((fold_body lengths strides idx).strides.getD i []).length =
        (fold_body lengths strides idx).lengths.length := by
    rw [fold_body_eq_columns]
    intro i hi
    apply columns_strides_getD_length
    simpa [columns] using hi
  rw [fold, if_pos (fold_asserts_of_fixed _ hsz hfix), hfix]

theorem take_set_self {α : Type} (l : List α) (n : Nat) (a : α) :
    (l.set n a).take n = l.take n := by
  rw [List.set_take, List.set_eq_of_length_le]
  simp

theorem take_succ_set {α : Type} (l : List α) (n : Nat) (a : α) (h : n < l.length) :
    (l.set n a).take (n + 1) = l.take n ++ [a] := by
  rw [List.take_succ, take_set_self]
  simp [h]

theorem diagonal_loop_spec (AD : tensor_view) (idx : List Char) (inds : List Nat) :
    ∀ (prev : Option Nat) (st : diagonal_state),
      st.ndim_AD + inds.length ≤ st.idx_AD.length →
      st.ndim_AD + inds.length ≤ st.len.length →
      st.ndim_AD + inds.length ≤ st.stride.length →
      (diagonal_loop AD idx prev inds st).ndim_AD =
          st.ndim_AD + (diagonal_kept AD idx prev inds).length ∧
        (diagonal_loop AD idx prev inds st).idx_AD.take (diagonal_loop AD idx prev inds st).ndim_AD
          = st.idx_AD.take st.ndim_AD ++
              (diagonal_kept AD idx prev inds).map (fun i => idx.getD i default) ∧
        (diagonal_loop AD idx prev inds st).len.take (diagonal_loop AD idx prev inds st).ndim_AD
          = st.len.take st.ndim_AD ++ (diagonal_kept AD idx prev inds).map (fun i => AD.length i) ∧
        (diagonal_loop AD idx prev inds st).stride.take (diagonal_loop AD idx prev inds st).ndim_AD
          = st.stride.take st.ndim_AD ++
              (diagonal_kept AD idx prev inds).map (fun i => AD.stride i) := by
  induction inds with
  | nil => intro prev st _ _ _; simp [diagonal_loop, diagonal_kept]
  | cons cur rest ih =>
    intro prev st h1 h2 h3
    simp only [List.length_cons] at h1 h2 h3
    rw [diagonal_loop, diagonal_kept, diagonal_step]
    by_cases hl : AD.length cur = 1
    · simp only [hl, if_true, ne_eq, not_true_eq_false, false_and, if_false]
      exact ih (some cur) st (by omega) (by omega) (by omega)
    · by_cases hp : prev.all (fun p => decide (idx.getD cur default ≠ idx.getD p default)) = true
      · simp only [hl, if_false, hp, if_true, ne_eq, not_false_eq_true, true_and]
        obtain ⟨e1, e2, e3, e4⟩ := ih (some cur)
          { idx_AD := st.idx_AD.set st.ndim_AD (idx.getD cur default)
            len := st.len.set st.ndim_AD (AD.length cur)
            stride := st.stride.set st.ndim_AD (AD.stride cur)
            ndim_AD := st.ndim_AD + 1
            ok := st.ok } (by simp; omega) (by simp; omega) (by simp; omega)
        refine ⟨?_, ?_, ?_, ?_⟩
        · rw [e1]; simp only [List.length_cons]; omega
        · rw [e2, take_succ_set _ _ _ (by omega)]; simp
        · rw [e3, take_succ_set _ _ _ (by omega)]; simp
        · rw [e4, take_succ_set _ _ _ (by omega)]; simp
      · simp only [hl, if_false, hp, ne_eq, not_false_eq_true, true_and, Bool.false_eq_true]
        obtain ⟨e1, e2, e3, e4⟩ := ih (some cur)
          { st with
            ok := st.ok && decide (AD.length st.ndim_AD = AD.length cur)
            stride := st.stride.set st.ndim_AD (st.stride.getD st.ndim_AD 0 + AD.stride cur) }
          (by simp; omega) (by simp; omega) (by simp; omega)
        refine ⟨e1, e2, e3, ?_⟩
        rw [e4]
        simp only [take_set_self]

theorem diagonal_body_eq (AD : tensor_view) (idx : List Char) (h : idx.length = AD.dimension) :
    diagonal_body AD idx =
      ({ lengths := (diagonal_kept AD idx none (sort (sort_by_idx idx) (range AD.dimension))).map
            (fun i => AD.length i)
         data := AD.data
         strides := (diagonal_kept AD idx none (sort (sort_by_idx idx) (range AD.dimension))).map
            (fun i => AD.stride i) },
        (diagonal_kept AD idx none (sort (sort_by_idx idx) (range AD.dimension))).map
            (fun i => idx.getD i default)) := by
  have hlen : (sort (sort_by_idx idx) (range AD.dimension)).length = AD.dimension := by
    rw [(sort_perm _ _).length_eq]; simp [range]
  obtain ⟨_, e2, e3, e4⟩ := diagonal_loop_spec AD idx (sort (sort_by_idx idx) (range AD.dimension))
    none { idx_AD := idx, len := List.replicate AD.dimension 0,
           stride := List.replicate AD.dimension 0, ndim_AD := 0, ok := true }
    (by simp [hlen, h]) (by simp [hlen]) (by simp [hlen])
  simp only [diagonal_body, diagonal_run]
  rw [e2, e3, e4]
  simp

theorem diagonal_kept_sublist (AD : tensor_view) (idx : List Char) (inds : List Nat) :
    ∀ prev, (diagonal_kept AD idx prev inds).Sublist inds := by
  induction inds with
  | nil => intro prev; simp [diagonal_kept]
  | cons cur rest ih =>
    intro prev
    rw [diagonal_kept]
    split
    · exact (ih (some cur)).cons₂ cur
    · exact (ih (some cur)).cons cur

theorem diagonal_kept_length_ne_one (AD : tensor_view) (idx : List Char) (inds : List Nat) :
    ∀ prev, ∀ i ∈ diagonal_kept AD idx prev inds, AD.length i ≠ 1 := by
  induction inds with
  | nil => intro prev i hi; simp [diagonal_kept] at hi
  | cons cur rest ih =>
    intro prev i hi
    rw [diagonal_kept] at hi
    split at hi
    · rename_i hc
      rcases List.mem_cons.1 hi with h | h
      · rw [h]; exact hc.1
      · exact ih (some cur) i h
    · exact ih (some cur) i hi

theorem sort_by_idx_eq (idx : List Char) :
    sort_by_idx idx = fun i j => decide (idx.getD i default < idx.getD j default) := rfl

theorem diagonal_kept_gt (AD : tensor_view) (idx : List Char) (inds : List Nat) :
    ∀ p, (p :: inds).Pairwise (fun a b => idx.getD a default ≤ idx.getD b default) →
      ∀ e ∈ diagonal_kept AD idx (some p) inds, idx.getD p default < idx.getD e default := by
  induction inds with
  | nil => intro p _ e he; simp [diagonal_kept] at he
  | cons cur rest ih =>
    intro p hs e he
    have hpc : idx.getD p default ≤ idx.getD cur default :=
      (List.pairwise_cons.1 hs).1 cur (List.mem_cons_self _ _)
    have hs' := (List.pairwise_cons.1 hs).2
    have htail : ∀ e ∈ diagonal_kept AD idx (some cur) rest,
        idx.getD p default < idx.getD e default :=
      fun e he => lt_of_le_of_lt hpc (ih cur hs' e he)
    rw [diagonal_kept] at he
    split at he
    · rename_i hc
      rcases List.mem_cons.1 he with h | h
      · rw [h]
        have hne : idx.getD cur default ≠ idx.getD p default := by
          simpa using hc.2
        exact lt_of_le_of_ne hpc (Ne.symm hne)
      · exact htail e h
    · exact htail e he

theorem diagonal_kept_pairwise (AD : tensor_view) (idx : List Char) (inds : List Nat) :
    ∀ prev, inds.Pairwise (fun a b => idx.getD a default ≤ idx.getD b default) →
      (diagonal_kept AD idx prev inds).Pairwise
        (fun a b => idx.getD a default < idx.getD b default) := by
  induction inds with
  | nil => intro prev _; simp [diagonal_kept]
  | cons cur rest ih =>
    intro prev hs
    have hs' := (List.pairwise_cons.1 hs).2
    rw [diagonal_kept]
    split
    · exact List.pairwise_cons.2 ⟨diagonal_kept_gt AD idx rest cur hs, ih (some cur) hs'⟩
    · exact ih (some cur) hs'

theorem diagonal_kept_mem_some (AD : tensor_view) (idx : List Char) (inds : List Nat) :
    ∀ p, (∀ i ∈ inds, ∀ j ∈ inds, idx.getD i default = idx.getD j default →
        AD.length i = AD.length j) →
      ∀ i ∈ inds, AD.length i ≠ 1 → idx.getD i default ≠ idx.getD p default →
        idx.getD i default ∈ (diagonal_kept AD idx (some p) inds).map
          (fun k => idx.getD k default) := by
  induction inds with
  | nil => intro p _ i hi; simp at hi
  | cons cur rest ih =>
    intro p hc i hi hl hne
    have hc' : ∀ i ∈ rest, ∀ j ∈ rest, idx.getD i default = idx.getD j default →
        AD.length i = AD.length j :=
      fun i hi j hj => hc i (List.mem_cons_of_mem _ hi) j (List.mem_cons_of_mem _ hj)
    rw [diagonal_kept]
    by_cases hlab : idx.getD i default = idx.getD cur default
    · have hlc : AD.length cur ≠ 1 := by
        rw [← hc i hi cur (List.mem_cons_self _ _) hlab]; exact hl
      have hcp : idx.getD cur default ≠ idx.getD p default := by rw [← hlab]; exact hne
      rw [if_pos ⟨hlc, by simpa using hcp⟩, hlab]
      simp
    · have hir : i ∈ rest := by
        rcases List.mem_cons.1 hi with h | h
        · rw [h] at hlab; exact absurd rfl hlab
        · exact h
      have := ih cur hc' i hir hl hlab
      split
      · simp only [List.map_cons, List.mem_cons]; exact Or.inr this
      · exact this

theorem diagonal_kept_mem_none (AD : tensor_view) (idx : List Char) (inds : List Nat)
    (hc : ∀ i ∈ inds, ∀ j ∈ inds, idx.getD i default = idx.getD j default →
        AD.length i = AD.length j) :
    ∀ i ∈ inds, AD.length i ≠ 1 →
      idx.getD i default ∈ (diagonal_kept AD idx none inds).map (fun k => idx.getD k default) := by
  cases inds with
  | nil => intro i hi; simp at hi
  | cons cur rest =>
    intro i hi hl
    have hc' : ∀ i ∈ rest, ∀ j ∈ rest, idx.getD i default = idx.getD j default →
        AD.length i = AD.length j :=
      fun i hi j hj => hc i (List.mem_cons_of_mem _ hi) j (List.mem_cons_of_mem _ hj)
    rw [diagonal_kept]
    by_cases hlab : idx.getD i default = idx.getD cur default
    · have hlc : AD.length cur ≠ 1 := by
        rw [← hc i hi cur (List.mem_cons_self _ _) hlab]; exact hl
      rw [if_pos ⟨hlc, by simp⟩, hlab]
      simp
    · have hir : i ∈ rest := by
        rcases List.mem_cons.1 hi with h | h
        · rw [h] at hlab; exact absurd rfl hlab
        · exact h
      have := diagonal_kept_mem_some AD idx rest cur hc' i hir hl hlab
      split
      · simp only [List.map_cons, List.mem_cons]; exact Or.inr this
      · exact this

theorem pair_less_false_iff (a b : Char × Int) :
    pair_less b a = false ↔ a.1 < b.1 ∨ (a.1 = b.1 ∧ a.2 ≤ b.2) := by
  simp only [pair_less, Bool.or_eq_false_iff, decide_eq_false_iff_not, not_lt, Bool.and_eq_false_iff,
    Bool.not_eq_false', decide_eq_true_eq]
  constructor
  · rintro ⟨h1, h2⟩
    rcases lt_or_eq_of_le h1 with h | h
    · exact Or.inl h
    · rcases h2 with h2 | h2
      · exact Or.inl h2
      · exact Or.inr ⟨h, h2⟩
  · rintro (h | ⟨h1, h2⟩)
    · exact ⟨le_of_lt h, Or.inl h⟩
    · exact ⟨le_of_eq h1, Or.inr h2⟩

theorem sort_pair_less_pairwise (v : List (Char × Int)) :
    (sort pair_less v).Pairwise (fun a b => a.1 < b.1 ∨ (a.1 = b.1 ∧ a.2 ≤ b.2)) := by
  let r : Char × Int → Char × Int → Prop := fun a b => pair_less b a = false
  haveI : IsTotal (Char × Int) r := ⟨fun a b => by
    simp only [r, pair_less_false_iff]
    rcases lt_trichotomy a.1 b.1 with h | h | h
    · exact Or.inl (Or.inl h)
    · rcases le_total a.2 b.2 with h2 | h2
      · exact Or.inl (Or.inr ⟨h, h2⟩)
      · exact Or.inr (Or.inr ⟨h.symm, h2⟩)
    · exact Or.inr (Or.inl h)⟩
  haveI : IsTrans (Char × Int) r := ⟨fun a b c h1 h2 => by
    simp only [r, pair_less_false_iff] at h1 h2 ⊢
    rcases h1 with h1 | ⟨h1, h1'⟩
    · rcases h2 with h2 | ⟨h2, _⟩
      · exact Or.inl (lt_trans h1 h2)
      · exact Or.inl (h2 ▸ h1)
    · rcases h2 with h2 | ⟨h2, h2'⟩
      · exact Or.inl (h1 ▸ h2)
      · exact Or.inr ⟨h1.trans h2, le_trans h1' h2'⟩⟩
  have h := List.sorted_insertionSort r v
  refine List.Pairwise.imp ?_ h
  intro a b hab
  exact (pair_less_false_iff a b).1 hab

theorem adjacent_lengths_agree_of_sorted (v : List (Char × Int))
    (hs : v.Pairwise (fun a b => a.1 < b.1 ∨ (a.1 = b.1 ∧ a.2 ≤ b.2)))
    (ha : adjacent_lengths_agree v = true) :
    v.Pairwise (fun a b => a.1 = b.1 → a.2 = b.2) := by
  induction v with
  | nil => exact List.Pairwise.nil
  | cons x rest ih =>
    cases rest with
    | nil => simp
    | cons y rest =>
      simp only [adjacent_lengths_agree, Bool.and_eq_true] at ha
      have hs' := (List.pairwise_cons.1 hs).2
      have ih := ih hs' ha.2
      refine List.pairwise_cons.2 ⟨?_, ih⟩
      intro b hb hxb
      have hxy : x.1 = y.1 := by
        have h1 := (List.pairwise_cons.1 hs).1 y (List.mem_cons_self _ _)
        rcases List.mem_cons.1 hb with h | h
        · rw [← h]; exact hxb
        · have h2 := (List.pairwise_cons.1 hs').1 b h
          have hle1 : x.1 ≤ y.1 := by
            rcases h1 with h1 | h1
            · exact le_of_lt h1
            · exact le_of_eq h1.1
          have hle2 : y.1 ≤ b.1 := by
            rcases h2 with h2 | h2
            · exact le_of_lt h2
            · exact le_of_eq h2.1
          exact le_antisymm hle1 (hxb ▸ hle2)
      have hxy2 : x.2 = y.2 := by
        have := ha.1
        simp only [hxy, if_true, decide_eq_true_eq] at this
        exact this.symm
      rcases List.mem_cons.1 hb with h | h
      · rw [h]; exact hxy2
      · rw [hxy2]
        exact (List.pairwise_cons.1 ih).1 b h (hxy ▸ hxb)

theorem adjacent_lengths_agree_of_pairwise (v : List (Char × Int))
    (h : v.Pairwise (fun a b => a.1 = b.1 → a.2 = b.2)) :
    adjacent_lengths_agree v = true := by
  induction v with
  | nil => rfl
  | cons x rest ih =>
    cases rest with
    | nil => rfl
    | cons y rest =>
      have h1 := (List.pairwise_cons.1 h).1 y (List.mem_cons_self _ _)
      simp only [adjacent_lengths_agree, Bool.and_eq_true]
      refine ⟨?_, ih (List.pairwise_cons.1 h).2⟩
      split
      · rename_i hyx
        simpa using (h1 hyx.symm).symm
      · rfl

theorem adjacent_lengths_agree_sort_iff (v : List (Char × Int)) :
    adjacent_lengths_agree (sort pair_less v) = true ↔
      ∀ a ∈ v, ∀ b ∈ v, a.1 = b.1 → a.2 = b.2 := by
  have hperm := sort_perm pair_less v
  constructor
  · intro h a ha b hb
    have hp := adjacent_lengths_agree_of_sorted _ (sort_pair_less_pairwise v) h
    have hsymm : Symmetric (fun a b : Char × Int => a.1 = b.1 → a.2 = b.2) :=
      fun x y hxy e => (hxy e.symm).symm
    exact List.Pairwise.forall_of_forall hsymm
      (fun x _ _ => rfl) hp (hperm.mem_iff.2 ha) (hperm.mem_iff.2 hb)
  · intro h
    apply adjacent_lengths_agree_of_pairwise
    apply List.pairwise_of_forall_mem_list
    intro a ha b hb
    exact h a (hperm.mem_iff.1 ha) b (hperm.mem_iff.1 hb)

theorem mem_idx_len_of (A : tensor_view) (idx : List Char) (p : Char × Int) :
    p ∈ idx_len_of A idx ↔ ∃ i, i < A.dimension ∧ p = (idx.getD i default, A.length i) := by
  simp only [idx_len_of, List.mem_map, List.mem_range]
  constructor
  · rintro ⟨i, hi, rfl⟩; exact ⟨i, hi, rfl⟩
  · rintro ⟨i, hi, rfl⟩; exact ⟨i, hi, rfl⟩

theorem check_tensor_indices_iff (A : tensor_view) (idx : List Char) :
    check_tensor_indices A idx = some 0 ↔
      idx.length = A.dimension ∧
        ∀ i, i < A.dimension → ∀ j, j < A.dimension →
          idx.getD i default = idx.getD j default → A.length i = A.length j := by
  unfold check_tensor_indices
  by_cases hsz : idx.length = A.dimension
  · simp only [hsz, ne_eq, not_true_eq_false, if_false, true_and]
    by_cases hagree : adjacent_lengths_agree (sort pair_less (idx_len_of A idx)) = true
    · simp only [hagree, if_true, true_iff]
      intro i hi j hj e
      exact (adjacent_lengths_agree_sort_iff _).1 hagree _
        ((mem_idx_len_of A idx _).2 ⟨i, hi, rfl⟩) _ ((mem_idx_len_of A idx _).2 ⟨j, hj, rfl⟩) e
    · simp only [hagree, if_false, Bool.false_eq_true]
      refine ⟨fun h => absurd h (by simp), fun h => absurd ?_ hagree⟩
      rw [adjacent_lengths_agree_sort_iff]
      intro a ha b hb e
      obtain ⟨i, hi, rfl⟩ := (mem_idx_len_of A idx _).1 ha
      obtain ⟨j, hj, rfl⟩ := (mem_idx_len_of A idx _).1 hb
      exact h i hi j hj e
  · simp [hsz]

theorem diagonal_eq_some (AD : tensor_view) (idx : List Char) (r : tensor_view × List Char)
    (h : diagonal AD idx = some r) : r = diagonal_body AD idx := by
  unfold diagonal at h
  split at h
  · exact absurd h (by simp)
  · split at h
    · simp only [Option.some.injEq] at h; exact h.symm
    · exact absurd h (by simp)

theorem mem_sorted_range (comp : Nat → Nat → Bool) (n i : Nat) :
    i ∈ sort comp (range n) ↔ i < n := by
  rw [(sort_perm comp (range n)).mem_iff]
  simp [range]

theorem sort_pairwise_of_comp {α β : Type} [LinearOrder β] (key : α → β) (comp : α → α → Bool)
    (hcomp : ∀ a b, comp a b = true ↔ key a < key b) (v : List α) :
    (sort comp v).Pairwise (fun a b => key a ≤ key b) := by
  have e : comp = fun a b => decide (key a < key b) := by
    funext a b
    rw [Bool.eq_iff_iff, hcomp]
    simp
  rw [e]
  exact sort_pairwise_key key v

theorem diagonal_body_shape (AD : tensor_view) (idx : List Char)
    (h : idx.length = AD.dimension) :
    (diagonal_body AD idx).1.dimension ≤ AD.dimension ∧
      (diagonal_body AD idx).2.length = (diagonal_body AD idx).1.dimension ∧
      (diagonal_body AD idx).1.lengths.length = (diagonal_body AD idx).1.dimension ∧
      (diagonal_body AD idx).1.strides.length = (diagonal_body AD idx).1.dimension ∧
      ∀ l ∈ (diagonal_body AD idx).1.lengths, l ≠ 1 := by
  rw [diagonal_body_eq AD idx h]
  simp only [tensor_view.dimension, List.length_map, true_and]
  constructor
  · have := (diagonal_kept_sublist AD idx (sort (sort_by_idx idx) (range AD.dimension)) none).length_le
    rw [(sort_perm _ _).length_eq] at this
    simpa [range, tensor_view.dimension] using this
  · intro l hl
    obtain ⟨i, hi, rfl⟩ := List.mem_map.1 hl
    exact diagonal_kept_length_ne_one AD idx _ none i hi

theorem diagonal_body_idx (AD : tensor_view) (idx : List Char)
    (h : check_tensor_indices AD idx = some 0) :
    (diagonal_body AD idx).2.Pairwise (fun a b => a < b) ∧
      ∀ c, c ∈ (diagonal_body AD idx).2 ↔
        ∃ i, i < AD.dimension ∧ idx.getD i default = c ∧ AD.length i ≠ 1 := by
  obtain ⟨hsz, hc⟩ := (check_tensor_indices_iff AD idx).1 h
  rw [diagonal_body_eq AD idx hsz]
  have hsorted : (sort (sort_by_idx idx) (range AD.dimension)).Pairwise
      (fun a b => idx.getD a default ≤ idx.getD b default) :=
    sort_pairwise_of_comp (fun i => idx.getD i default) _
      (fun a b => by simp [sort_by_idx]) (range AD.dimension)
  simp only
  constructor
  · rw [List.pairwise_map]
    exact diagonal_kept_pairwise AD idx _ none hsorted
  · intro c
    constructor
    · intro hc'
      obtain ⟨i, hi, rfl⟩ := List.mem_map.1 hc'
      exact ⟨i, (mem_sorted_range _ _ _).1 ((diagonal_kept_sublist AD idx _ none).subset hi), rfl,
        diagonal_kept_length_ne_one AD idx _ none i hi⟩
    · rintro ⟨i, hi, rfl, hl⟩
      apply diagonal_kept_mem_none AD idx _ _ i ((mem_sorted_range _ _ _).2 hi) hl
      intro a ha b hb e
      exact hc a ((mem_sorted_range _ _ _).1 ha) b ((mem_sorted_range _ _ _).1 hb) e

theorem mem_idx_len_ABC (A : tensor_view) (idx_A : List Char) (B : tensor_view)
    (idx_B : List Char) (C : tensor_view) (idx_C : List Char) (p : Char × Int) :
    p ∈ idx_len_of A idx_A ++ idx_len_of B idx_B ++ idx_len_of C idx_C ↔
      ∃ X ∈ [(A, idx_A), (B, idx_B), (C, idx_C)],
        ∃ i, i < X.1.dimension ∧ p = (X.2.getD i default, X.1.length i) := by
  simp only [List.mem_append, mem_idx_len_of, List.mem_cons, List.mem_singleton,
    exists_eq_or_imp, exists_eq_left, List.not_mem_nil, false_and, exists_false, or_false, or_assoc]

theorem check_tensor_indices_ABC_all (A : tensor_view) (idx_A : List Char) (B : tensor_view)
    (idx_B : List Char) (C : tensor_view) (idx_C : List Char)
    (hA : idx_A.length = A.dimension) (hB : idx_B.length = B.dimension)
    (hC : idx_C.length = C.dimension) :
    check_tensor_indices_ABC A idx_A B idx_B C idx_C true true true true true true true =
      if adjacent_lengths_agree
        (sort pair_less (idx_len_of A idx_A ++ idx_len_of B idx_B ++ idx_len_of C idx_C))
      then some 0 else none := by
  simp only [check_tensor_indices_ABC, hA, hB, hC, ne_eq, not_true_eq_false, if_false,
    Bool.or_true, Bool.not_true, Bool.false_eq_true]
  split <;> simp_all

theorem check_tensor_indices_ABC_iff (A : tensor_view) (idx_A : List Char) (B : tensor_view)
    (idx_B : List Char) (C : tensor_view) (idx_C : List Char)
    (hA : idx_A.length = A.dimension) (hB : idx_B.length = B.dimension)
    (hC : idx_C.length = C.dimension) :
    check_tensor_indices_ABC A idx_A B idx_B C idx_C true true true true true true true = some 0 ↔
      ∀ X ∈ [(A, idx_A), (B, idx_B), (C, idx_C)], ∀ Y ∈ [(A, idx_A), (B, idx_B), (C, idx_C)],
        ∀ i, i < X.1.dimension → ∀ j, j < Y.1.dimension →
          X.2.getD i default = Y.2.getD j default → X.1.length i = Y.1.length j := by
  rw [check_tensor_indices_ABC_all A idx_A B idx_B C idx_C hA hB hC]
  have key := adjacent_lengths_agree_sort_iff
    (idx_len_of A idx_A ++ idx_len_of B idx_B ++ idx_len_of C idx_C)
  constructor
  · intro h X hX Y hY i hi j hj e
    have hag : adjacent_lengths_agree (sort pair_less
        (idx_len_of A idx_A ++ idx_len_of B idx_B ++ idx_len_of C idx_C)) = true := by
      by_contra hn
      rw [if_neg hn] at h
      exact absurd h (by simp)
    exact key.1 hag _ ((mem_idx_len_ABC A idx_A B idx_B C idx_C _).2 ⟨X, hX, i, hi, rfl⟩) _
      ((mem_idx_len_ABC A idx_A B idx_B C idx_C _).2 ⟨Y, hY, j, hj, rfl⟩) e
  · intro h
    rw [if_pos]
    apply key.2
    intro a ha b hb e
    obtain ⟨X, hX, i, hi, rfl⟩ := (mem_idx_len_ABC A idx_A B idx_B C idx_C _).1 ha
    obtain ⟨Y, hY, j, hj, rfl⟩ := (mem_idx_len_ABC A idx_A B idx_B C idx_C _).1 hb
    exact h X hX Y hY i hi j hj e

theorem check_tensor_indices_ABC_some_or_none (A : tensor_view) (idx_A : List Char)
    (B : tensor_view) (idx_B : List Char) (C : tensor_view) (idx_C : List Char)
    (hA : idx_A.length = A.dimension) (hB : idx_B.length = B.dimension)
    (hC : idx_C.length = C.dimension) :
    check_tensor_indices_ABC A idx_A B idx_B C idx_C true true true true true true true ≠ some 0 →
      check_tensor_indices_ABC A idx_A B idx_B C idx_C true true true true true true true = none := by
  rw [check_tensor_indices_ABC_all A idx_A B idx_B C idx_C hA hB hC]
  split <;> simp

theorem sort_char_pairwise (a : List Char) :
    (sort (fun x y => decide (x < y)) a).Pairwise (fun x y => x ≤ y) :=
  sort_pairwise_of_comp (fun c => c) _ (fun a b => by simp) a

theorem sort_char_eq_self (a : List Char) (h : a.Pairwise (fun x y => x ≤ y)) :
    sort (fun x y => decide (x < y)) a = a := by
  apply List.Sorted.insertionSort_eq
  refine List.Pairwise.imp ?_ h
  intro x y hxy
  simpa using hxy

theorem sort_label_class (a : List Char) (p : Char → Bool) :
    sort (fun x y => decide (x < y)) (label_class a p) = label_class a p :=
  sort_char_eq_self _ ((sort_char_pairwise a).sublist (List.filter_sublist _))

theorem intersection_eq (a b : List Char) :
    intersection a b = label_class a (fun c => decide (c ∈ b)) := rfl

theorem exclusion_eq (a b : List Char) :
    exclusion a b = label_class a (fun c => !decide (c ∈ b)) := rfl

theorem intersection_label_class (a : List Char) (p : Char → Bool) (b : List Char) :
    intersection (label_class a p) b = label_class a (fun c => p c && decide (c ∈ b)) := by
  rw [intersection, sort_label_class]
  simp only [label_class, List.filter_filter]
  apply List.filter_congr
  intro x _
  rw [Bool.and_comm]

theorem exclusion_label_class (a : List Char) (p : Char → Bool) (b : List Char) :
    exclusion (label_class a p) b = label_class a (fun c => p c && !decide (c ∈ b)) := by
  rw [exclusion, sort_label_class]
  simp only [label_class, List.filter_filter]
  apply List.filter_congr
  intro x _
  rw [Bool.and_comm]

theorem mem_label_class (a : List Char) (p : Char → Bool) (c : Char) :
    c ∈ label_class a p ↔ c ∈ a ∧ p c = true := by
  simp only [label_class, List.mem_filter, (sort_perm _ a).mem_iff]

theorem label_class_congr (a : List Char) (p q : Char → Bool)
    (h : ∀ c ∈ a, p c = q c) : label_class a p = label_class a q := by
  apply List.filter_congr
  intro x hx
  exact h x ((sort_perm _ a).mem_iff.1 hx)

theorem class_A_only (a b c : List Char) :
    exclusion (exclusion a b) c = label_class a (fun x => !decide (x ∈ b) && !decide (x ∈ c)) := by
  rw [exclusion_eq a b, exclusion_label_class]

theorem class_ABC (a b c : List Char) :
    intersection (intersection a b) c =
      label_class a (fun x => decide (x ∈ b) && decide (x ∈ c)) := by
  rw [intersection_eq a b, intersection_label_class]

theorem class_pair (a b c : List Char) (abc : List Char)
    (habc : ∀ x, x ∈ abc ↔ x ∈ a ∧ x ∈ b ∧ x ∈ c) :
    exclusion (intersection a b) abc =
      label_class a (fun x => decide (x ∈ b) && !decide (x ∈ c)) := by
  rw [intersection_eq a b, exclusion_label_class]
  apply label_class_congr
  intro x hx
  by_cases hb : x ∈ b <;> by_cases hc : x ∈ c <;> simp [habc, hx, hb, hc]

theorem filter_four_perm (L : List Char) (p q : Char → Bool) :
    (L.filter (fun x => !p x && !q x) ++ L.filter (fun x => p x && !q x) ++
      L.filter (fun x => q x && !p x) ++ L.filter (fun x => p x && q x)).Perm L := by
  induction L with
  | nil => simp
  | cons a L ih =>
    cases hp : p a <;> cases hq : q a
    · simp only [List.filter_cons, hp, hq, Bool.not_false, Bool.and_self, Bool.and_true,
        Bool.and_false, Bool.false_and, if_true, Bool.false_eq_true, if_false, List.cons_append]
      exact ih.cons a
    · simp only [List.filter_cons, hp, hq, Bool.not_false, Bool.not_true, Bool.and_self,
        Bool.and_true, Bool.and_false, Bool.false_and, Bool.true_and, if_true,
        Bool.false_eq_true, if_false]
      refine List.Perm.trans ?_ (ih.cons a)
      simp only [List.append_assoc]
      refine List.Perm.trans ?_ List.perm_middle
      refine List.Perm.append_left _ ?_
      refine List.Perm.trans ?_ List.perm_middle
      simp
    · simp only [List.filter_cons, hp, hq, Bool.not_false, Bool.not_true, Bool.and_self,
        Bool.and_true, Bool.and_false, Bool.false_and, Bool.true_and, if_true,
        Bool.false_eq_true, if_false]
      refine List.Perm.trans ?_ (ih.cons a)
      simp only [List.append_assoc]
      exact List.perm_middle
    · simp only [List.filter_cons, hp, hq, Bool.not_true, Bool.and_self,
        Bool.and_true, Bool.and_false, Bool.false_and, Bool.true_and, if_true,
        Bool.false_eq_true, if_false]
      refine List.Perm.trans ?_ (ih.cons a)
      exact List.perm_middle

theorem label_class_four_perm (a : List Char) (p q : Char → Bool) :
    (label_class a (fun x => !p x && !q x) ++ label_class a (fun x => p x && !q x) ++
      label_class a (fun x => q x && !p x) ++ label_class a (fun x => p x && q x)).Perm a :=
  (filter_four_perm _ p q).trans (sort_perm _ a)

theorem label_class_eq_of_mem (a b : List Char) (p q : Char → Bool) (ha : a.Nodup)
    (hb : b.Nodup) (h : ∀ x, (x ∈ a ∧ p x = true) ↔ (x ∈ b ∧ q x = true)) :
    label_class a p = label_class b q := by
  have n1 : (label_class a p).Nodup :=
    List.Nodup.filter _ ((sort_perm _ a).nodup_iff.2 ha)
  have n2 : (label_class b q).Nodup :=
    List.Nodup.filter _ ((sort_perm _ b).nodup_iff.2 hb)
  have hperm : (label_class a p).Perm (label_class b q) := by
    rw [List.perm_ext_iff_of_nodup n1 n2]
    intro x
    rw [mem_label_class, mem_label_class]
    exact h x
  have s1 : (label_class a p).Sorted (fun x y => x ≤ y) :=
    (sort_char_pairwise a).sublist (List.filter_sublist _)
  have s2 : (label_class b q).Sorted (fun x y => x ≤ y) :=
    (sort_char_pairwise b).sublist (List.filter_sublist _)
  exact List.eq_of_perm_of_sorted hperm s1 s2

theorem merge_axes_label (L : List axis) :
    ∀ m ∈ merge_axes L, ∃ a ∈ L, m.label = a.label := by
  induction L with
  | nil => simp [merge_axes]
  | cons a rest ih =>
    intro m hm
    rw [merge_axes] at hm
    cases hM : merge_axes rest with
    | nil =>
      rw [hM] at hm
      simp only [List.mem_singleton] at hm
      exact ⟨a, List.mem_cons_self _ _, by rw [hm]⟩
    | cons m' ms =>
      rw [hM] at hm ih
      simp only at hm
      split at hm
      · rcases List.mem_cons.1 hm with h | h
        · exact ⟨a, List.mem_cons_self _ _, by rw [h]⟩
        · obtain ⟨b, hb, e⟩ := ih m (List.mem_cons_of_mem _ h)
          exact ⟨b, List.mem_cons_of_mem _ hb, e⟩
      · rcases List.mem_cons.1 hm with h | h
        · exact ⟨a, List.mem_cons_self _ _, by rw [h]⟩
        · obtain ⟨b, hb, e⟩ := ih m h
          exact ⟨b, List.mem_cons_of_mem _ hb, e⟩

theorem fold_ref_idx_subset (l : List Int) (s : List (List Int)) (idx : List Char)
    (h : idx.length = l.length) : ∀ c ∈ (fold_ref l s idx).idx, c ∈ idx := by
  intro c hc
  rw [fold_ref_eq_columns] at hc
  simp only [columns, List.mem_map] at hc
  obtain ⟨m, hm, rfl⟩ := hc
  obtain ⟨a, ha, e⟩ := merge_axes_label _ m hm
  obtain ⟨i, hi, rfl⟩ := List.mem_map.1 ha
  have hi2 : i < idx.length := by
    rw [h]; exact (mem_sorted_range _ _ _).1 hi
  rw [e]
  simp only [axis_of, List.getD_eq_getElem?_getD, List.getElem?_eq_getElem hi2, Option.getD_some]
  exact List.getElem_mem hi2

theorem fold_class_idx_subset (cls : List Char) (X : tensor_view × List Char)
    (ops : List (tensor_view × List Char)) : ∀ c ∈ (fold_class cls X ops).idx, c ∈ cls := by
  apply fold_ref_idx_subset
  simp [select_from]

theorem fold_ABC_body_eq_ref (AF : tensor_view) (idx_AF : List Char) (BF : tensor_view)
    (idx_BF : List Char) (CF : tensor_view) (idx_CF : List Char) :
    fold_ABC_body AF idx_AF BF idx_BF CF idx_CF = fold_ABC_ref AF idx_AF BF idx_BF CF idx_CF := by
  have hABC := class_ABC idx_AF idx_BF idx_CF
  have hmem : ∀ x, x ∈ intersection (intersection idx_AF idx_BF) idx_CF ↔
      x ∈ idx_AF ∧ x ∈ idx_BF ∧ x ∈ idx_CF := by
    intro x
    rw [hABC, mem_label_class]
    simp
  have hAB := class_pair idx_AF idx_BF idx_CF _ hmem
  have hAC := class_pair idx_AF idx_CF idx_BF (intersection (intersection idx_AF idx_BF) idx_CF)
    (fun x => by rw [hmem]; tauto)
  have hBC := class_pair idx_BF idx_CF idx_AF (intersection (intersection idx_AF idx_BF) idx_CF)
    (fun x => by rw [hmem]; tauto)
  simp only [fold_ABC_body, fold_ABC_ref, fold_class, fold_body_eq_fold_ref, hAB, hAC, hBC,
    List.map_cons, List.map_nil]
  simp only [class_A_only, hABC]

theorem label_classes_perm_B (a b c : List Char) (ha : a.Nodup) (hb : b.Nodup) :
    (label_class b (fun x => !decide (x ∈ a) && !decide (x ∈ c)) ++
      label_class a (fun x => decide (x ∈ b) && !decide (x ∈ c)) ++
      label_class b (fun x => decide (x ∈ c) && !decide (x ∈ a)) ++
      label_class a (fun x => decide (x ∈ b) && decide (x ∈ c))).Perm b := by
  have e1 : label_class a (fun x => decide (x ∈ b) && !decide (x ∈ c)) =
      label_class b (fun x => decide (x ∈ a) && !decide (x ∈ c)) :=
    label_class_eq_of_mem a b _ _ ha hb (fun x => by simp; tauto)
  have e2 : label_class a (fun x => decide (x ∈ b) && decide (x ∈ c)) =
      label_class b (fun x => decide (x ∈ a) && decide (x ∈ c)) :=
    label_class_eq_of_mem a b _ _ ha hb (fun x => by simp; tauto)
  rw [e1, e2]
  exact label_class_four_perm b (fun x => decide (x ∈ a)) (fun x => decide (x ∈ c))

theorem label_classes_perm_C (a b c : List Char) (ha : a.Nodup) (hb : b.Nodup) (hc : c.Nodup) :
    (label_class c (fun x => !decide (x ∈ a) && !decide (x ∈ b)) ++
      label_class a (fun x => decide (x ∈ c) && !decide (x ∈ b)) ++
      label_class b (fun x => decide (x ∈ c) && !decide (x ∈ a)) ++
      label_class a (fun x => decide (x ∈ b) && decide (x ∈ c))).Perm c := by
  have e1 : label_class a (fun x => decide (x ∈ c) && !decide (x ∈ b)) =
      label_class c (fun x => decide (x ∈ a) && !decide (x ∈ b)) :=
    label_class_eq_of_mem a c _ _ ha hc (fun x => by simp; tauto)
  have e2 : label_class b (fun x => decide (x ∈ c) && !decide (x ∈ a)) =
      label_class c (fun x => decide (x ∈ b) && !decide (x ∈ a)) :=
    label_class_eq_of_mem b c _ _ hb hc (fun x => by simp; tauto)
  have e3 : label_class a (fun x => decide (x ∈ b) && decide (x ∈ c)) =
      label_class c (fun x => decide (x ∈ a) && decide (x ∈ b)) :=
    label_class_eq_of_mem a c _ _ ha hc (fun x => by simp; tauto)
  rw [e1, e2, e3]
  exact label_class_four_perm c (fun x => decide (x ∈ a)) (fun x => decide (x ∈ b))

theorem mem_unique (s : List Char) (x : Char) : x ∈ unique s ↔ x ∈ s := by
  simp only [unique, List.mem_dedup, (sort_perm _ s).mem_iff]

theorem mem_intersection (a b : List Char) (x : Char) :
    x ∈ intersection a b ↔ x ∈ a ∧ x ∈ b := by
  rw [intersection_eq, mem_label_class]
  simp

theorem mem_exclusion (a b : List Char) (x : Char) :
    x ∈ exclusion a b ↔ x ∈ a ∧ x ∉ b := by
  rw [exclusion_eq, mem_label_class]
  simp

theorem isEmpty_iff_of_mem (l1 l2 : List Char) (h : ∀ x, x ∈ l1 ↔ x ∈ l2) :
    l1.isEmpty = true ↔ l2 = [] := by
  rw [List.isEmpty_iff, List.eq_nil_iff_forall_not_mem, List.eq_nil_iff_forall_not_mem]
  exact ⟨fun g x hx => g x ((h x).2 hx), fun g x hx => g x ((h x).1 hx)⟩

theorem class_empty_A_only (a b c : List Char) :
    (exclusion (exclusion (unique a) (unique b)) (unique c)).isEmpty = true ↔
      label_class a (fun x => !decide (x ∈ b) && !decide (x ∈ c)) = [] := by
  apply isEmpty_iff_of_mem
  intro x
  simp [mem_exclusion, mem_unique, mem_label_class, and_assoc]

theorem class_empty_pair (a b c : List Char) :
    (exclusion (intersection (unique a) (unique b)) (unique c)).isEmpty = true ↔
      label_class a (fun x => decide (x ∈ b) && !decide (x ∈ c)) = [] := by
  apply isEmpty_iff_of_mem
  intro x
  simp [mem_exclusion, mem_intersection, mem_unique, mem_label_class, and_assoc]

theorem class_empty_ABC (a b c : List Char) :
    (intersection (intersection (unique a) (unique b)) (unique c)).isEmpty = true ↔
      label_class a (fun x => decide (x ∈ b) && decide (x ∈ c)) = [] := by
  apply isEmpty_iff_of_mem
  intro x
  simp [mem_intersection, mem_unique, mem_label_class, and_assoc]

theorem class_empty_AB_two (a b : List Char) :
    (intersection (unique a) (unique b)).isEmpty = true ↔
      label_class a (fun x => decide (x ∈ b)) = [] := by
  apply isEmpty_iff_of_mem
  intro x
  simp [mem_intersection, mem_unique, mem_label_class]

theorem class_empty_only_two (a b : List Char) :
    (exclusion (unique a) (unique b)).isEmpty = true ↔
      label_class a (fun x => !decide (x ∈ b)) = [] := by
  apply isEmpty_iff_of_mem
  intro x
  simp [mem_exclusion, mem_unique, mem_label_class]

theorem or_flag_iff (e f : Bool) (P : Prop) (h : e = true ↔ P) :
    (e || f) = true ↔ (¬ P → f = true) := by
  cases e <;> cases f <;> simp_all

theorem assert_step_prop (p : Prop) [Decidable p] (r : Option Int) (Q : Prop)
    (h : r = some 0 ↔ Q) : (if ¬ p then none else r) = some 0 ↔ p ∧ Q := by
  by_cases hp : p
  · simp only [hp, not_true_eq_false, if_false, true_and, h]
  · simp [hp]

theorem assert_step_bool (b : Bool) (r : Option Int) (Q : Prop)
    (h : r = some 0 ↔ Q) : (if (!b) = true then none else r) = some 0 ↔ b = true ∧ Q := by
  cases b
  · simp
  · simp only [Bool.not_true, Bool.false_eq_true, if_false, true_and, h]

theorem assert_last_bool (b : Bool) :
    (if (!b) = true then none else some (0 : Int)) = some 0 ↔ b = true := by
  cases b <;> simp

theorem zero_or_none_prop (p : Prop) [Decidable p] (r : Option Int)
    (h : r = none ↔ ¬ r = some 0) :
    (if ¬ p then none else r) = none ↔ ¬ (if ¬ p then none else r) = some 0 := by
  by_cases hp : p
  · simp only [hp, not_true_eq_false, if_false, h]
  · simp [hp]

theorem zero_or_none_bool (b : Bool) (r : Option Int)
    (h : r = none ↔ ¬ r = some 0) :
    (if (!b) = true then none else r) = none ↔ ¬ (if (!b) = true then none else r) = some 0 := by
  cases b
  · simp
  · simp only [Bool.not_true, Bool.false_eq_true, if_false, h]

theorem zero_or_none_last : (some (0 : Int) = none) ↔ ¬ (some (0 : Int) = some 0) := by
  simp

theorem check_tensor_indices_ABC_some_iff (A : tensor_view) (idx_A : List Char)
    (B : tensor_view) (idx_B : List Char) (C : tensor_view) (idx_C : List Char)
    (has_A_only has_B_only has_C_only has_AB has_AC has_BC has_ABC : Bool) :
    check_tensor_indices_ABC A idx_A B idx_B C idx_C has_A_only has_B_only has_C_only
        has_AB has_AC has_BC has_ABC = some 0 ↔
      idx_A.length = A.dimension ∧ idx_B.length = B.dimension ∧ idx_C.length = C.dimension ∧
      adjacent_lengths_agree (sort pair_less
        (idx_len_of A idx_A ++ idx_len_of B idx_B ++ idx_len_of C idx_C)) = true ∧
      (label_class idx_A (fun c => !decide (c ∈ idx_B) && !decide (c ∈ idx_C)) ≠ [] →
        has_A_only = true) ∧
      (label_class idx_B (fun c => !decide (c ∈ idx_A) && !decide (c ∈ idx_C)) ≠ [] →
        has_B_only = true) ∧
      (label_class idx_C (fun c => !decide (c ∈ idx_A) && !decide (c ∈ idx_B)) ≠ [] →
        has_C_only = true) ∧
      (label_class idx_A (fun c => decide (c ∈ idx_B) && !decide (c ∈ idx_C)) ≠ [] →
        has_AB = true) ∧
      (label_class idx_A (fun c => decide (c ∈ idx_C) && !decide (c ∈ idx_B)) ≠ [] →
        has_AC = true) ∧
      (label_class idx_B (fun c => decide (c ∈ idx_C) && !decide (c ∈ idx_A)) ≠ [] →
        has_BC = true) ∧
      (label_class idx_A (fun c => decide (c ∈ idx_B) && decide (c ∈ idx_C)) ≠ [] →
        has_ABC = true) := by
  rw [← or_flag_iff _ has_A_only _ (class_empty_A_only idx_A idx_B idx_C),
    ← or_flag_iff _ has_B_only _ (class_empty_A_only idx_B idx_A idx_C),
    ← or_flag_iff _ has_C_only _ (class_empty_A_only idx_C idx_A idx_B),
    ← or_flag_iff _ has_AB _ (class_empty_pair idx_A idx_B idx_C),
    ← or_flag_iff _ has_AC _ (class_empty_pair idx_A idx_C idx_B),
    ← or_flag_iff _ has_BC _ (class_empty_pair idx_B idx_C idx_A),
    ← or_flag_iff _ has_ABC _ (class_empty_ABC idx_A idx_B idx_C)]
  exact assert_step_prop _ _ _ (assert_step_prop _ _ _ (assert_step_prop _ _ _
    (assert_step_bool _ _ _ (assert_step_bool _ _ _ (assert_step_bool _ _ _
    (assert_step_bool _ _ _ (assert_step_bool _ _ _ (assert_step_bool _ _ _
    (assert_step_bool _ _ _ (assert_last_bool _))))))))))

theorem check_tensor_indices_ABC_none_iff (A : tensor_view) (idx_A : List Char)
    (B : tensor_view) (idx_B : List Char) (C : tensor_view) (idx_C : List Char)
    (has_A_only has_B_only has_C_only has_AB has_AC has_BC has_ABC : Bool) :
    check_tensor_indices_ABC A idx_A B idx_B C idx_C has_A_only has_B_only has_C_only
        has_AB has_AC has_BC has_ABC = none ↔
      ¬ check_tensor_indices_ABC A idx_A B idx_B C idx_C has_A_only has_B_only has_C_only
        has_AB has_AC has_BC has_ABC = some 0 := by
  exact zero_or_none_prop _ _ (zero_or_none_prop _ _ (zero_or_none_prop _ _
    (zero_or_none_bool _ _ (zero_or_none_bool _ _ (zero_or_none_bool _ _
    (zero_or_none_bool _ _ (zero_or_none_bool _ _ (zero_or_none_bool _ _
    (zero_or_none_bool _ _ (zero_or_none_bool _ _ zero_or_none_last))))))))))

theorem check_tensor_indices_AB_some_iff (A : tensor_view) (idx_A : List Char)
    (B : tensor_view) (idx_B : List Char) (has_A_only has_B_only has_AB : Bool) :
    check_tensor_indices_AB A idx_A B idx_B has_A_only has_B_only has_AB = some 0 ↔
      idx_A.length = A.dimension ∧ idx_B.length = B.dimension ∧
      adjacent_lengths_agree (sort pair_less (idx_len_of A idx_A ++ idx_len_of B idx_B)) = true ∧
      (label_class idx_A (fun c => !decide (c ∈ idx_B)) ≠ [] → has_A_only = true) ∧
      (label_class idx_B (fun c => !decide (c ∈ idx_A)) ≠ [] → has_B_only = true) ∧
      (label_class idx_A (fun c => decide (c ∈ idx_B)) ≠ [] → has_AB = true) := by
  rw [← or_flag_iff _ has_A_only _ (class_empty_only_two idx_A idx_B),
    ← or_flag_iff _ has_B_only _ (class_empty_only_two idx_B idx_A),
    ← or_flag_iff _ has_AB _ (class_empty_AB_two idx_A idx_B)]
  exact assert_step_prop _ _ _ (assert_step_prop _ _ _
    (assert_step_bool _ _ _ (assert_step_bool _ _ _ (assert_step_bool _ _ _
    (assert_last_bool _)))))

theorem check_tensor_indices_AB_none_iff (A : tensor_view) (idx_A : List Char)
    (B : tensor_view) (idx_B : List Char) (has_A_only has_B_only has_AB : Bool) :
    check_tensor_indices_AB A idx_A B idx_B has_A_only has_B_only has_AB = none ↔
      ¬ check_tensor_indices_AB A idx_A B idx_B has_A_only has_B_only has_AB = some 0 := by
  exact zero_or_none_prop _ _ (zero_or_none_prop _ _
    (zero_or_none_bool _ _ (zero_or_none_bool _ _ (zero_or_none_bool _ _
    (zero_or_none_bool _ _ zero_or_none_last)))))

theorem adjacent_agree_flatMap_iff (ops : List (tensor_view × List Char)) :
    adjacent_lengths_agree (sort pair_less (ops.flatMap (fun X => idx_len_of X.1 X.2))) = true ↔
      lengths_agree ops := by
  rw [adjacent_lengths_agree_sort_iff]
  constructor
  · intro h X hX Y hY i hi j hj e
    exact h _ (List.mem_flatMap.2 ⟨X, hX, (mem_idx_len_of X.1 X.2 _).2 ⟨i, hi, rfl⟩⟩) _
      (List.mem_flatMap.2 ⟨Y, hY, (mem_idx_len_of Y.1 Y.2 _).2 ⟨j, hj, rfl⟩⟩) e
  · intro h a ha b hb e
    obtain ⟨X, hX, haX⟩ := List.mem_flatMap.1 ha
    obtain ⟨Y, hY, hbY⟩ := List.mem_flatMap.1 hb
    obtain ⟨i, hi, rfl⟩ := (mem_idx_len_of X.1 X.2 _).1 haX
    obtain ⟨j, hj, rfl⟩ := (mem_idx_len_of Y.1 Y.2 _).1 hbY
    exact h X hX Y hY i hi j hj e

theorem adjacent_agree_ABC_iff (A : tensor_view) (idx_A : List Char) (B : tensor_view)
    (idx_B : List Char) (C : tensor_view) (idx_C : List Char) :
    adjacent_lengths_agree (sort pair_less
        (idx_len_of A idx_A ++ idx_len_of B idx_B ++ idx_len_of C idx_C)) = true ↔
      lengths_agree [(A, idx_A), (B, idx_B), (C, idx_C)] := by
  rw [← adjacent_agree_flatMap_iff]
  simp only [List.flatMap_cons, List.flatMap_nil, List.append_nil, List.append_assoc]

theorem adjacent_agree_AB_iff (A : tensor_view) (idx_A : List Char) (B : tensor_view)
    (idx_B : List Char) :
    adjacent_lengths_agree (sort pair_less (idx_len_of A idx_A ++ idx_len_of B idx_B)) = true ↔
      lengths_agree [(A, idx_A), (B, idx_B)] := by
  rw [← adjacent_agree_flatMap_iff]
  simp only [List.flatMap_cons, List.flatMap_nil, List.append_nil]

theorem sizes_agree_ABC_iff (A : tensor_view) (idx_A : List Char) (B : tensor_view)
    (idx_B : List Char) (C : tensor_view) (idx_C : List Char) :
    sizes_agree [(A, idx_A), (B, idx_B), (C, idx_C)] ↔
      idx_A.length = A.dimension ∧ idx_B.length = B.dimension ∧ idx_C.length = C.dimension := by
  simp [sizes_agree]

theorem sizes_agree_AB_iff (A : tensor_view) (idx_A : List Char) (B : tensor_view)
    (idx_B : List Char) :
    sizes_agree [(A, idx_A), (B, idx_B)] ↔
      idx_A.length = A.dimension ∧ idx_B.length = B.dimension := by
  simp [sizes_agree]

theorem check_tensor_indices_ABC_classes_iff (A : tensor_view) (idx_A : List Char)
    (B : tensor_view) (idx_B : List Char) (C : tensor_view) (idx_C : List Char)
    (has_A_only has_B_only has_C_only has_AB has_AC has_BC has_ABC : Bool) :
    check_tensor_indices_ABC A idx_A B idx_B C idx_C has_A_only has_B_only has_C_only
        has_AB has_AC has_BC has_ABC = some 0 ↔
      sizes_agree [(A, idx_A), (B, idx_B), (C, idx_C)] ∧
      lengths_agree [(A, idx_A), (B, idx_B), (C, idx_C)] ∧
      (labels_only idx_A idx_B idx_C ≠ [] → has_A_only = true) ∧
      (labels_only idx_B idx_A idx_C ≠ [] → has_B_only = true) ∧
      (labels_only idx_C idx_A idx_B ≠ [] → has_C_only = true) ∧
      (labels_pair idx_A idx_B idx_C ≠ [] → has_AB = true) ∧
      (labels_pair idx_A idx_C idx_B ≠ [] → has_AC = true) ∧
      (labels_pair idx_B idx_C idx_A ≠ [] → has_BC = true) ∧
      (labels_all idx_A idx_B idx_C ≠ [] → has_ABC = true) := by
  rw [check_tensor_indices_ABC_some_iff, sizes_agree_ABC_iff, adjacent_agree_ABC_iff]
  simp only [and_assoc]

theorem check_tensor_indices_AB_classes_iff (A : tensor_view) (idx_A : List Char)
    (B : tensor_view) (idx_B : List Char) (has_A_only has_B_only has_AB : Bool) :
    check_tensor_indices_AB A idx_A B idx_B has_A_only has_B_only has_AB = some 0 ↔
      sizes_agree [(A, idx_A), (B, idx_B)] ∧
      lengths_agree [(A, idx_A), (B, idx_B)] ∧
      (labels_only_of_two idx_A idx_B ≠ [] → has_A_only = true) ∧
      (labels_only_of_two idx_B idx_A ≠ [] → has_B_only = true) ∧
      (labels_both idx_A idx_B ≠ [] → has_AB = true) := by
  rw [check_tensor_indices_AB_some_iff, sizes_agree_AB_iff, adjacent_agree_AB_iff]
  simp only [and_assoc]

theorem option_eq_of_zero_iff (r1 r2 : Option Int) (h1 : r1 = none ↔ ¬ r1 = some 0)
    (h2 : r2 = none ↔ ¬ r2 = some 0) (h : r1 = some 0 ↔ r2 = some 0) : r1 = r2 := by
  by_cases e : r1 = some 0
  · rw [e, h.1 e]
  · rw [h1.2 e, h2.2 (fun e2 => e (h.2 e2))]

theorem dispatch_ABC_shape {ρ : Type} (chk : Option Int)
    (dA dB dC : Option (tensor_view × List Char))
    (k : (tensor_view × List Char) × (tensor_view × List Char) × (tensor_view × List Char) → ρ) :
    (chk.bind fun _ => dA.bind fun a => dB.bind fun b => dC.bind fun c =>
        (fold_ABC a.1 a.2 b.1 b.2 c.1 c.2).bind fun f => some (k f)) =
      chk.bind (fun _ => (dA.bind fun a => dB.bind fun b => dC.bind fun c =>
        fold_ABC a.1 a.2 b.1 b.2 c.1 c.2).map k) := by
  cases chk with
  | none => rfl
  | some _ =>
    cases dA with
    | none => rfl
    | some a =>
      cases dB with
      | none => rfl
      | some b =>
        cases dC with
        | none => rfl
        | some c =>
          simp only [Option.bind]
          cases fold_ABC a.1 a.2 b.1 b.2 c.1 c.2 <;> rfl

theorem dispatch_AB_shape {ρ : Type} (chk : Option Int)
    (dA dB : Option (tensor_view × List Char))
    (k : (tensor_view × List Char) × (tensor_view × List Char) → ρ) :
    (chk.bind fun _ => dA.bind fun a => dB.bind fun b =>
        (fold_AB a.1 a.2 b.1 b.2).bind fun f => some (k f)) =
      chk.bind (fun _ => (dA.bind fun a => dB.bind fun b => fold_AB a.1 a.2 b.1 b.2).map k) := by
  cases chk with
  | none => rfl
  | some _ =>
    cases dA with
    | none => rfl
    | some a =>
      cases dB with
      | none => rfl
      | some b =>
        simp only [Option.bind]
        cases fold_AB a.1 a.2 b.1 b.2 <;> rfl

theorem tensor_mult_eq {T : Type}
    (impl : T → tensor_view → List Char → tensor_view → List Char → T →
      tensor_view → List Char → Int)
    (alpha : T) (A : tensor_view) (idx_A : List Char) (B : tensor_view) (idx_B : List Char)
    (beta : T) (C : tensor_view) (idx_C : List Char) :
    tensor_mult impl alpha A idx_A B idx_B beta C idx_C =
      (check_tensor_indices_ABC A idx_A B idx_B C idx_C true true true true true true true).bind
        (fun _ => (normalize_ABC A idx_A B idx_B C idx_C).map
          (fun f => impl alpha f.1.1 f.1.2 f.2.1.1 f.2.1.2 beta f.2.2.1 f.2.2.2)) :=
  dispatch_ABC_shape _ _ _ _ _

theorem tensor_contract_eq {T : Type}
    (impl : T → tensor_view → List Char → tensor_view → List Char → T →
      tensor_view → List Char → Int)
    (alpha : T) (A : tensor_view) (idx_A : List Char) (B : tensor_view) (idx_B : List Char)
    (beta : T) (C : tensor_view) (idx_C : List Char) :
    tensor_contract impl alpha A idx_A B idx_B beta C idx_C =
      (check_tensor_indices_ABC A idx_A B idx_B C idx_C false false false true true true
          false).bind
        (fun _ => (normalize_ABC A idx_A B idx_B C idx_C).map
          (fun f => impl alpha f.1.1 f.1.2 f.2.1.1 f.2.1.2 beta f.2.2.1 f.2.2.2)) :=
  dispatch_ABC_shape _ _ _ _ _

theorem tensor_weight_eq {T : Type}
    (impl : T → tensor_view → List Char → tensor_view → List Char → T →
      tensor_view → List Char → Int)
    (alpha : T) (A : tensor_view) (idx_A : List Char) (B : tensor_view) (idx_B : List Char)
    (beta : T) (C : tensor_view) (idx_C : List Char) :
    tensor_weight impl alpha A idx_A B idx_B beta C idx_C =
      (check_tensor_indices_ABC A idx_A B idx_B C idx_C false false false false true true
          true).bind
        (fun _ => (normalize_ABC A idx_A B idx_B C idx_C).map
          (fun f => impl alpha f.1.1 f.1.2 f.2.1.1 f.2.1.2 beta f.2.2.1 f.2.2.2)) :=
  dispatch_ABC_shape _ _ _ _ _

theorem tensor_outer_prod_eq {T : Type}
    (impl : T → tensor_view → List Char → tensor_view → List Char → T →
      tensor_view → List Char → Int)
    (alpha : T) (A : tensor_view) (idx_A : List Char) (B : tensor_view) (idx_B : List Char)
    (beta : T) (C : tensor_view) (idx_C : List Char) :
    tensor_outer_prod impl alpha A idx_A B idx_B beta C idx_C =
      (check_tensor_indices_ABC A idx_A B idx_B C idx_C false false false false true true
          false).bind
        (fun _ => (normalize_ABC A idx_A B idx_B C idx_C).map
          (fun f => impl alpha f.1.1 f.1.2 f.2.1.1 f.2.1.2 beta f.2.2.1 f.2.2.2)) :=
  dispatch_ABC_shape _ _ _ _ _

theorem tensor_sum_eq {T : Type}
    (impl : T → tensor_view → List Char → T → tensor_view → List Char → Int)
    (alpha : T) (A : tensor_view) (idx_A : List Char)
    (beta : T) (B : tensor_view) (idx_B : List Char) :
    tensor_sum impl alpha A idx_A beta B idx_B =
      (check_tensor_indices_AB A idx_A B idx_B true true true).bind
        (fun _ => (normalize_AB A idx_A B idx_B).map
          (fun f => impl alpha f.1.1 f.1.2 beta f.2.1 f.2.2)) :=
  dispatch_AB_shape _ _ _ _

theorem tensor_trace_eq {T : Type}
    (impl : T → tensor_view → List Char → T → tensor_view → List Char → Int)
    (alpha : T) (A : tensor_view) (idx_A : List Char)
    (beta : T) (B : tensor_view) (idx_B : List Char) :
    tensor_trace impl alpha A idx_A beta B idx_B =
      (check_tensor_indices_AB A idx_A B idx_B true false true).bind
        (fun _ => (normalize_AB A idx_A B idx_B).map
          (fun f => impl alpha f.1.1 f.1.2 beta f.2.1 f.2.2)) :=
  dispatch_AB_shape _ _ _ _

theorem tensor_replicate_eq {T : Type}
    (impl : T → tensor_view → List Char → T → tensor_view → List Char → Int)
    (alpha : T) (A : tensor_view) (idx_A : List Char)
    (beta : T) (B : tensor_view) (idx_B : List Char) :
    tensor_replicate impl alpha A idx_A beta B idx_B =
      (check_tensor_indices_AB A idx_A B idx_B false true true).bind
        (fun _ => (normalize_AB A idx_A B idx_B).map
          (fun f => impl alpha f.1.1 f.1.2 beta f.2.1 f.2.2)) :=
  dispatch_AB_shape _ _ _ _

theorem tensor_transpose_eq {T : Type}
    (impl : T → tensor_view → List Char → T → tensor_view → List Char → Int)
    (alpha : T) (A : tensor_view) (idx_A : List Char)
    (beta : T) (B : tensor_view) (idx_B : List Char) :
    tensor_transpose impl alpha A idx_A beta B idx_B =
      (check_tensor_indices_AB A idx_A B idx_B false false true).bind
        (fun _ => (normalize_AB A idx_A B idx_B).map
          (fun f => impl alpha f.1.1 f.1.2 beta f.2.1 f.2.2)) :=
  dispatch_AB_shape _ _ _ _

theorem tensor_dot_eq {T : Type}
    (impl : tensor_view → List Char → tensor_view → List Char → Int × T)
    (A : tensor_view) (idx_A : List Char) (B : tensor_view) (idx_B : List Char) :
    tensor_dot impl A idx_A B idx_B =
      (check_tensor_indices_AB A idx_A B idx_B false false true).bind
        (fun _ => (normalize_AB A idx_A B idx_B).map
          (fun f => impl f.1.1 f.1.2 f.2.1 f.2.2)) :=
  dispatch_AB_shape _ _ _ _

theorem check_mult_none_iff (A : tensor_view) (idx_A : List Char)
    (B : tensor_view) (idx_B : List Char) (C : tensor_view) (idx_C : List Char) :
    check_tensor_indices_ABC A idx_A B idx_B C idx_C true true true true true true true = none ↔
      ¬ sizes_agree [(A, idx_A), (B, idx_B), (C, idx_C)] ∨
      ¬ lengths_agree [(A, idx_A), (B, idx_B), (C, idx_C)] := by
  rw [check_tensor_indices_ABC_none_iff, check_tensor_indices_ABC_classes_iff]
  simp only [implies_true, and_true]
  tauto

theorem check_contract_none_iff (A : tensor_view) (idx_A : List Char)
    (B : tensor_view) (idx_B : List Char) (C : tensor_view) (idx_C : List Char) :
    check_tensor_indices_ABC A idx_A B idx_B C idx_C false false false true true true false
        = none ↔
      ¬ sizes_agree [(A, idx_A), (B, idx_B), (C, idx_C)] ∨
      ¬ lengths_agree [(A, idx_A), (B, idx_B), (C, idx_C)] ∨
      labels_only idx_A idx_B idx_C ≠ [] ∨ labels_only idx_B idx_A idx_C ≠ [] ∨
      labels_only idx_C idx_A idx_B ≠ [] ∨ labels_all idx_A idx_B idx_C ≠ [] := by
  rw [check_tensor_indices_ABC_none_iff, check_tensor_indices_ABC_classes_iff]
  simp only [implies_true, and_true, true_and, Bool.false_eq_true, imp_false, not_not]
  tauto

theorem check_weight_none_iff (A : tensor_view) (idx_A : List Char)
    (B : tensor_view) (idx_B : List Char) (C : tensor_view) (idx_C : List Char) :
    check_tensor_indices_ABC A idx_A B idx_B C idx_C false false false false true true true
        = none ↔
      ¬ sizes_agree [(A, idx_A), (B, idx_B), (C, idx_C)] ∨
      ¬ lengths_agree [(A, idx_A), (B, idx_B), (C, idx_C)] ∨
      labels_only idx_A idx_B idx_C ≠ [] ∨ labels_only idx_B idx_A idx_C ≠ [] ∨
      labels_only idx_C idx_A idx_B ≠ [] ∨ labels_pair idx_A idx_B idx_C ≠ [] := by
  rw [check_tensor_indices_ABC_none_iff, check_tensor_indices_ABC_classes_iff]
  simp only [implies_true, and_true, true_and, Bool.false_eq_true, imp_false, not_not]
  tauto

theorem check_outer_prod_none_iff (A : tensor_view) (idx_A : List Char)
    (B : tensor_view) (idx_B : List Char) (C : tensor_view) (idx_C : List Char) :
    check_tensor_indices_ABC A idx_A B idx_B C idx_C false false false false true true false
        = none ↔
      ¬ sizes_agree [(A, idx_A), (B, idx_B), (C, idx_C)] ∨
      ¬ lengths_agree [(A, idx_A), (B, idx_B), (C, idx_C)] ∨
      labels_only idx_A idx_B idx_C ≠ [] ∨ labels_only idx_B idx_A idx_C ≠ [] ∨
      labels_only idx_C idx_A idx_B ≠ [] ∨ labels_pair idx_A idx_B idx_C ≠ [] ∨
      labels_all idx_A idx_B idx_C ≠ [] := by
  rw [check_tensor_indices_ABC_none_iff, check_tensor_indices_ABC_classes_iff]
  simp only [implies_true, and_true, true_and, Bool.false_eq_true, imp_false, not_not]
  tauto

theorem check_sum_none_iff (A : tensor_view) (idx_A : List Char)
    (B : tensor_view) (idx_B : List Char) :
    check_tensor_indices_AB A idx_A B idx_B true true true = none ↔
      ¬ sizes_agree [(A, idx_A), (B, idx_B)] ∨ ¬ lengths_agree [(A, idx_A), (B, idx_B)] := by
  rw [check_tensor_indices_AB_none_iff, check_tensor_indices_AB_classes_iff]
  simp only [implies_true, and_true]
  tauto

theorem check_trace_none_iff (A : tensor_view) (idx_A : List Char)
    (B : tensor_view) (idx_B : List Char) :
    check_tensor_indices_AB A idx_A B idx_B true false true = none ↔
      ¬ sizes_agree [(A, idx_A), (B, idx_B)] ∨ ¬ lengths_agree [(A, idx_A), (B, idx_B)] ∨
      labels_only_of_two idx_B idx_A ≠ [] := by
  rw [check_tensor_indices_AB_none_iff, check_tensor_indices_AB_classes_iff]
  simp only [implies_true, and_true, true_and, Bool.false_eq_true, imp_false, not_not]
  tauto

theorem check_replicate_none_iff (A : tensor_view) (idx_A : List Char)
    (B : tensor_view) (idx_B : List Char) :
    check_tensor_indices_AB A idx_A B idx_B false true true = none ↔
      ¬ sizes_agree [(A, idx_A), (B, idx_B)] ∨ ¬ lengths_agree [(A, idx_A), (B, idx_B)] ∨
      labels_only_of_two idx_A idx_B ≠ [] := by
  rw [check_tensor_indices_AB_none_iff, check_tensor_indices_AB_classes_iff]
  simp only [implies_true, and_true, true_and, Bool.false_eq_true, imp_false, not_not]
  tauto

theorem check_transpose_none_iff (A : tensor_view) (idx_A : List Char)
    (B : tensor_view) (idx_B : List Char) :
    check_tensor_indices_AB A idx_A B idx_B false false true = none ↔
      ¬ sizes_agree [(A, idx_A), (B, idx_B)] ∨ ¬ lengths_agree [(A, idx_A), (B, idx_B)] ∨
      labels_only_of_two idx_A idx_B ≠ [] ∨ labels_only_of_two idx_B idx_A ≠ [] := by
  rw [check_tensor_indices_AB_none_iff, check_tensor_indices_AB_classes_iff]
  simp only [implies_true, and_true, true_and, Bool.false_eq_true, imp_false, not_not]
  tauto

theorem label_class_eq_nil_of_forall (a : List Char) (p : Char → Bool)
    (h : ∀ x ∈ a, p x = false) : label_class a p = [] := by
  rw [List.eq_nil_iff_forall_not_mem]
  intro x hx
  rw [mem_label_class] at hx
  rw [h x hx.1] at hx
  exact absurd hx.2 (by simp)

theorem check_contract_eq_outer_prod (A : tensor_view) (idx_A : List Char)
    (B : tensor_view) (idx_B : List Char) (C : tensor_view) (idx_C : List Char)
    (h : ∀ c, c ∈ idx_A → c ∉ idx_B) :
    check_tensor_indices_ABC A idx_A B idx_B C idx_C false false false true true true false =
      check_tensor_indices_ABC A idx_A B idx_B C idx_C false false false false true true false := by
  have hAB : labels_pair idx_A idx_B idx_C = [] :=
    label_class_eq_nil_of_forall _ _ (fun x hx => by simp [h x hx])
  apply option_eq_of_zero_iff _ _ (check_tensor_indices_ABC_none_iff _ _ _ _ _ _ _ _ _ _ _ _ _)
    (check_tensor_indices_ABC_none_iff _ _ _ _ _ _ _ _ _ _ _ _ _)
  rw [check_tensor_indices_ABC_classes_iff, check_tensor_indices_ABC_classes_iff, hAB]
  simp

theorem check_weight_eq_outer_prod (A : tensor_view) (idx_A : List Char)
    (B : tensor_view) (idx_B : List Char) (C : tensor_view) (idx_C : List Char)
    (h : ∀ c, c ∈ idx_A → c ∉ idx_B) :
    check_tensor_indices_ABC A idx_A B idx_B C idx_C false false false false true true true =
      check_tensor_indices_ABC A idx_A B idx_B C idx_C false false false false true true false := by
  have hABC : labels_all idx_A idx_B idx_C = [] :=
    label_class_eq_nil_of_forall _ _ (fun x hx => by simp [h x hx])
  apply option_eq_of_zero_iff _ _ (check_tensor_indices_ABC_none_iff _ _ _ _ _ _ _ _ _ _ _ _ _)
    (check_tensor_indices_ABC_none_iff _ _ _ _ _ _ _ _ _ _ _ _ _)
  rw [check_tensor_indices_ABC_classes_iff, check_tensor_indices_ABC_classes_iff, hABC]
  simp

theorem check_trace_eq_transpose (A : tensor_view) (idx_A : List Char)
    (B : tensor_view) (idx_B : List Char) (h : ∀ c, c ∈ idx_A → c ∈ idx_B) :
    check_tensor_indices_AB A idx_A B idx_B true false true =
      check_tensor_indices_AB A idx_A B idx_B false false true := by
  have hA : labels_only_of_two idx_A idx_B = [] :=
    label_class_eq_nil_of_forall _ _ (fun x hx => by simp [h x hx])
  apply option_eq_of_zero_iff _ _ (check_tensor_indices_AB_none_iff _ _ _ _ _ _ _)
    (check_tensor_indices_AB_none_iff _ _ _ _ _ _ _)
  rw [check_tensor_indices_AB_classes_iff, check_tensor_indices_AB_classes_iff, hA]
  simp

theorem getD_set_self (l : List Int) (n : Nat) (a : Int) (h : n < l.length) :
    (l.set n a).getD n 0 = a := by
  rw [List.getD_eq_getElem?_getD, List.getElem?_set_self h]
  rfl

theorem getD_set_ne (l : List Int) (n i : Nat) (a : Int) (h : i ≠ n) :
    (l.set n a).getD i 0 = l.getD i 0 := by
  rw [List.getD_eq_getElem?_getD, List.getD_eq_getElem?_getD, List.getElem?_set_ne (Ne.symm h)]

theorem set_getD_self (l : List Int) (n : Nat) (h : n < l.length) :
    l.set n (l.getD n 0) = l := by
  apply List.ext_getElem?
  intro i
  by_cases e : n = i
  · subst e
    rw [List.getElem?_set_self h, List.getD_eq_getElem?_getD, List.getElem?_eq_getElem h]
    rfl
  · rw [List.getElem?_set_ne e]

theorem equal_range_self (a : List Int) (first last first2 : Nat) (h : first = first2) :
    equal_range a first last a first2 = true := by
  subst h
  simp [equal_range]

theorem equal_range_set_front (l : List Int) (n : Nat) (a b : Int) :
    equal_range (l.set n a) 0 n (l.set n b) 0 = true := by
  simp [equal_range, take_set_self]

theorem equal_range_set_back (l : List Int) (n m : Nat) (a b : Int) :
    equal_range (l.set n a) (n + 1) m (l.set n b) (n + 1) = true := by
  simp only [equal_range, decide_eq_true_eq]
  rw [List.drop_set_of_lt a l (Nat.lt_succ_self n), List.drop_set_of_lt b l (Nat.lt_succ_self n)]

theorem are_congruent_along_set (l s : List Int) (d1 d2 : Int) (dim : Nat) (a b : Int) :
    are_congruent_along { lengths := l.set dim a, data := d1, strides := s }
      { lengths := l.set dim b, data := d2, strides := s } dim = true := by
  simp only [are_congruent_along, tensor_view.dimension, List.length_set, lt_irrefl, if_false,
    if_true, Bool.and_eq_true]
  exact ⟨⟨equal_range_self _ _ _ _ rfl, equal_range_set_front l dim a b⟩,
    equal_range_set_back l dim _ a b⟩

theorem partition_eq_some (A : tensor_view) (dim : Nat) (off : Int)
    (hdim : dim < A.dimension) (h0 : 0 ≤ off) :
    partition A dim off =
      some ({ lengths := A.lengths.set dim (min off (A.length dim)), data := A.data,
              strides := A.strides },
            { lengths := A.lengths.set dim (A.length dim - min off (A.length dim)),
              data := A.data + min off (A.length dim) * A.stride dim, strides := A.strides }) := by
  simp only [partition, hdim, h0, not_true_eq_false, if_false, partition_body, List.set_set,
    tensor_view.length]

theorem partition_neg (A : tensor_view) (dim : Nat) (off : Int) (h : off < 0) :
    partition A dim off = none := by
  unfold partition
  split
  · rfl
  · rw [if_pos (by omega)]

theorem partition_clamp (A : tensor_view) (dim : Nat) (off : Int)
    (hdim : dim < A.dimension) (hlen : 0 ≤ A.length dim) (h0 : 0 ≤ off) :
    partition A dim off = partition A dim (min (max off 0) (A.length dim)) := by
  have hm : max off 0 = off := max_eq_left h0
  have h1 : 0 ≤ min off (A.length dim) := le_min h0 hlen
  rw [hm, partition_eq_some A dim off hdim h0, partition_eq_some A dim _ hdim h1]
  simp only [min_assoc, min_self]

theorem unpartition_of_parts (l s : List Int) (d : Int) (dim : Nat) (a b : Int)
    (hdim : dim < l.length) :
    unpartition ⟨l.set dim a, d, s⟩ ⟨l.set dim b, d + a * s.getD dim 0, s⟩ dim =
      some ⟨l.set dim (a + b), d, s⟩ := by
  have hc := are_congruent_along_set l s d (d + a * s.getD dim 0) dim a b
  have hd : dim < (⟨l.set dim a, d, s⟩ : tensor_view).dimension := by
    simpa [tensor_view.dimension] using hdim
  have hp : (⟨l.set dim a, d, s⟩ : tensor_view).data +
      (⟨l.set dim a, d, s⟩ : tensor_view).length dim *
        (⟨l.set dim a, d, s⟩ : tensor_view).stride dim = d + a * s.getD dim 0 := by
    simp only [tensor_view.length, tensor_view.stride]
    rw [getD_set_self _ _ _ hdim]
  unfold unpartition
  rw [if_neg (not_not.2 hd), if_neg (by rw [hc]; simp), if_neg (not_not.2 hp)]
  simp only [unpartition_body, tensor_view.length]
  rw [getD_set_self _ _ _ hdim, getD_set_self _ _ _ hdim]
  simp only [List.set_set]

theorem partition_unpartition_roundtrip (V : tensor_view) (dim : Nat) (off : Int)
    (hdim : dim < V.dimension) (h0 : 0 ≤ off) :
    ∃ A0 A1, partition V dim off = some (A0, A1) ∧ dim < A0.dimension ∧
      are_congruent_along A0 A1 dim = true ∧
      A0.data + A0.length dim * A0.stride dim = A1.data ∧
      unpartition A0 A1 dim = some V := by
  refine ⟨_, _, partition_eq_some V dim off hdim h0, ?_, ?_, ?_, ?_⟩
  · simpa [tensor_view.dimension] using hdim
  · exact are_congruent_along_set _ _ _ _ _ _ _
  · simp only [tensor_view.length, tensor_view.stride]
    rw [getD_set_self _ _ _ hdim]
  · have h := unpartition_of_parts V.lengths V.strides V.data dim (min off (V.length dim))
      (V.length dim - min off (V.length dim)) hdim
    rw [add_sub_cancel] at h
    simp only [tensor_view.length, tensor_view.stride] at h ⊢
    rw [h, set_getD_self _ _ hdim]

theorem partition_in_range (A : tensor_view) (dim : Nat) (off : Int)
    (hdim : dim < A.dimension) (h0 : 0 ≤ off) (h1 : off ≤ A.length dim) :
    ∃ A0 A1, partition A dim off = some (A0, A1) ∧
      A0.strides = A.strides ∧ A1.strides = A.strides ∧
      A0.dimension = A.dimension ∧ A1.dimension = A.dimension ∧
      (∀ i, i ≠ dim → A0.length i = A.length i ∧ A1.length i = A.length i) ∧
      A0.length dim = off ∧ A1.length dim = A.length dim - off ∧
      A0.data = A.data ∧ A1.data = A.data + off * A.stride dim := by
  have hm : min off (A.length dim) = off := min_eq_left h1
  refine ⟨_, _, partition_eq_some A dim off hdim h0, rfl, rfl, ?_, ?_, ?_, ?_, ?_, rfl, ?_⟩
  · simp [tensor_view.dimension]
  · simp [tensor_view.dimension]
  · intro i hi
    simp only [tensor_view.length]
    exact ⟨getD_set_ne _ _ _ _ hi, getD_set_ne _ _ _ _ hi⟩
  · simp only [tensor_view.length]
    rw [getD_set_self _ _ _ hdim]
    exact hm
  · simp only [tensor_view.length]
    rw [getD_set_self _ _ _ hdim]
    simp only [tensor_view.length] at hm
    rw [hm]
  · simp only [hm]

theorem slice_body_a1_data (A : tensor_view) (dim : Nat) (off : Int) :
    (slice_body A dim off).2.1.data = A.data + off * A.stride (dim + 1) := by
  simp only [slice_body, tensor_view.stride, List.getD_eq_getElem?_getD,
    List.getElem?_eraseIdx_of_ge _ _ _ (le_refl dim)]


/-! ## Properties of the hyperplane shapers -/

theorem eraseIdx_set_self (l : List Int) (k : Nat) (a : Int) :
    (l.set k a).eraseIdx k = l.eraseIdx k := by
  induction l generalizing k with
  | nil => rfl
  | cons x xs ih =>
    cases k with
    | zero => rfl
    | succ k => simp only [List.set_cons_succ, List.eraseIdx_cons_succ, ih]

theorem take_eraseIdx_self (l : List Int) (k : Nat) :
    (l.eraseIdx k).take k = l.take k := by
  induction l generalizing k with
  | nil => rfl
  | cons x xs ih =>
    cases k with
    | zero => rfl
    | succ k => simp only [List.eraseIdx_cons_succ, List.take_succ_cons, ih]

theorem drop_eraseIdx_self (l : List Int) (k : Nat) :
    (l.eraseIdx k).drop k = l.drop (k + 1) := by
  induction l generalizing k with
  | nil => simp
  | cons x xs ih =>
    cases k with
    | zero => rfl
    | succ k => simp only [List.eraseIdx_cons_succ, List.drop_succ_cons, ih]

theorem length_eraseIdx_succ (l : List Int) (k : Nat) (h : k < l.length) :
    (l.eraseIdx k).length + 1 = l.length := by
  rw [List.length_eraseIdx, if_pos h]
  omega

theorem are_congruent_along_eraseIdx (l s : List Int) (d1 d2 : Int) (dim : Nat)
    (h : dim < l.length) :
    are_congruent_along { lengths := l, data := d1, strides := s }
      { lengths := l.eraseIdx dim, data := d2, strides := s.eraseIdx dim } dim = true := by
  have hl := length_eraseIdx_succ l dim h
  have h1 : ¬ l.length < (l.eraseIdx dim).length := by omega
  have h2 : ¬ (l.eraseIdx dim).length = l.length := by omega
  simp only [are_congruent_along, tensor_view.dimension, if_neg h1, if_neg h2, if_pos hl,
    Bool.and_eq_true, equal_range, decide_eq_true_eq, List.drop_zero, Nat.sub_zero,
    take_eraseIdx_self, drop_eraseIdx_self, and_self]

theorem are_congruent_along_eraseIdx_swap (l s : List Int) (d1 d2 : Int) (dim : Nat)
    (h : dim < l.length) :
    are_congruent_along { lengths := l.eraseIdx dim, data := d2, strides := s.eraseIdx dim }
      { lengths := l, data := d1, strides := s } dim = true := by
  have hl := length_eraseIdx_succ l dim h
  have h1 : (l.eraseIdx dim).length < l.length := by omega
  have h2 : ¬ (l.eraseIdx dim).length = l.length := by omega
  simp only [are_congruent_along, tensor_view.dimension, if_pos h1, if_neg h2, if_pos hl,
    Bool.and_eq_true, equal_range, decide_eq_true_eq, List.drop_zero, Nat.sub_zero,
    take_eraseIdx_self, drop_eraseIdx_self, and_self]

theorem set_set_getD_succ (l : List Int) (k : Nat) (h : k < l.length) :
    (l.set k (l.getD k 0 - 1)).set k ((l.set k (l.getD k 0 - 1)).getD k 0 + 1) = l := by
  rw [getD_set_self _ _ _ h, List.set_set, sub_add_cancel, set_getD_self _ _ h]

theorem slice_front_eq_some (A : tensor_view) (dim : Nat) (hdim : dim < A.dimension) :
    slice_front A dim =
      some ({ lengths := A.lengths.eraseIdx dim, data := A.data,
              strides := A.strides.eraseIdx dim },
            { lengths := A.lengths.set dim (A.length dim - 1),
              data := A.data + A.stride dim, strides := A.strides }) := by
  simp only [slice_front, slice_front_body, not_not, if_pos hdim, if_neg (not_not.mpr hdim),
    eraseIdx_set_self, tensor_view.length, tensor_view.stride]

theorem slice_back_eq_some (A : tensor_view) (dim : Nat) (hdim : dim < A.dimension) :
    slice_back A dim =
      some ({ lengths := A.lengths.set dim (A.length dim - 1), data := A.data,
              strides := A.strides },
            { lengths := A.lengths.eraseIdx dim,
              data := A.data + (A.length dim - 1) * A.stride (dim + 1),
              strides := A.strides.eraseIdx dim }) := by
  simp only [slice_back, slice_back_body, if_neg (not_not.mpr hdim),
    eraseIdx_set_self, tensor_view.length, tensor_view.stride, List.getD_eq_getElem?_getD,
    List.getElem?_eraseIdx_of_ge _ _ _ (le_refl dim)]

theorem slice_front_unslice_front_roundtrip (V : tensor_view) (dim : Nat)
    (hdim : dim < V.dimension) :
    ∃ a0 A1, slice_front V dim = some (a0, A1) ∧ dim < A1.dimension ∧
      A1.dimension = a0.dimension + 1 ∧
      are_congruent_along a0 A1 dim = true ∧
      A1.data = a0.data + A1.stride dim ∧
      unslice_front a0 A1 dim = some V := by
  have hd : dim < V.lengths.length := hdim
  have hs : dim < (V.lengths.set dim (V.length dim - 1)).length := by
    rw [List.length_set]; exact hd
  have hc := are_congruent_along_eraseIdx_swap (V.lengths.set dim (V.length dim - 1))
    V.strides (V.data + V.stride dim) V.data dim hs
  rw [eraseIdx_set_self] at hc
  have hs2 : dim < (⟨V.lengths.set dim (V.length dim - 1), V.data + V.stride dim, V.strides⟩ :
      tensor_view).dimension := hs
  have hn : (⟨V.lengths.set dim (V.length dim - 1), V.data + V.stride dim, V.strides⟩ :
      tensor_view).dimension =
      (⟨V.lengths.eraseIdx dim, V.data, V.strides.eraseIdx dim⟩ : tensor_view).dimension + 1 := by
    simp only [tensor_view.dimension, List.length_set]
    exact (length_eraseIdx_succ _ _ hd).symm
  have hp : (⟨V.lengths.set dim (V.length dim - 1), V.data + V.stride dim, V.strides⟩ :
      tensor_view).data =
      (⟨V.lengths.eraseIdx dim, V.data, V.strides.eraseIdx dim⟩ : tensor_view).data +
        (⟨V.lengths.set dim (V.length dim - 1), V.data + V.stride dim, V.strides⟩ :
          tensor_view).stride dim := rfl
  refine ⟨_, _, slice_front_eq_some V dim hdim, hs2, hn, hc, hp, ?_⟩
  rw [unslice_front, if_neg (not_not.mpr hs2), if_neg (not_not.mpr hn),
    if_neg (not_not.mpr hc), if_neg (not_not.mpr hp)]
  simp only [unslice_front_body, tensor_view.length]
  rw [set_set_getD_succ _ _ hd]

theorem slice_eq_some (A : tensor_view) (dim : Nat) (off : Int) (hdim : dim < A.dimension)
    (h0 : 0 ≤ off) (h1 : off < A.length dim) :
    slice A dim off = some (slice_body A dim off) := by
  rw [slice, if_neg (not_not.mpr hdim), if_neg (not_not.mpr ⟨h0, h1⟩)]

theorem slice_front_body_eq_slice_body (A : tensor_view) (dim : Nat) :
    slice_front_body A dim = ((slice_body A dim 0).2.1, (slice_body A dim 0).2.2) := by
  simp only [slice_body, slice_front_body, zero_mul, add_zero, zero_add, one_mul,
    eraseIdx_set_self]

theorem slice_back_body_eq_slice_body (A : tensor_view) (dim : Nat) :
    slice_back_body A dim =
      ((slice_body A dim (A.length dim - 1)).1, (slice_body A dim (A.length dim - 1)).2.1) := by
  simp only [slice_body, slice_back_body, List.set_set, eraseIdx_set_self, tensor_view.length]

theorem length_ge_one_of_forall (A : tensor_view) (dim : Nat) (hdim : dim < A.dimension)
    (hlen : ∀ l ∈ A.lengths, 1 ≤ l) : 1 ≤ A.length dim := by
  have hd : dim < A.lengths.length := hdim
  rw [tensor_view.length, List.getD_eq_getElem _ _ hd]
  exact hlen _ (List.getElem_mem _)

theorem slice_front_back_eq_slice (A : tensor_view) (dim : Nat) (hdim : dim < A.dimension)
    (hlen : ∀ l ∈ A.lengths, 1 ≤ l) :
    slice A dim 0 = some (slice_body A dim 0) ∧
      slice_front A dim = some ((slice_body A dim 0).2.1, (slice_body A dim 0).2.2) ∧
      slice A dim (A.length dim - 1) = some (slice_body A dim (A.length dim - 1)) ∧
      slice_back A dim =
        some ((slice_body A dim (A.length dim - 1)).1,
          (slice_body A dim (A.length dim - 1)).2.1) := by
  have h1 := length_ge_one_of_forall A dim hdim hlen
  refine ⟨slice_eq_some A dim 0 hdim (le_refl 0) (by omega), ?_,
    slice_eq_some A dim _ hdim (by omega) (by omega), ?_⟩
  · rw [slice_front, if_neg (not_not.mpr hdim), slice_front_body_eq_slice_body]
  · rw [slice_back, if_neg (not_not.mpr hdim), slice_back_body_eq_slice_body]


/-! ## Properties of the size helpers and of the shape of `matricize` -/

theorem foldl_mul_eq (f : Nat → Int) (l : List Nat) (a : Int) :
    l.foldl (fun m i => m * f i) a = a * (l.map f).prod := by
  induction l generalizing a with
  | nil => simp
  | cons x xs ih => simp only [List.foldl_cons, List.map_cons, List.prod_cons, ih, mul_assoc]

theorem foldl_add_eq (f : Nat → Int) (l : List Nat) (a : Int) :
    l.foldl (fun m i => m + f i) a = a + (l.map f).sum := by
  induction l generalizing a with
  | nil => simp
  | cons x xs ih => simp only [List.foldl_cons, List.map_cons, List.sum_cons, ih, add_assoc]

theorem interval_zero (n : Nat) : interval 0 n = List.range n := by
  simp only [interval, Nat.sub_zero, List.range_eq_range']

theorem map_getD_range' (l : List Int) (lo k : Nat) (h : lo + k ≤ l.length) :
    (List.range' lo k).map (fun i => l.getD i 0) = (l.drop lo).take k := by
  apply List.ext_getElem
  · simp only [List.length_map, List.length_range', List.length_take, List.length_drop]
    omega
  · intro i h1 h2
    simp only [List.length_map, List.length_range'] at h1
    simp only [List.getElem_map, List.getElem_range', one_mul, List.getElem_take,
      List.getElem_drop]
    rw [List.getD_eq_getElem _ _ (by omega)]

theorem map_getD_interval (l : List Int) (lo hi : Nat) (h1 : lo ≤ hi) (h2 : hi ≤ l.length) :
    (interval lo hi).map (fun i => l.getD i 0) = (l.drop lo).take (hi - lo) :=
  map_getD_range' l lo (hi - lo) (by omega)

theorem prod_map_range (f : Nat → Int) (n : Nat) :
    ((List.range n).map f).prod = ∏ i in Finset.range n, f i := by
  induction n with
  | zero => simp
  | succ n ih =>
    rw [List.range_succ, List.map_append, List.prod_append, ih, Finset.prod_range_succ]
    simp

theorem sum_map_range (f : Nat → Int) (n : Nat) :
    ((List.range n).map f).sum = ∑ i in Finset.range n, f i := by
  induction n with
  | zero => simp
  | succ n ih =>
    rw [List.range_succ, List.map_append, List.sum_append, ih, Finset.sum_range_succ]
    simp

theorem tensor_size_eq_prod_range (ndim : Nat) (len : List Int) :
    tensor_size ndim len = ∏ i in Finset.range ndim, len.getD i 0 := by
  rw [tensor_size, foldl_mul_eq, one_mul, interval_zero, prod_map_range]

theorem tensor_size_eq_prod_take (ndim : Nat) (len : List Int) (h : ndim ≤ len.length) :
    tensor_size ndim len = (len.take ndim).prod := by
  rw [tensor_size, foldl_mul_eq, one_mul, map_getD_interval len 0 ndim (Nat.zero_le _) h,
    List.drop_zero, Nat.sub_zero]

theorem tensor_storage_size_some (ndim : Nat) (len stride : List Int) :
    tensor_storage_size ndim len (some stride) =
      1 + ∑ i in Finset.range ndim, |stride.getD i 0| * (len.getD i 0 - 1) := by
  rw [tensor_storage_size, foldl_add_eq, interval_zero, sum_map_range]

theorem tensor_sizes (ndim : Nat) (len stride : List Int) :
    tensor_size ndim len = ∏ i in Finset.range ndim, len.getD i 0 ∧
      tensor_size 0 len = 1 ∧
      (ndim = len.length → tensor_size ndim len = len.prod) ∧
      tensor_storage_size ndim len (some stride) =
        1 + ∑ i in Finset.range ndim, |stride.getD i 0| * (len.getD i 0 - 1) ∧
      tensor_storage_size ndim len none = tensor_size ndim len := by
  refine ⟨tensor_size_eq_prod_range ndim len, rfl, ?_, tensor_storage_size_some ndim len stride,
    rfl⟩
  intro h
  rw [tensor_size_eq_prod_take ndim len (le_of_eq h), h, List.take_length]

theorem matricize_m_eq (A : tensor_view) (split : Nat) (h : split ≤ A.dimension) :
    (interval 0 split).foldl (fun m i => m * A.length i) 1 = (A.lengths.take split).prod := by
  have e := map_getD_interval A.lengths 0 split (Nat.zero_le _) h
  simp only [tensor_view.length]
  rw [foldl_mul_eq, one_mul, e, List.drop_zero, Nat.sub_zero]

theorem matricize_n_eq (A : tensor_view) (split : Nat) (h : split ≤ A.dimension) :
    (interval split A.dimension).foldl (fun n i => n * A.length i) 1 =
      (A.lengths.drop split).prod := by
  have e := map_getD_interval A.lengths split A.dimension h (le_refl _)
  simp only [tensor_view.length]
  rw [foldl_mul_eq, one_mul, e, List.take_of_length_le]
  rw [List.length_drop]
  exact le_refl _

theorem matricize_asserts_split (A : tensor_view) (split : Nat)
    (h : matricize_asserts A split = true) : split ≤ A.dimension := by
  simp only [matricize_asserts, Bool.and_eq_true, decide_eq_true_eq] at h
  exact h.1

theorem matricize_body_lengths (A : tensor_view) (split : Nat) (h : split ≤ A.dimension) :
    (matricize_body A split).lengths =
      ((A.lengths.take split).prod, (A.lengths.drop split).prod) := by
  simp only [matricize_body, matricize_m_eq A split h, matricize_n_eq A split h]

theorem matricize_shape_of_some (A : tensor_view) (split : Nat) (AM : matrix_view)
    (h : matricize A split = some AM) :
    split ≤ A.dimension ∧
      AM.lengths = ((A.lengths.take split).prod, (A.lengths.drop split).prod) ∧
      AM.lengths.1 * AM.lengths.2 = tensor_size A.dimension A.lengths ∧
      AM.data = A.data ∧
      (A.dimension = 0 → AM.lengths = (1, 1) ∧ AM.strides = (1, 1)) := by
  unfold matricize at h
  split at h
  · rename_i ha
    have hs := matricize_asserts_split A split ha
    have hl := matricize_body_lengths A split hs
    cases h
    refine ⟨hs, hl, ?_, rfl, ?_⟩
    · rw [hl, tensor_size_eq_prod_take A.dimension A.lengths (le_refl _)]
      simp only [tensor_view.dimension, List.take_length]
      rw [← List.prod_append, List.take_append_drop]
    · intro h0
      have hnil : A.lengths = [] := List.length_eq_zero.mp h0
      refine ⟨by rw [hl, hnil]; simp, ?_⟩
      simp only [matricize_body, if_pos h0]
  · cases h


/-! ## Properties of `are_congruent_along` -/

theorem take_drop_eq_iff_getD (a b : List Int) (k : Nat) (h : a.length = b.length) :
    (a.take k = b.take k ∧ a.drop (k + 1) = b.drop (k + 1)) ↔
      ∀ i, i < a.length → i ≠ k → a.getD i 0 = b.getD i 0 := by
  constructor
  · rintro ⟨h1, h2⟩ i hi hk
    rw [List.getD_eq_getElem?_getD, List.getD_eq_getElem?_getD]
    rcases Nat.lt_or_gt_of_ne hk with hlt | hgt
    · have e1 : (a.take k)[i]? = a[i]? := List.getElem?_take_of_lt hlt
      have e2 : (b.take k)[i]? = b[i]? := List.getElem?_take_of_lt hlt
      rw [← e1, ← e2, h1]
    · have e1 : (a.drop (k + 1))[i - (k + 1)]? = a[i]? := by
        rw [List.getElem?_drop]; congr 1; omega
      have e2 : (b.drop (k + 1))[i - (k + 1)]? = b[i]? := by
        rw [List.getElem?_drop]; congr 1; omega
      rw [← e1, ← e2, h2]
  · intro hall
    have hopt : ∀ i, i ≠ k → a[i]? = b[i]? := by
      intro i hk
      by_cases hi : i < a.length
      · have := hall i hi hk
        rw [List.getD_eq_getElem _ _ hi, List.getD_eq_getElem _ _ (h ▸ hi)] at this
        rw [List.getElem?_eq_getElem hi, List.getElem?_eq_getElem (h ▸ hi), this]
      · rw [List.getElem?_eq_none (by omega), List.getElem?_eq_none (by omega)]
    constructor
    · apply List.ext_getElem?
      intro i
      by_cases hik : i < k
      · rw [List.getElem?_take_of_lt hik, List.getElem?_take_of_lt hik]
        exact hopt i (by omega)
      · rw [List.getElem?_take_eq_none (by omega), List.getElem?_take_eq_none (by omega)]
    · apply List.ext_getElem?
      intro i
      rw [List.getElem?_drop, List.getElem?_drop]
      exact hopt _ (by omega)

theorem eraseIdx_eq_iff (a b : List Int) (k : Nat) :
    (a.take k = b.take k ∧ a.drop (k + 1) = b.drop k) ↔ a.eraseIdx k = b := by
  constructor
  · rintro ⟨h1, h2⟩
    rw [List.eraseIdx_eq_take_drop_succ, h1, h2, List.take_append_drop]
  · intro e
    subst e
    exact ⟨(take_eraseIdx_self a k).symm, (drop_eraseIdx_self a k).symm⟩

theorem are_congruent_along_same_dim (A B : tensor_view) (dim : Nat)
    (hA : A.strides.length = A.dimension) (hB : B.strides.length = B.dimension)
    (h : A.dimension = B.dimension) :
    are_congruent_along A B dim = true ↔
      A.strides = B.strides ∧
        ∀ i, i < A.dimension → i ≠ dim → A.length i = B.length i := by
  have h1 : ¬ A.dimension < B.dimension := by omega
  have hl : A.lengths.length = B.lengths.length := h
  simp only [are_congruent_along, if_neg h1, if_pos h.symm, Bool.and_eq_true, equal_range,
    decide_eq_true_eq, List.drop_zero, Nat.sub_zero, tensor_view.length]
  have es1 : A.strides.take A.dimension = A.strides := by rw [← hA, List.take_length]
  have es2 : B.strides.take A.dimension = B.strides := by rw [h, ← hB, List.take_length]
  have e1 : (A.lengths.drop (dim + 1)).take (A.dimension - (dim + 1)) =
      A.lengths.drop (dim + 1) := by
    apply List.take_of_length_le
    simp only [List.length_drop, tensor_view.dimension]
    exact le_refl _
  have e2 : (B.lengths.drop (dim + 1)).take (A.dimension - (dim + 1)) =
      B.lengths.drop (dim + 1) := by
    apply List.take_of_length_le
    simp only [List.length_drop, tensor_view.dimension, hl]
    exact le_refl _
  rw [es1, es2, e1, e2, and_assoc, take_drop_eq_iff_getD _ _ _ hl]
  rfl

theorem are_congruent_along_one_fewer (A B : tensor_view) (dim : Nat)
    (hA : A.strides.length = A.dimension) (hB : B.strides.length = B.dimension)
    (h : A.dimension = B.dimension + 1) (hdim : dim < A.dimension) :
    (are_congruent_along A B dim = true ↔
      A.strides.eraseIdx dim = B.strides ∧ A.lengths.eraseIdx dim = B.lengths) ∧
    (are_congruent_along B A dim = true ↔
      A.strides.eraseIdx dim = B.strides ∧ A.lengths.eraseIdx dim = B.lengths) := by
  have h1 : ¬ A.dimension < B.dimension := by omega
  have h2 : ¬ B.dimension = A.dimension := by omega
  have h3 : B.dimension < A.dimension := by omega
  have hl : A.lengths.length = B.lengths.length + 1 := h
  have hs : A.strides.length = B.strides.length + 1 := by omega
  have key : (equal_range A.strides 0 dim B.strides 0
      && equal_range A.strides (dim + 1) A.dimension B.strides dim
      && equal_range A.lengths 0 dim B.lengths 0
      && equal_range A.lengths (dim + 1) A.dimension B.lengths dim) = true ↔
      A.strides.eraseIdx dim = B.strides ∧ A.lengths.eraseIdx dim = B.lengths := by
    simp only [Bool.and_eq_true, equal_range, decide_eq_true_eq, List.drop_zero, Nat.sub_zero]
    have e1 : (A.strides.drop (dim + 1)).take (A.dimension - (dim + 1)) =
        A.strides.drop (dim + 1) := by
      apply List.take_of_length_le
      simp only [List.length_drop, hA]
      exact le_refl _
    have e2 : (B.strides.drop dim).take (A.dimension - (dim + 1)) = B.strides.drop dim := by
      apply List.take_of_length_le
      simp only [List.length_drop]
      omega
    have e3 : (A.lengths.drop (dim + 1)).take (A.dimension - (dim + 1)) =
        A.lengths.drop (dim + 1) := by
      apply List.take_of_length_le
      simp only [List.length_drop, tensor_view.dimension]
      exact le_refl _
    have e4 : (B.lengths.drop dim).take (A.dimension - (dim + 1)) = B.lengths.drop dim := by
      apply List.take_of_length_le
      simp only [List.length_drop, tensor_view.dimension]
      omega
    rw [e1, e2, e3, e4, and_assoc, eraseIdx_eq_iff A.lengths, eraseIdx_eq_iff A.strides]
  constructor
  · simp only [are_congruent_along, if_neg h1, if_neg h2, if_pos h.symm]
    exact key
  · simp only [are_congruent_along, if_pos h3, if_neg h2, if_pos h.symm]
    exact key

theorem are_congruent_along_far (A B : tensor_view) (dim : Nat)
    (h : A.dimension + 2 ≤ B.dimension ∨ B.dimension + 2 ≤ A.dimension) :
    are_congruent_along A B dim = false := by
  rcases h with h | h
  · have h1 : A.dimension < B.dimension := by omega
    have h2 : ¬ A.dimension = B.dimension := by omega
    have h3 : ¬ A.dimension + 1 = B.dimension := by omega
    simp only [are_congruent_along, if_pos h1, if_neg h2, if_neg h3]
  · have h1 : ¬ A.dimension < B.dimension := by omega
    have h2 : ¬ B.dimension = A.dimension := by omega
    have h3 : ¬ B.dimension + 1 = A.dimension := by omega
    simp only [are_congruent_along, if_neg h1, if_neg h2, if_neg h3]


/-! ## Properties of `are_compatible` -/

theorem viterator_offsets_eq_offsets (len : List Int) :
    ∀ stride : List Int, viterator_offsets len stride = offsets len stride := by
  induction len with
  | nil => intro stride; simp [viterator_offsets, offsets, coordinates, offset]
  | cons l len ih =>
    intro stride
    have ht : stride.drop 1 = stride.tail := by cases stride <;> rfl
    have hh : stride.headD 0 = stride.getD 0 0 := by cases stride <;> rfl
    simp only [viterator_offsets, offsets, coordinates, ih, List.map_flatMap, List.flatMap_map,
      List.map_map, Function.comp_def, offset_cons, ht, hh]

theorem permuted_perm (l : List Int) (p : List Nat) (h : p.Perm (List.range l.length)) :
    (permuted l p).Perm l := by
  have e : (List.range l.length).map (fun i => l.getD i 0) = l := by
    apply List.ext_getElem
    · simp
    · intro i h1 h2
      simp only [List.getElem_map, List.getElem_range]
      exact List.getD_eq_getElem _ _ h2
  have := h.map (fun i => l.getD i 0)
  rw [e] at this
  exact this

theorem prod_permuted (l : List Int) (p : List Nat) (h : p.Perm (List.range l.length)) :
    prod (permuted l p) = prod l :=
  (permuted_perm l p h).prod_eq

theorem mem_offsets_iff (l s : List Int) (t : Int) :
    t ∈ offsets l s ↔ [t] ∈ offset_tuples l [s] := by
  simp [offsets, offset_tuples]

theorem axes_permuted (l s : List Int) (p : List Nat) :
    (List.range (permuted l p).length).map (axis_of (permuted l p) [permuted s p] []) =
      p.map (axis_of l [s] []) := by
  apply List.ext_getElem
  · simp [permuted]
  · intro i h1 h2
    simp only [List.length_map] at h2
    have e : ∀ v : List Int, (permuted v p).getD i 0 = v.getD p[i] 0 := by
      intro v
      have hi : i < (permuted v p).length := by simpa [permuted] using h2
      rw [List.getD_eq_getElem _ _ hi]
      simp only [permuted, List.getElem_map]
    simp only [List.getElem_map, List.getElem_range, axis_of, List.map_cons, List.map_nil, e,
      List.getD_nil]

theorem mem_offsets_permuted (l s : List Int) (p : List Nat)
    (h : p.Perm (List.range l.length)) (t : Int) :
    t ∈ offsets (permuted l p) (permuted s p) ↔ t ∈ offsets l s := by
  rw [mem_offsets_iff, mem_offsets_iff, mem_offset_tuples_iff_reach _ _ [],
    mem_offset_tuples_iff_reach _ _ [], axes_permuted]
  exact reach_perm _ (h.map _) _

theorem mem_offsets_in_stride_order (l s : List Int) (t : Int) :
    t ∈ offsets_in_stride_order l s ↔ t ∈ offsets l s :=
  mem_offsets_permuted l s _ (sort_perm _ _) t

theorem are_compatible_eq (lA sA lB sB : List Int) (hA : lA.length = sA.length)
    (hB : lB.length = sB.length) :
    are_compatible lA sA lB sB =
      some (decide (prod lA = prod lB ∧
        offsets_in_stride_order lA sA = offsets_in_stride_order lB sB)) := by
  have pA := prod_permuted lA _ (sort_perm (sort_by_stride [sA]) (range lA.length))
  have pB := prod_permuted lB _ (sort_perm (sort_by_stride [sB]) (range lB.length))
  simp only [are_compatible, ne_eq, hA, hB, not_true_eq_false, if_false, offsets_in_stride_order,
    viterator_offsets_eq_offsets] at pA pB ⊢
  rw [pA, pB]
  by_cases hp : prod lA = prod lB
  · simp [hp]
  · simp [hp]

theorem are_compatible_stride_order (lA sA lB sB : List Int) (hA : lA.length = sA.length)
    (hB : lB.length = sB.length) :
    (are_compatible lA sA lB sB = some true ↔
        prod lA = prod lB ∧
          offsets_in_stride_order lA sA = offsets_in_stride_order lB sB) ∧
      (are_compatible lA sA lB sB = some true →
        prod lA = prod lB ∧ ∀ t, t ∈ offsets lA sA ↔ t ∈ offsets lB sB) ∧
      (are_compatible lA sA lB sB = some true ∨ are_compatible lA sA lB sB = some false) := by
  rw [are_compatible_eq lA sA lB sB hA hB]
  refine ⟨by simp, ?_, ?_⟩
  · intro h
    simp only [Option.some.injEq, decide_eq_true_eq] at h
    refine ⟨h.1, fun t => ?_⟩
    rw [← mem_offsets_in_stride_order lA sA, ← mem_offsets_in_stride_order lB sB, h.2]
  · by_cases h : prod lA = prod lB ∧
        offsets_in_stride_order lA sA = offsets_in_stride_order lB sB
    · left; simp [h]
    · right; simp [h]


/-! ## Properties of `matricize`: offsets through the matrix view -/

theorem offset_nil_left (s : List Int) : offset [] s = 0 := by
  simp [offset]

theorem offset_take_drop (x s : List Int) (k : Nat) :
    offset x s = offset (x.take k) (s.take k) + offset (x.drop k) (s.drop k) := by
  simp only [offset]
  rw [← List.take_zipWith, ← List.drop_zipWith, List.sum_take_add_sum_drop]

theorem colmajor_nil_right (l : List Int) : colmajor l [] = 0 := by
  cases l <;> rfl

theorem rowmajor_nil_right (l : List Int) : rowmajor l [] = 0 := by
  cases l <;> rfl

theorem getD_tail (s : List Int) (i : Nat) : s.tail.getD i 0 = s.getD (i + 1) 0 := by
  cases s <;> simp

theorem getD_take_of_lt (s : List Int) (k j : Nat) (h : j < k) :
    (s.take k).getD j 0 = s.getD j 0 := by
  rw [List.getD_eq_getElem?_getD, List.getD_eq_getElem?_getD, List.getElem?_take_of_lt h]

theorem getD_drop_add (s : List Int) (k j : Nat) :
    (s.drop k).getD j 0 = s.getD (k + j) 0 := by
  rw [List.getD_eq_getElem?_getD, List.getD_eq_getElem?_getD, List.getElem?_drop]

theorem offset_asc_chain (x : List Int) :
    ∀ (l s : List Int), x.length = l.length →
      (∀ i, i + 1 < x.length → s.getD (i + 1) 0 = s.getD i 0 * l.getD i 0) →
      offset x s = s.getD 0 0 * colmajor l x := by
  induction x with
  | nil => intro l s _ _; rw [offset_nil_left, colmajor_nil_right, mul_zero]
  | cons a xs ih =>
    intro l s hl hc
    cases l with
    | nil => simp at hl
    | cons b ls =>
      have hl2 : xs.length = ls.length := by simpa using hl
      have ih2 := ih ls s.tail hl2 (by
        intro i hi
        rw [getD_tail, getD_tail]
        have := hc (i + 1) (by simp only [List.length_cons]; omega)
        simpa using this)
      rw [offset_cons, ih2, colmajor, getD_tail]
      cases xs with
      | nil => rw [colmajor_nil_right]; ring
      | cons a2 xs2 =>
        have h0 := hc 0 (by simp)
        simp only [List.getD_cons_zero, zero_add] at h0
        rw [h0]
        ring

theorem offset_desc_chain (x : List Int) :
    ∀ (l s : List Int), x.length = l.length →
      (∀ i, i + 1 < x.length → s.getD i 0 = s.getD (i + 1) 0 * l.getD (i + 1) 0) →
      offset x s = s.getD (x.length - 1) 0 * rowmajor l x ∧
        (x ≠ [] → s.getD 0 0 = s.getD (x.length - 1) 0 * l.tail.prod) := by
  induction x with
  | nil =>
    intro l s _ _
    refine ⟨?_, fun h => absurd rfl h⟩
    rw [offset_nil_left, rowmajor_nil_right, mul_zero]
  | cons a xs ih =>
    intro l s hl hc
    cases l with
    | nil => simp at hl
    | cons b ls =>
      have hl2 : xs.length = ls.length := by simpa using hl
      have ih2 := ih ls s.tail hl2 (by
        intro i hi
        rw [getD_tail, getD_tail]
        have := hc (i + 1) (by simp only [List.length_cons]; omega)
        simpa using this)
      cases xs with
      | nil =>
        have hls : ls = [] := List.length_eq_zero.mp hl2.symm
        subst hls
        refine ⟨?_, fun _ => ?_⟩
        · rw [offset_cons, offset_nil_left]
          simp [rowmajor]
          ring
        · simp
      | cons a2 xs2 =>
        cases ls with
        | nil => simp at hl2
        | cons b2 ls2 =>
          have h0 : s.getD 0 0 = s.getD 1 0 * b2 := by
            have := hc 0 (by simp)
            simpa using this
          have hn : (a :: a2 :: xs2).length - 1 = (a2 :: xs2).length - 1 + 1 := by simp
          have h1 : s.getD 1 0 = s.getD ((a2 :: xs2).length - 1 + 1) 0 * ls2.prod := by
            have := ih2.2 (by simp)
            rw [getD_tail, getD_tail] at this
            simpa using this
          have h2 : offset (a2 :: xs2) s.tail =
              s.getD ((a2 :: xs2).length - 1 + 1) 0 * rowmajor (b2 :: ls2) (a2 :: xs2) := by
            rw [ih2.1, getD_tail]
          have hr : rowmajor (b :: b2 :: ls2) (a :: a2 :: xs2) =
              a * (b2 :: ls2).prod + rowmajor (b2 :: ls2) (a2 :: xs2) := rfl
          rw [hn]
          generalize s.getD ((a2 :: xs2).length - 1 + 1) 0 = e at h1 h2 ⊢
          have hs0 : s.getD 0 0 = e * (b2 :: ls2).prod := by
            rw [h0, h1, List.prod_cons]
            ring
          refine ⟨?_, fun _ => hs0⟩
          rw [offset_cons, h2, hs0, hr]
          ring

theorem mem_interval (lo hi i : Nat) : i ∈ interval lo hi ↔ lo ≤ i ∧ i < hi := by
  simp only [interval, List.mem_range'_1]
  omega

theorem matricize_asserts_iff (A : tensor_view) (split : Nat) :
    matricize_asserts A split = true ↔
      split ≤ A.dimension ∧
        (if 0 < A.dimension ∧ A.stride 0 < A.stride (A.dimension - 1) then
          (∀ i, 1 ≤ i → i < split → A.stride i = A.stride (i - 1) * A.length (i - 1)) ∧
            (∀ i, split + 1 ≤ i → i < A.dimension →
              A.stride i = A.stride (i - 1) * A.length (i - 1))
        else
          (∀ i, i < split - 1 → A.stride i = A.stride (i + 1) * A.length (i + 1)) ∧
            (∀ i, split ≤ i → i < A.dimension - 1 →
              A.stride i = A.stride (i + 1) * A.length (i + 1))) := by
  unfold matricize_asserts
  simp only [Bool.and_eq_true, decide_eq_true_eq]
  apply and_congr Iff.rfl
  split
  · simp only [Bool.and_eq_true, List.all_eq_true, decide_eq_true_eq, mem_interval, and_imp]
  · simp only [Bool.and_eq_true, List.all_eq_true, decide_eq_true_eq, mem_interval, and_imp,
      Nat.zero_le, true_implies]

theorem asc_iff (A : tensor_view) :
    (0 < A.dimension ∧ A.stride 0 < A.stride (A.dimension - 1)) ↔
      A.stride 0 < A.stride (A.dimension - 1) := by
  constructor
  · exact fun h => h.2
  · intro h
    refine ⟨?_, h⟩
    by_contra h0
    have : A.dimension = 0 := by omega
    rw [this] at h
    exact lt_irrefl _ h

theorem matricize_offset (A : tensor_view) (split : Nat) (x : List Int)
    (ha : matricize_asserts A split = true) (hx : x.length = A.dimension) :
    offset x A.strides =
      matricize_row A split x * matricize_row_stride A split +
        matricize_col A split x * matricize_col_stride A split := by
  rw [matricize_asserts_iff] at ha
  obtain ⟨hs, hc⟩ := ha
  have hd : A.lengths.length = A.dimension := rfl
  have hl1 : (x.take split).length = (A.lengths.take split).length := by
    simp only [List.length_take, hx, hd]
  have hl2 : (x.drop split).length = (A.lengths.drop split).length := by
    simp only [List.length_drop, hx, hd]
  have hxt : (x.take split).length = split := by
    rw [List.length_take, hx]; omega
  have hxd : (x.drop split).length = A.dimension - split := by
    rw [List.length_drop, hx]
  rw [offset_take_drop x A.strides split]
  by_cases hasc : A.stride 0 < A.stride (A.dimension - 1)
  · rw [if_pos ((asc_iff A).mpr hasc)] at hc
    simp only [matricize_row, matricize_col, matricize_row_stride, matricize_col_stride,
      if_pos hasc]
    have e1 := offset_asc_chain (x.take split) (A.lengths.take split) (A.strides.take split)
      hl1 (by
        intro i hi
        rw [hxt] at hi
        rw [getD_take_of_lt _ _ _ hi, getD_take_of_lt _ _ _ (by omega),
          getD_take_of_lt _ _ _ (by omega)]
        exact hc.1 (i + 1) (by omega) hi)
    have e2 := offset_asc_chain (x.drop split) (A.lengths.drop split) (A.strides.drop split)
      hl2 (by
        intro i hi
        rw [hxd] at hi
        rw [getD_drop_add, getD_drop_add, getD_drop_add]
        exact hc.2 (split + (i + 1)) (by omega) (by omega))
    rw [e1, e2, getD_drop_add, add_zero]
    by_cases h0 : split = 0
    · subst h0
      simp only [List.take_zero, colmajor_nil_right, mul_zero, zero_mul, tensor_view.stride]
      ring
    · rw [getD_take_of_lt _ _ _ (by omega)]
      simp only [tensor_view.stride]
      ring
  · rw [if_neg (fun h => hasc ((asc_iff A).mp h))] at hc
    simp only [matricize_row, matricize_col, matricize_row_stride, matricize_col_stride,
      if_neg hasc]
    have e1 := (offset_desc_chain (x.take split) (A.lengths.take split) (A.strides.take split)
      hl1 (by
        intro i hi
        rw [hxt] at hi
        rw [getD_take_of_lt _ _ _ hi, getD_take_of_lt _ _ _ (by omega),
          getD_take_of_lt _ _ _ hi]
        exact hc.1 i (by omega))).1
    have e2 := (offset_desc_chain (x.drop split) (A.lengths.drop split) (A.strides.drop split)
      hl2 (by
        intro i hi
        rw [hxd] at hi
        rw [getD_drop_add, getD_drop_add, getD_drop_add]
        exact hc.2 (split + i) (by omega) (by omega))).1
    rw [e1, e2, hxt, hxd, getD_drop_add]
    have e3 : (A.strides.take split).getD (split - 1) 0 * rowmajor (A.lengths.take split)
        (x.take split) = rowmajor (A.lengths.take split) (x.take split) *
          A.stride (split - 1) := by
      by_cases h0 : split = 0
      · subst h0
        simp only [List.take_zero, rowmajor_nil_right, mul_zero, zero_mul]
      · rw [getD_take_of_lt _ _ _ (by omega)]
        simp only [tensor_view.stride]
        ring
    have e4 : A.strides.getD (split + (A.dimension - split - 1)) 0 *
        rowmajor (A.lengths.drop split) (x.drop split) =
          rowmajor (A.lengths.drop split) (x.drop split) * A.stride (A.dimension - 1) := by
      by_cases h0 : split = A.dimension
      · have hnil : x.drop split = [] := by
          apply List.drop_eq_nil_of_le
          omega
        rw [hnil, rowmajor_nil_right, mul_zero, zero_mul]
      · have : split + (A.dimension - split - 1) = A.dimension - 1 := by omega
        rw [this]
        simp only [tensor_view.stride]
        ring
    rw [e3, e4]

theorem matricize_body_strides_general (A : tensor_view) (split : Nat)
    (hs : split ≤ A.dimension) (hm : (A.lengths.take split).prod ≠ 1)
    (hn : (A.lengths.drop split).prod ≠ 1) :
    (matricize_body A split).strides =
      (matricize_row_stride A split, matricize_col_stride A split) := by
  have h0 : split ≠ 0 := by
    intro h; subst h; exact hm (by simp)
  have h1 : split ≠ A.dimension := by
    intro h; apply hn; rw [h, tensor_view.dimension, List.drop_length]; rfl
  have h2 : A.dimension ≠ 0 := by omega
  simp only [matricize_body, matricize_m_eq A split hs, matricize_n_eq A split hs, if_neg h2,
    if_neg hm, if_neg hn, if_neg h0, if_neg h1, matricize_row_stride, matricize_col_stride]
  split <;> rfl

theorem matricize_body_strides_one_row (A : tensor_view) (split : Nat)
    (hs : split ≤ A.dimension) (h0 : A.dimension ≠ 0) (hm : (A.lengths.take split).prod = 1) :
    (matricize_body A split).strides = ((A.lengths.drop split).prod, 1) := by
  simp only [matricize_body, matricize_m_eq A split hs, matricize_n_eq A split hs, if_neg h0,
    if_pos hm]

theorem matricize_body_strides_one_col (A : tensor_view) (split : Nat)
    (hs : split ≤ A.dimension) (h0 : A.dimension ≠ 0) (hm : (A.lengths.take split).prod ≠ 1)
    (hn : (A.lengths.drop split).prod = 1) :
    (matricize_body A split).strides = (1, (A.lengths.take split).prod) := by
  simp only [matricize_body, matricize_m_eq A split hs, matricize_n_eq A split hs, if_neg h0,
    if_neg hm, if_pos hn]

theorem matricize_eq_some_iff (A : tensor_view) (split : Nat) (AM : matrix_view) :
    matricize A split = some AM ↔
      matricize_asserts A split = true ∧ AM = matricize_body A split := by
  unfold matricize
  split
  · rename_i h
    simp only [Option.some.injEq, h, true_and]
    exact eq_comm
  · rename_i h
    simp [h]

theorem coordinates_length (l : List Int) : ∀ x ∈ coordinates l, x.length = l.length := by
  induction l with
  | nil => intro x hx; simp [coordinates] at hx; simp [hx]
  | cons a l ih =>
    intro x hx
    rw [mem_coordinates_cons] at hx
    obtain ⟨x0, xs, _, _, hxs, rfl⟩ := hx
    simp [ih xs hxs]

theorem coordinates_take (l : List Int) :
    ∀ (k : Nat) (x : List Int), x ∈ coordinates l → x.take k ∈ coordinates (l.take k) := by
  induction l with
  | nil => intro k x hx; simp [coordinates] at hx; simp [hx, coordinates]
  | cons a l ih =>
    intro k x hx
    rw [mem_coordinates_cons] at hx
    obtain ⟨x0, xs, h0, h1, hxs, rfl⟩ := hx
    cases k with
    | zero => simp [coordinates]
    | succ k =>
      rw [List.take_succ_cons, List.take_succ_cons, mem_coordinates_cons]
      exact ⟨x0, xs.take k, h0, h1, ih k xs hxs, rfl⟩

theorem coordinates_drop (l : List Int) :
    ∀ (k : Nat) (x : List Int), x ∈ coordinates l → x.drop k ∈ coordinates (l.drop k) := by
  induction l with
  | nil => intro k x hx; simp [coordinates] at hx; simp [hx, coordinates]
  | cons a l ih =>
    intro k x hx
    cases k with
    | zero => simpa using hx
    | succ k =>
      rw [mem_coordinates_cons] at hx
      obtain ⟨x0, xs, h0, h1, hxs, rfl⟩ := hx
      rw [List.drop_succ_cons, List.drop_succ_cons]
      exact ih k xs hxs

theorem prod_eq_one_of_ge_one (l : List Int) (h : ∀ a ∈ l, 1 ≤ a) (hp : l.prod = 1) :
    ∀ a ∈ l, a = 1 := by
  induction l with
  | nil => intro a ha; simp at ha
  | cons b l ih =>
    have hb : 1 ≤ b := h b (List.mem_cons_self _ _)
    have hl : ∀ a ∈ l, 1 ≤ a := fun a ha => h a (List.mem_cons_of_mem _ ha)
    have hpos : 1 ≤ l.prod := by
      clear ih hp h
      induction l with
      | nil => simp
      | cons c l ih2 =>
        rw [List.prod_cons]
        have hc := hl c (List.mem_cons_self _ _)
        have := ih2 (fun a ha => hl a (List.mem_cons_of_mem _ ha))
        nlinarith
    rw [List.prod_cons] at hp
    have hb1 : b = 1 := by nlinarith
    have hl1 : l.prod = 1 := by rw [hb1, one_mul] at hp; exact hp
    intro a ha
    rcases List.mem_cons.mp ha with rfl | ha
    · exact hb1
    · exact ih hl hl1 a ha

theorem linear_index_zero (l : List Int) (h : ∀ a ∈ l, a = 1) :
    ∀ x ∈ coordinates l, colmajor l x = 0 ∧ rowmajor l x = 0 := by
  induction l with
  | nil => intro x hx; simp [coordinates] at hx; subst hx; exact ⟨rfl, rfl⟩
  | cons b l ih =>
    intro x hx
    rw [mem_coordinates_cons] at hx
    obtain ⟨x0, xs, h0, h1, hxs, rfl⟩ := hx
    have hb : b = 1 := h b (List.mem_cons_self _ _)
    have hx0 : x0 = 0 := by omega
    have := ih (fun a ha => h a (List.mem_cons_of_mem _ ha)) xs hxs
    simp only [colmajor, rowmajor, this.1, this.2, hx0]
    simp

theorem matricize_consistent_general (A : tensor_view) (split : Nat) (AM : matrix_view)
    (h : matricize A split = some AM) (hm : AM.lengths.1 ≠ 1) (hn : AM.lengths.2 ≠ 1)
    (x : List Int) (hx : x.length = A.dimension) :
    offset x A.strides =
      matricize_row A split x * AM.strides.1 + matricize_col A split x * AM.strides.2 := by
  rw [matricize_eq_some_iff] at h
  obtain ⟨ha, rfl⟩ := h
  have hs := matricize_asserts_split A split ha
  rw [matricize_body_lengths A split hs] at hm hn
  rw [matricize_body_strides_general A split hs hm hn]
  exact matricize_offset A split x ha hx

theorem matricize_row_zero (A : tensor_view) (split : Nat) (hlen : ∀ l ∈ A.lengths, 1 ≤ l)
    (hm : (A.lengths.take split).prod = 1) (x : List Int) (hx : x ∈ coordinates A.lengths) :
    matricize_row A split x = 0 := by
  have h1 := prod_eq_one_of_ge_one (A.lengths.take split)
    (fun a ha => hlen a (List.mem_of_mem_take ha)) hm
  have h2 := linear_index_zero _ h1 _ (coordinates_take A.lengths split x hx)
  unfold matricize_row
  split
  · exact h2.1
  · exact h2.2

theorem matricize_col_zero (A : tensor_view) (split : Nat) (hlen : ∀ l ∈ A.lengths, 1 ≤ l)
    (hn : (A.lengths.drop split).prod = 1) (x : List Int) (hx : x ∈ coordinates A.lengths) :
    matricize_col A split x = 0 := by
  have h1 := prod_eq_one_of_ge_one (A.lengths.drop split)
    (fun a ha => hlen a (List.mem_of_mem_drop ha)) hn
  have h2 := linear_index_zero _ h1 _ (coordinates_drop A.lengths split x hx)
  unfold matricize_col
  split
  · exact h2.1
  · exact h2.2

theorem matricize_consistent_in_range (A : tensor_view) (split : Nat) (AM : matrix_view)
    (h : matricize A split = some AM) (hlen : ∀ l ∈ A.lengths, 1 ≤ l)
    (hrow : AM.lengths.1 ≠ 1 → AM.lengths.2 = 1 → matricize_row_stride A split = 1)
    (hcol : AM.lengths.1 = 1 → AM.lengths.2 ≠ 1 → matricize_col_stride A split = 1)
    (x : List Int) (hx : x ∈ coordinates A.lengths) :
    offset x A.strides =
      matricize_row A split x * AM.strides.1 + matricize_col A split x * AM.strides.2 := by
  have hxl : x.length = A.dimension := coordinates_length _ x hx
  by_cases hm : AM.lengths.1 = 1
  · have h2 := h
    rw [matricize_eq_some_iff] at h2
    obtain ⟨ha, rfl⟩ := h2
    have hs := matricize_asserts_split A split ha
    have hoff := matricize_offset A split x ha hxl
    rw [matricize_body_lengths A split hs] at hm hrow hcol
    simp only at hm hrow hcol
    have hr := matricize_row_zero A split hlen hm x hx
    by_cases hn : (A.lengths.drop split).prod = 1
    · have hc := matricize_col_zero A split hlen hn x hx
      rw [hoff, hr, hc]
      ring
    · have h0 : A.dimension ≠ 0 := by
        intro h0
        apply hn
        have : A.lengths = [] := List.length_eq_zero.mp h0
        rw [this]
        simp
      rw [hoff, hr, hcol hm hn, matricize_body_strides_one_row A split hs h0 hm]
      ring
  · by_cases hn : AM.lengths.2 = 1
    · have h2 := h
      rw [matricize_eq_some_iff] at h2
      obtain ⟨ha, rfl⟩ := h2
      have hs := matricize_asserts_split A split ha
      have hoff := matricize_offset A split x ha hxl
      rw [matricize_body_lengths A split hs] at hm hn hrow
      simp only at hm hn hrow
      have hc := matricize_col_zero A split hlen hn x hx
      have h0 : A.dimension ≠ 0 := by
        intro h0
        apply hm
        have : A.lengths = [] := List.length_eq_zero.mp h0
        rw [this]
        simp
      rw [hoff, hc, hrow hm hn, matricize_body_strides_one_col A split hs h0 hm hn]
      ring
    · exact matricize_consistent_general A split AM h hm hn x hxl


/-! ## Properties of the normalization: the invariants of the data model -/

theorem diagonal_body_idx_nodup (AD : tensor_view) (idx : List Char)
    (h : idx.length = AD.dimension) : (diagonal_body AD idx).2.Nodup := by
  rw [diagonal_body_eq AD idx h]
  have hsorted : (sort (sort_by_idx idx) (range AD.dimension)).Pairwise
      (fun a b => idx.getD a default ≤ idx.getD b default) :=
    sort_pairwise_of_comp (fun i => idx.getD i default) _
      (fun a b => by simp [sort_by_idx]) (range AD.dimension)
  have hp := diagonal_kept_pairwise AD idx _ none hsorted
  simp only [List.Nodup, List.pairwise_map]
  exact hp.imp (fun hlt => ne_of_lt hlt)

theorem merge_axes_label_sublist (L : List axis) :
    ((merge_axes L).map (fun a => a.label)).Sublist (L.map (fun a => a.label)) := by
  induction L with
  | nil => simp [merge_axes]
  | cons a rest ih =>
    rw [merge_axes]
    cases hM : merge_axes rest with
    | nil => simp
    | cons m ms =>
      rw [hM] at ih
      simp only
      split
      · simp only [List.map_cons, List.cons_sublist_cons]
        exact (List.sublist_cons_self _ _).trans ih
      · simpa only [List.map_cons, List.cons_sublist_cons] using ih

theorem map_getD_range_char (idx : List Char) :
    (List.range idx.length).map (fun i => idx.getD i default) = idx := by
  apply List.ext_getElem
  · simp
  · intro i h1 h2
    simp only [List.getElem_map, List.getElem_range]
    exact List.getD_eq_getElem _ _ h2

theorem fold_ref_idx_nodup (l : List Int) (s : List (List Int)) (idx : List Char)
    (h : idx.length = l.length) (hn : idx.Nodup) : (fold_ref l s idx).idx.Nodup := by
  rw [fold_ref_eq_columns]
  simp only [columns]
  apply (merge_axes_label_sublist _).nodup
  rw [List.map_map]
  have hperm := sort_perm (fun i j => decide ((s.headD []).getD i 0 < (s.headD []).getD j 0))
    (range l.length)
  have hp2 := hperm.map ((fun a => a.label) ∘ axis_of l s idx)
  apply hp2.nodup_iff.2
  have e : (range l.length).map ((fun a => a.label) ∘ axis_of l s idx) = idx := by
    rw [← h]
    exact map_getD_range_char idx
  rw [e]
  exact hn

theorem fold_ref_idx_length (l : List Int) (s : List (List Int)) (idx : List Char) :
    (fold_ref l s idx).idx.length = (fold_ref l s idx).lengths.length := by
  simp [fold_ref]

theorem fold_ref_strides_length (l : List Int) (s : List (List Int)) (idx : List Char)
    (k : Nat) (hk : k < s.length) :
    ((fold_ref l s idx).strides.getD k []).length = (fold_ref l s idx).lengths.length := by
  simp only [fold_ref, List.getD_eq_getElem?_getD, List.getElem?_map,
    List.getElem?_eq_getElem hk, Option.map_some', Option.getD_some, List.length_map]

theorem label_class_nodup (own : List Char) (keep : Char → Bool) (h : own.Nodup) :
    (label_class own keep).Nodup :=
  ((sort_perm _ own).nodup_iff.2 h).filter _

theorem fold_class_idx_nodup (cls : List Char) (X : tensor_view × List Char)
    (ops : List (tensor_view × List Char)) (h : cls.Nodup) : (fold_class cls X ops).idx.Nodup := by
  apply fold_ref_idx_nodup _ _ _ _ h
  simp [select_from]

theorem nodup_flatMap_of_tags {α β : Type} (g : α → β) (blocks : List (List α × β))
    (h1 : ∀ b ∈ blocks, b.1.Nodup) (h2 : ∀ b ∈ blocks, ∀ x ∈ b.1, g x = b.2)
    (h3 : (blocks.map Prod.snd).Nodup) : (blocks.flatMap Prod.fst).Nodup := by
  induction blocks with
  | nil => simp
  | cons b bs ih =>
    rw [List.flatMap_cons, List.nodup_append]
    rw [List.map_cons, List.nodup_cons] at h3
    refine ⟨h1 b (List.mem_cons_self _ _),
      ih (fun c hc => h1 c (List.mem_cons_of_mem _ hc))
        (fun c hc => h2 c (List.mem_cons_of_mem _ hc)) h3.2, ?_⟩
    intro x hx hx2
    obtain ⟨c, hc, hxc⟩ := List.mem_flatMap.1 hx2
    have e1 := h2 b (List.mem_cons_self _ _) x hx
    have e2 := h2 c (List.mem_cons_of_mem _ hc) x hxc
    apply h3.1
    rw [← e1, e2]
    exact List.mem_map_of_mem _ hc

theorem getD_pair_mem_zip (idx : List Char) (l : List Int) (i : Nat) (h1 : i < idx.length)
    (h2 : i < l.length) : (idx.getD i default, l.getD i 0) ∈ idx.zip l := by
  rw [List.getD_eq_getElem _ _ h1, List.getD_eq_getElem _ _ h2]
  have hi : i < (idx.zip l).length := by simp; omega
  have := List.getElem_mem hi
  rw [List.getElem_zip] at this
  exact this

theorem fold_class_block (cls : List Char) (X : tensor_view × List Char)
    (ops : List (tensor_view × List Char)) (hcls : cls.Nodup)
    (g : Char → Bool × Bool × Bool) (tag : Bool × Bool × Bool) (hg : ∀ x ∈ cls, g x = tag) :
    (fold_class cls X ops).idx.Nodup ∧ (∀ x ∈ (fold_class cls X ops).idx, g x = tag) ∧
      (fold_class cls X ops).idx.length = (fold_class cls X ops).lengths.length :=
  ⟨fold_class_idx_nodup cls X ops hcls,
    fun x hx => hg x (fold_class_idx_subset cls X ops x hx),
    fold_ref_idx_length _ _ _⟩

theorem zip_append4 (i1 i2 i3 i4 : List Char) (l1 l2 l3 l4 : List Int)
    (h1 : i1.length = l1.length) (h2 : i2.length = l2.length) (h3 : i3.length = l3.length) :
    (i1 ++ i2 ++ i3 ++ i4).zip (l1 ++ l2 ++ l3 ++ l4) =
      i1.zip l1 ++ i2.zip l2 ++ i3.zip l3 ++ i4.zip l4 := by
  rw [List.zip_append (by simp [h1, h2, h3]), List.zip_append (by simp [h1, h2]),
    List.zip_append h1]

theorem assemble_tagged (g : Char → Bool × Bool × Bool)
    (fA fB fC fAB fAC fBC fABC : fold_state)
    (hA : fA.idx.Nodup ∧ (∀ x ∈ fA.idx, g x = (true, false, false)) ∧
      fA.idx.length = fA.lengths.length)
    (hB : fB.idx.Nodup ∧ (∀ x ∈ fB.idx, g x = (false, true, false)) ∧
      fB.idx.length = fB.lengths.length)
    (hC : fC.idx.Nodup ∧ (∀ x ∈ fC.idx, g x = (false, false, true)) ∧
      fC.idx.length = fC.lengths.length)
    (hAB : fAB.idx.Nodup ∧ (∀ x ∈ fAB.idx, g x = (true, true, false)) ∧
      fAB.idx.length = fAB.lengths.length)
    (hAC : fAC.idx.Nodup ∧ (∀ x ∈ fAC.idx, g x = (true, false, true)) ∧
      fAC.idx.length = fAC.lengths.length)
    (hBC : fBC.idx.Nodup ∧ (∀ x ∈ fBC.idx, g x = (false, true, true)) ∧
      fBC.idx.length = fBC.lengths.length)
    (hABC : fABC.idx.Nodup ∧ (∀ x ∈ fABC.idx, g x = (true, true, true)) ∧
      fABC.idx.length = fABC.lengths.length)
    (dA dB dC : Int) (sA sB sC : List Int) :
    ∃ T : List (Char × Int), (T.map Prod.fst).Nodup ∧
      ∀ X ∈ [((⟨fA.lengths ++ fAB.lengths ++ fAC.lengths ++ fABC.lengths, dA, sA⟩ : tensor_view),
                fA.idx ++ fAB.idx ++ fAC.idx ++ fABC.idx),
              ((⟨fB.lengths ++ fAB.lengths ++ fBC.lengths ++ fABC.lengths, dB, sB⟩ : tensor_view),
                fB.idx ++ fAB.idx ++ fBC.idx ++ fABC.idx),
              ((⟨fC.lengths ++ fAC.lengths ++ fBC.lengths ++ fABC.lengths, dC, sC⟩ : tensor_view),
                fC.idx ++ fAC.idx ++ fBC.idx ++ fABC.idx)],
        X.2.length = X.1.dimension ∧ X.2.Nodup ∧ ∀ p ∈ X.2.zip X.1.lengths, p ∈ T := by
  refine ⟨fA.idx.zip fA.lengths ++ fB.idx.zip fB.lengths ++ fC.idx.zip fC.lengths ++
    fAB.idx.zip fAB.lengths ++ fAC.idx.zip fAC.lengths ++ fBC.idx.zip fBC.lengths ++
    fABC.idx.zip fABC.lengths, ?_, ?_⟩
  · have hn := nodup_flatMap_of_tags g
      [(fA.idx, (true, false, false)), (fB.idx, (false, true, false)),
        (fC.idx, (false, false, true)), (fAB.idx, (true, true, false)),
        (fAC.idx, (true, false, true)), (fBC.idx, (false, true, true)),
        (fABC.idx, (true, true, true))]
      (by
        intro b hb
        simp only [List.mem_cons, List.mem_singleton, List.not_mem_nil, or_false] at hb
        rcases hb with rfl | rfl | rfl | rfl | rfl | rfl | rfl
        · exact hA.1
        · exact hB.1
        · exact hC.1
        · exact hAB.1
        · exact hAC.1
        · exact hBC.1
        · exact hABC.1)
      (by
        intro b hb
        simp only [List.mem_cons, List.mem_singleton, List.not_mem_nil, or_false] at hb
        rcases hb with rfl | rfl | rfl | rfl | rfl | rfl | rfl
        · exact hA.2.1
        · exact hB.2.1
        · exact hC.2.1
        · exact hAB.2.1
        · exact hAC.2.1
        · exact hBC.2.1
        · exact hABC.2.1)
      (by simp only [List.map_cons, List.map_nil]; decide)
    simp only [List.flatMap_cons, List.flatMap_nil, List.append_nil] at hn
    simp only [List.map_append, List.map_fst_zip _ _ (le_of_eq hA.2.2),
      List.map_fst_zip _ _ (le_of_eq hB.2.2), List.map_fst_zip _ _ (le_of_eq hC.2.2),
      List.map_fst_zip _ _ (le_of_eq hAB.2.2), List.map_fst_zip _ _ (le_of_eq hAC.2.2),
      List.map_fst_zip _ _ (le_of_eq hBC.2.2), List.map_fst_zip _ _ (le_of_eq hABC.2.2)]
    simpa only [List.append_assoc] using hn
  · intro X hX
    simp only [List.mem_cons, List.mem_singleton, List.not_mem_nil, or_false] at hX
    rcases hX with rfl | rfl | rfl
    · refine ⟨?_, ?_, ?_⟩
      · simp only [tensor_view.dimension, List.length_append, hA.2.2, hAB.2.2, hAC.2.2,
          hABC.2.2]
      · have hn := nodup_flatMap_of_tags g
          [(fA.idx, (true, false, false)), (fAB.idx, (true, true, false)),
            (fAC.idx, (true, false, true)), (fABC.idx, (true, true, true))]
          (by
            intro b hb
            simp only [List.mem_cons, List.mem_singleton, List.not_mem_nil, or_false] at hb
            rcases hb with rfl | rfl | rfl | rfl
            · exact hA.1
            · exact hAB.1
            · exact hAC.1
            · exact hABC.1)
          (by
            intro b hb
            simp only [List.mem_cons, List.mem_singleton, List.not_mem_nil, or_false] at hb
            rcases hb with rfl | rfl | rfl | rfl
            · exact hA.2.1
            · exact hAB.2.1
            · exact hAC.2.1
            · exact hABC.2.1)
          (by simp only [List.map_cons, List.map_nil]; decide)
        simp only [List.flatMap_cons, List.flatMap_nil, List.append_nil] at hn
        simpa only [List.append_assoc] using hn
      · intro p hp
        simp only [] at hp
        rw [zip_append4 _ _ _ _ _ _ _ _ hA.2.2 hAB.2.2 hAC.2.2] at hp
        simp only [List.mem_append] at hp ⊢
        tauto
    · refine ⟨?_, ?_, ?_⟩
      · simp only [tensor_view.dimension, List.length_append, hB.2.2, hAB.2.2, hBC.2.2,
          hABC.2.2]
      · have hn := nodup_flatMap_of_tags g
          [(fB.idx, (false, true, false)), (fAB.idx, (true, true, false)),
            (fBC.idx, (false, true, true)), (fABC.idx, (true, true, true))]
          (by
            intro b hb
            simp only [List.mem_cons, List.mem_singleton, List.not_mem_nil, or_false] at hb
            rcases hb with rfl | rfl | rfl | rfl
            · exact hB.1
            · exact hAB.1
            · exact hBC.1
            · exact hABC.1)
          (by
            intro b hb
            simp only [List.mem_cons, List.mem_singleton, List.not_mem_nil, or_false] at hb
            rcases hb with rfl | rfl | rfl | rfl
            · exact hB.2.1
            · exact hAB.2.1
            · exact hBC.2.1
            · exact hABC.2.1)
          (by simp only [List.map_cons, List.map_nil]; decide)
        simp only [List.flatMap_cons, List.flatMap_nil, List.append_nil] at hn
        simpa only [List.append_assoc] using hn
      · intro p hp
        simp only [] at hp
        rw [zip_append4 _ _ _ _ _ _ _ _ hB.2.2 hAB.2.2 hBC.2.2] at hp
        simp only [List.mem_append] at hp ⊢
        tauto
    · refine ⟨?_, ?_, ?_⟩
      · simp only [tensor_view.dimension, List.length_append, hC.2.2, hAC.2.2, hBC.2.2,
          hABC.2.2]
      · have hn := nodup_flatMap_of_tags g
          [(fC.idx, (false, false, true)), (fAC.idx, (true, false, true)),
            (fBC.idx, (false, true, true)), (fABC.idx, (true, true, true))]
          (by
            intro b hb
            simp only [List.mem_cons, List.mem_singleton, List.not_mem_nil, or_false] at hb
            rcases hb with rfl | rfl | rfl | rfl
            · exact hC.1
            · exact hAC.1
            · exact hBC.1
            · exact hABC.1)
          (by
            intro b hb
            simp only [List.mem_cons, List.mem_singleton, List.not_mem_nil, or_false] at hb
            rcases hb with rfl | rfl | rfl | rfl
            · exact hC.2.1
            · exact hAC.2.1
            · exact hBC.2.1
            · exact hABC.2.1)
          (by simp only [List.map_cons, List.map_nil]; decide)
        simp only [List.flatMap_cons, List.flatMap_nil, List.append_nil] at hn
        simpa only [List.append_assoc] using hn
      · intro p hp
        simp only [] at hp
        rw [zip_append4 _ _ _ _ _ _ _ _ hC.2.2 hAC.2.2 hBC.2.2] at hp
        simp only [List.mem_append] at hp ⊢
        tauto

theorem label_class_tag (own a b c : List Char) (keep : Char → Bool)
    (tag : Bool × Bool × Bool)
    (h : ∀ x, x ∈ own → keep x = true →
      (decide (x ∈ a), decide (x ∈ b), decide (x ∈ c)) = tag) :
    ∀ x ∈ label_class own keep, (decide (x ∈ a), decide (x ∈ b), decide (x ∈ c)) = tag := by
  intro x hx
  rw [mem_label_class] at hx
  exact h x hx.1 hx.2

theorem fold_ABC_ref_tagged (AF : tensor_view) (a : List Char) (BF : tensor_view)
    (b : List Char) (CF : tensor_view) (c : List Char)
    (ha : a.Nodup) (hb : b.Nodup) (hc : c.Nodup) :
    ∃ T : List (Char × Int), (T.map Prod.fst).Nodup ∧
      ∀ X ∈ [(fold_ABC_ref AF a BF b CF c).1, (fold_ABC_ref AF a BF b CF c).2.1,
          (fold_ABC_ref AF a BF b CF c).2.2],
        X.2.length = X.1.dimension ∧ X.2.Nodup ∧ ∀ p ∈ X.2.zip X.1.lengths, p ∈ T :=
  assemble_tagged (fun x => (decide (x ∈ a), decide (x ∈ b), decide (x ∈ c)))
    (fold_class (label_class a (fun x => !decide (x ∈ b) && !decide (x ∈ c))) (AF, a) [(AF, a)])
    (fold_class (label_class b (fun x => !decide (x ∈ a) && !decide (x ∈ c))) (BF, b) [(BF, b)])
    (fold_class (label_class c (fun x => !decide (x ∈ a) && !decide (x ∈ b))) (CF, c) [(CF, c)])
    (fold_class (label_class a (fun x => decide (x ∈ b) && !decide (x ∈ c))) (AF, a)
      [(AF, a), (BF, b)])
    (fold_class (label_class a (fun x => decide (x ∈ c) && !decide (x ∈ b))) (AF, a)
      [(AF, a), (CF, c)])
    (fold_class (label_class b (fun x => decide (x ∈ c) && !decide (x ∈ a))) (BF, b)
      [(BF, b), (CF, c)])
    (fold_class (label_class a (fun x => decide (x ∈ b) && decide (x ∈ c))) (AF, a)
      [(AF, a), (BF, b), (CF, c)])
    (fold_class_block _ _ _ (label_class_nodup a _ ha) _ _
      (label_class_tag a a b c _ _ (by intro x h1 h2; simp_all)))
    (fold_class_block _ _ _ (label_class_nodup b _ hb) _ _
      (label_class_tag b a b c _ _ (by intro x h1 h2; simp_all)))
    (fold_class_block _ _ _ (label_class_nodup c _ hc) _ _
      (label_class_tag c a b c _ _ (by intro x h1 h2; simp_all)))
    (fold_class_block _ _ _ (label_class_nodup a _ ha) _ _
      (label_class_tag a a b c _ _ (by intro x h1 h2; simp_all)))
    (fold_class_block _ _ _ (label_class_nodup a _ ha) _ _
      (label_class_tag a a b c _ _ (by intro x h1 h2; simp_all)))
    (fold_class_block _ _ _ (label_class_nodup b _ hb) _ _
      (label_class_tag b a b c _ _ (by intro x h1 h2; simp_all)))
    (fold_class_block _ _ _ (label_class_nodup a _ ha) _ _
      (label_class_tag a a b c _ _ (by intro x h1 h2; simp_all)))
    AF.data BF.data CF.data _ _ _

theorem invariants_of_tagged (ops : List (tensor_view × List Char)) (T : List (Char × Int))
    (hT : (T.map Prod.fst).Nodup)
    (h : ∀ X ∈ ops, X.2.length = X.1.dimension ∧ X.2.Nodup ∧ ∀ p ∈ X.2.zip X.1.lengths, p ∈ T) :
    sizes_agree ops ∧ (∀ X ∈ ops, X.2.Nodup) ∧ lengths_agree ops := by
  refine ⟨fun X hX => (h X hX).1, fun X hX => (h X hX).2.1, ?_⟩
  intro X hX Y hY i hi j hj e
  have hXi := (h X hX).2.2 _ (getD_pair_mem_zip X.2 X.1.lengths i (by rw [(h X hX).1]; exact hi) hi)
  have hYj := (h Y hY).2.2 _ (getD_pair_mem_zip Y.2 Y.1.lengths j (by rw [(h Y hY).1]; exact hj) hj)
  have := List.inj_on_of_nodup_map hT hXi hYj e
  exact congrArg Prod.snd this

theorem fold_ABC_body_invariants (AF : tensor_view) (a : List Char) (BF : tensor_view)
    (b : List Char) (CF : tensor_view) (c : List Char)
    (ha : a.Nodup) (hb : b.Nodup) (hc : c.Nodup) :
    sizes_agree [(fold_ABC_body AF a BF b CF c).1, (fold_ABC_body AF a BF b CF c).2.1,
        (fold_ABC_body AF a BF b CF c).2.2] ∧
      (∀ X ∈ [(fold_ABC_body AF a BF b CF c).1, (fold_ABC_body AF a BF b CF c).2.1,
        (fold_ABC_body AF a BF b CF c).2.2], X.2.Nodup) ∧
      lengths_agree [(fold_ABC_body AF a BF b CF c).1, (fold_ABC_body AF a BF b CF c).2.1,
        (fold_ABC_body AF a BF b CF c).2.2] := by
  rw [fold_ABC_body_eq_ref]
  obtain ⟨T, hT, h⟩ := fold_ABC_ref_tagged AF a BF b CF c ha hb hc
  exact invariants_of_tagged _ T hT h

theorem fold_ABC_eq_some (AF : tensor_view) (a : List Char) (BF : tensor_view)
    (b : List Char) (CF : tensor_view) (c : List Char)
    (r : (tensor_view × List Char) × (tensor_view × List Char) × (tensor_view × List Char))
    (h : fold_ABC AF a BF b CF c = some r) : r = fold_ABC_body AF a BF b CF c := by
  unfold fold_ABC at h
  split at h
  · exact (Option.some.inj h).symm
  · cases h

theorem normalize_ABC_eq_some (A : tensor_view) (idx_A : List Char) (B : tensor_view)
    (idx_B : List Char) (C : tensor_view) (idx_C : List Char)
    (n : (tensor_view × List Char) × (tensor_view × List Char) × (tensor_view × List Char))
    (h : normalize_ABC A idx_A B idx_B C idx_C = some n) :
    n = fold_ABC_body (diagonal_body A idx_A).1 (diagonal_body A idx_A).2
      (diagonal_body B idx_B).1 (diagonal_body B idx_B).2
      (diagonal_body C idx_C).1 (diagonal_body C idx_C).2 := by
  unfold normalize_ABC at h
  cases hA : diagonal A idx_A with
  | none => rw [hA] at h; cases h
  | some a =>
    cases hB : diagonal B idx_B with
    | none => rw [hA, hB] at h; cases h
    | some b =>
      cases hC : diagonal C idx_C with
      | none => rw [hA, hB, hC] at h; cases h
      | some c =>
        rw [hA, hB, hC] at h
        have ea := diagonal_eq_some A idx_A a hA
        have eb := diagonal_eq_some B idx_B b hB
        have ec := diagonal_eq_some C idx_C c hC
        subst ea eb ec
        exact fold_ABC_eq_some _ _ _ _ _ _ n h

theorem normalize_ABC_invariants (A : tensor_view) (idx_A : List Char) (B : tensor_view)
    (idx_B : List Char) (C : tensor_view) (idx_C : List Char)
    (has_A_only has_B_only has_C_only has_AB has_AC has_BC has_ABC : Bool)
    (h : check_tensor_indices_ABC A idx_A B idx_B C idx_C has_A_only has_B_only has_C_only
        has_AB has_AC has_BC has_ABC = some 0) :
    ∃ f, f = fold_ABC_body (diagonal_body A idx_A).1 (diagonal_body A idx_A).2
        (diagonal_body B idx_B).1 (diagonal_body B idx_B).2
        (diagonal_body C idx_C).1 (diagonal_body C idx_C).2 ∧
      (∀ n, normalize_ABC A idx_A B idx_B C idx_C = some n → n = f) ∧
      sizes_agree [f.1, f.2.1, f.2.2] ∧ (∀ X ∈ [f.1, f.2.1, f.2.2], X.2.Nodup) ∧
      lengths_agree [f.1, f.2.1, f.2.2] := by
  have hs := ((check_tensor_indices_ABC_classes_iff A idx_A B idx_B C idx_C _ _ _ _ _ _ _).1 h).1
  rw [sizes_agree_ABC_iff] at hs
  refine ⟨_, rfl, fun n hn => normalize_ABC_eq_some A idx_A B idx_B C idx_C n hn, ?_⟩
  exact fold_ABC_body_invariants _ _ _ _ _ _ (diagonal_body_idx_nodup A idx_A hs.1)
    (diagonal_body_idx_nodup B idx_B hs.2.1) (diagonal_body_idx_nodup C idx_C hs.2.2)


/-! ## Properties of the one-operand primitives -/

theorem dispatch_A_shape {ρ : Type} (chk : Option Int) (dA : Option (tensor_view × List Char))
    (k : tensor_view × List Char → ρ) :
    (chk.bind fun _ => dA.bind fun a => (fold_A a.1 a.2).bind fun f => some (k f)) =
      chk.bind (fun _ => (dA.bind fun a => fold_A a.1 a.2).map k) := by
  cases chk with
  | none => rfl
  | some z =>
    cases dA with
    | none => rfl
    | some a =>
      simp only [Option.bind]
      cases fold_A a.1 a.2 <;> rfl

theorem tensor_scale_eq {T : Type} (impl : T → tensor_view → List Char → Int)
    (alpha : T) (A : tensor_view) (idx_A : List Char) :
    tensor_scale impl alpha A idx_A =
      (check_tensor_indices A idx_A).bind
        (fun _ => (normalize_A A idx_A).map (fun f => impl alpha f.1 f.2)) :=
  dispatch_A_shape _ _ _

theorem tensor_reduce_eq {T reduce_t : Type}
    (impl : reduce_t → tensor_view → List Char → Int × T × Int)
    (op : reduce_t) (A : tensor_view) (idx_A : List Char) :
    tensor_reduce impl op A idx_A =
      (check_tensor_indices A idx_A).bind
        (fun _ => (normalize_A A idx_A).map (fun f => impl op f.1 f.2)) :=
  dispatch_A_shape _ _ _

theorem slice_back_body_a1_data (A : tensor_view) (dim : Nat) :
    (slice_back_body A dim).2.data = A.data + (A.length dim - 1) * A.stride (dim + 1) := by
  simp only [slice_back_body, tensor_view.stride, List.getD_eq_getElem?_getD,
    List.getElem?_eraseIdx_of_ge _ _ _ (le_refl dim)]


/-! ## Properties of `partition` and of the reads of `slice`: lengths and ranges -/

theorem forall_ge_one_set_iff (l : List Int) (dim : Nat) (a : Int) (hdim : dim < l.length)
    (hl : ∀ x ∈ l, 1 ≤ x) : (∀ x ∈ l.set dim a, 1 ≤ x) ↔ 1 ≤ a := by
  constructor
  · intro h
    apply h
    rw [List.mem_iff_getElem]
    exact ⟨dim, by simpa using hdim, by simp⟩
  · intro ha x hx
    rcases List.mem_or_eq_of_mem_set hx with h | h
    · exact hl x h
    · rw [h]; exact ha

theorem zero_mem_set_iff (l : List Int) (dim : Nat) (a : Int) (hdim : dim < l.length)
    (hl : ∀ x ∈ l, 1 ≤ x) : 0 ∈ l.set dim a ↔ a = 0 := by
  constructor
  · intro h
    rcases List.mem_or_eq_of_mem_set h with h | h
    · have := hl 0 h
      omega
    · exact h.symm
  · intro ha
    rw [List.mem_iff_getElem]
    exact ⟨dim, by simpa using hdim, by simp [ha]⟩

theorem partition_lengths (A : tensor_view) (dim : Nat) (off : Int)
    (hdim : dim < A.dimension) (hlen : ∀ l ∈ A.lengths, 1 ≤ l) (h0 : 0 ≤ off)
    (h1 : off ≤ A.length dim) :
    ∃ A0 A1, partition A dim off = some (A0, A1) ∧
      (0 ∈ A0.lengths ↔ off = 0) ∧ (0 ∈ A1.lengths ↔ off = A.length dim) ∧
      ((∀ l ∈ A0.lengths, 1 ≤ l) ↔ 0 < off) ∧
      ((∀ l ∈ A1.lengths, 1 ≤ l) ↔ off < A.length dim) := by
  have hm : min off (A.length dim) = off := min_eq_left h1
  refine ⟨_, _, partition_eq_some A dim off hdim h0, ?_, ?_, ?_, ?_⟩
  · simp only [hm]
    exact zero_mem_set_iff _ _ _ hdim hlen
  · simp only [hm]
    rw [zero_mem_set_iff _ _ _ hdim hlen]
    omega
  · simp only [hm]
    rw [forall_ge_one_set_iff _ _ _ hdim hlen]
    omega
  · simp only [hm]
    rw [forall_ge_one_set_iff _ _ _ hdim hlen]
    omega

theorem slice_a1_stride_read_eq (A : tensor_view) (dim : Nat) :
    slice_a1_stride_read A dim = A.strides[dim + 1]? := by
  simp only [slice_a1_stride_read, List.getElem?_eraseIdx_of_ge _ _ _ (le_refl dim)]

theorem slice_a1_stride_read_none_iff (A : tensor_view) (dim : Nat)
    (hs : A.strides.length = A.dimension) (hdim : dim < A.dimension) :
    slice_a1_stride_read A dim = none ↔ dim + 1 = A.dimension := by
  rw [slice_a1_stride_read_eq, List.getElem?_eq_none_iff]
  omega

theorem slice_body_a1_data_read (A : tensor_view) (dim : Nat) (off : Int) :
    (slice_body A dim off).2.1.data = A.data + off * (slice_a1_stride_read A dim).getD 0 ∧
      (slice_back_body A dim).2.data =
        A.data + (A.length dim - 1) * (slice_a1_stride_read A dim).getD 0 := by
  simp only [slice_body, slice_back_body, slice_a1_stride_read, List.getD_eq_getElem?_getD,
    and_self]


/-! ## Properties of `diagonal` on distinct labels -/

theorem diagonal_loop_ok (AD : tensor_view) (idx : List Char) (inds : List Nat) :
    ∀ (prev : Option Nat) (st : diagonal_state),
      (∀ p, prev = some p → ∀ i ∈ inds, idx.getD i default ≠ idx.getD p default) →
      inds.Pairwise (fun a b => idx.getD a default ≠ idx.getD b default) →
      (diagonal_loop AD idx prev inds st).ok = st.ok := by
  induction inds with
  | nil => intro prev st _ _; rfl
  | cons cur rest ih =>
    intro prev st hp hpw
    rw [List.pairwise_cons] at hpw
    have hnext : ∀ p, some cur = some p → ∀ i ∈ rest,
        idx.getD i default ≠ idx.getD p default := by
      intro p hpc i hi
      cases hpc
      exact fun e => hpw.1 i hi e.symm
    have hall : prev.all (fun p => decide (idx.getD cur default ≠ idx.getD p default)) = true := by
      cases prev with
      | none => rfl
      | some p =>
        simp only [Option.all_some, decide_eq_true_eq]
        exact hp p rfl cur (List.mem_cons_self _ _)
    rw [diagonal_loop, ih (some cur) _ hnext hpw.2, diagonal_step]
    by_cases hl : AD.length cur = 1
    · rw [if_pos hl]
    · rw [if_neg hl, if_pos hall]

theorem diagonal_kept_eq_filter (AD : tensor_view) (idx : List Char) (inds : List Nat) :
    ∀ (prev : Option Nat),
      (∀ p, prev = some p → ∀ i ∈ inds, idx.getD i default ≠ idx.getD p default) →
      inds.Pairwise (fun a b => idx.getD a default ≠ idx.getD b default) →
      diagonal_kept AD idx prev inds = inds.filter (fun i => decide (AD.length i ≠ 1)) := by
  induction inds with
  | nil => intro prev _ _; rfl
  | cons cur rest ih =>
    intro prev hp hpw
    rw [List.pairwise_cons] at hpw
    have hnext : ∀ p, some cur = some p → ∀ i ∈ rest,
        idx.getD i default ≠ idx.getD p default := by
      intro p hpc i hi
      cases hpc
      exact fun e => hpw.1 i hi e.symm
    have hall : prev.all (fun p => decide (idx.getD cur default ≠ idx.getD p default)) = true := by
      cases prev with
      | none => rfl
      | some p =>
        simp only [Option.all_some, decide_eq_true_eq]
        exact hp p rfl cur (List.mem_cons_self _ _)
    rw [diagonal_kept, ih (some cur) hnext hpw.2, List.filter_cons]
    by_cases hl : AD.length cur = 1
    · rw [if_neg (fun hc => hc.1 hl), if_neg (by simpa using hl)]
    · rw [if_pos ⟨hl, hall⟩, if_pos (by simpa using hl)]

theorem sorted_range_labels_distinct (idx : List Char) (n : Nat) (h : idx.length = n)
    (hn : idx.Nodup) (comp : Nat → Nat → Bool) :
    (sort comp (range n)).Pairwise (fun a b => idx.getD a default ≠ idx.getD b default) := by
  have hperm := (sort_perm comp (range n)).map (fun i => idx.getD i default)
  have e : (range n).map (fun i => idx.getD i default) = idx := by
    rw [← h]; exact map_getD_range_char idx
  rw [e] at hperm
  have := hperm.nodup_iff.2 hn
  rw [List.Nodup, List.pairwise_map] at this
  exact this

theorem diagonal_distinct (AD : tensor_view) (idx : List Char) (h : idx.length = AD.dimension)
    (hn : idx.Nodup) : diagonal AD idx = some (diagonal_distinct_ref AD idx) := by
  have hpw := sorted_range_labels_distinct idx AD.dimension h hn (sort_by_idx idx)
  have hok : (diagonal_run AD idx).ok = true := by
    rw [diagonal_run]
    exact diagonal_loop_ok AD idx _ none _ (fun p hp => by cases hp) hpw
  have hk := diagonal_kept_eq_filter AD idx _ none (fun p hp => by cases hp) hpw
  rw [diagonal, if_neg (by rw [h]; exact fun hne => hne rfl), if_pos hok,
    diagonal_body_eq AD idx h, hk]
  rfl

theorem offset_cons_right (y : List Int) (s : Int) (ss : List Int) :
    offset y (s :: ss) = y.getD 0 0 * s + offset y.tail ss := by
  cases y with
  | nil => simp [offset]
  | cons a ys => simp [offset]

theorem offset_eq_sum_range (x : List Int) :
    ∀ s : List Int, offset x s =
      ((List.range x.length).map (fun i => x.getD i 0 * s.getD i 0)).sum := by
  induction x with
  | nil => intro s; simp [offset]
  | cons a xs ih =>
    intro s
    rw [offset_cons, ih, List.length_cons, List.range_succ_eq_map, List.map_cons, List.sum_cons,
      List.map_map]
    congr 1
    congr 1
    apply List.map_congr_left
    intro i _
    simp only [Function.comp, List.getD_cons_succ, getD_tail]

theorem sum_filter_of_zero (l : List Nat) (p : Nat → Bool) (f : Nat → Int)
    (h : ∀ i ∈ l, p i = false → f i = 0) :
    ((l.filter p).map f).sum = (l.map f).sum := by
  induction l with
  | nil => rfl
  | cons a l ih =>
    have ih2 := ih (fun i hi => h i (List.mem_cons_of_mem _ hi))
    rw [List.filter_cons]
    by_cases hp : p a = true
    · rw [if_pos hp, List.map_cons, List.sum_cons, ih2, List.map_cons, List.sum_cons]
    · have h0 := h a (List.mem_cons_self _ _) (by simpa using hp)
      rw [if_neg hp, ih2, List.map_cons, List.sum_cons, h0, zero_add]

theorem sum_indexOf_eq_offset (lab : Nat → Char) (sv : Nat → Int) (K : List Nat) :
    ∀ y : List Int, (K.map lab).Nodup →
      (K.map (fun i => y.getD ((K.map lab).indexOf (lab i)) 0 * sv i)).sum =
        offset y (K.map sv) := by
  induction K with
  | nil => intro y _; simp [offset]
  | cons k K ih =>
    intro y hn
    rw [List.map_cons, List.nodup_cons] at hn
    rw [List.map_cons, List.map_cons, List.sum_cons, List.map_cons, offset_cons_right,
      ← ih y.tail hn.2, List.indexOf_cons_self]
    congr 1
    congr 1
    apply List.map_congr_left
    intro i hi
    have hne : lab i ≠ lab k := by
      intro e
      apply hn.1
      rw [← e]
      exact List.mem_map_of_mem _ hi
    rw [List.indexOf_cons_ne _ (Ne.symm hne), getD_tail]

theorem getD_inj_of_nodup (idx : List Char) (hn : idx.Nodup) (i k : Nat) (hi : i < idx.length)
    (hk : k < idx.length) (e : idx.getD i default = idx.getD k default) : i = k := by
  rw [List.getD_eq_getElem _ _ hi, List.getD_eq_getElem _ _ hk] at e
  exact (List.Nodup.getElem_inj_iff hn).1 e

theorem mem_diagonal_distinct_axes (AD : tensor_view) (idx : List Char) (i : Nat) :
    i ∈ diagonal_distinct_axes AD idx ↔ i < AD.dimension ∧ AD.length i ≠ 1 := by
  simp only [diagonal_distinct_axes, List.mem_filter, mem_sorted_range, decide_eq_true_eq]

theorem diagonal_distinct_axes_nodup (AD : tensor_view) (idx : List Char) :
    (diagonal_distinct_axes AD idx).Nodup := by
  apply List.Nodup.filter
  rw [(sort_perm _ _).nodup_iff]
  exact List.nodup_range _

theorem diagonal_distinct_labels_nodup (AD : tensor_view) (idx : List Char)
    (h : idx.length = AD.dimension) (hn : idx.Nodup) :
    ((diagonal_distinct_axes AD idx).map (fun i => idx.getD i default)).Nodup := by
  have hpw := sorted_range_labels_distinct idx AD.dimension h hn (sort_by_idx idx)
  rw [List.Nodup, List.pairwise_map]
  exact hpw.sublist (List.filter_sublist _)

theorem diagonal_distinct_labels_increasing (AD : tensor_view) (idx : List Char)
    (h : idx.length = AD.dimension) (hn : idx.Nodup) :
    (diagonal_distinct_ref AD idx).2.Pairwise (fun a b => a < b) := by
  have hsorted : (sort (sort_by_idx idx) (range AD.dimension)).Pairwise
      (fun a b => idx.getD a default ≤ idx.getD b default) :=
    sort_pairwise_of_comp (fun i => idx.getD i default) _
      (fun a b => by simp [sort_by_idx]) (range AD.dimension)
  have hpw := sorted_range_labels_distinct idx AD.dimension h hn (sort_by_idx idx)
  have hlt : (sort (sort_by_idx idx) (range AD.dimension)).Pairwise
      (fun a b => idx.getD a default < idx.getD b default) := by
    have := hsorted.and hpw
    exact this.imp (fun hab => lt_of_le_of_ne hab.1 hab.2)
  simp only [diagonal_distinct_ref, diagonal_distinct_axes, List.pairwise_map]
  exact hlt.sublist (List.filter_sublist _)

theorem diagonal_distinct_offset (AD : tensor_view) (idx : List Char)
    (h : idx.length = AD.dimension) (hn : idx.Nodup) (y : List Int) :
    offset (diagonal_preimage idx (diagonal_distinct_ref AD idx).2 y) AD.strides =
      offset y (diagonal_distinct_ref AD idx).1.strides := by
  have hJn := diagonal_distinct_labels_nodup AD idx h hn
  simp only [diagonal_distinct_ref]
  rw [← sum_indexOf_eq_offset (fun i => idx.getD i default) (fun i => AD.stride i) _ y hJn,
    offset_eq_sum_range]
  have hxl : (diagonal_preimage idx
      ((diagonal_distinct_axes AD idx).map (fun i => idx.getD i default)) y).length =
        AD.dimension := by
    simp [diagonal_preimage, h]
  rw [hxl]
  have e1 : (List.range AD.dimension).map (fun i =>
      (diagonal_preimage idx
        ((diagonal_distinct_axes AD idx).map (fun i => idx.getD i default)) y).getD i 0 *
          AD.strides.getD i 0) =
      (List.range AD.dimension).map (fun i =>
        (if idx.getD i default ∈
            (diagonal_distinct_axes AD idx).map (fun i => idx.getD i default) then
          y.getD (((diagonal_distinct_axes AD idx).map
            (fun i => idx.getD i default)).indexOf (idx.getD i default)) 0
        else 0) * AD.stride i) := by
    apply List.map_congr_left
    intro i hi
    have hi2 : i < idx.length := by rw [h]; exact List.mem_range.1 hi
    have hi3 : i < (diagonal_preimage idx
        ((diagonal_distinct_axes AD idx).map (fun i => idx.getD i default)) y).length := by
      rw [hxl, ← h]; exact hi2
    rw [List.getD_eq_getElem _ _ hi3]
    simp only [diagonal_preimage, List.getElem_map, List.getD_eq_getElem _ _ hi2,
      tensor_view.stride]
  rw [e1]
  have hperm := (sort_perm (sort_by_idx idx) (range AD.dimension)).map (fun i =>
    (if idx.getD i default ∈
        (diagonal_distinct_axes AD idx).map (fun i => idx.getD i default) then
      y.getD (((diagonal_distinct_axes AD idx).map
        (fun i => idx.getD i default)).indexOf (idx.getD i default)) 0
    else 0) * AD.stride i)
  rw [show List.range AD.dimension = range AD.dimension from rfl, ← hperm.sum_eq,
    ← sum_filter_of_zero _ (fun i => decide (AD.length i ≠ 1))]
  · apply congrArg
    apply List.map_congr_left
    intro i hi
    have hmem : idx.getD i default ∈
        (diagonal_distinct_axes AD idx).map (fun i => idx.getD i default) :=
      List.mem_map_of_mem _ hi
    rw [if_pos hmem]
  · intro i hi hp
    have hid : i < AD.dimension := (mem_sorted_range _ _ _).1 hi
    have hnot : idx.getD i default ∉
        (diagonal_distinct_axes AD idx).map (fun i => idx.getD i default) := by
      intro hm
      obtain ⟨k, hk, e⟩ := List.mem_map.1 hm
      have hk2 := (mem_diagonal_distinct_axes AD idx k).1 hk
      have := getD_inj_of_nodup idx hn k i (by rw [h]; exact hk2.1) (by rw [h]; exact hid) e
      subst this
      simp only [ne_eq, decide_not, Bool.not_eq_false', decide_eq_true_eq] at hp
      exact hk2.2 hp
    rw [if_neg hnot, zero_mul]

theorem map_getD_range_int (l : List Int) :
    (List.range l.length).map (fun i => l.getD i 0) = l := by
  apply List.ext_getElem
  · simp
  · intro i h1 h2
    simp only [List.getElem_map, List.getElem_range]
    exact List.getD_eq_getElem _ _ h2

theorem diagonal_body_idx_increasing (AD : tensor_view) (idx : List Char)
    (h : idx.length = AD.dimension) : (diagonal_body AD idx).2.Pairwise (fun a b => a < b) := by
  rw [diagonal_body_eq AD idx h]
  have hsorted : (sort (sort_by_idx idx) (range AD.dimension)).Pairwise
      (fun a b => idx.getD a default ≤ idx.getD b default) :=
    sort_pairwise_of_comp (fun i => idx.getD i default) _
      (fun a b => by simp [sort_by_idx]) (range AD.dimension)
  have hp := diagonal_kept_pairwise AD idx _ none hsorted
  simp only [List.pairwise_map]
  exact hp

theorem range_pairwise_of_increasing (j : List Char) (hj : j.Pairwise (fun a b => a < b)) :
    (range j.length).Pairwise (fun a b => j.getD a default ≤ j.getD b default) := by
  have hr : (List.range j.length).Pairwise (fun a b => a < b) := List.pairwise_lt_range _
  refine List.Pairwise.imp_of_mem ?_ hr
  intro a b ha hb hab
  have ha2 : a < j.length := List.mem_range.1 ha
  have hb2 : b < j.length := List.mem_range.1 hb
  rw [List.getD_eq_getElem _ _ ha2, List.getD_eq_getElem _ _ hb2]
  exact le_of_lt (List.pairwise_iff_getElem.1 hj a b ha2 hb2 hab)

theorem sort_eq_self_of_comp {α β : Type} [LinearOrder β] (key : α → β) (comp : α → α → Bool)
    (hcomp : ∀ a b, comp a b = true ↔ key a < key b) (v : List α)
    (h : v.Pairwise (fun a b => key a ≤ key b)) : sort comp v = v := by
  have e : comp = fun a b => decide (key a < key b) := by
    funext a b
    rw [Bool.eq_iff_iff, hcomp]
    simp
  rw [e]
  exact sort_eq_self_of_pairwise key v h

theorem diagonal_distinct_ref_self (v : tensor_view) (j : List Char)
    (hj : j.Pairwise (fun a b => a < b)) (h1 : j.length = v.dimension)
    (h2 : v.strides.length = v.dimension) (h3 : ∀ l ∈ v.lengths, l ≠ 1) :
    diagonal_distinct_ref v j = (v, j) := by
  have hs : sort (sort_by_idx j) (range v.dimension) = range v.dimension := by
    rw [← h1]
    exact sort_eq_self_of_comp (fun i => j.getD i default) _
      (fun a b => by simp [sort_by_idx]) _ (range_pairwise_of_increasing j hj)
  have hf : diagonal_distinct_axes v j = List.range v.dimension := by
    rw [diagonal_distinct_axes, hs]
    apply List.filter_eq_self.2
    intro i hi
    have hi2 : i < v.lengths.length := List.mem_range.1 hi
    simp only [decide_eq_true_eq, tensor_view.length]
    rw [List.getD_eq_getElem _ _ hi2]
    exact h3 _ (List.getElem_mem hi2)
  have e1 : (List.range v.dimension).map (fun i => v.length i) = v.lengths :=
    map_getD_range_int v.lengths
  have e2 : (List.range v.dimension).map (fun i => v.stride i) = v.strides := by
    rw [← h2]; exact map_getD_range_int v.strides
  have e3 : (List.range v.dimension).map (fun i => j.getD i default) = j := by
    rw [← h1]; exact map_getD_range_char j
  simp only [diagonal_distinct_ref, hf, e1, e2, e3]

theorem diagonal_of_diagonal_body (AD : tensor_view) (idx : List Char)
    (h : idx.length = AD.dimension) :
    diagonal (diagonal_body AD idx).1 (diagonal_body AD idx).2 = some (diagonal_body AD idx) := by
  have hs := diagonal_body_shape AD idx h
  have hj := diagonal_body_idx_increasing AD idx h
  have hn := diagonal_body_idx_nodup AD idx h
  rw [diagonal_distinct _ _ hs.2.1 hn, diagonal_distinct_ref_self _ _ hj hs.2.1 hs.2.2.2.1
    hs.2.2.2.2]

theorem diagonal_idempotent_of_some (AD : tensor_view) (idx : List Char)
    (h : idx.length = AD.dimension) (r : tensor_view × List Char)
    (hr : diagonal AD idx = some r) : diagonal r.1 r.2 = some r := by
  rw [diagonal_eq_some AD idx r hr]
  exact diagonal_of_diagonal_body AD idx h


/-! ## Properties of the folder: shape, element count and the one-operand case -/

theorem merge_axes_length_le (L : List axis) : (merge_axes L).length ≤ L.length := by
  have := (merge_axes_strides_sublist L).length_le
  simpa using this

theorem merge_axes_ne_nil (L : List axis) (h : L ≠ []) : merge_axes L ≠ [] := by
  cases L with
  | nil => exact absurd rfl h
  | cons a rest =>
    rw [merge_axes]
    cases merge_axes rest with
    | nil => simp
    | cons m ms =>
      simp only
      split <;> simp

theorem merge_axes_prod (L : List axis) :
    ((merge_axes L).map (fun a => a.len)).prod = (L.map (fun a => a.len)).prod := by
  induction L with
  | nil => rfl
  | cons a rest ih =>
    rw [merge_axes]
    cases hM : merge_axes rest with
    | nil =>
      rw [hM] at ih
      simp only [List.map_cons, List.prod_cons, ← ih, List.map_nil]
    | cons m ms =>
      rw [hM] at ih
      simp only
      split
      · simp only [List.map_cons, List.prod_cons] at ih ⊢
        rw [← ih]
        ring
      · simp only [List.map_cons, List.prod_cons] at ih ⊢
        rw [← ih]

theorem fold_body_shape (lengths : List Int) (strides : List (List Int)) (idx : List Char) :
    (fold_body lengths strides idx).idx.length = (fold_body lengths strides idx).lengths.length ∧
      (fold_body lengths strides idx).strides.length = strides.length ∧
      (∀ s ∈ (fold_body lengths strides idx).strides,
        s.length = (fold_body lengths strides idx).lengths.length) ∧
      (fold_body lengths strides idx).lengths.length ≤ lengths.length ∧
      (1 ≤ lengths.length → 1 ≤ (fold_body lengths strides idx).lengths.length) ∧
      (lengths.length = 0 → (fold_body lengths strides idx).lengths.length = 0) ∧
      (fold_body lengths strides idx).lengths.prod = lengths.prod := by
  rw [fold_body_eq_columns]
  have hperm := sort_perm (fun i j => decide ((strides.headD []).getD i 0 <
    (strides.headD []).getD j 0)) (range lengths.length)
  have hlen : (sort (fun i j => decide ((strides.headD []).getD i 0 <
      (strides.headD []).getD j 0)) (range lengths.length)).length = lengths.length := by
    rw [hperm.length_eq]; simp [range]
  have hle := merge_axes_length_le ((sort (fun i j => decide ((strides.headD []).getD i 0 <
    (strides.headD []).getD j 0)) (range lengths.length)).map (axis_of lengths strides idx))
  rw [List.length_map, hlen] at hle
  simp only [columns, List.length_map, List.length_range, List.mem_map, List.mem_range, true_and]
  refine ⟨?_, hle, ?_, ?_, ?_⟩
  · rintro s ⟨k, _, rfl⟩
    simp
  · intro h1
    have hne : (sort (fun i j => decide ((strides.headD []).getD i 0 <
        (strides.headD []).getD j 0)) (range lengths.length)).map
          (axis_of lengths strides idx) ≠ [] := by
      intro e
      have := congrArg List.length e
      rw [List.length_map, hlen, List.length_nil] at this
      omega
    have := List.length_pos.2 (merge_axes_ne_nil _ hne)
    omega
  · intro h0
    omega
  · rw [merge_axes_prod, List.map_map]
    have e : (fun a => a.len) ∘ axis_of lengths strides idx = fun i => lengths.getD i 0 := rfl
    rw [e]
    exact (permuted_perm lengths _ hperm).prod_eq

theorem fold_eq_some (lengths : List Int) (strides : List (List Int)) (idx : List Char)
    (out : fold_state) (h : fold lengths strides idx = some out) :
    out = fold_body lengths strides idx := by
  unfold fold at h
  split at h
  · exact (Option.some.inj h).symm
  · cases h

theorem range_mul_map (A B : Nat) (s off : Int) :
    (List.range (A * B)).map (fun (z : Nat) => (z : Int) * s + off) =
      (List.range B).flatMap (fun (y : Nat) =>
        (List.range A).map (fun (x : Nat) => (x : Int) * s + ((y : Int) * (s * A) + off))) := by
  induction B with
  | zero => simp
  | succ B ih =>
    rw [Nat.mul_succ, List.range_add, List.map_append, ih, List.range_succ, List.flatMap_append,
      List.flatMap_singleton, List.map_map]
    congr 1
    apply List.map_congr_left
    intro x _
    simp only [Function.comp, Nat.cast_add, Nat.cast_mul]
    ring

theorem viterator_offsets_cons (l : Int) (len : List Int) (s : Int) (ss : List Int) :
    viterator_offsets (l :: len) (s :: ss) =
      (viterator_offsets len ss).flatMap
        (fun off => (List.range l.toNat).map (fun (x : Nat) => (x : Int) * s + off)) := rfl

theorem viterator_offsets_merge (a b : Int) (ha : 0 ≤ a) (hb : 0 ≤ b) (len : List Int) (s : Int)
    (ss : List Int) :
    viterator_offsets ((a * b) :: len) (s :: ss) =
      viterator_offsets (a :: b :: len) (s :: (s * a) :: ss) := by
  rw [viterator_offsets_cons, viterator_offsets_cons, viterator_offsets_cons, List.flatMap_assoc]
  congr 1
  funext off
  have e : (a * b).toNat = a.toNat * b.toNat := by
    have h1 : (a.toNat : Int) = a := Int.toNat_of_nonneg ha
    have h2 : (b.toNat : Int) = b := Int.toNat_of_nonneg hb
    have h3 : ((a * b).toNat : Int) = a * b := Int.toNat_of_nonneg (mul_nonneg ha hb)
    have : ((a * b).toNat : Int) = ((a.toNat * b.toNat : Nat) : Int) := by
      rw [h3, Nat.cast_mul, h1, h2]
    exact_mod_cast this
  rw [e, range_mul_map, List.flatMap_map, Int.toNat_of_nonneg ha]

theorem getD_zero_map_mul (l : List Int) (c : Int) :
    (l.map (fun s => s * c)).getD 0 0 = l.getD 0 0 * c := by
  cases l <;> simp

theorem merge_axes_offsets (L : List axis) (hl : ∀ a ∈ L, 0 ≤ a.len) :
    (∀ m ∈ merge_axes L, 0 ≤ m.len) ∧
      viterator_offsets ((merge_axes L).map (fun a => a.len))
          ((merge_axes L).map (fun a => a.strides.getD 0 0)) =
        viterator_offsets (L.map (fun a => a.len)) (L.map (fun a => a.strides.getD 0 0)) := by
  induction L with
  | nil => exact ⟨fun m hm => by simp [merge_axes] at hm, rfl⟩
  | cons a rest ih =>
    have ha : 0 ≤ a.len := hl a (List.mem_cons_self _ _)
    obtain ⟨ih1, ih2⟩ := ih (fun b hb => hl b (List.mem_cons_of_mem _ hb))
    rw [merge_axes]
    cases hM : merge_axes rest with
    | nil =>
      rw [hM] at ih2
      refine ⟨fun m hm => ?_, ?_⟩
      · simp only [List.mem_singleton] at hm
        rw [hm]; exact ha
      · simp only [List.map_cons, viterator_offsets_cons, ← ih2, List.map_nil]
    | cons m ms =>
      rw [hM] at ih1 ih2
      have hm : 0 ≤ m.len := ih1 m (List.mem_cons_self _ _)
      simp only
      split
      · rename_i hs
        refine ⟨fun x hx => ?_, ?_⟩
        · rcases List.mem_cons.1 hx with rfl | hx
          · exact mul_nonneg ha hm
          · exact ih1 x (List.mem_cons_of_mem _ hx)
        · have e : m.strides.getD 0 0 = a.strides.getD 0 0 * a.len := by
            rw [hs, getD_zero_map_mul]
          simp only [List.map_cons] at ih2 ⊢
          rw [viterator_offsets_merge a.len m.len ha hm, ← e, viterator_offsets_cons, ih2,
            ← viterator_offsets_cons]
      · refine ⟨fun x hx => ?_, ?_⟩
        · rcases List.mem_cons.1 hx with rfl | hx
          · exact ha
          · exact ih1 x hx
        · simp only [List.map_cons] at ih2 ⊢
          rw [viterator_offsets_cons, ih2, ← viterator_offsets_cons]

theorem range_pairwise_getD (v : List Int) (hv : v.Pairwise (fun a b => a ≤ b)) :
    (range v.length).Pairwise (fun a b => v.getD a 0 ≤ v.getD b 0) := by
  have hr : (List.range v.length).Pairwise (fun a b => a < b) := List.pairwise_lt_range _
  refine List.Pairwise.imp_of_mem ?_ hr
  intro a b ha hb hab
  have ha2 : a < v.length := List.mem_range.1 ha
  have hb2 : b < v.length := List.mem_range.1 hb
  rw [List.getD_eq_getElem _ _ ha2, List.getD_eq_getElem _ _ hb2]
  exact List.pairwise_iff_getElem.1 hv a b ha2 hb2 hab

theorem offsets_in_stride_order_of_sorted (len stride : List Int)
    (h : len.length = stride.length) (hs : stride.Pairwise (fun a b => a ≤ b)) :
    offsets_in_stride_order len stride = viterator_offsets len stride := by
  have hd : sort (sort_by_stride [stride]) (range len.length) = range len.length := by
    rw [h]
    exact sort_eq_self_of_comp (fun i => stride.getD i 0) _
      (fun a b => by simp [sort_by_stride]) _ (range_pairwise_getD stride hs)
  have e1 : permuted len (range len.length) = len := map_getD_range_int len
  have e2 : permuted stride (range len.length) = stride := by
    rw [h]; exact map_getD_range_int stride
  simp only [offsets_in_stride_order, hd, e1, e2, viterator_offsets_eq_offsets]

theorem offsets_in_stride_order_eq_axes (l s : List Int) (idx : List Char) :
    offsets_in_stride_order l s =
      viterator_offsets
        (((sort (fun i j => decide (s.getD i 0 < s.getD j 0)) (range l.length)).map
          (axis_of l [s] idx)).map (fun a => a.len))
        (((sort (fun i j => decide (s.getD i 0 < s.getD j 0)) (range l.length)).map
          (axis_of l [s] idx)).map (fun a => a.strides.getD 0 0)) := by
  simp only [offsets_in_stride_order, sort_by_stride_single, viterator_offsets_eq_offsets,
    permuted, List.map_map]
  rfl

theorem fold_single_compatible (l s : List Int) (idx : List Char)
    (hsz : l.length = s.length) (hl : ∀ x ∈ l, 0 ≤ x) :
    are_compatible l s (fold_body l [s] idx).lengths
      ((fold_body l [s] idx).strides.getD 0 []) = some true := by
  have hshape := fold_body_shape l [s] idx
  have hprod : prod l = prod (fold_body l [s] idx).lengths := hshape.2.2.2.2.2.2.symm
  have hperm := sort_perm (fun i j => decide (s.getD i 0 < s.getD j 0)) (range l.length)
  have hLl : ∀ a ∈ (sort (fun i j => decide (s.getD i 0 < s.getD j 0)) (range l.length)).map
      (axis_of l [s] idx), 0 ≤ a.len := by
    intro a ha
    obtain ⟨i, hi, rfl⟩ := List.mem_map.1 ha
    have hi2 : i < l.length := (mem_sorted_range _ _ _).1 hi
    simp only [axis_of]
    rw [List.getD_eq_getElem _ _ hi2]
    exact hl _ (List.getElem_mem hi2)
  have hM := merge_axes_offsets _ hLl
  have hcol : fold_body l [s] idx = columns 1 (merge_axes
      ((sort (fun i j => decide (s.getD i 0 < s.getD j 0)) (range l.length)).map
        (axis_of l [s] idx))) := fold_body_eq_columns l [s] idx
  have hsorted : ((merge_axes ((sort (fun i j => decide (s.getD i 0 < s.getD j 0))
      (range l.length)).map (axis_of l [s] idx))).map
        (fun a => a.strides.getD 0 0)).Pairwise (fun a b => a ≤ b) := by
    have hsub := (merge_axes_strides_sublist ((sort (fun i j => decide (s.getD i 0 < s.getD j 0))
      (range l.length)).map (axis_of l [s] idx))).map (fun v => v.getD 0 0)
    rw [List.map_map, List.map_map] at hsub
    refine List.Pairwise.sublist hsub ?_
    rw [List.map_map, List.pairwise_map]
    exact sort_pairwise_key (fun i => s.getD i 0) (range l.length)
  have hlen2 : (fold_body l [s] idx).lengths.length =
      ((fold_body l [s] idx).strides.getD 0 []).length := by
    rw [hcol]; simp [columns]
  rw [are_compatible_eq l s _ _ hsz hlen2]
  have hseq : offsets_in_stride_order l s = offsets_in_stride_order (fold_body l [s] idx).lengths
      ((fold_body l [s] idx).strides.getD 0 []) := by
    rw [offsets_in_stride_order_eq_axes l s idx, ← hM.2]
    have e : (fold_body l [s] idx).strides.getD 0 [] =
        (merge_axes ((sort (fun i j => decide (s.getD i 0 < s.getD j 0))
          (range l.length)).map (axis_of l [s] idx))).map (fun a => a.strides.getD 0 0) := by
      rw [hcol]; simp [columns]
    have e2 : (fold_body l [s] idx).lengths =
        (merge_axes ((sort (fun i j => decide (s.getD i 0 < s.getD j 0))
          (range l.length)).map (axis_of l [s] idx))).map (fun a => a.len) := by
      rw [hcol]; rfl
    rw [e, e2, offsets_in_stride_order_of_sorted _ _ (by simp) hsorted]
  simp only [hprod, hseq, and_self, decide_True]

theorem fold_single_asserts (l s : List Int) (idx : List Char)
    (hsz : l.length = s.length) (hl : ∀ x ∈ l, 0 ≤ x) : fold_asserts l [s] idx = true := by
  have h := fold_single_compatible l s idx hsz hl
  simp only [fold_asserts, List.length_singleton, List.all_eq_true, List.mem_range, beq_iff_eq]
  intro i hi
  have hi0 : i = 0 := by omega
  subst hi0
  exact h


/-! ## Properties of the folder on a packed layout -/

theorem merge_axes_of_chain (rest : List axis) :
    ∀ a : axis, List.Chain (fun x y => y.strides = x.strides.map (fun s => s * x.len)) a rest →
      merge_axes (a :: rest) =
        [{ label := a.label, len := ((a :: rest).map (fun x => x.len)).prod,
           strides := a.strides }] := by
  induction rest with
  | nil =>
    intro a _
    simp [merge_axes]
  | cons b rest ih =>
    intro a hc
    rw [List.chain_cons] at hc
    rw [merge_axes, ih b hc.2]
    simp only [hc.1, if_true, List.map_cons, List.prod_cons]

theorem packed_keys_increasing (key len : Nat → Int) (q : List Nat) :
    ∀ a : Nat, 1 ≤ key a → (∀ x ∈ a :: q, 2 ≤ len x) →
      List.Chain (fun x y => key y = key x * len x) a q →
      (a :: q).Pairwise (fun x y => key x < key y) := by
  induction q with
  | nil => intro a _ _ _; simp
  | cons b q ih =>
    intro a ha hl hc
    rw [List.chain_cons] at hc
    have hla : 2 ≤ len a := hl a (List.mem_cons_self _ _)
    have hb : key a < key b := by rw [hc.1]; nlinarith
    have ih2 := ih b (by omega) (fun x hx => hl x (List.mem_cons_of_mem _ hx)) hc.2
    rw [List.pairwise_cons]
    refine ⟨?_, ih2⟩
    intro x hx
    rcases List.mem_cons.1 hx with rfl | hx
    · exact hb
    · exact lt_trans hb ((List.pairwise_cons.1 ih2).1 x hx)

theorem sorted_eq_of_strict (key : Nat → Int) (p : List Nat) (n : Nat)
    (hp : p.Perm (List.range n)) (hs : p.Pairwise (fun x y => key x < key y)) :
    sort (fun i j => decide (key i < key j)) (range n) = p := by
  have hperm : (sort (fun i j => decide (key i < key j)) (range n)).Perm p :=
    (sort_perm _ _).trans hp.symm
  have hle := sort_pairwise_key key (range n)
  have hnodup : (p.map key).Nodup := by
    rw [List.Nodup, List.pairwise_map]
    exact hs.imp (fun h => ne_of_lt h)
  have hne : (sort (fun i j => decide (key i < key j)) (range n)).Pairwise
      (fun x y => key x ≠ key y) := by
    have := (hperm.map key).nodup_iff.2 hnodup
    rw [List.Nodup, List.pairwise_map] at this
    exact this
  have hlt : (sort (fun i j => decide (key i < key j)) (range n)).Pairwise
      (fun x y => key x < key y) :=
    (hle.and hne).imp (fun h => lt_of_le_of_ne h.1 h.2)
  haveI : IsAntisymm Nat (fun x y => key x < key y) :=
    ⟨fun a b h1 h2 => absurd (lt_trans h1 h2) (lt_irrefl _)⟩
  exact List.eq_of_perm_of_sorted hperm hlt hs

theorem fold_body_packed (l s : List Int) (idx : List Char) (p : List Nat)
    (hn : 1 ≤ l.length) (hlen : ∀ x ∈ l, 2 ≤ x) (hp : p.Perm (List.range l.length))
    (h0 : s.getD (p.headD 0) 0 = 1)
    (hchain : p.Chain' (fun a b => s.getD b 0 = s.getD a 0 * l.getD a 0)) :
    fold_body l [s] idx =
      { lengths := [l.prod], strides := [[1]], idx := [idx.getD (p.headD 0) default] } := by
  cases p with
  | nil =>
    have := hp.length_eq
    simp at this
    omega
  | cons a q =>
    have hmem : ∀ x ∈ a :: q, 2 ≤ l.getD x 0 := by
      intro x hx
      have hx2 : x < l.length := List.mem_range.1 (hp.subset hx)
      rw [List.getD_eq_getElem _ _ hx2]
      exact hlen _ (List.getElem_mem hx2)
    have h0a : s.getD a 0 = 1 := h0
    have hstrict := packed_keys_increasing (fun i => s.getD i 0) (fun i => l.getD i 0) q a
      (le_of_eq h0a.symm) hmem hchain
    have hsort := sorted_eq_of_strict (fun i => s.getD i 0) (a :: q) l.length hp hstrict
    have hcol : fold_body l [s] idx = columns 1 (merge_axes
        ((sort (fun i j => decide (s.getD i 0 < s.getD j 0)) (range l.length)).map
          (axis_of l [s] idx))) := fold_body_eq_columns l [s] idx
    have hc2 : List.Chain (fun x y => y.strides = x.strides.map (fun s => s * x.len))
        (axis_of l [s] idx a) (q.map (axis_of l [s] idx)) := by
      rw [List.chain_map]
      refine List.Chain.imp ?_ hchain
      intro x y hxy
      simp only [axis_of, List.map_cons, List.map_nil, hxy]
    have hprod : (((a :: q).map (axis_of l [s] idx)).map (fun x => x.len)).prod = l.prod := by
      rw [List.map_map]
      exact (permuted_perm l _ hp).prod_eq
    rw [hcol, hsort, List.map_cons, merge_axes_of_chain _ _ hc2, ← List.map_cons, hprod]
    simp only [columns, axis_of, List.map_cons, List.map_nil,
      List.getD_cons_zero, h0a, List.headD_cons]
    rfl

theorem fold_A_packed (AF : tensor_view) (idx : List Char) (p : List Nat)
    (hidx : AF.dimension = idx.length) (hs : AF.strides.length = AF.dimension)
    (hn : 1 ≤ AF.dimension) (hlen : ∀ x ∈ AF.lengths, 2 ≤ x)
    (hp : p.Perm (List.range AF.dimension)) (h0 : AF.stride (p.headD 0) = 1)
    (hchain : p.Chain' (fun a b => AF.stride b = AF.stride a * AF.length a)) :
    fold AF.lengths [AF.strides] idx =
        some { lengths := [AF.lengths.prod], strides := [[1]],
               idx := [idx.getD (p.headD 0) default] } ∧
      fold_A AF idx =
        some (⟨[AF.lengths.prod], AF.data, [1]⟩, [idx.getD (p.headD 0) default]) := by
  have hb := fold_body_packed AF.lengths AF.strides idx p hn hlen hp h0 hchain
  have ha := fold_single_asserts AF.lengths AF.strides idx hs.symm
    (fun x hx => le_trans (by norm_num) (hlen x hx))
  constructor
  · rw [fold, if_pos ha, hb]
  · rw [fold_A, if_neg (not_not.mpr hidx), if_pos ha, fold_A_body, hb]
    rfl


/-! ## Properties of `tensor_storage_size`: the span of a layout -/

theorem sum_range_eq_zipWith (f : Int → Int → Int) (l : List Int) :
    ∀ s : List Int, l.length = s.length →
      ((List.range l.length).map (fun i => f (l.getD i 0) (s.getD i 0))).sum =
        (List.zipWith f l s).sum := by
  induction l with
  | nil => intro s _; simp
  | cons a l ih =>
    intro s hs
    cases s with
    | nil => simp at hs
    | cons b s =>
      have hs2 : l.length = s.length := by simpa using hs
      rw [List.length_cons, List.range_succ_eq_map, List.map_cons, List.sum_cons, List.map_map,
        List.zipWith_cons_cons, List.sum_cons, ← ih s hs2]
      rfl

theorem tensor_storage_size_eq_span (len stride : List Int) (h : len.length = stride.length) :
    tensor_storage_size len.length len (some stride) =
      1 + (List.zipWith (fun l s => |s| * (l - 1)) len stride).sum := by
  rw [tensor_storage_size, foldl_add_eq, interval_zero,
    ← sum_range_eq_zipWith (fun l s => |s| * (l - 1)) len stride h]

theorem offset_diff_le_span (len : List Int) :
    ∀ stride : List Int, len.length = stride.length →
      ∀ x ∈ coordinates len, ∀ y ∈ coordinates len,
        |offset x stride - offset y stride| ≤
          (List.zipWith (fun l s => |s| * (l - 1)) len stride).sum := by
  induction len with
  | nil =>
    intro stride _ x hx y hy
    simp only [coordinates, List.mem_singleton] at hx hy
    subst hx hy
    simp
  | cons l len ih =>
    intro stride hs x hx y hy
    cases stride with
    | nil => simp at hs
    | cons s ss =>
      have hs2 : len.length = ss.length := by simpa using hs
      rw [mem_coordinates_cons] at hx hy
      obtain ⟨x0, xs, hx0, hx1, hxs, rfl⟩ := hx
      obtain ⟨y0, ys, hy0, hy1, hys, rfl⟩ := hy
      have hrest := ih ss hs2 xs hxs ys hys
      rw [offset_cons, offset_cons, List.zipWith_cons_cons, List.sum_cons]
      simp only [List.getD_cons_zero, List.tail_cons]
      have e : x0 * s + offset xs ss - (y0 * s + offset ys ss) =
          (x0 - y0) * s + (offset xs ss - offset ys ss) := by ring
      rw [e]
      have h1 : |(x0 - y0) * s| ≤ |s| * (l - 1) := by
        rw [abs_mul, mul_comm]
        apply mul_le_mul_of_nonneg_left _ (abs_nonneg s)
        rw [abs_le]
        constructor <;> omega
      calc |(x0 - y0) * s + (offset xs ss - offset ys ss)|
          ≤ |(x0 - y0) * s| + |offset xs ss - offset ys ss| := abs_add _ _
        _ ≤ |s| * (l - 1) + (List.zipWith (fun l s => |s| * (l - 1)) len ss).sum :=
            add_le_add h1 hrest

theorem offset_diff_attains_span (len : List Int) :
    ∀ stride : List Int, len.length = stride.length → (∀ l ∈ len, 1 ≤ l) →
      ∃ x ∈ coordinates len, ∃ y ∈ coordinates len,
        offset x stride - offset y stride =
          (List.zipWith (fun l s => |s| * (l - 1)) len stride).sum := by
  induction len with
  | nil =>
    intro stride _ _
    exact ⟨[], by simp [coordinates], [], by simp [coordinates], by simp [offset]⟩
  | cons l len ih =>
    intro stride hs hl
    cases stride with
    | nil => simp at hs
    | cons s ss =>
      have hs2 : len.length = ss.length := by simpa using hs
      have hl1 : 1 ≤ l := hl l (List.mem_cons_self _ _)
      obtain ⟨xs, hxs, ys, hys, e⟩ := ih ss hs2 (fun a ha => hl a (List.mem_cons_of_mem _ ha))
      by_cases h0 : 0 ≤ s
      · refine ⟨(l - 1) :: xs, ?_, 0 :: ys, ?_, ?_⟩
        · rw [mem_coordinates_cons]
          exact ⟨l - 1, xs, by omega, by omega, hxs, rfl⟩
        · rw [mem_coordinates_cons]
          exact ⟨0, ys, le_refl 0, by omega, hys, rfl⟩
        · rw [offset_cons, offset_cons, List.zipWith_cons_cons, List.sum_cons, ← e,
            abs_of_nonneg h0]
          simp only [List.getD_cons_zero, List.tail_cons]
          ring
      · refine ⟨0 :: xs, ?_, (l - 1) :: ys, ?_, ?_⟩
        · rw [mem_coordinates_cons]
          exact ⟨0, xs, le_refl 0, by omega, hxs, rfl⟩
        · rw [mem_coordinates_cons]
          exact ⟨l - 1, ys, by omega, by omega, hys, rfl⟩
        · rw [offset_cons, offset_cons, List.zipWith_cons_cons, List.sum_cons, ← e,
            abs_of_neg (by omega)]
          simp only [List.getD_cons_zero, List.tail_cons]
          ring

theorem span_of_packed (len : List Int) :
    ∀ stride : List Int, len.length = stride.length → (∀ l ∈ len, 1 ≤ l) →
      0 ≤ stride.getD 0 0 →
      (∀ i, i + 1 < len.length → stride.getD (i + 1) 0 = stride.getD i 0 * len.getD i 0) →
      (List.zipWith (fun l s => |s| * (l - 1)) len stride).sum =
        stride.getD 0 0 * len.prod - stride.getD 0 0 := by
  induction len with
  | nil =>
    intro stride hs _ _ _
    have : stride = [] := List.length_eq_zero.mp hs.symm
    subst this
    simp
  | cons l len ih =>
    intro stride hs hl h0 hc
    cases stride with
    | nil => simp at hs
    | cons s ss =>
      have hs2 : len.length = ss.length := by simpa using hs
      have hl1 : 1 ≤ l := hl l (List.mem_cons_self _ _)
      have hs0 : 0 ≤ s := by simpa using h0
      rw [List.zipWith_cons_cons, List.sum_cons, abs_of_nonneg hs0]
      simp only [List.getD_cons_zero, List.prod_cons]
      cases len with
      | nil =>
        have : ss = [] := List.length_eq_zero.mp hs2.symm
        subst this
        simp
        ring
      | cons l2 len2 =>
        have hhead : ss.getD 0 0 = s * l := by
          have := hc 0 (by simp)
          simpa using this
        have ih2 := ih ss hs2 (fun a ha => hl a (List.mem_cons_of_mem _ ha))
          (by rw [hhead]; exact mul_nonneg hs0 (by omega))
          (by
            intro i hi
            have := hc (i + 1) (by simp only [List.length_cons] at hi ⊢; omega)
            simpa using this)
        rw [ih2, hhead]
        simp only [List.prod_cons]
        ring

theorem tensor_storage_size_packed (len stride : List Int) (h : len.length = stride.length)
    (hl : ∀ l ∈ len, 1 ≤ l) (h0 : len ≠ [] → stride.getD 0 0 = 1)
    (hc : ∀ i, i + 1 < len.length → stride.getD (i + 1) 0 = stride.getD i 0 * len.getD i 0) :
    tensor_storage_size len.length len (some stride) = tensor_size len.length len := by
  rw [tensor_storage_size_eq_span len stride h, tensor_size_eq_prod_take _ _ (le_refl _),
    List.take_length]
  by_cases hn : len = []
  · subst hn
    simp
  · have h1 := h0 hn
    rw [span_of_packed len stride h hl (by rw [h1]; norm_num) hc, h1]
    ring

theorem matricize_general_split (A : tensor_view) (split : Nat) (AM : matrix_view)
    (h : matricize A split = some AM) (hm : AM.lengths.1 ≠ 1) (hn : AM.lengths.2 ≠ 1) :
    0 < split ∧ split < A.dimension ∧ 2 ≤ A.dimension := by
  rw [matricize_eq_some_iff] at h
  obtain ⟨ha, rfl⟩ := h
  have hs := matricize_asserts_split A split ha
  rw [matricize_body_lengths A split hs] at hm hn
  have h0 : split ≠ 0 := by
    intro h0; subst h0; exact hm (by simp)
  have h1 : split ≠ A.dimension := by
    intro h1; apply hn; rw [h1, tensor_view.dimension, List.drop_length]; rfl
  omega

theorem packed_order_is_stride_order (AF : tensor_view) (p : List Nat)
    (hlen : ∀ l ∈ AF.lengths, 2 ≤ l)
    (hp : p.Perm (List.range AF.dimension)) (h0 : AF.stride (p.headD 0) = 1)
    (hchain : p.Chain' (fun a b => AF.stride b = AF.stride a * AF.length a)) :
    sort (sort_by_stride [AF.strides]) (range AF.dimension) = p := by
  rw [sort_by_stride_single]
  cases p with
  | nil =>
    have := hp.length_eq
    simp only [List.length_nil, List.length_range] at this
    rw [← this]
    rfl
  | cons a q =>
    have hmem : ∀ x ∈ a :: q, 2 ≤ AF.lengths.getD x 0 := by
      intro x hx
      have hx2 : x < AF.lengths.length := List.mem_range.1 (hp.subset hx)
      rw [List.getD_eq_getElem _ _ hx2]
      exact hlen _ (List.getElem_mem hx2)
    have h0a : AF.strides.getD a 0 = 1 := h0
    have hstrict := packed_keys_increasing (fun i => AF.strides.getD i 0)
      (fun i => AF.lengths.getD i 0) q a (le_of_eq h0a.symm) hmem hchain
    exact sorted_eq_of_strict (fun i => AF.strides.getD i 0) (a :: q) AF.dimension hp hstrict

/-! ## The claims -/

/-- C1: the core `fold` computes the reference of the specification: the axes sorted by
ascending first stride, split into groups of axes that are contiguous in every stride vector,
one output axis per group with the product of the lengths and the strides and label of the
group's first axis; and whenever `fold` returns, it returns that reference. -/
theorem fold_eq_reference (lengths : List Int) (strides : List (List Int)) (idx : List Char) :
    fold_body lengths strides idx = fold_ref lengths strides idx ∧
      ∀ r, fold lengths strides idx = some r → r = fold_ref lengths strides idx := by
  refine ⟨fold_body_eq_fold_ref lengths strides idx, ?_⟩
  intro r hr
  unfold fold at hr
  split at hr
  · simp only [Option.some.injEq] at hr
    rw [← hr, fold_body_eq_fold_ref]
  · exact absurd hr (by simp)

/-- C2: fold equivalence.  When every length is at least 1, the offset tuples (one offset per
stride vector, over all coordinates) of the output of the core `fold` are exactly the offset
tuples of its input; this holds for what `fold` computes and so for whatever it returns. -/
theorem fold_offset_tuples_eq (lengths : List Int) (strides : List (List Int))
    (idx : List Char) (hlen : ∀ l ∈ lengths, 1 ≤ l) :
    (∀ t, t ∈ offset_tuples (fold_body lengths strides idx).lengths
        (fold_body lengths strides idx).strides ↔ t ∈ offset_tuples lengths strides) ∧
      ∀ r, fold lengths strides idx = some r →
        ∀ t, t ∈ offset_tuples r.lengths r.strides ↔ t ∈ offset_tuples lengths strides := by
  refine ⟨fun t => fold_body_offset_tuples lengths strides idx hlen t, ?_⟩
  intro r hr t
  unfold fold at hr
  split at hr
  · simp only [Option.some.injEq] at hr
    rw [← hr]
    exact fold_body_offset_tuples lengths strides idx hlen t
  · exact absurd hr (by simp)

/-- Witness of C2 on the layout of lengths `(2, 3)` with the stride vectors `(1, 2)` and
`(3, 6)`, which folds to a single axis of length 6. -/
theorem fold_offset_tuples_eq_witness :
    (∀ l ∈ [(2 : Int), 3], 1 ≤ l) ∧
      fold [2, 3] [[1, 2], [3, 6]] ['a', 'b'] =
        some { lengths := [6], strides := [[1], [3]], idx := ['a'] } ∧
      ((∀ t, t ∈ offset_tuples (fold_body [2, 3] [[1, 2], [3, 6]] ['a', 'b']).lengths
          (fold_body [2, 3] [[1, 2], [3, 6]] ['a', 'b']).strides ↔
            t ∈ offset_tuples [2, 3] [[1, 2], [3, 6]]) ∧
        ∀ r, fold [2, 3] [[1, 2], [3, 6]] ['a', 'b'] = some r →
          ∀ t, t ∈ offset_tuples r.lengths r.strides ↔
            t ∈ offset_tuples [2, 3] [[1, 2], [3, 6]]) :=
  ⟨by decide, by decide,
    fold_offset_tuples_eq [2, 3] [[1, 2], [3, 6]] ['a', 'b'] (by decide)⟩

/-- C3: fold idempotence.  Applying the core `fold` to its own output changes nothing: the
computation leaves the lengths, the stride vectors and the index string as they are, and the
second call passes its closing assertions and returns the same descriptor. -/
theorem fold_idempotent (lengths : List Int) (strides : List (List Int)) (idx : List Char) :
    fold_body (fold_body lengths strides idx).lengths (fold_body lengths strides idx).strides
        (fold_body lengths strides idx).idx = fold_body lengths strides idx ∧
      ∀ r, fold lengths strides idx = some r → fold r.lengths r.strides r.idx = some r := by
  refine ⟨fold_body_idempotent lengths strides idx, ?_⟩
  intro r hr
  unfold fold at hr
  split at hr
  · simp only [Option.some.injEq] at hr
    rw [← hr]
    exact fold_fold lengths strides idx
  · exact absurd hr (by simp)

/-- C4: the closing assertion of the core `fold` fails on the lengths `(2, 2)` with the stride
vectors `(1, 2)` and `(-1, -2)`: both axes are merged into one axis of length 4 with strides
`1` and `-1`, and `are_compatible` rejects the second operand, whose old layout it walks in
the order of the strides `-2, -1`. -/
theorem fold_assertion_fails_negative_strides :
    (∀ l ∈ [(2 : Int), 2], 1 ≤ l) ∧
      fold_body [2, 2] [[1, 2], [-1, -2]] ['a', 'b'] =
        { lengths := [4], strides := [[1], [-1]], idx := ['a'] } ∧
      are_compatible [2, 2] [1, 2] [4] [1] = some true ∧
      are_compatible [2, 2] [-1, -2] [4] [-1] = some false ∧
      fold_asserts [2, 2] [[1, 2], [-1, -2]] ['a', 'b'] = false ∧
      fold [2, 2] [[1, 2], [-1, -2]] ['a', 'b'] = none := by
  decide

/-- C5: for index strings without repeated labels the three-view `fold` computes the
reference of the specification: the labels are split into the classes A-only, B-only, C-only,
AB, AC, BC and ABC, each class is folded by the core fold on its own with the stride vectors of
exactly its operands, and each operand receives its four classes in the order own-only,
pairwise, shared, for lengths, strides and index strings alike.  The classes of each operand
hold every label of the operand once, and the axes a class folds to carry labels of that class
only, so no output axis merges axes of two classes. -/
theorem fold_ABC_eq_reference (AF : tensor_view) (idx_AF : List Char) (BF : tensor_view)
    (idx_BF : List Char) (CF : tensor_view) (idx_CF : List Char)
    (hA : idx_AF.Nodup) (hB : idx_BF.Nodup) (hC : idx_CF.Nodup) :
    fold_ABC_body AF idx_AF BF idx_BF CF idx_CF = fold_ABC_ref AF idx_AF BF idx_BF CF idx_CF ∧
    (∀ r, fold_ABC AF idx_AF BF idx_BF CF idx_CF = some r →
      r = fold_ABC_ref AF idx_AF BF idx_BF CF idx_CF) ∧
    (label_class idx_AF (fun c => !decide (c ∈ idx_BF) && !decide (c ∈ idx_CF)) ++
      label_class idx_AF (fun c => decide (c ∈ idx_BF) && !decide (c ∈ idx_CF)) ++
      label_class idx_AF (fun c => decide (c ∈ idx_CF) && !decide (c ∈ idx_BF)) ++
      label_class idx_AF (fun c => decide (c ∈ idx_BF) && decide (c ∈ idx_CF))).Perm idx_AF ∧
    (label_class idx_BF (fun c => !decide (c ∈ idx_AF) && !decide (c ∈ idx_CF)) ++
      label_class idx_AF (fun c => decide (c ∈ idx_BF) && !decide (c ∈ idx_CF)) ++
      label_class idx_BF (fun c => decide (c ∈ idx_CF) && !decide (c ∈ idx_AF)) ++
      label_class idx_AF (fun c => decide (c ∈ idx_BF) && decide (c ∈ idx_CF))).Perm idx_BF ∧
    (label_class idx_CF (fun c => !decide (c ∈ idx_AF) && !decide (c ∈ idx_BF)) ++
      label_class idx_AF (fun c => decide (c ∈ idx_CF) && !decide (c ∈ idx_BF)) ++
      label_class idx_BF (fun c => decide (c ∈ idx_CF) && !decide (c ∈ idx_AF)) ++
      label_class idx_AF (fun c => decide (c ∈ idx_BF) && decide (c ∈ idx_CF))).Perm idx_CF ∧
    ∀ (cls : List Char) (X : tensor_view × List Char) (ops : List (tensor_view × List Char)),
      ∀ c ∈ (fold_class cls X ops).idx, c ∈ cls := by
  refine ⟨fold_ABC_body_eq_ref AF idx_AF BF idx_BF CF idx_CF, ?_,
    label_class_four_perm idx_AF (fun c => decide (c ∈ idx_BF)) (fun c => decide (c ∈ idx_CF)),
    label_classes_perm_B idx_AF idx_BF idx_CF hA hB,
    label_classes_perm_C idx_AF idx_BF idx_CF hA hB hC,
    fold_class_idx_subset⟩
  intro r hr
  unfold fold_ABC at hr
  split at hr
  · simp only [Option.some.injEq] at hr
    rw [← hr, fold_ABC_body_eq_ref]
  · exact absurd hr (by simp)

/-- Witness of C5 on the operands of a matrix product, `A[i,k]`, `B[k,j]` and `C[i,j]` of
sizes 2x3, 3x4 and 2x4 stored column-major: nothing is merged, and the operands come out as
`A[k,i]`, `B[k,j]` and `C[i,j]`. -/
theorem fold_ABC_eq_reference_witness :
    ['i', 'k'].Nodup ∧ ['k', 'j'].Nodup ∧ ['i', 'j'].Nodup ∧
    fold_ABC ⟨[2, 3], 0, [1, 2]⟩ ['i', 'k'] ⟨[3, 4], 0, [1, 3]⟩ ['k', 'j']
        ⟨[2, 4], 0, [1, 2]⟩ ['i', 'j'] =
      some ((⟨[3, 2], 0, [2, 1]⟩, ['k', 'i']), (⟨[3, 4], 0, [1, 3]⟩, ['k', 'j']),
        (⟨[2, 4], 0, [1, 2]⟩, ['i', 'j'])) ∧
    fold_ABC_body ⟨[2, 3], 0, [1, 2]⟩ ['i', 'k'] ⟨[3, 4], 0, [1, 3]⟩ ['k', 'j']
        ⟨[2, 4], 0, [1, 2]⟩ ['i', 'j'] =
      fold_ABC_ref ⟨[2, 3], 0, [1, 2]⟩ ['i', 'k'] ⟨[3, 4], 0, [1, 3]⟩ ['k', 'j']
        ⟨[2, 4], 0, [1, 2]⟩ ['i', 'j'] :=
  ⟨by decide, by decide, by decide, by decide,
    (fold_ABC_eq_reference ⟨[2, 3], 0, [1, 2]⟩ ['i', 'k'] ⟨[3, 4], 0, [1, 3]⟩ ['k', 'j']
      ⟨[2, 4], 0, [1, 2]⟩ ['i', 'j'] (by decide) (by decide) (by decide)).1⟩

/-- C6: on a 2x2 view with index string "ii", which passes the validator, `diagonal` returns one
axis of length 2 whose stride is the stride of axis 0 alone, not the sum of the two strides: the
merge branch adds the second stride to the slot after the axis just opened, which the final
resize drops.  With strides `(2, 1)` the result has stride 2, not 3. -/
theorem diagonal_repeated_label_keeps_one_stride :
    (∀ d s0 s1 : Int,
      check_tensor_indices { lengths := [2, 2], data := d, strides := [s0, s1] } ['i', 'i'] = some 0 ∧
      diagonal { lengths := [2, 2], data := d, strides := [s0, s1] } ['i', 'i'] =
        some ({ lengths := [2], data := d, strides := [s0] }, ['i'])) ∧
      (diagonal { lengths := [2, 2], data := 0, strides := [2, 1] } ['i', 'i']).map
          (fun r => r.1.strides) = some [2] ∧
      ([2] : List Int) ≠ [2 + 1] := by
  refine ⟨fun d s0 s1 => ⟨rfl, rfl⟩, by decide, by decide⟩

/-- C7: on the 2x2 view with strides `(2, 1)` and index string "ii", the coordinate `y = (1)` of
the view `diagonal` returns lies at offset 2, while the coordinate `x = (1, 1)` it stands for
lies at offset 3 in the input view. -/
theorem diagonal_offset_differs :
    check_tensor_indices { lengths := [2, 2], data := 0, strides := [2, 1] } ['i', 'i'] = some 0 ∧
      diagonal { lengths := [2, 2], data := 0, strides := [2, 1] } ['i', 'i'] =
        some ({ lengths := [2], data := 0, strides := [2] }, ['i']) ∧
      [1] ∈ coordinates [2] ∧
      diagonal_preimage ['i', 'i'] ['i'] [1] = [1, 1] ∧
      offset [1] [2] = 2 ∧
      offset (diagonal_preimage ['i', 'i'] ['i'] [1]) [2, 1] = 3 := by
  decide

/-- C8: for a view of dimension `d` and an index string of length `d`, the view that `diagonal`
computes has a dimension `d'` of at most `d`, its index string, lengths and strides all have
size `d'`, and none of its lengths is 1; so has the view `diagonal` returns, when its
assertions let it return. -/
theorem diagonal_dimension (AD : tensor_view) (idx_AD : List Char)
    (h : idx_AD.length = AD.dimension) :
    ((diagonal_body AD idx_AD).1.dimension ≤ AD.dimension ∧
      (diagonal_body AD idx_AD).2.length = (diagonal_body AD idx_AD).1.dimension ∧
      (diagonal_body AD idx_AD).1.lengths.length = (diagonal_body AD idx_AD).1.dimension ∧
      (diagonal_body AD idx_AD).1.strides.length = (diagonal_body AD idx_AD).1.dimension ∧
      ∀ l ∈ (diagonal_body AD idx_AD).1.lengths, l ≠ 1) ∧
    ∀ r, diagonal AD idx_AD = some r →
      r.1.dimension ≤ AD.dimension ∧ r.2.length = r.1.dimension ∧
        r.1.lengths.length = r.1.dimension ∧ r.1.strides.length = r.1.dimension ∧
        ∀ l ∈ r.1.lengths, l ≠ 1 := by
  refine ⟨diagonal_body_shape AD idx_AD h, ?_⟩
  intro r hr
  rw [diagonal_eq_some AD idx_AD r hr]
  exact diagonal_body_shape AD idx_AD h

/-- Witness of C8 on a 2x1x3 view with index string "bac": the axis of length 1 is dropped. -/
theorem diagonal_dimension_witness :
    ['b', 'a', 'c'].length = (⟨[2, 1, 3], 0, [3, 3, 1]⟩ : tensor_view).dimension ∧
      diagonal ⟨[2, 1, 3], 0, [3, 3, 1]⟩ ['b', 'a', 'c'] = some (⟨[2, 3], 0, [3, 1]⟩, ['b', 'c']) ∧
      (((diagonal_body ⟨[2, 1, 3], 0, [3, 3, 1]⟩ ['b', 'a', 'c']).1.dimension ≤
          (⟨[2, 1, 3], 0, [3, 3, 1]⟩ : tensor_view).dimension ∧
        (diagonal_body ⟨[2, 1, 3], 0, [3, 3, 1]⟩ ['b', 'a', 'c']).2.length =
          (diagonal_body ⟨[2, 1, 3], 0, [3, 3, 1]⟩ ['b', 'a', 'c']).1.dimension ∧
        (diagonal_body ⟨[2, 1, 3], 0, [3, 3, 1]⟩ ['b', 'a', 'c']).1.lengths.length =
          (diagonal_body ⟨[2, 1, 3], 0, [3, 3, 1]⟩ ['b', 'a', 'c']).1.dimension ∧
        (diagonal_body ⟨[2, 1, 3], 0, [3, 3, 1]⟩ ['b', 'a', 'c']).1.strides.length =
          (diagonal_body ⟨[2, 1, 3], 0, [3, 3, 1]⟩ ['b', 'a', 'c']).1.dimension ∧
        ∀ l ∈ (diagonal_body ⟨[2, 1, 3], 0, [3, 3, 1]⟩ ['b', 'a', 'c']).1.lengths, l ≠ 1) ∧
      ∀ r, diagonal ⟨[2, 1, 3], 0, [3, 3, 1]⟩ ['b', 'a', 'c'] = some r →
        r.1.dimension ≤ (⟨[2, 1, 3], 0, [3, 3, 1]⟩ : tensor_view).dimension ∧
          r.2.length = r.1.dimension ∧
          r.1.lengths.length = r.1.dimension ∧ r.1.strides.length = r.1.dimension ∧
          ∀ l ∈ r.1.lengths, l ≠ 1) :=
  ⟨by decide, by decide, diagonal_dimension ⟨[2, 1, 3], 0, [3, 3, 1]⟩ ['b', 'a', 'c'] (by decide)⟩

/-- C9: for a view and index string that pass the one-operand `check_tensor_indices`, the index
string that `diagonal` computes is strictly increasing in character order and holds exactly the
labels that tag an axis of length other than 1; so does the one `diagonal` returns. -/
theorem diagonal_idx_strictly_increasing (AD : tensor_view) (idx_AD : List Char)
    (h : check_tensor_indices AD idx_AD = some 0) :
    ((diagonal_body AD idx_AD).2.Pairwise (fun a b => a < b) ∧
      ∀ c, c ∈ (diagonal_body AD idx_AD).2 ↔
        ∃ i, i < AD.dimension ∧ idx_AD.getD i default = c ∧ AD.length i ≠ 1) ∧
    ∀ r, diagonal AD idx_AD = some r →
      r.2.Pairwise (fun a b => a < b) ∧
        ∀ c, c ∈ r.2 ↔ ∃ i, i < AD.dimension ∧ idx_AD.getD i default = c ∧ AD.length i ≠ 1 := by
  refine ⟨diagonal_body_idx AD idx_AD h, ?_⟩
  intro r hr
  rw [diagonal_eq_some AD idx_AD r hr]
  exact diagonal_body_idx AD idx_AD h

/-- Witness of C9 on a 2x3x2x1 view with index string "babc": the result carries "ab". -/
theorem diagonal_idx_strictly_increasing_witness :
    check_tensor_indices ⟨[2, 3, 2, 1], 0, [1, 2, 6, 12]⟩ ['b', 'a', 'b', 'c'] = some 0 ∧
      (diagonal ⟨[2, 3, 2, 1], 0, [1, 2, 6, 12]⟩ ['b', 'a', 'b', 'c']).map (fun r => r.2) =
        some ['a', 'b'] ∧
      (((diagonal_body ⟨[2, 3, 2, 1], 0, [1, 2, 6, 12]⟩ ['b', 'a', 'b', 'c']).2.Pairwise
          (fun a b => a < b) ∧
        ∀ c, c ∈ (diagonal_body ⟨[2, 3, 2, 1], 0, [1, 2, 6, 12]⟩ ['b', 'a', 'b', 'c']).2 ↔
          ∃ i, i < (⟨[2, 3, 2, 1], 0, [1, 2, 6, 12]⟩ : tensor_view).dimension ∧
            ['b', 'a', 'b', 'c'].getD i default = c ∧
            (⟨[2, 3, 2, 1], 0, [1, 2, 6, 12]⟩ : tensor_view).length i ≠ 1) ∧
      ∀ r, diagonal ⟨[2, 3, 2, 1], 0, [1, 2, 6, 12]⟩ ['b', 'a', 'b', 'c'] = some r →
        r.2.Pairwise (fun a b => a < b) ∧
          ∀ c, c ∈ r.2 ↔
            ∃ i, i < (⟨[2, 3, 2, 1], 0, [1, 2, 6, 12]⟩ : tensor_view).dimension ∧
              ['b', 'a', 'b', 'c'].getD i default = c ∧
              (⟨[2, 3, 2, 1], 0, [1, 2, 6, 12]⟩ : tensor_view).length i ≠ 1) :=
  ⟨by decide, by decide,
    diagonal_idx_strictly_increasing ⟨[2, 3, 2, 1], 0, [1, 2, 6, 12]⟩ ['b', 'a', 'b', 'c']
      (by decide)⟩

/-- C10: with every partition flag true and index strings of the right sizes, the three-operand
`check_tensor_indices` returns 0 iff any two axes with the same label, in one operand or in two,
have equal lengths, and fails an assertion otherwise. -/
theorem check_tensor_indices_ABC_label_lengths (A : tensor_view) (idx_A : List Char)
    (B : tensor_view) (idx_B : List Char) (C : tensor_view) (idx_C : List Char)
    (hA : idx_A.length = A.dimension) (hB : idx_B.length = B.dimension)
    (hC : idx_C.length = C.dimension) :
    (check_tensor_indices_ABC A idx_A B idx_B C idx_C true true true true true true true = some 0 ↔
      ∀ X ∈ [(A, idx_A), (B, idx_B), (C, idx_C)], ∀ Y ∈ [(A, idx_A), (B, idx_B), (C, idx_C)],
        ∀ i, i < X.1.dimension → ∀ j, j < Y.1.dimension →
          X.2.getD i default = Y.2.getD j default → X.1.length i = Y.1.length j) ∧
    (check_tensor_indices_ABC A idx_A B idx_B C idx_C true true true true true true true ≠ some 0 →
      check_tensor_indices_ABC A idx_A B idx_B C idx_C true true true true true true true = none) :=
  ⟨check_tensor_indices_ABC_iff A idx_A B idx_B C idx_C hA hB hC,
    check_tensor_indices_ABC_some_or_none A idx_A B idx_B C idx_C hA hB hC⟩

/-- Witness of C10 on the operands of a matrix product, `A[i,k]`, `B[k,j]` and `C[i,j]` of
sizes 2x3, 3x4 and 2x4. -/
theorem check_tensor_indices_ABC_label_lengths_witness :
    ['i', 'k'].length = (⟨[2, 3], 0, [1, 2]⟩ : tensor_view).dimension ∧
      ['k', 'j'].length = (⟨[3, 4], 0, [1, 3]⟩ : tensor_view).dimension ∧
      ['i', 'j'].length = (⟨[2, 4], 0, [1, 2]⟩ : tensor_view).dimension ∧
      check_tensor_indices_ABC ⟨[2, 3], 0, [1, 2]⟩ ['i', 'k'] ⟨[3, 4], 0, [1, 3]⟩ ['k', 'j']
        ⟨[2, 4], 0, [1, 2]⟩ ['i', 'j'] true true true true true true true = some 0 ∧
      ((check_tensor_indices_ABC ⟨[2, 3], 0, [1, 2]⟩ ['i', 'k'] ⟨[3, 4], 0, [1, 3]⟩ ['k', 'j']
          ⟨[2, 4], 0, [1, 2]⟩ ['i', 'j'] true true true true true true true = some 0 ↔
        ∀ X ∈ [((⟨[2, 3], 0, [1, 2]⟩ : tensor_view), ['i', 'k']), (⟨[3, 4], 0, [1, 3]⟩, ['k', 'j']),
            (⟨[2, 4], 0, [1, 2]⟩, ['i', 'j'])],
          ∀ Y ∈ [((⟨[2, 3], 0, [1, 2]⟩ : tensor_view), ['i', 'k']),
              (⟨[3, 4], 0, [1, 3]⟩, ['k', 'j']), (⟨[2, 4], 0, [1, 2]⟩, ['i', 'j'])],
            ∀ i, i < X.1.dimension → ∀ j, j < Y.1.dimension →
              X.2.getD i default = Y.2.getD j default → X.1.length i = Y.1.length j) ∧
      (check_tensor_indices_ABC ⟨[2, 3], 0, [1, 2]⟩ ['i', 'k'] ⟨[3, 4], 0, [1, 3]⟩ ['k', 'j']
          ⟨[2, 4], 0, [1, 2]⟩ ['i', 'j'] true true true true true true true ≠ some 0 →
        check_tensor_indices_ABC ⟨[2, 3], 0, [1, 2]⟩ ['i', 'k'] ⟨[3, 4], 0, [1, 3]⟩ ['k', 'j']
          ⟨[2, 4], 0, [1, 2]⟩ ['i', 'j'] true true true true true true true = none)) :=
  ⟨by decide, by decide, by decide, by decide,
    check_tensor_indices_ABC_label_lengths ⟨[2, 3], 0, [1, 2]⟩ ['i', 'k'] ⟨[3, 4], 0, [1, 3]⟩
      ['k', 'j'] ⟨[2, 4], 0, [1, 2]⟩ ['i', 'j'] (by decide) (by decide) (by decide)⟩

/-- C11: the three-operand `check_tensor_indices` on inputs with index strings of the right
sizes and consistent label lengths returns 0 iff every one of the seven label classes (A-only,
B-only, C-only, AB, AC, BC, ABC) that is non-empty has its flag set; it fails an assertion when
some index string has not the size of its operand's dimension; and it never does anything but
return 0 or fail an assertion. -/
theorem check_tensor_indices_ABC_partition (A : tensor_view) (idx_A : List Char)
    (B : tensor_view) (idx_B : List Char) (C : tensor_view) (idx_C : List Char)
    (has_A_only has_B_only has_C_only has_AB has_AC has_BC has_ABC : Bool) :
    (sizes_agree [(A, idx_A), (B, idx_B), (C, idx_C)] →
      lengths_agree [(A, idx_A), (B, idx_B), (C, idx_C)] →
      (check_tensor_indices_ABC A idx_A B idx_B C idx_C has_A_only has_B_only has_C_only
          has_AB has_AC has_BC has_ABC = some 0 ↔
        (labels_only idx_A idx_B idx_C ≠ [] → has_A_only = true) ∧
        (labels_only idx_B idx_A idx_C ≠ [] → has_B_only = true) ∧
        (labels_only idx_C idx_A idx_B ≠ [] → has_C_only = true) ∧
        (labels_pair idx_A idx_B idx_C ≠ [] → has_AB = true) ∧
        (labels_pair idx_A idx_C idx_B ≠ [] → has_AC = true) ∧
        (labels_pair idx_B idx_C idx_A ≠ [] → has_BC = true) ∧
        (labels_all idx_A idx_B idx_C ≠ [] → has_ABC = true))) ∧
    (¬ sizes_agree [(A, idx_A), (B, idx_B), (C, idx_C)] →
      check_tensor_indices_ABC A idx_A B idx_B C idx_C has_A_only has_B_only has_C_only
        has_AB has_AC has_BC has_ABC = none) ∧
    (check_tensor_indices_ABC A idx_A B idx_B C idx_C has_A_only has_B_only has_C_only
        has_AB has_AC has_BC has_ABC = none ↔
      ¬ check_tensor_indices_ABC A idx_A B idx_B C idx_C has_A_only has_B_only has_C_only
        has_AB has_AC has_BC has_ABC = some 0) := by
  refine ⟨fun hs hl => ?_, fun hs => ?_, check_tensor_indices_ABC_none_iff _ _ _ _ _ _ _ _ _ _ _ _ _⟩
  · rw [check_tensor_indices_ABC_classes_iff]
    exact ⟨fun h => h.2.2, fun h => ⟨hs, hl, h⟩⟩
  · rw [check_tensor_indices_ABC_none_iff, check_tensor_indices_ABC_classes_iff]
    exact fun h => hs h.1

/-- Witness of C11 on the operands of a matrix product, `A[i,k]`, `B[k,j]` and `C[i,j]`: the
classes AB, AC and BC are the non-empty ones, so the flags of a contraction pass and the flags
of an outer product, which leave AB out, fail. -/
theorem check_tensor_indices_ABC_partition_witness :
    sizes_agree [((⟨[2, 3], 0, [1, 2]⟩ : tensor_view), ['i', 'k']),
        (⟨[3, 4], 0, [1, 3]⟩, ['k', 'j']), (⟨[2, 4], 0, [1, 2]⟩, ['i', 'j'])] ∧
      lengths_agree [((⟨[2, 3], 0, [1, 2]⟩ : tensor_view), ['i', 'k']),
        (⟨[3, 4], 0, [1, 3]⟩, ['k', 'j']), (⟨[2, 4], 0, [1, 2]⟩, ['i', 'j'])] ∧
      labels_pair ['i', 'k'] ['k', 'j'] ['i', 'j'] = ['k'] ∧
      check_tensor_indices_ABC ⟨[2, 3], 0, [1, 2]⟩ ['i', 'k'] ⟨[3, 4], 0, [1, 3]⟩ ['k', 'j']
        ⟨[2, 4], 0, [1, 2]⟩ ['i', 'j'] false false false true true true false = some 0 ∧
      check_tensor_indices_ABC ⟨[2, 3], 0, [1, 2]⟩ ['i', 'k'] ⟨[3, 4], 0, [1, 3]⟩ ['k', 'j']
        ⟨[2, 4], 0, [1, 2]⟩ ['i', 'j'] false false false false true true false = none ∧
      (check_tensor_indices_ABC ⟨[2, 3], 0, [1, 2]⟩ ['i', 'k'] ⟨[3, 4], 0, [1, 3]⟩ ['k', 'j']
          ⟨[2, 4], 0, [1, 2]⟩ ['i', 'j'] false false false true true true false = some 0 ↔
        (labels_only ['i', 'k'] ['k', 'j'] ['i', 'j'] ≠ [] → false = true) ∧
        (labels_only ['k', 'j'] ['i', 'k'] ['i', 'j'] ≠ [] → false = true) ∧
        (labels_only ['i', 'j'] ['i', 'k'] ['k', 'j'] ≠ [] → false = true) ∧
        (labels_pair ['i', 'k'] ['k', 'j'] ['i', 'j'] ≠ [] → true = true) ∧
        (labels_pair ['i', 'k'] ['i', 'j'] ['k', 'j'] ≠ [] → true = true) ∧
        (labels_pair ['k', 'j'] ['i', 'j'] ['i', 'k'] ≠ [] → true = true) ∧
        (labels_all ['i', 'k'] ['k', 'j'] ['i', 'j'] ≠ [] → false = true)) :=
  ⟨(sizes_agree_ABC_iff _ _ _ _ _ _).2 ⟨rfl, rfl, rfl⟩,
    (adjacent_agree_ABC_iff _ _ _ _ _ _).1 (by decide), by decide, by decide, by decide,
    (check_tensor_indices_ABC_partition ⟨[2, 3], 0, [1, 2]⟩ ['i', 'k'] ⟨[3, 4], 0, [1, 3]⟩
      ['k', 'j'] ⟨[2, 4], 0, [1, 2]⟩ ['i', 'j'] false false false true true true false).1
      ((sizes_agree_ABC_iff _ _ _ _ _ _).2 ⟨rfl, rfl, rfl⟩)
      ((adjacent_agree_ABC_iff _ _ _ _ _ _).1 (by decide))⟩

/-- C12: conformance of the three-operand primitives.  Each of `tensor_mult`,
`tensor_contract`, `tensor_weight` and `tensor_outer_prod` is its validation followed, when that
succeeds, by the normalization and one call of its kernel, so a failed validation ends the call
before the kernel.  The validation of `tensor_mult` fails iff a size or a length disagrees;
that of `tensor_contract` iff moreover A-only, B-only, C-only or ABC is non-empty; that of
`tensor_weight` iff moreover A-only, B-only, C-only or AB is non-empty; that of
`tensor_outer_prod` iff moreover A-only, B-only, C-only, AB or ABC is non-empty. -/
theorem dispatch_conformance_ABC (A : tensor_view) (idx_A : List Char)
    (B : tensor_view) (idx_B : List Char) (C : tensor_view) (idx_C : List Char) :
    ((∀ (T : Type) (impl : T → tensor_view → List Char → tensor_view → List Char → T →
          tensor_view → List Char → Int) (alpha beta : T),
        tensor_mult impl alpha A idx_A B idx_B beta C idx_C =
          (check_tensor_indices_ABC A idx_A B idx_B C idx_C true true true true true true
              true).bind
            (fun _ => (normalize_ABC A idx_A B idx_B C idx_C).map
              (fun f => impl alpha f.1.1 f.1.2 f.2.1.1 f.2.1.2 beta f.2.2.1 f.2.2.2))) ∧
      (check_tensor_indices_ABC A idx_A B idx_B C idx_C true true true true true true true
          = none ↔
        ¬ sizes_agree [(A, idx_A), (B, idx_B), (C, idx_C)] ∨
        ¬ lengths_agree [(A, idx_A), (B, idx_B), (C, idx_C)])) ∧
    ((∀ (T : Type) (impl : T → tensor_view → List Char → tensor_view → List Char → T →
          tensor_view → List Char → Int) (alpha beta : T),
        tensor_contract impl alpha A idx_A B idx_B beta C idx_C =
          (check_tensor_indices_ABC A idx_A B idx_B C idx_C false false false true true true
              false).bind
            (fun _ => (normalize_ABC A idx_A B idx_B C idx_C).map
              (fun f => impl alpha f.1.1 f.1.2 f.2.1.1 f.2.1.2 beta f.2.2.1 f.2.2.2))) ∧
      (check_tensor_indices_ABC A idx_A B idx_B C idx_C false false false true true true false
          = none ↔
        ¬ sizes_agree [(A, idx_A), (B, idx_B), (C, idx_C)] ∨
        ¬ lengths_agree [(A, idx_A), (B, idx_B), (C, idx_C)] ∨
        labels_only idx_A idx_B idx_C ≠ [] ∨ labels_only idx_B idx_A idx_C ≠ [] ∨
        labels_only idx_C idx_A idx_B ≠ [] ∨ labels_all idx_A idx_B idx_C ≠ [])) ∧
    ((∀ (T : Type) (impl : T → tensor_view → List Char → tensor_view → List Char → T →
          tensor_view → List Char → Int) (alpha beta : T),
        tensor_weight impl alpha A idx_A B idx_B beta C idx_C =
          (check_tensor_indices_ABC A idx_A B idx_B C idx_C false false false false true true
              true).bind
            (fun _ => (normalize_ABC A idx_A B idx_B C idx_C).map
              (fun f => impl alpha f.1.1 f.1.2 f.2.1.1 f.2.1.2 beta f.2.2.1 f.2.2.2))) ∧
      (check_tensor_indices_ABC A idx_A B idx_B C idx_C false false false false true true true
          = none ↔
        ¬ sizes_agree [(A, idx_A), (B, idx_B), (C, idx_C)] ∨
        ¬ lengths_agree [(A, idx_A), (B, idx_B), (C, idx_C)] ∨
        labels_only idx_A idx_B idx_C ≠ [] ∨ labels_only idx_B idx_A idx_C ≠ [] ∨
        labels_only idx_C idx_A idx_B ≠ [] ∨ labels_pair idx_A idx_B idx_C ≠ [])) ∧
    ((∀ (T : Type) (impl : T → tensor_view → List Char → tensor_view → List Char → T →
          tensor_view → List Char → Int) (alpha beta : T),
        tensor_outer_prod impl alpha A idx_A B idx_B beta C idx_C =
          (check_tensor_indices_ABC A idx_A B idx_B C idx_C false false false false true true
              false).bind
            (fun _ => (normalize_ABC A idx_A B idx_B C idx_C).map
              (fun f => impl alpha f.1.1 f.1.2 f.2.1.1 f.2.1.2 beta f.2.2.1 f.2.2.2))) ∧
      (check_tensor_indices_ABC A idx_A B idx_B C idx_C false false false false true true false
          = none ↔
        ¬ sizes_agree [(A, idx_A), (B, idx_B), (C, idx_C)] ∨
        ¬ lengths_agree [(A, idx_A), (B, idx_B), (C, idx_C)] ∨
        labels_only idx_A idx_B idx_C ≠ [] ∨ labels_only idx_B idx_A idx_C ≠ [] ∨
        labels_only idx_C idx_A idx_B ≠ [] ∨ labels_pair idx_A idx_B idx_C ≠ [] ∨
        labels_all idx_A idx_B idx_C ≠ [])) :=
  ⟨⟨fun _ impl alpha beta => tensor_mult_eq impl alpha A idx_A B idx_B beta C idx_C,
      check_mult_none_iff A idx_A B idx_B C idx_C⟩,
    ⟨fun _ impl alpha beta => tensor_contract_eq impl alpha A idx_A B idx_B beta C idx_C,
      check_contract_none_iff A idx_A B idx_B C idx_C⟩,
    ⟨fun _ impl alpha beta => tensor_weight_eq impl alpha A idx_A B idx_B beta C idx_C,
      check_weight_none_iff A idx_A B idx_B C idx_C⟩,
    ⟨fun _ impl alpha beta => tensor_outer_prod_eq impl alpha A idx_A B idx_B beta C idx_C,
      check_outer_prod_none_iff A idx_A B idx_B C idx_C⟩⟩

/-- An instance of C12 on the operands of a matrix product, `A[i,k]`, `B[k,j]` and `C[i,j]`:
`tensor_mult` and `tensor_contract` reach their kernel, `tensor_weight` and
`tensor_outer_prod` fail their validation because the class AB holds `k`. -/
theorem dispatch_conformance_ABC_witness :
    tensor_mult (fun (_ : Int) _ _ _ _ _ _ _ => 0) 1 ⟨[2, 3], 0, [1, 2]⟩ ['i', 'k']
        ⟨[3, 4], 0, [1, 3]⟩ ['k', 'j'] 0 ⟨[2, 4], 0, [1, 2]⟩ ['i', 'j'] = some 0 ∧
      tensor_contract (fun (_ : Int) _ _ _ _ _ _ _ => 0) 1 ⟨[2, 3], 0, [1, 2]⟩ ['i', 'k']
        ⟨[3, 4], 0, [1, 3]⟩ ['k', 'j'] 0 ⟨[2, 4], 0, [1, 2]⟩ ['i', 'j'] = some 0 ∧
      tensor_weight (fun (_ : Int) _ _ _ _ _ _ _ => 0) 1 ⟨[2, 3], 0, [1, 2]⟩ ['i', 'k']
        ⟨[3, 4], 0, [1, 3]⟩ ['k', 'j'] 0 ⟨[2, 4], 0, [1, 2]⟩ ['i', 'j'] = none ∧
      tensor_outer_prod (fun (_ : Int) _ _ _ _ _ _ _ => 0) 1 ⟨[2, 3], 0, [1, 2]⟩ ['i', 'k']
        ⟨[3, 4], 0, [1, 3]⟩ ['k', 'j'] 0 ⟨[2, 4], 0, [1, 2]⟩ ['i', 'j'] = none ∧
      (check_tensor_indices_ABC ⟨[2, 3], 0, [1, 2]⟩ ['i', 'k'] ⟨[3, 4], 0, [1, 3]⟩ ['k', 'j']
          ⟨[2, 4], 0, [1, 2]⟩ ['i', 'j'] false false false false true true true = none ↔
        ¬ sizes_agree [((⟨[2, 3], 0, [1, 2]⟩ : tensor_view), ['i', 'k']),
          (⟨[3, 4], 0, [1, 3]⟩, ['k', 'j']), (⟨[2, 4], 0, [1, 2]⟩, ['i', 'j'])] ∨
        ¬ lengths_agree [((⟨[2, 3], 0, [1, 2]⟩ : tensor_view), ['i', 'k']),
          (⟨[3, 4], 0, [1, 3]⟩, ['k', 'j']), (⟨[2, 4], 0, [1, 2]⟩, ['i', 'j'])] ∨
        labels_only ['i', 'k'] ['k', 'j'] ['i', 'j'] ≠ [] ∨
        labels_only ['k', 'j'] ['i', 'k'] ['i', 'j'] ≠ [] ∨
        labels_only ['i', 'j'] ['i', 'k'] ['k', 'j'] ≠ [] ∨
        labels_pair ['i', 'k'] ['k', 'j'] ['i', 'j'] ≠ []) :=
  ⟨by decide, by decide, by decide, by decide,
    (dispatch_conformance_ABC ⟨[2, 3], 0, [1, 2]⟩ ['i', 'k'] ⟨[3, 4], 0, [1, 3]⟩ ['k', 'j']
      ⟨[2, 4], 0, [1, 2]⟩ ['i', 'j']).2.2.1.2⟩

/-- C13: conformance of the two-operand primitives.  Each of `tensor_sum`, `tensor_trace`,
`tensor_replicate`, `tensor_transpose` and `tensor_dot` is its validation followed, when that
succeeds, by the normalization and one call of its kernel.  The validation of `tensor_sum`
fails iff a size or a length disagrees; that of `tensor_trace` iff moreover B-only is
non-empty; that of `tensor_replicate` iff moreover A-only is non-empty; that of
`tensor_transpose` and of `tensor_dot` iff moreover A-only or B-only is non-empty. -/
theorem dispatch_conformance_AB (A : tensor_view) (idx_A : List Char)
    (B : tensor_view) (idx_B : List Char) :
    ((∀ (T : Type) (impl : T → tensor_view → List Char → T → tensor_view → List Char → Int)
          (alpha beta : T),
        tensor_sum impl alpha A idx_A beta B idx_B =
          (check_tensor_indices_AB A idx_A B idx_B true true true).bind
            (fun _ => (normalize_AB A idx_A B idx_B).map
              (fun f => impl alpha f.1.1 f.1.2 beta f.2.1 f.2.2))) ∧
      (check_tensor_indices_AB A idx_A B idx_B true true true = none ↔
        ¬ sizes_agree [(A, idx_A), (B, idx_B)] ∨ ¬ lengths_agree [(A, idx_A), (B, idx_B)])) ∧
    ((∀ (T : Type) (impl : T → tensor_view → List Char → T → tensor_view → List Char → Int)
          (alpha beta : T),
        tensor_trace impl alpha A idx_A beta B idx_B =
          (check_tensor_indices_AB A idx_A B idx_B true false true).bind
            (fun _ => (normalize_AB A idx_A B idx_B).map
              (fun f => impl alpha f.1.1 f.1.2 beta f.2.1 f.2.2))) ∧
      (check_tensor_indices_AB A idx_A B idx_B true false true = none ↔
        ¬ sizes_agree [(A, idx_A), (B, idx_B)] ∨ ¬ lengths_agree [(A, idx_A), (B, idx_B)] ∨
        labels_only_of_two idx_B idx_A ≠ [])) ∧
    ((∀ (T : Type) (impl : T → tensor_view → List Char → T → tensor_view → List Char → Int)
          (alpha beta : T),
        tensor_replicate impl alpha A idx_A beta B idx_B =
          (check_tensor_indices_AB A idx_A B idx_B false true true).bind
            (fun _ => (normalize_AB A idx_A B idx_B).map
              (fun f => impl alpha f.1.1 f.1.2 beta f.2.1 f.2.2))) ∧
      (check_tensor_indices_AB A idx_A B idx_B false true true = none ↔
        ¬ sizes_agree [(A, idx_A), (B, idx_B)] ∨ ¬ lengths_agree [(A, idx_A), (B, idx_B)] ∨
        labels_only_of_two idx_A idx_B ≠ [])) ∧
    ((∀ (T : Type) (impl : T → tensor_view → List Char → T → tensor_view → List Char → Int)
          (alpha beta : T),
        tensor_transpose impl alpha A idx_A beta B idx_B =
          (check_tensor_indices_AB A idx_A B idx_B false false true).bind
            (fun _ => (normalize_AB A idx_A B idx_B).map
              (fun f => impl alpha f.1.1 f.1.2 beta f.2.1 f.2.2))) ∧
      (∀ (T : Type) (impl : tensor_view → List Char → tensor_view → List Char → Int × T),
        tensor_dot impl A idx_A B idx_B =
          (check_tensor_indices_AB A idx_A B idx_B false false true).bind
            (fun _ => (normalize_AB A idx_A B idx_B).map
              (fun f => impl f.1.1 f.1.2 f.2.1 f.2.2))) ∧
      (check_tensor_indices_AB A idx_A B idx_B false false true = none ↔
        ¬ sizes_agree [(A, idx_A), (B, idx_B)] ∨ ¬ lengths_agree [(A, idx_A), (B, idx_B)] ∨
        labels_only_of_two idx_A idx_B ≠ [] ∨ labels_only_of_two idx_B idx_A ≠ [])) :=
  ⟨⟨fun _ impl alpha beta => tensor_sum_eq impl alpha A idx_A beta B idx_B,
      check_sum_none_iff A idx_A B idx_B⟩,
    ⟨fun _ impl alpha beta => tensor_trace_eq impl alpha A idx_A beta B idx_B,
      check_trace_none_iff A idx_A B idx_B⟩,
    ⟨fun _ impl alpha beta => tensor_replicate_eq impl alpha A idx_A beta B idx_B,
      check_replicate_none_iff A idx_A B idx_B⟩,
    ⟨fun _ impl alpha beta => tensor_transpose_eq impl alpha A idx_A beta B idx_B,
      fun _ impl => tensor_dot_eq impl A idx_A B idx_B,
      check_transpose_none_iff A idx_A B idx_B⟩⟩

/-- An instance of C13 on `A[i]` of length 2 and `B[i,j]` of size 2x3, a replication: the
class B-only holds `j`, so `tensor_sum` and `tensor_replicate` reach their kernel and
`tensor_trace`, `tensor_transpose` and `tensor_dot` fail their validation. -/
theorem dispatch_conformance_AB_witness :
    tensor_sum (fun (_ : Int) _ _ _ _ _ => 0) 1 ⟨[2], 0, [1]⟩ ['i'] 0
        ⟨[2, 3], 0, [1, 2]⟩ ['i', 'j'] = some 0 ∧
      tensor_replicate (fun (_ : Int) _ _ _ _ _ => 0) 1 ⟨[2], 0, [1]⟩ ['i'] 0
        ⟨[2, 3], 0, [1, 2]⟩ ['i', 'j'] = some 0 ∧
      tensor_trace (fun (_ : Int) _ _ _ _ _ => 0) 1 ⟨[2], 0, [1]⟩ ['i'] 0
        ⟨[2, 3], 0, [1, 2]⟩ ['i', 'j'] = none ∧
      tensor_transpose (fun (_ : Int) _ _ _ _ _ => 0) 1 ⟨[2], 0, [1]⟩ ['i'] 0
        ⟨[2, 3], 0, [1, 2]⟩ ['i', 'j'] = none ∧
      tensor_dot (fun _ _ _ _ => ((0 : Int), (0 : Int))) ⟨[2], 0, [1]⟩ ['i']
        ⟨[2, 3], 0, [1, 2]⟩ ['i', 'j'] = none ∧
      labels_only_of_two ['i', 'j'] ['i'] = ['j'] ∧
      (check_tensor_indices_AB ⟨[2], 0, [1]⟩ ['i'] ⟨[2, 3], 0, [1, 2]⟩ ['i', 'j']
          true false true = none ↔
        ¬ sizes_agree [((⟨[2], 0, [1]⟩ : tensor_view), ['i']), (⟨[2, 3], 0, [1, 2]⟩, ['i', 'j'])] ∨
        ¬ lengths_agree [((⟨[2], 0, [1]⟩ : tensor_view), ['i']),
          (⟨[2, 3], 0, [1, 2]⟩, ['i', 'j'])] ∨
        labels_only_of_two ['i', 'j'] ['i'] ≠ []) :=
  ⟨by decide, by decide, by decide, by decide, by decide, by decide,
    (dispatch_conformance_AB ⟨[2], 0, [1]⟩ ['i'] ⟨[2, 3], 0, [1, 2]⟩ ['i', 'j']).2.1.2⟩

/-- C14: when no label occurs in both `A` and `B`, the validations of `tensor_contract`,
`tensor_weight` and `tensor_outer_prod` give the same verdict, and with one and the same
kernel the three primitives return the same result: they accept the same inputs and hand the
same normalized views and index strings to the kernel. -/
theorem contract_weight_reduce_to_outer_prod (A : tensor_view) (idx_A : List Char)
    (B : tensor_view) (idx_B : List Char) (C : tensor_view) (idx_C : List Char)
    (h : ∀ c, c ∈ idx_A → c ∉ idx_B) :
    check_tensor_indices_ABC A idx_A B idx_B C idx_C false false false true true true false =
        check_tensor_indices_ABC A idx_A B idx_B C idx_C false false false false true true
          false ∧
      check_tensor_indices_ABC A idx_A B idx_B C idx_C false false false false true true true =
        check_tensor_indices_ABC A idx_A B idx_B C idx_C false false false false true true
          false ∧
      ∀ (T : Type) (impl : T → tensor_view → List Char → tensor_view → List Char → T →
          tensor_view → List Char → Int) (alpha beta : T),
        tensor_contract impl alpha A idx_A B idx_B beta C idx_C =
            tensor_outer_prod impl alpha A idx_A B idx_B beta C idx_C ∧
          tensor_weight impl alpha A idx_A B idx_B beta C idx_C =
            tensor_outer_prod impl alpha A idx_A B idx_B beta C idx_C ∧
          tensor_outer_prod impl alpha A idx_A B idx_B beta C idx_C =
            (check_tensor_indices_ABC A idx_A B idx_B C idx_C false false false false true true
                false).bind
              (fun _ => (normalize_ABC A idx_A B idx_B C idx_C).map
                (fun f => impl alpha f.1.1 f.1.2 f.2.1.1 f.2.1.2 beta f.2.2.1 f.2.2.2)) := by
  refine ⟨check_contract_eq_outer_prod A idx_A B idx_B C idx_C h,
    check_weight_eq_outer_prod A idx_A B idx_B C idx_C h, ?_⟩
  intro T impl alpha beta
  refine ⟨?_, ?_, tensor_outer_prod_eq impl alpha A idx_A B idx_B beta C idx_C⟩
  · rw [tensor_contract_eq, tensor_outer_prod_eq,
      check_contract_eq_outer_prod A idx_A B idx_B C idx_C h]
  · rw [tensor_weight_eq, tensor_outer_prod_eq,
      check_weight_eq_outer_prod A idx_A B idx_B C idx_C h]

/-- Witness of C14 on the outer product `C[i,j] = A[i] * B[j]` of sizes 2 and 3: the three
primitives all reach the kernel. -/
theorem contract_weight_reduce_to_outer_prod_witness :
    (∀ c, c ∈ ['i'] → c ∉ ['j']) ∧
      tensor_outer_prod (fun (_ : Int) _ _ _ _ _ _ _ => 0) 1 ⟨[2], 0, [1]⟩ ['i']
        ⟨[3], 0, [1]⟩ ['j'] 0 ⟨[2, 3], 0, [1, 2]⟩ ['i', 'j'] = some 0 ∧
      tensor_contract (fun (_ : Int) _ _ _ _ _ _ _ => 0) 1 ⟨[2], 0, [1]⟩ ['i']
          ⟨[3], 0, [1]⟩ ['j'] 0 ⟨[2, 3], 0, [1, 2]⟩ ['i', 'j'] =
        tensor_outer_prod (fun (_ : Int) _ _ _ _ _ _ _ => 0) 1 ⟨[2], 0, [1]⟩ ['i']
          ⟨[3], 0, [1]⟩ ['j'] 0 ⟨[2, 3], 0, [1, 2]⟩ ['i', 'j'] :=
  ⟨by decide, by decide,
    ((contract_weight_reduce_to_outer_prod ⟨[2], 0, [1]⟩ ['i'] ⟨[3], 0, [1]⟩ ['j']
      ⟨[2, 3], 0, [1, 2]⟩ ['i', 'j'] (by decide)).2.2 Int (fun _ _ _ _ _ _ _ _ => 0) 1 0).1⟩

/-- C15: when every label of `A` also occurs in `B`, the validations of `tensor_trace` and
`tensor_transpose` give the same verdict, and with one and the same kernel the two primitives
return the same result: they accept the same inputs and hand the same normalized views and
index strings to the kernel. -/
theorem trace_without_traced_index_is_transpose (A : tensor_view) (idx_A : List Char)
    (B : tensor_view) (idx_B : List Char) (h : ∀ c, c ∈ idx_A → c ∈ idx_B) :
    check_tensor_indices_AB A idx_A B idx_B true false true =
        check_tensor_indices_AB A idx_A B idx_B false false true ∧
      ∀ (T : Type) (impl : T → tensor_view → List Char → T → tensor_view → List Char → Int)
          (alpha beta : T),
        tensor_trace impl alpha A idx_A beta B idx_B =
            tensor_transpose impl alpha A idx_A beta B idx_B ∧
          tensor_transpose impl alpha A idx_A beta B idx_B =
            (check_tensor_indices_AB A idx_A B idx_B false false true).bind
              (fun _ => (normalize_AB A idx_A B idx_B).map
                (fun f => impl alpha f.1.1 f.1.2 beta f.2.1 f.2.2)) := by
  refine ⟨check_trace_eq_transpose A idx_A B idx_B h, ?_⟩
  intro T impl alpha beta
  refine ⟨?_, tensor_transpose_eq impl alpha A idx_A beta B idx_B⟩
  rw [tensor_trace_eq, tensor_transpose_eq, check_trace_eq_transpose A idx_A B idx_B h]

/-- Witness of C15 on the transposition `B[j,i] = A[i,j]` of a 2x3 view: both primitives reach
the kernel. -/
theorem trace_without_traced_index_is_transpose_witness :
    (∀ c, c ∈ ['i', 'j'] → c ∈ ['j', 'i']) ∧
      tensor_transpose (fun (_ : Int) _ _ _ _ _ => 0) 1 ⟨[2, 3], 0, [1, 2]⟩ ['i', 'j'] 0
        ⟨[3, 2], 0, [1, 3]⟩ ['j', 'i'] = some 0 ∧
      tensor_trace (fun (_ : Int) _ _ _ _ _ => 0) 1 ⟨[2, 3], 0, [1, 2]⟩ ['i', 'j'] 0
          ⟨[3, 2], 0, [1, 3]⟩ ['j', 'i'] =
        tensor_transpose (fun (_ : Int) _ _ _ _ _ => 0) 1 ⟨[2, 3], 0, [1, 2]⟩ ['i', 'j'] 0
          ⟨[3, 2], 0, [1, 3]⟩ ['j', 'i'] :=
  ⟨by decide, by decide,
    ((trace_without_traced_index_is_transpose ⟨[2, 3], 0, [1, 2]⟩ ['i', 'j']
      ⟨[3, 2], 0, [1, 3]⟩ ['j', 'i'] (by decide)).2 Int (fun _ _ _ _ _ _ => 0) 1 0).1⟩

/-- C16: for `dim < A.dimension()` and `0 <= off <= len[dim]`, `partition` returns two views
with the strides of `A` and the lengths of `A` on every axis but `dim`, where `A0` has length
`off` and `A1` length `len[dim] - off`; `A0` keeps the pointer of `A` and `A1` starts
`off * stride[dim]` elements further. -/
theorem partition_splits (A : tensor_view) (dim : Nat) (off : Int)
    (hdim : dim < A.dimension) (h0 : 0 ≤ off) (h1 : off ≤ A.length dim) :
    ∃ A0 A1, partition A dim off = some (A0, A1) ∧
      A0.strides = A.strides ∧ A1.strides = A.strides ∧
      A0.dimension = A.dimension ∧ A1.dimension = A.dimension ∧
      (∀ i, i ≠ dim → A0.length i = A.length i ∧ A1.length i = A.length i) ∧
      A0.length dim = off ∧ A1.length dim = A.length dim - off ∧
      A0.data = A.data ∧ A1.data = A.data + off * A.stride dim :=
  partition_in_range A dim off hdim h0 h1

/-- Witness of C16 on a 3x2 view with strides `(1, 3)` at address 10, split along axis 0 at
offset 1. -/
theorem partition_splits_witness :
    0 < (⟨[3, 2], 10, [1, 3]⟩ : tensor_view).dimension ∧ (0 : Int) ≤ 1 ∧
      (1 : Int) ≤ (⟨[3, 2], 10, [1, 3]⟩ : tensor_view).length 0 ∧
      partition ⟨[3, 2], 10, [1, 3]⟩ 0 1 =
        some (⟨[1, 2], 10, [1, 3]⟩, ⟨[2, 2], 11, [1, 3]⟩) ∧
      ∃ A0 A1, partition ⟨[3, 2], 10, [1, 3]⟩ 0 1 = some (A0, A1) ∧
        A0.strides = [1, 3] ∧ A1.strides = [1, 3] ∧
        A0.dimension = (⟨[3, 2], 10, [1, 3]⟩ : tensor_view).dimension ∧
        A1.dimension = (⟨[3, 2], 10, [1, 3]⟩ : tensor_view).dimension ∧
        (∀ i, i ≠ 0 → A0.length i = (⟨[3, 2], 10, [1, 3]⟩ : tensor_view).length i ∧
          A1.length i = (⟨[3, 2], 10, [1, 3]⟩ : tensor_view).length i) ∧
        A0.length 0 = 1 ∧ A1.length 0 = (⟨[3, 2], 10, [1, 3]⟩ : tensor_view).length 0 - 1 ∧
        A0.data = 10 ∧ A1.data = 10 + 1 * (⟨[3, 2], 10, [1, 3]⟩ : tensor_view).stride 0 :=
  ⟨by decide, by decide, by decide, by decide,
    partition_splits ⟨[3, 2], 10, [1, 3]⟩ 0 1 (by decide) (by decide) (by decide)⟩

/-- C17, as stated, fails: on a view of length 3 the offset `-1` makes `partition` fail its
assertion `off >= 0`, while the clamped offset `min(max(-1, 0), 3) = 0` is accepted. -/
theorem partition_negative_offset_aborts :
    partition ⟨[3], 0, [1]⟩ 0 (-1) = none ∧
      partition ⟨[3], 0, [1]⟩ 0 (min (max (-1) 0) ((⟨[3], 0, [1]⟩ : tensor_view).length 0)) =
        some (⟨[0], 0, [1]⟩, ⟨[3], 0, [1]⟩) ∧
      ¬ ((partition ⟨[3], 0, [1]⟩ 0 (-1)).isSome = true ∧
        partition ⟨[3], 0, [1]⟩ 0 (-1) =
          partition ⟨[3], 0, [1]⟩ 0
            (min (max (-1) 0) ((⟨[3], 0, [1]⟩ : tensor_view).length 0))) := by
  decide

/-- C17, amended: `partition` clamps its offset from above only.  On a view with
`len[dim] >= 0` and `dim < A.dimension()`, every offset `off >= 0`, above `len[dim]` included,
is accepted and gives the same two views as the clamped offset `min(max(off, 0), len[dim])`;
every offset below 0 fails the assertion `off >= 0`. -/
theorem partition_clamps_from_above (A : tensor_view) (dim : Nat) (off : Int)
    (hdim : dim < A.dimension) (hlen : 0 ≤ A.length dim) :
    (0 ≤ off →
      (partition A dim off).isSome = true ∧
        partition A dim off = partition A dim (min (max off 0) (A.length dim))) ∧
    (off < 0 → partition A dim off = none) := by
  refine ⟨fun h0 => ⟨?_, partition_clamp A dim off hdim hlen h0⟩, partition_neg A dim off⟩
  rw [partition_eq_some A dim off hdim h0]
  rfl

/-- Witness of the amended C17 on a view of length 3 and the offset 5, which is clamped
to 3. -/
theorem partition_clamps_from_above_witness :
    0 < (⟨[3], 0, [1]⟩ : tensor_view).dimension ∧
      (0 : Int) ≤ (⟨[3], 0, [1]⟩ : tensor_view).length 0 ∧
      partition ⟨[3], 0, [1]⟩ 0 5 = some (⟨[3], 0, [1]⟩, ⟨[0], 3, [1]⟩) ∧
      (((0 : Int) ≤ 5 →
        (partition ⟨[3], 0, [1]⟩ 0 5).isSome = true ∧
          partition ⟨[3], 0, [1]⟩ 0 5 =
            partition ⟨[3], 0, [1]⟩ 0 (min (max 5 0) ((⟨[3], 0, [1]⟩ : tensor_view).length 0))) ∧
        ((5 : Int) < 0 → partition ⟨[3], 0, [1]⟩ 0 5 = none)) :=
  ⟨by decide, by decide, by decide,
    partition_clamps_from_above ⟨[3], 0, [1]⟩ 0 5 (by decide) (by decide)⟩

/-- C18: for `dim < V.dimension()` and `off >= 0`, the two views `partition` returns pass
every assertion of `unpartition` (its bound on `dim`, the congruence along `dim` and the
adjacency of the pointers), and `unpartition` returns the lengths, strides and pointer
of `V`. -/
theorem partition_unpartition (V : tensor_view) (dim : Nat) (off : Int)
    (hdim : dim < V.dimension) (h0 : 0 ≤ off) :
    ∃ A0 A1, partition V dim off = some (A0, A1) ∧ dim < A0.dimension ∧
      are_congruent_along A0 A1 dim = true ∧
      A0.data + A0.length dim * A0.stride dim = A1.data ∧
      unpartition A0 A1 dim = some V :=
  partition_unpartition_roundtrip V dim off hdim h0

/-- Witness of C18 on a 3x2 view with strides `(1, 3)` at address 10, split along axis 0 at
offset 1. -/
theorem partition_unpartition_witness :
    0 < (⟨[3, 2], 10, [1, 3]⟩ : tensor_view).dimension ∧ (0 : Int) ≤ 1 ∧
      (partition ⟨[3, 2], 10, [1, 3]⟩ 0 1).bind (fun P => unpartition P.1 P.2 0) =
        some ⟨[3, 2], 10, [1, 3]⟩ ∧
      ∃ A0 A1, partition ⟨[3, 2], 10, [1, 3]⟩ 0 1 = some (A0, A1) ∧ 0 < A0.dimension ∧
        are_congruent_along A0 A1 0 = true ∧
        A0.data + A0.length 0 * A0.stride 0 = A1.data ∧
        unpartition A0 A1 0 = some ⟨[3, 2], 10, [1, 3]⟩ :=
  ⟨by decide, by decide, by decide,
    partition_unpartition ⟨[3, 2], 10, [1, 3]⟩ 0 1 (by decide) (by decide)⟩

/-- C19: `slice` computes the pointer of `a1` from the stride of axis `dim + 1`, because it
reads `stride[dim]` after erasing axis `dim` from its local stride vector.  On a 3x2 view with
strides `(1, 3)` at address 10, sliced along axis 0 at offset 1, `A0` and `A2` are as the claim
says and `a1` has the right lengths and strides, but its pointer is `10 + 1 * 3 = 13` and not
`10 + 1 * 1 = 11`. -/
theorem slice_a1_pointer_uses_next_stride :
    (∀ (A : tensor_view) (dim : Nat) (off : Int),
      (slice_body A dim off).2.1.data = A.data + off * A.stride (dim + 1)) ∧
      0 < (⟨[3, 2], 10, [1, 3]⟩ : tensor_view).dimension ∧
      ((0 : Int) ≤ 1 ∧ (1 : Int) < (⟨[3, 2], 10, [1, 3]⟩ : tensor_view).length 0) ∧
      slice ⟨[3, 2], 10, [1, 3]⟩ 0 1 =
        some (⟨[1, 2], 10, [1, 3]⟩, ⟨[2], 13, [3]⟩, ⟨[1, 2], 12, [1, 3]⟩) ∧
      (13 : Int) ≠ 10 + 1 * (⟨[3, 2], 10, [1, 3]⟩ : tensor_view).stride 0 :=
  ⟨slice_body_a1_data, by decide, by decide, by decide, by decide⟩

/-- C20: the views that `slice` returns for a 3x2 view with strides `(1, 3)` at address 10,
axis 0 and offset 1 do not pass the assertions of `unslice`: both congruence tests hold and
`A2` is adjacent, but the pointer of `a1` is 13 where `unslice` asserts
`A0.data + A0.length(0) * A0.stride(0) = 11`, so `unslice` aborts instead of returning the
view. -/
theorem slice_unslice_aborts :
    slice ⟨[3, 2], 10, [1, 3]⟩ 0 1 =
        some (⟨[1, 2], 10, [1, 3]⟩, ⟨[2], 13, [3]⟩, ⟨[1, 2], 12, [1, 3]⟩) ∧
      are_congruent_along ⟨[1, 2], 10, [1, 3]⟩ ⟨[2], 13, [3]⟩ 0 = true ∧
      are_congruent_along ⟨[1, 2], 10, [1, 3]⟩ ⟨[1, 2], 12, [1, 3]⟩ 0 = true ∧
      (⟨[1, 2], 12, [1, 3]⟩ : tensor_view).data =
        (⟨[1, 2], 10, [1, 3]⟩ : tensor_view).data +
          ((⟨[1, 2], 10, [1, 3]⟩ : tensor_view).length 0 + 1) *
            (⟨[1, 2], 10, [1, 3]⟩ : tensor_view).stride 0 ∧
      (⟨[2], 13, [3]⟩ : tensor_view).data ≠
        (⟨[1, 2], 10, [1, 3]⟩ : tensor_view).data +
          (⟨[1, 2], 10, [1, 3]⟩ : tensor_view).length 0 *
            (⟨[1, 2], 10, [1, 3]⟩ : tensor_view).stride 0 ∧
      unslice ⟨[1, 2], 10, [1, 3]⟩ ⟨[2], 13, [3]⟩ ⟨[1, 2], 12, [1, 3]⟩ 0 = none ∧
      (slice ⟨[3, 2], 10, [1, 3]⟩ 0 1).bind (fun S => unslice S.1 S.2.1 S.2.2 0) = none ∧
      unslice ⟨[1, 2], 10, [1, 3]⟩ ⟨[2], 11, [3]⟩ ⟨[1, 2], 12, [1, 3]⟩ 0 =
        some ⟨[3, 2], 10, [1, 3]⟩ := by
  decide


/-- C21: the views that `slice_back` returns do not pass the assertions of `unslice_back`.
`slice_back` computes the pointer of `a1` from `stride[dim]` after erasing axis `dim` from its
local stride vector, so it uses the stride of axis `dim + 1`.  On a 3x2 view with strides
`(1, 3)` at address 10 and axis 0, `A0` is right and `a1` has the right lengths and strides and
is congruent to `A0`, but its pointer is `10 + 2 * 3 = 16` where `unslice_back` asserts
`A0.data + A0.length(0) * A0.stride(0) = 12`, so `unslice_back` aborts instead of returning the
view; with the pointer 12 it returns the view. -/
theorem slice_back_unslice_back_aborts :
    (∀ (A : tensor_view) (dim : Nat),
      (slice_back_body A dim).2.data = A.data + (A.length dim - 1) * A.stride (dim + 1)) ∧
      (∀ l ∈ (⟨[3, 2], 10, [1, 3]⟩ : tensor_view).lengths, 1 ≤ l) ∧
      0 < (⟨[3, 2], 10, [1, 3]⟩ : tensor_view).dimension ∧
      slice_back ⟨[3, 2], 10, [1, 3]⟩ 0 = some (⟨[2, 2], 10, [1, 3]⟩, ⟨[2], 16, [3]⟩) ∧
      0 < (⟨[2, 2], 10, [1, 3]⟩ : tensor_view).dimension ∧
      (⟨[2, 2], 10, [1, 3]⟩ : tensor_view).dimension =
        (⟨[2], 16, [3]⟩ : tensor_view).dimension + 1 ∧
      are_congruent_along ⟨[2, 2], 10, [1, 3]⟩ ⟨[2], 16, [3]⟩ 0 = true ∧
      (⟨[2], 16, [3]⟩ : tensor_view).data ≠
        (⟨[2, 2], 10, [1, 3]⟩ : tensor_view).data +
          (⟨[2, 2], 10, [1, 3]⟩ : tensor_view).length 0 *
            (⟨[2, 2], 10, [1, 3]⟩ : tensor_view).stride 0 ∧
      unslice_back ⟨[2, 2], 10, [1, 3]⟩ ⟨[2], 16, [3]⟩ 0 = none ∧
      (slice_back ⟨[3, 2], 10, [1, 3]⟩ 0).bind (fun S => unslice_back S.1 S.2 0) = none ∧
      unslice_back ⟨[2, 2], 10, [1, 3]⟩ ⟨[2], 12, [3]⟩ 0 = some ⟨[3, 2], 10, [1, 3]⟩ :=
  ⟨slice_back_body_a1_data, by decide, by decide, by decide, by decide, by decide, by decide,
    by decide, by decide, by decide, by decide⟩

/-- C22: for `dim < V.dimension()` the two views `slice_front` returns pass every assertion
of `unslice_front` (its bound on `dim`, the dimensions, the congruence along `dim` and the
adjacency of the pointers), and `unslice_front` returns the lengths, strides and pointer of
`V`.  No condition on the lengths is needed. -/
theorem slice_front_unslice_front (V : tensor_view) (dim : Nat) (hdim : dim < V.dimension) :
    ∃ a0 A1, slice_front V dim = some (a0, A1) ∧ dim < A1.dimension ∧
      A1.dimension = a0.dimension + 1 ∧
      are_congruent_along a0 A1 dim = true ∧
      A1.data = a0.data + A1.stride dim ∧
      unslice_front a0 A1 dim = some V :=
  slice_front_unslice_front_roundtrip V dim hdim

/-- Witness of C22 on a 3x2 view with strides `(1, 3)` at address 10, along axis 0 and along
the last axis. -/
theorem slice_front_unslice_front_witness :
    0 < (⟨[3, 2], 10, [1, 3]⟩ : tensor_view).dimension ∧
      slice_front ⟨[3, 2], 10, [1, 3]⟩ 0 = some (⟨[2], 10, [3]⟩, ⟨[2, 2], 11, [1, 3]⟩) ∧
      (slice_front ⟨[3, 2], 10, [1, 3]⟩ 0).bind (fun S => unslice_front S.1 S.2 0) =
        some ⟨[3, 2], 10, [1, 3]⟩ ∧
      (slice_front ⟨[3, 2], 10, [1, 3]⟩ 1).bind (fun S => unslice_front S.1 S.2 1) =
        some ⟨[3, 2], 10, [1, 3]⟩ ∧
      ∃ a0 A1, slice_front ⟨[3, 2], 10, [1, 3]⟩ 0 = some (a0, A1) ∧ 0 < A1.dimension ∧
        A1.dimension = a0.dimension + 1 ∧
        are_congruent_along a0 A1 0 = true ∧
        A1.data = a0.data + A1.stride 0 ∧
        unslice_front a0 A1 0 = some ⟨[3, 2], 10, [1, 3]⟩ :=
  ⟨by decide, by decide, by decide, by decide,
    slice_front_unslice_front ⟨[3, 2], 10, [1, 3]⟩ 0 (by decide)⟩

/-- C23: for a view `A` with all lengths at least 1 and `dim < A.dimension()`, `slice`
accepts the offsets `0` and `len[dim] - 1`, `slice_front(A, dim)` returns as `(a0, A1)` the
views `(a1, A2)` of `slice(A, dim, 0)`, and `slice_back(A, dim)` returns as `(A0, a1)` the
views `(A0, a1)` of `slice(A, dim, len[dim] - 1)`. -/
theorem slice_front_back_are_slices (A : tensor_view) (dim : Nat) (hdim : dim < A.dimension)
    (hlen : ∀ l ∈ A.lengths, 1 ≤ l) :
    slice A dim 0 = some (slice_body A dim 0) ∧
      slice_front A dim = some ((slice_body A dim 0).2.1, (slice_body A dim 0).2.2) ∧
      slice A dim (A.length dim - 1) = some (slice_body A dim (A.length dim - 1)) ∧
      slice_back A dim =
        some ((slice_body A dim (A.length dim - 1)).1,
          (slice_body A dim (A.length dim - 1)).2.1) :=
  slice_front_back_eq_slice A dim hdim hlen

/-- Witness of C23 on a 3x2 view with strides `(1, 3)` at address 10 and axis 0. -/
theorem slice_front_back_are_slices_witness :
    (0 < (⟨[3, 2], 10, [1, 3]⟩ : tensor_view).dimension ∧
      ∀ l ∈ (⟨[3, 2], 10, [1, 3]⟩ : tensor_view).lengths, 1 ≤ l) ∧
      slice ⟨[3, 2], 10, [1, 3]⟩ 0 0 =
        some (⟨[0, 2], 10, [1, 3]⟩, ⟨[2], 10, [3]⟩, ⟨[2, 2], 11, [1, 3]⟩) ∧
      slice_front ⟨[3, 2], 10, [1, 3]⟩ 0 = some (⟨[2], 10, [3]⟩, ⟨[2, 2], 11, [1, 3]⟩) ∧
      slice ⟨[3, 2], 10, [1, 3]⟩ 0 2 =
        some (⟨[2, 2], 10, [1, 3]⟩, ⟨[2], 16, [3]⟩, ⟨[0, 2], 13, [1, 3]⟩) ∧
      slice_back ⟨[3, 2], 10, [1, 3]⟩ 0 = some (⟨[2, 2], 10, [1, 3]⟩, ⟨[2], 16, [3]⟩) ∧
      (slice (⟨[3, 2], 10, [1, 3]⟩ : tensor_view) 0 0 =
          some (slice_body ⟨[3, 2], 10, [1, 3]⟩ 0 0) ∧
        slice_front (⟨[3, 2], 10, [1, 3]⟩ : tensor_view) 0 =
          some ((slice_body ⟨[3, 2], 10, [1, 3]⟩ 0 0).2.1,
            (slice_body ⟨[3, 2], 10, [1, 3]⟩ 0 0).2.2) ∧
        slice (⟨[3, 2], 10, [1, 3]⟩ : tensor_view) 0
            ((⟨[3, 2], 10, [1, 3]⟩ : tensor_view).length 0 - 1) =
          some (slice_body ⟨[3, 2], 10, [1, 3]⟩ 0
            ((⟨[3, 2], 10, [1, 3]⟩ : tensor_view).length 0 - 1)) ∧
        slice_back (⟨[3, 2], 10, [1, 3]⟩ : tensor_view) 0 =
          some ((slice_body ⟨[3, 2], 10, [1, 3]⟩ 0
              ((⟨[3, 2], 10, [1, 3]⟩ : tensor_view).length 0 - 1)).1,
            (slice_body ⟨[3, 2], 10, [1, 3]⟩ 0
              ((⟨[3, 2], 10, [1, 3]⟩ : tensor_view).length 0 - 1)).2.1)) :=
  ⟨⟨by decide, by decide⟩, by decide, by decide, by decide, by decide,
    slice_front_back_are_slices ⟨[3, 2], 10, [1, 3]⟩ 0 (by decide) (by decide)⟩

/-- C24, counterexample: a vector of length 3 with stride 2 at address 10, matricized with
`split = 0`, passes every assertion of `matricize` (there is no pair of axes to compare) and
takes the branch `m == 1`, which sets the strides to `(n, 1) = (3, 1)` whatever the stride of
the vector is.  The coordinate `(2)` is at offset 4 in the tensor view; its row index is 0 and
its column index 2, which the matrix view places at offset 2, and no row and column index in
range reaches offset 4. -/
theorem matricize_strided_vector_inconsistent :
    matricize_asserts ⟨[3], 10, [2]⟩ 0 = true ∧
      matricize ⟨[3], 10, [2]⟩ 0 = some ⟨(1, 3), 10, (3, 1)⟩ ∧
      [2] ∈ coordinates (⟨[3], 10, [2]⟩ : tensor_view).lengths ∧
      offset [2] (⟨[3], 10, [2]⟩ : tensor_view).strides = 4 ∧
      matricize_row ⟨[3], 10, [2]⟩ 0 [2] = 0 ∧
      matricize_col ⟨[3], 10, [2]⟩ 0 [2] = 2 ∧
      offset [2] (⟨[3], 10, [2]⟩ : tensor_view).strides ≠
        matricize_row ⟨[3], 10, [2]⟩ 0 [2] * (⟨(1, 3), 10, (3, 1)⟩ : matrix_view).strides.1 +
          matricize_col ⟨[3], 10, [2]⟩ 0 [2] * (⟨(1, 3), 10, (3, 1)⟩ : matrix_view).strides.2 ∧
      (∀ r ∈ List.range 1, ∀ c ∈ List.range 3, (r : Int) * 3 + (c : Int) * 1 ≠ 4) := by
  decide

/-- C24, amended: for a view `A` with all lengths at least 1 and a `split` that `matricize`
accepts, every coordinate `x` in range has the same offset in the tensor view and in the
matrix view, `sum_i x_i * stride(i) = r * rs + c * cs`, with `r` and `c` the linear indices of
`x` before and from `split` (column-major when `stride(0) < stride(d-1)`, row-major otherwise),
provided that in a degenerate branch the side that is not degenerate has unit stride on its
fastest axis: the column axes when `m = 1` and `n != 1`, where the code returns the strides
`(n, 1)`, and the row axes when `n = 1` and `m != 1`, where it returns `(1, m)`.  Outside the
degenerate branches nothing is asked. -/
theorem matricize_consistent (A : tensor_view) (split : Nat) (AM : matrix_view)
    (h : matricize A split = some AM) (hlen : ∀ l ∈ A.lengths, 1 ≤ l)
    (hrow : AM.lengths.1 ≠ 1 → AM.lengths.2 = 1 → matricize_row_stride A split = 1)
    (hcol : AM.lengths.1 = 1 → AM.lengths.2 ≠ 1 → matricize_col_stride A split = 1)
    (x : List Int) (hx : x ∈ coordinates A.lengths) :
    offset x A.strides =
      matricize_row A split x * AM.strides.1 + matricize_col A split x * AM.strides.2 :=
  matricize_consistent_in_range A split AM h hlen hrow hcol x hx

/-- Witness of C24 (amended) on a packed row-major 1x3 view split after its first axis, which
takes the branch `m == 1`: the coordinate `(0, 2)` is at offset 2 in both views. -/
theorem matricize_consistent_witness :
    matricize ⟨[1, 3], 10, [3, 1]⟩ 1 = some ⟨(1, 3), 10, (3, 1)⟩ ∧
      (∀ l ∈ (⟨[1, 3], 10, [3, 1]⟩ : tensor_view).lengths, 1 ≤ l) ∧
      matricize_col_stride ⟨[1, 3], 10, [3, 1]⟩ 1 = 1 ∧
      [0, 2] ∈ coordinates (⟨[1, 3], 10, [3, 1]⟩ : tensor_view).lengths ∧
      offset [0, 2] (⟨[1, 3], 10, [3, 1]⟩ : tensor_view).strides = 2 ∧
      matricize_row ⟨[1, 3], 10, [3, 1]⟩ 1 [0, 2] = 0 ∧
      matricize_col ⟨[1, 3], 10, [3, 1]⟩ 1 [0, 2] = 2 ∧
      offset [0, 2] (⟨[1, 3], 10, [3, 1]⟩ : tensor_view).strides =
        matricize_row ⟨[1, 3], 10, [3, 1]⟩ 1 [0, 2] *
            (⟨(1, 3), 10, (3, 1)⟩ : matrix_view).strides.1 +
          matricize_col ⟨[1, 3], 10, [3, 1]⟩ 1 [0, 2] *
            (⟨(1, 3), 10, (3, 1)⟩ : matrix_view).strides.2 :=
  ⟨by decide, by decide, by decide, by decide, by decide, by decide, by decide,
    matricize_consistent ⟨[1, 3], 10, [3, 1]⟩ 1 ⟨(1, 3), 10, (3, 1)⟩ (by decide) (by decide)
      (by decide) (by decide) [0, 2] (by decide)⟩

/-- C25: when `matricize` accepts `A` and `split`, then `split <= d`, the matrix view has the
shape `(m, n)` with `m` the product of the lengths of the axes before `split` and `n` the
product of the lengths of the axes from `split` on (an empty product is 1), `m * n` is
`tensor_size` of `A`, the data pointer is that of `A`, and for `d = 0` the view is 1x1 with
both strides 1. -/
theorem matricize_shape (A : tensor_view) (split : Nat) (AM : matrix_view)
    (h : matricize A split = some AM) :
    split ≤ A.dimension ∧
      AM.lengths = ((A.lengths.take split).prod, (A.lengths.drop split).prod) ∧
      AM.lengths.1 * AM.lengths.2 = tensor_size A.dimension A.lengths ∧
      AM.data = A.data ∧
      (A.dimension = 0 → AM.lengths = (1, 1) ∧ AM.strides = (1, 1)) :=
  matricize_shape_of_some A split AM h

/-- Witness of C25 on a packed column-major 2x3x4 view at address 10 split after its first
axis, with the view of dimension 0 next to it. -/
theorem matricize_shape_witness :
    matricize ⟨[2, 3, 4], 10, [1, 2, 6]⟩ 1 = some ⟨(2, 12), 10, (1, 2)⟩ ∧
      matricize ⟨[], 10, []⟩ 0 = some ⟨(1, 1), 10, (1, 1)⟩ ∧
      tensor_size 3 [2, 3, 4] = 24 ∧
      (1 ≤ (⟨[2, 3, 4], 10, [1, 2, 6]⟩ : tensor_view).dimension ∧
        (⟨(2, 12), 10, (1, 2)⟩ : matrix_view).lengths =
          (((⟨[2, 3, 4], 10, [1, 2, 6]⟩ : tensor_view).lengths.take 1).prod,
            ((⟨[2, 3, 4], 10, [1, 2, 6]⟩ : tensor_view).lengths.drop 1).prod) ∧
        (⟨(2, 12), 10, (1, 2)⟩ : matrix_view).lengths.1 *
            (⟨(2, 12), 10, (1, 2)⟩ : matrix_view).lengths.2 =
          tensor_size (⟨[2, 3, 4], 10, [1, 2, 6]⟩ : tensor_view).dimension
            (⟨[2, 3, 4], 10, [1, 2, 6]⟩ : tensor_view).lengths ∧
        (⟨(2, 12), 10, (1, 2)⟩ : matrix_view).data =
          (⟨[2, 3, 4], 10, [1, 2, 6]⟩ : tensor_view).data ∧
        ((⟨[2, 3, 4], 10, [1, 2, 6]⟩ : tensor_view).dimension = 0 →
          (⟨(2, 12), 10, (1, 2)⟩ : matrix_view).lengths = (1, 1) ∧
            (⟨(2, 12), 10, (1, 2)⟩ : matrix_view).strides = (1, 1))) :=
  ⟨by decide, by decide, by decide,
    matricize_shape ⟨[2, 3, 4], 10, [1, 2, 6]⟩ 1 ⟨(2, 12), 10, (1, 2)⟩ (by decide)⟩

/-- C26, counterexample: `are_compatible` compares the two enumerations entry by entry, so it
rejects layouts that have the same product of lengths and the same set of offsets.  The 2x2
layout with strides `(-1, -2)` and the layout of length 4 with stride `-1` both have 4 elements
and the offsets `0, -1, -2, -3`, but the first is walked in the order `0, -2, -1, -3` and the
function returns false.  The layouts `(2, 3)` and `(3, 2)`, both with strides `(1, 1)`, have 6
elements and the offsets `0, 1, 2, 3`, walked as `0, 1, 1, 2, 2, 3` and `0, 1, 2, 1, 2, 3`, and
the function returns false. -/
theorem are_compatible_rejects_equal_offset_sets :
    prod [2, 2] = prod [4] ∧
      (∀ t ∈ offsets [2, 2] [-1, -2], t ∈ offsets [4] [-1]) ∧
      (∀ t ∈ offsets [4] [-1], t ∈ offsets [2, 2] [-1, -2]) ∧
      offsets_in_stride_order [2, 2] [-1, -2] = [0, -2, -1, -3] ∧
      offsets_in_stride_order [4] [-1] = [0, -1, -2, -3] ∧
      are_compatible [2, 2] [-1, -2] [4] [-1] = some false ∧
      prod [2, 3] = prod [3, 2] ∧
      (∀ t ∈ offsets [2, 3] [1, 1], t ∈ offsets [3, 2] [1, 1]) ∧
      (∀ t ∈ offsets [3, 2] [1, 1], t ∈ offsets [2, 3] [1, 1]) ∧
      offsets_in_stride_order [2, 3] [1, 1] = [0, 1, 1, 2, 2, 3] ∧
      offsets_in_stride_order [3, 2] [1, 1] = [0, 1, 2, 1, 2, 3] ∧
      are_compatible [2, 3] [1, 1] [3, 2] [1, 1] = some false := by
  decide

/-- C26, amended: for two layouts whose length and stride vectors have matching sizes (the
assertions of the function), `are_compatible` returns true iff the layouts have the same
product of lengths and the same sequence of offsets, each layout being enumerated with its axes
in ascending order of stride, the first of them running fastest.  When it returns true the two
layouts have the same product of lengths and the same set of offsets
`sum_i x_i * stride[i]`, `0 <= x_i < len[i]`; and it always returns true or false. -/
theorem are_compatible_compares_in_stride_order (len_A stride_A len_B stride_B : List Int)
    (hA : len_A.length = stride_A.length) (hB : len_B.length = stride_B.length) :
    (are_compatible len_A stride_A len_B stride_B = some true ↔
        prod len_A = prod len_B ∧
          offsets_in_stride_order len_A stride_A = offsets_in_stride_order len_B stride_B) ∧
      (are_compatible len_A stride_A len_B stride_B = some true →
        prod len_A = prod len_B ∧
          ∀ t, t ∈ offsets len_A stride_A ↔ t ∈ offsets len_B stride_B) ∧
      (are_compatible len_A stride_A len_B stride_B = some true ∨
        are_compatible len_A stride_A len_B stride_B = some false) :=
  are_compatible_stride_order len_A stride_A len_B stride_B hA hB

/-- Witness of C26 (amended) on the packed 2x2 layout with strides `(1, 2)` and the layout of
length 4 with stride 1, which the function accepts. -/
theorem are_compatible_compares_in_stride_order_witness :
    are_compatible [2, 2] [1, 2] [4] [1] = some true ∧
      offsets_in_stride_order [2, 2] [1, 2] = [0, 1, 2, 3] ∧
      offsets_in_stride_order [4] [1] = [0, 1, 2, 3] ∧
      ((are_compatible [2, 2] [1, 2] [4] [1] = some true ↔
          prod [2, 2] = prod [4] ∧
            offsets_in_stride_order [2, 2] [1, 2] = offsets_in_stride_order [4] [1]) ∧
        (are_compatible [2, 2] [1, 2] [4] [1] = some true →
          prod [2, 2] = prod [4] ∧ ∀ t, t ∈ offsets [2, 2] [1, 2] ↔ t ∈ offsets [4] [1]) ∧
        (are_compatible [2, 2] [1, 2] [4] [1] = some true ∨
          are_compatible [2, 2] [1, 2] [4] [1] = some false)) :=
  ⟨by decide, by decide, by decide,
    are_compatible_compares_in_stride_order [2, 2] [1, 2] [4] [1] (by decide) (by decide)⟩

/-- C27: for two views whose stride vectors have the size of their length vectors and
`dim` below the larger dimension, `are_congruent_along(A, B, dim)` is true, when the dimensions
are equal, iff all strides are equal and the lengths are equal on every axis other than `dim`;
when one view has exactly one axis fewer, in either argument order, iff erasing axis `dim` from
the strides and lengths of the larger view gives the strides and lengths of the smaller one;
and it is false when the dimensions differ by two or more. -/
theorem are_congruent_along_characterisation (A B : tensor_view) (dim : Nat)
    (hA : A.strides.length = A.dimension) (hB : B.strides.length = B.dimension)
    (hdim : dim < max A.dimension B.dimension) :
    (A.dimension = B.dimension →
      (are_congruent_along A B dim = true ↔
        A.strides = B.strides ∧
          ∀ i, i < A.dimension → i ≠ dim → A.length i = B.length i)) ∧
      (A.dimension = B.dimension + 1 →
        (are_congruent_along A B dim = true ↔
          A.strides.eraseIdx dim = B.strides ∧ A.lengths.eraseIdx dim = B.lengths) ∧
        (are_congruent_along B A dim = true ↔
          A.strides.eraseIdx dim = B.strides ∧ A.lengths.eraseIdx dim = B.lengths)) ∧
      (A.dimension + 2 ≤ B.dimension ∨ B.dimension + 2 ≤ A.dimension →
        are_congruent_along A B dim = false) :=
  ⟨fun h => are_congruent_along_same_dim A B dim hA hB h,
    fun h => are_congruent_along_one_fewer A B dim hA hB h
      (by rw [h] at hdim; rw [h]; simpa using hdim),
    fun h => are_congruent_along_far A B dim h⟩

/-- Witness of C27 on a 2x2 view with strides `(1, 3)` and the view of its rows, of length 2
with stride 3. -/
theorem are_congruent_along_characterisation_witness :
    are_congruent_along ⟨[2, 2], 10, [1, 3]⟩ ⟨[1, 2], 12, [1, 3]⟩ 0 = true ∧
      are_congruent_along ⟨[2, 2], 10, [1, 3]⟩ ⟨[2, 1], 12, [1, 3]⟩ 0 = false ∧
      are_congruent_along ⟨[2, 2], 10, [1, 3]⟩ ⟨[2], 12, [3]⟩ 0 = true ∧
      are_congruent_along ⟨[2], 12, [3]⟩ ⟨[2, 2], 10, [1, 3]⟩ 0 = true ∧
      are_congruent_along ⟨[2, 2], 10, [1, 3]⟩ ⟨[2], 12, [1]⟩ 0 = false ∧
      are_congruent_along ⟨[2, 2, 2], 10, [1, 3, 6]⟩ ⟨[2], 12, [3]⟩ 0 = false ∧
      ((⟨[2, 2], 10, [1, 3]⟩ : tensor_view).dimension =
          (⟨[2], 12, [3]⟩ : tensor_view).dimension + 1 →
        (are_congruent_along ⟨[2, 2], 10, [1, 3]⟩ ⟨[2], 12, [3]⟩ 0 = true ↔
          (⟨[2, 2], 10, [1, 3]⟩ : tensor_view).strides.eraseIdx 0 =
              (⟨[2], 12, [3]⟩ : tensor_view).strides ∧
            (⟨[2, 2], 10, [1, 3]⟩ : tensor_view).lengths.eraseIdx 0 =
              (⟨[2], 12, [3]⟩ : tensor_view).lengths) ∧
        (are_congruent_along ⟨[2], 12, [3]⟩ ⟨[2, 2], 10, [1, 3]⟩ 0 = true ↔
          (⟨[2, 2], 10, [1, 3]⟩ : tensor_view).strides.eraseIdx 0 =
              (⟨[2], 12, [3]⟩ : tensor_view).strides ∧
            (⟨[2, 2], 10, [1, 3]⟩ : tensor_view).lengths.eraseIdx 0 =
              (⟨[2], 12, [3]⟩ : tensor_view).lengths)) :=
  ⟨by decide, by decide, by decide, by decide, by decide, by decide,
    (are_congruent_along_characterisation ⟨[2, 2], 10, [1, 3]⟩ ⟨[2], 12, [3]⟩ 0 (by decide)
      (by decide) (by decide)).2.1⟩

/-- C28: a primitive does not reach its kernel on every validated input.  The operands
`A` (2x2x3, index string "bba"), `B` (length 3, "a") and `C` (length 2, "b") pass the
validation of `tensor_mult`, and `A` with "bba" passes that of `tensor_scale` and
`tensor_reduce`; `diagonal` then fails its own assertion on `A`, which compares the length of
axis 2 with that of axis 1, so each of the three primitives ends before its kernel, whatever
the kernel is.  On every input each primitive is its validation followed by the normalization
(`diagonal` on each operand, then the joint `fold`) and one call of the kernel on the
normalized operands with `alpha` and `beta` as given, whose result it returns: the kernel is
reached exactly when the validation and the normalization both succeed. -/
theorem primitive_aborts_after_validation :
    check_tensor_indices_ABC ⟨[2, 2, 3], 0, [6, 3, 1]⟩ ['b', 'b', 'a'] ⟨[3], 0, [1]⟩ ['a']
        ⟨[2], 0, [1]⟩ ['b'] true true true true true true true = some 0 ∧
      check_tensor_indices ⟨[2, 2, 3], 0, [6, 3, 1]⟩ ['b', 'b', 'a'] = some 0 ∧
      (diagonal_run ⟨[2, 2, 3], 0, [6, 3, 1]⟩ ['b', 'b', 'a']).ok = false ∧
      diagonal ⟨[2, 2, 3], 0, [6, 3, 1]⟩ ['b', 'b', 'a'] = none ∧
      (∀ impl : Int → tensor_view → List Char → tensor_view → List Char → Int →
          tensor_view → List Char → Int,
        tensor_mult impl 1 ⟨[2, 2, 3], 0, [6, 3, 1]⟩ ['b', 'b', 'a'] ⟨[3], 0, [1]⟩ ['a'] 0
          ⟨[2], 0, [1]⟩ ['b'] = none) ∧
      (∀ impl : Int → tensor_view → List Char → Int,
        tensor_scale impl 1 ⟨[2, 2, 3], 0, [6, 3, 1]⟩ ['b', 'b', 'a'] = none) ∧
      (∀ impl : Unit → tensor_view → List Char → Int × Int × Int,
        tensor_reduce impl () ⟨[2, 2, 3], 0, [6, 3, 1]⟩ ['b', 'b', 'a'] = none) ∧
      (∀ (T : Type) (impl : T → tensor_view → List Char → tensor_view → List Char → T →
          tensor_view → List Char → Int) (alpha beta : T) (A : tensor_view) (idx_A : List Char)
          (B : tensor_view) (idx_B : List Char) (C : tensor_view) (idx_C : List Char),
        tensor_mult impl alpha A idx_A B idx_B beta C idx_C =
          (check_tensor_indices_ABC A idx_A B idx_B C idx_C true true true true true true
              true).bind
            (fun _ => (normalize_ABC A idx_A B idx_B C idx_C).map
              (fun f => impl alpha f.1.1 f.1.2 f.2.1.1 f.2.1.2 beta f.2.2.1 f.2.2.2))) ∧
      (∀ (T : Type) (impl : T → tensor_view → List Char → Int) (alpha : T) (A : tensor_view)
          (idx_A : List Char),
        tensor_scale impl alpha A idx_A =
          (check_tensor_indices A idx_A).bind
            (fun _ => (normalize_A A idx_A).map (fun f => impl alpha f.1 f.2))) ∧
      (∀ (T reduce_t : Type) (impl : reduce_t → tensor_view → List Char → Int × T × Int)
          (op : reduce_t) (A : tensor_view) (idx_A : List Char),
        tensor_reduce impl op A idx_A =
          (check_tensor_indices A idx_A).bind
            (fun _ => (normalize_A A idx_A).map (fun f => impl op f.1 f.2))) ∧
      tensor_mult (fun (_ : Int) _ _ _ _ _ _ _ => 7) 1 ⟨[2, 3], 0, [1, 2]⟩ ['i', 'k']
        ⟨[3, 4], 0, [1, 3]⟩ ['k', 'j'] 0 ⟨[2, 4], 0, [1, 2]⟩ ['i', 'j'] = some 7 :=
  ⟨by decide, by decide, by decide, by decide, fun _ => rfl, fun _ => rfl, fun _ => rfl,
    fun _ impl alpha beta A idx_A B idx_B C idx_C =>
      tensor_mult_eq impl alpha A idx_A B idx_B beta C idx_C,
    fun _ impl alpha A idx_A => tensor_scale_eq impl alpha A idx_A,
    fun _ _ impl op A idx_A => tensor_reduce_eq impl op A idx_A, by decide⟩

/-- C29: for three operands that pass the three-operand `check_tensor_indices`, with any
flags, the operands computed by `diagonal` on each and then the three-view `fold` (which are
the operands the normalization returns whenever it returns) keep the invariants of the data
model: each index string has as many labels as its operand has axes, no index string repeats a
label, and two axes with the same label, in one operand or in two, have the same length. -/
theorem normalization_keeps_invariants (A : tensor_view) (idx_A : List Char)
    (B : tensor_view) (idx_B : List Char) (C : tensor_view) (idx_C : List Char)
    (has_A_only has_B_only has_C_only has_AB has_AC has_BC has_ABC : Bool)
    (h : check_tensor_indices_ABC A idx_A B idx_B C idx_C has_A_only has_B_only has_C_only
        has_AB has_AC has_BC has_ABC = some 0) :
    ∃ f, f = fold_ABC_body (diagonal_body A idx_A).1 (diagonal_body A idx_A).2
        (diagonal_body B idx_B).1 (diagonal_body B idx_B).2
        (diagonal_body C idx_C).1 (diagonal_body C idx_C).2 ∧
      (∀ n, normalize_ABC A idx_A B idx_B C idx_C = some n → n = f) ∧
      sizes_agree [f.1, f.2.1, f.2.2] ∧ (∀ X ∈ [f.1, f.2.1, f.2.2], X.2.Nodup) ∧
      lengths_agree [f.1, f.2.1, f.2.2] :=
  normalize_ABC_invariants A idx_A B idx_B C idx_C has_A_only has_B_only has_C_only
    has_AB has_AC has_BC has_ABC h

/-- Witness of C29 on the operands of a batched product with a repeated label and an axis of
length 1, `A[i,k,k,u]`, `B[k,j]` and `C[i,j]`, which the normalization turns into `A[k,i]`,
`B[k,j]` and `C[i,j]`. -/
theorem normalization_keeps_invariants_witness :
    check_tensor_indices_ABC ⟨[2, 3, 3, 1], 0, [1, 2, 0, 6]⟩ ['i', 'k', 'k', 'u']
        ⟨[3, 4], 0, [1, 3]⟩ ['k', 'j'] ⟨[2, 4], 0, [1, 2]⟩ ['i', 'j']
        true true true true true true true = some 0 ∧
      normalize_ABC ⟨[2, 3, 3, 1], 0, [1, 2, 0, 6]⟩ ['i', 'k', 'k', 'u']
          ⟨[3, 4], 0, [1, 3]⟩ ['k', 'j'] ⟨[2, 4], 0, [1, 2]⟩ ['i', 'j'] =
        some ((⟨[3, 2], 0, [2, 1]⟩, ['k', 'i']), (⟨[3, 4], 0, [1, 3]⟩, ['k', 'j']),
          (⟨[2, 4], 0, [1, 2]⟩, ['i', 'j'])) ∧
      ∃ f, f = fold_ABC_body
          (diagonal_body ⟨[2, 3, 3, 1], 0, [1, 2, 0, 6]⟩ ['i', 'k', 'k', 'u']).1
          (diagonal_body ⟨[2, 3, 3, 1], 0, [1, 2, 0, 6]⟩ ['i', 'k', 'k', 'u']).2
          (diagonal_body ⟨[3, 4], 0, [1, 3]⟩ ['k', 'j']).1
          (diagonal_body ⟨[3, 4], 0, [1, 3]⟩ ['k', 'j']).2
          (diagonal_body ⟨[2, 4], 0, [1, 2]⟩ ['i', 'j']).1
          (diagonal_body ⟨[2, 4], 0, [1, 2]⟩ ['i', 'j']).2 ∧
        (∀ n, normalize_ABC ⟨[2, 3, 3, 1], 0, [1, 2, 0, 6]⟩ ['i', 'k', 'k', 'u']
          ⟨[3, 4], 0, [1, 3]⟩ ['k', 'j'] ⟨[2, 4], 0, [1, 2]⟩ ['i', 'j'] = some n → n = f) ∧
        sizes_agree [f.1, f.2.1, f.2.2] ∧ (∀ X ∈ [f.1, f.2.1, f.2.2], X.2.Nodup) ∧
        lengths_agree [f.1, f.2.1, f.2.2] :=
  ⟨by decide, by decide,
    normalization_keeps_invariants ⟨[2, 3, 3, 1], 0, [1, 2, 0, 6]⟩ ['i', 'k', 'k', 'u']
      ⟨[3, 4], 0, [1, 3]⟩ ['k', 'j'] ⟨[2, 4], 0, [1, 2]⟩ ['i', 'j']
      true true true true true true true (by decide)⟩

/-- C30: in exact arithmetic `tensor_size(ndim, len)` is the product of `len[0..ndim-1]`,
which is 1 for `ndim = 0` and the product of all of `len` when `len` has `ndim` entries;
`tensor_storage_size(ndim, len, stride)` is `1 + sum_i |stride[i]| * (len[i] - 1)` when a stride
vector is given and `tensor_size(ndim, len)` when it is absent. -/
theorem tensor_size_and_storage_size (ndim : Nat) (len stride : List Int) :
    tensor_size ndim len = ∏ i in Finset.range ndim, len.getD i 0 ∧
      tensor_size 0 len = 1 ∧
      (ndim = len.length → tensor_size ndim len = len.prod) ∧
      tensor_storage_size ndim len (some stride) =
        1 + ∑ i in Finset.range ndim, |stride.getD i 0| * (len.getD i 0 - 1) ∧
      tensor_storage_size ndim len none = tensor_size ndim len :=
  tensor_sizes ndim len stride


/-- C31, counterexample: on a 3x2 view with all lengths at least 1, `partition` along axis 0
accepts the offsets 0 and 3, both within `0 <= off <= len[0]`; at offset 0 the view `A0` has
the lengths `(0, 2)` and at offset 3 the view `A1` has the lengths `(0, 2)`. -/
theorem partition_at_boundary_gives_empty_view :
    (∀ l ∈ (⟨[3, 2], 10, [1, 3]⟩ : tensor_view).lengths, 1 ≤ l) ∧
      0 < (⟨[3, 2], 10, [1, 3]⟩ : tensor_view).dimension ∧
      ((0 : Int) ≤ 0 ∧ (0 : Int) ≤ (⟨[3, 2], 10, [1, 3]⟩ : tensor_view).length 0) ∧
      partition ⟨[3, 2], 10, [1, 3]⟩ 0 0 =
        some (⟨[0, 2], 10, [1, 3]⟩, ⟨[3, 2], 10, [1, 3]⟩) ∧
      (0 : Int) ∈ (⟨[0, 2], 10, [1, 3]⟩ : tensor_view).lengths ∧
      ((0 : Int) ≤ 3 ∧ (3 : Int) ≤ (⟨[3, 2], 10, [1, 3]⟩ : tensor_view).length 0) ∧
      partition ⟨[3, 2], 10, [1, 3]⟩ 0 3 =
        some (⟨[3, 2], 10, [1, 3]⟩, ⟨[0, 2], 13, [1, 3]⟩) ∧
      (0 : Int) ∈ (⟨[0, 2], 13, [1, 3]⟩ : tensor_view).lengths := by
  decide

/-- C31, amended: for a view `A` with all lengths at least 1, `dim < A.dimension()` and
`0 <= off <= len[dim]`, the view `A0` that `partition` returns has an axis of length 0 iff
`off = 0` and the view `A1` iff `off = len[dim]`; all lengths of `A0` are at least 1 iff
`0 < off`, and all lengths of `A1` iff `off < len[dim]`.  So both views keep the invariant
exactly for `0 < off < len[dim]`. -/
theorem partition_keeps_lengths_positive (A : tensor_view) (dim : Nat) (off : Int)
    (hdim : dim < A.dimension) (hlen : ∀ l ∈ A.lengths, 1 ≤ l) (h0 : 0 ≤ off)
    (h1 : off ≤ A.length dim) :
    ∃ A0 A1, partition A dim off = some (A0, A1) ∧
      (0 ∈ A0.lengths ↔ off = 0) ∧ (0 ∈ A1.lengths ↔ off = A.length dim) ∧
      ((∀ l ∈ A0.lengths, 1 ≤ l) ↔ 0 < off) ∧
      ((∀ l ∈ A1.lengths, 1 ≤ l) ↔ off < A.length dim) :=
  partition_lengths A dim off hdim hlen h0 h1

/-- Witness of C31 (amended) on a 3x2 view with strides `(1, 3)` at address 10, split along
axis 0 at offset 1: both views have positive lengths. -/
theorem partition_keeps_lengths_positive_witness :
    partition ⟨[3, 2], 10, [1, 3]⟩ 0 1 = some (⟨[1, 2], 10, [1, 3]⟩, ⟨[2, 2], 11, [1, 3]⟩) ∧
      (∀ l ∈ (⟨[1, 2], 10, [1, 3]⟩ : tensor_view).lengths, 1 ≤ l) ∧
      (∀ l ∈ (⟨[2, 2], 11, [1, 3]⟩ : tensor_view).lengths, 1 ≤ l) ∧
      ∃ A0 A1, partition ⟨[3, 2], 10, [1, 3]⟩ 0 1 = some (A0, A1) ∧
        (0 ∈ A0.lengths ↔ (1 : Int) = 0) ∧
        (0 ∈ A1.lengths ↔ (1 : Int) = (⟨[3, 2], 10, [1, 3]⟩ : tensor_view).length 0) ∧
        ((∀ l ∈ A0.lengths, 1 ≤ l) ↔ (0 : Int) < 1) ∧
        ((∀ l ∈ A1.lengths, 1 ≤ l) ↔ (1 : Int) < (⟨[3, 2], 10, [1, 3]⟩ : tensor_view).length 0) :=
  ⟨by decide, by decide, by decide,
    partition_keeps_lengths_positive ⟨[3, 2], 10, [1, 3]⟩ 0 1 (by decide) (by decide)
      (by decide) (by decide)⟩

/-- C32: when the core `fold` is given one stride vector of the size of the length vector and
all lengths are at least 1, its closing assertion holds: `are_compatible` of the old layout
and the folded layout returns true, so `fold` returns what it computed, and so does the
one-view `fold` on a view with an index string of matching size. -/
theorem fold_single_operand_assertion_holds (lengths stride : List Int) (idx : List Char)
    (hsz : lengths.length = stride.length) (hlen : ∀ l ∈ lengths, 1 ≤ l) :
    are_compatible lengths stride (fold_body lengths [stride] idx).lengths
        ((fold_body lengths [stride] idx).strides.getD 0 []) = some true ∧
      fold_asserts lengths [stride] idx = true ∧
      fold lengths [stride] idx = some (fold_body lengths [stride] idx) ∧
      (idx.length = lengths.length → ∀ data : Int,
        fold_A ⟨lengths, data, stride⟩ idx = some (fold_A_body ⟨lengths, data, stride⟩ idx)) := by
  have h0 : ∀ l ∈ lengths, 0 ≤ l := fun l hl => le_trans (by norm_num) (hlen l hl)
  have ha := fold_single_asserts lengths stride idx hsz h0
  refine ⟨fold_single_compatible lengths stride idx hsz h0, ha, ?_, ?_⟩
  · rw [fold, if_pos ha]
  · intro hi data
    have hd : (⟨lengths, data, stride⟩ : tensor_view).dimension = idx.length := hi.symm
    rw [fold_A, if_neg (not_not.mpr hd)]
    exact if_pos ha

/-- Witness of C32 on the 2x2 layout with the negative strides `(-1, -2)`, where nothing is
merged, and on the packed 2x3 layout with strides `(3, 1)`, which folds to one axis. -/
theorem fold_single_operand_assertion_holds_witness :
    fold [2, 2] [[-1, -2]] ['a', 'b'] =
        some { lengths := [2, 2], strides := [[-2, -1]], idx := ['b', 'a'] } ∧
      fold [2, 3] [[3, 1]] ['a', 'b'] =
        some { lengths := [6], strides := [[1]], idx := ['b'] } ∧
      are_compatible [2, 2] [-1, -2] (fold_body [2, 2] [[-1, -2]] ['a', 'b']).lengths
          ((fold_body [2, 2] [[-1, -2]] ['a', 'b']).strides.getD 0 []) = some true ∧
      fold_asserts [2, 2] [[-1, -2]] ['a', 'b'] = true ∧
      fold [2, 2] [[-1, -2]] ['a', 'b'] = some (fold_body [2, 2] [[-1, -2]] ['a', 'b']) ∧
      (['a', 'b'].length = [(2 : Int), 2].length → ∀ data : Int,
        fold_A ⟨[2, 2], data, [-1, -2]⟩ ['a', 'b'] =
          some (fold_A_body ⟨[2, 2], data, [-1, -2]⟩ ['a', 'b'])) :=
  ⟨by decide, by decide,
    fold_single_operand_assertion_holds [2, 2] [-1, -2] ['a', 'b'] (by decide) (by decide)⟩

/-- C33: `diagonal` trips its own assertion on validated input.  The 2x2x3 view with index
string "bba" passes the one-operand `check_tensor_indices` (both axes labelled `b` have
length 2); `diagonal` visits the axes in the order 2, 0, 1 and, at the second `b`, asserts
`AD.length(ndim_AD) == AD.length(inds_A[i])` with `ndim_AD = 2`, comparing the length 3 of
axis 2 with the length 2 of axis 1, so it aborts.  With the labels in the order "aab" the same
lengths pass, because there `ndim_AD` happens to be the axis visited. -/
theorem diagonal_assertion_fails_on_validated_input :
    check_tensor_indices ⟨[2, 2, 3], 0, [6, 3, 1]⟩ ['b', 'b', 'a'] = some 0 ∧
      sort (sort_by_idx ['b', 'b', 'a'])
        (range (⟨[2, 2, 3], 0, [6, 3, 1]⟩ : tensor_view).dimension) = [2, 0, 1] ∧
      (diagonal_run ⟨[2, 2, 3], 0, [6, 3, 1]⟩ ['b', 'b', 'a']).ndim_AD = 2 ∧
      (⟨[2, 2, 3], 0, [6, 3, 1]⟩ : tensor_view).length 2 ≠
        (⟨[2, 2, 3], 0, [6, 3, 1]⟩ : tensor_view).length 1 ∧
      (diagonal_run ⟨[2, 2, 3], 0, [6, 3, 1]⟩ ['b', 'b', 'a']).ok = false ∧
      diagonal ⟨[2, 2, 3], 0, [6, 3, 1]⟩ ['b', 'b', 'a'] = none ∧
      check_tensor_indices ⟨[2, 2, 3], 0, [6, 3, 1]⟩ ['a', 'a', 'b'] = some 0 ∧
      diagonal ⟨[2, 2, 3], 0, [6, 3, 1]⟩ ['a', 'a', 'b'] =
        some (⟨[2, 3], 0, [6, 1]⟩, ['a', 'b']) := by
  decide

/-- C34: `slice` and `slice_back` read past the end of their local stride vector when `dim`
is the last axis.  The entry they read, `stride[dim]` after axis `dim` has been erased, is the
entry `dim + 1` of the strides of `A`, so on a view whose stride vector has the size of its
dimension it exists iff `dim + 1 < d`.  On a 3x2 view with `dim = 1` and the valid offset 1
the erased vector has one entry and index 1 is read; on a view of dimension 1 with `dim = 0`
the erased vector is empty. -/
theorem slice_reads_past_erased_strides :
    (∀ (A : tensor_view) (dim : Nat), slice_a1_stride_read A dim = A.strides[dim + 1]?) ∧
      (∀ (A : tensor_view) (dim : Nat) (off : Int),
        (slice_body A dim off).2.1.data =
            A.data + off * (slice_a1_stride_read A dim).getD 0 ∧
          (slice_back_body A dim).2.data =
            A.data + (A.length dim - 1) * (slice_a1_stride_read A dim).getD 0) ∧
      (∀ (A : tensor_view) (dim : Nat), A.strides.length = A.dimension → dim < A.dimension →
        (slice_a1_stride_read A dim = none ↔ dim + 1 = A.dimension)) ∧
      1 ≤ (⟨[3, 2], 10, [1, 3]⟩ : tensor_view).dimension ∧
      1 < (⟨[3, 2], 10, [1, 3]⟩ : tensor_view).dimension ∧
      ((0 : Int) ≤ 1 ∧ (1 : Int) < (⟨[3, 2], 10, [1, 3]⟩ : tensor_view).length 1) ∧
      ((⟨[3, 2], 10, [1, 3]⟩ : tensor_view).strides.eraseIdx 1).length = 1 ∧
      slice_a1_stride_read ⟨[3, 2], 10, [1, 3]⟩ 1 = none ∧
      (slice ⟨[3, 2], 10, [1, 3]⟩ 1 1).isSome = true ∧
      (slice_back ⟨[3, 2], 10, [1, 3]⟩ 1).isSome = true ∧
      0 < (⟨[3], 10, [1]⟩ : tensor_view).dimension ∧
      (⟨[3], 10, [1]⟩ : tensor_view).strides.eraseIdx 0 = [] ∧
      slice_a1_stride_read ⟨[3], 10, [1]⟩ 0 = none ∧
      slice_a1_stride_read ⟨[3, 2], 10, [1, 3]⟩ 0 = some 3 :=
  ⟨slice_a1_stride_read_eq, slice_body_a1_data_read, slice_a1_stride_read_none_iff,
    by decide, by decide, by decide, by decide, by decide, by decide, by decide, by decide,
    by decide, by decide, by decide⟩

/-- C35: for an index string of the size of the view whose labels are all distinct,
`diagonal` passes its assertions and returns the axes of the input of length other than 1, in
increasing order of their labels, each with its own length, stride and label, on the data of
the input; and every coordinate `y` of the output has the offset that the coordinate of the
input it stands for has, which is `y` on the kept axes and 0 on the dropped ones. -/
theorem diagonal_distinct_labels (AD : tensor_view) (idx_AD : List Char)
    (hsz : idx_AD.length = AD.dimension) (hn : idx_AD.Nodup) :
    diagonal AD idx_AD = some (diagonal_distinct_ref AD idx_AD) ∧
      (∀ i, i ∈ diagonal_distinct_axes AD idx_AD ↔ i < AD.dimension ∧ AD.length i ≠ 1) ∧
      (diagonal_distinct_axes AD idx_AD).Nodup ∧
      (diagonal_distinct_ref AD idx_AD).2.Pairwise (fun a b => a < b) ∧
      ∀ y : List Int,
        offset (diagonal_preimage idx_AD (diagonal_distinct_ref AD idx_AD).2 y) AD.strides =
          offset y (diagonal_distinct_ref AD idx_AD).1.strides :=
  ⟨diagonal_distinct AD idx_AD hsz hn, mem_diagonal_distinct_axes AD idx_AD,
    diagonal_distinct_axes_nodup AD idx_AD,
    diagonal_distinct_labels_increasing AD idx_AD hsz hn,
    diagonal_distinct_offset AD idx_AD hsz hn⟩

/-- Witness of C35 on a 2x1x3 view with strides `(3, 3, 1)` and index string "bac": the axis
of length 1 is dropped, the output is the 2x3 view with strides `(3, 1)` and index string "bc",
and its coordinate `(1, 2)` stands for the coordinate `(1, 0, 2)` of the input, both at
offset 5. -/
theorem diagonal_distinct_labels_witness :
    diagonal ⟨[2, 1, 3], 0, [3, 3, 1]⟩ ['b', 'a', 'c'] = some (⟨[2, 3], 0, [3, 1]⟩, ['b', 'c']) ∧
      diagonal_distinct_axes ⟨[2, 1, 3], 0, [3, 3, 1]⟩ ['b', 'a', 'c'] = [0, 2] ∧
      diagonal_preimage ['b', 'a', 'c'] ['b', 'c'] [1, 2] = [1, 0, 2] ∧
      offset [1, 0, 2] [3, 3, 1] = 5 ∧ offset [1, 2] [3, 1] = 5 ∧
      (diagonal ⟨[2, 1, 3], 0, [3, 3, 1]⟩ ['b', 'a', 'c'] =
          some (diagonal_distinct_ref ⟨[2, 1, 3], 0, [3, 3, 1]⟩ ['b', 'a', 'c']) ∧
        (∀ i, i ∈ diagonal_distinct_axes ⟨[2, 1, 3], 0, [3, 3, 1]⟩ ['b', 'a', 'c'] ↔
          i < (⟨[2, 1, 3], 0, [3, 3, 1]⟩ : tensor_view).dimension ∧
            (⟨[2, 1, 3], 0, [3, 3, 1]⟩ : tensor_view).length i ≠ 1) ∧
        (diagonal_distinct_axes ⟨[2, 1, 3], 0, [3, 3, 1]⟩ ['b', 'a', 'c']).Nodup ∧
        (diagonal_distinct_ref ⟨[2, 1, 3], 0, [3, 3, 1]⟩ ['b', 'a', 'c']).2.Pairwise
          (fun a b => a < b) ∧
        ∀ y : List Int,
          offset (diagonal_preimage ['b', 'a', 'c']
              (diagonal_distinct_ref ⟨[2, 1, 3], 0, [3, 3, 1]⟩ ['b', 'a', 'c']).2 y)
              (⟨[2, 1, 3], 0, [3, 3, 1]⟩ : tensor_view).strides =
            offset y (diagonal_distinct_ref ⟨[2, 1, 3], 0, [3, 3, 1]⟩ ['b', 'a', 'c']).1.strides) :=
  ⟨by decide, by decide, by decide, by decide, by decide,
    diagonal_distinct_labels ⟨[2, 1, 3], 0, [3, 3, 1]⟩ ['b', 'a', 'c'] (by decide) (by decide)⟩

/-- C36: for an index string of the size of the view, `diagonal` applied to the view and
index string that `diagonal` computes passes its assertions and returns them unchanged:
lengths, strides, data pointer and index string.  In particular, whenever `diagonal` returns,
a second call on its result returns the same result. -/
theorem diagonal_idempotent (AD : tensor_view) (idx_AD : List Char)
    (hsz : idx_AD.length = AD.dimension) :
    diagonal (diagonal_body AD idx_AD).1 (diagonal_body AD idx_AD).2 =
        some (diagonal_body AD idx_AD) ∧
      ∀ r, diagonal AD idx_AD = some r → diagonal r.1 r.2 = some r :=
  ⟨diagonal_of_diagonal_body AD idx_AD hsz,
    fun r hr => diagonal_idempotent_of_some AD idx_AD hsz r hr⟩

/-- Witness of C36 on a 2x3x2x1 view with index string "babc", which `diagonal` turns into
the 3x2 view with index string "ab". -/
theorem diagonal_idempotent_witness :
    diagonal ⟨[2, 3, 2, 1], 0, [1, 2, 6, 12]⟩ ['b', 'a', 'b', 'c'] =
        some (⟨[3, 2], 0, [2, 1]⟩, ['a', 'b']) ∧
      diagonal ⟨[3, 2], 0, [2, 1]⟩ ['a', 'b'] = some (⟨[3, 2], 0, [2, 1]⟩, ['a', 'b']) ∧
      (diagonal (diagonal_body ⟨[2, 3, 2, 1], 0, [1, 2, 6, 12]⟩ ['b', 'a', 'b', 'c']).1
          (diagonal_body ⟨[2, 3, 2, 1], 0, [1, 2, 6, 12]⟩ ['b', 'a', 'b', 'c']).2 =
          some (diagonal_body ⟨[2, 3, 2, 1], 0, [1, 2, 6, 12]⟩ ['b', 'a', 'b', 'c']) ∧
        ∀ r, diagonal ⟨[2, 3, 2, 1], 0, [1, 2, 6, 12]⟩ ['b', 'a', 'b', 'c'] = some r →
          diagonal r.1 r.2 = some r) :=
  ⟨by decide, by decide,
    diagonal_idempotent ⟨[2, 3, 2, 1], 0, [1, 2, 6, 12]⟩ ['b', 'a', 'b', 'c'] (by decide)⟩

/-- C37: for every input of the core `fold`, with `ndim` the size of the length vector, the
output index string, the output length vector and every output stride vector have one common
size `r`, there are as many output stride vectors as input ones, `r <= ndim`, `r >= 1` when
`ndim >= 1`, `r = 0` when `ndim = 0`, and the product of the output lengths is the product of
the input lengths; so it is for what `fold` returns, when its assertions let it return. -/
theorem fold_preserves_count_and_shape (lengths : List Int) (strides : List (List Int))
    (idx : List Char) :
    ((fold_body lengths strides idx).idx.length =
        (fold_body lengths strides idx).lengths.length ∧
      (fold_body lengths strides idx).strides.length = strides.length ∧
      (∀ s ∈ (fold_body lengths strides idx).strides,
        s.length = (fold_body lengths strides idx).lengths.length) ∧
      (fold_body lengths strides idx).lengths.length ≤ lengths.length ∧
      (1 ≤ lengths.length → 1 ≤ (fold_body lengths strides idx).lengths.length) ∧
      (lengths.length = 0 → (fold_body lengths strides idx).lengths.length = 0) ∧
      (fold_body lengths strides idx).lengths.prod = lengths.prod) ∧
    ∀ out, fold lengths strides idx = some out →
      out.idx.length = out.lengths.length ∧ out.strides.length = strides.length ∧
        (∀ s ∈ out.strides, s.length = out.lengths.length) ∧
        out.lengths.length ≤ lengths.length ∧
        (1 ≤ lengths.length → 1 ≤ out.lengths.length) ∧
        (lengths.length = 0 → out.lengths.length = 0) ∧
        out.lengths.prod = lengths.prod := by
  refine ⟨fold_body_shape lengths strides idx, ?_⟩
  intro out h
  rw [fold_eq_some lengths strides idx out h]
  exact fold_body_shape lengths strides idx

/-- C38: a view with at least one axis, all lengths at least 2, an index string of matching
size and strides that are a packed column-major layout up to a permutation `p` of the axes
(the first axis of `p` has stride 1 and each next axis of `p` has the stride of the axis before
it times that axis's length) folds to one axis: `p` is the ascending order of the strides, and
the core `fold` on the one stride vector and the one-view `fold` pass their assertions and
return the length `prod len`, the stride 1 and the label of the axis of stride 1, on the data
of the view. -/
theorem packed_view_folds_to_one_axis (AF : tensor_view) (idx_AF : List Char) (p : List Nat)
    (hidx : AF.dimension = idx_AF.length) (hs : AF.strides.length = AF.dimension)
    (hn : 1 ≤ AF.dimension) (hlen : ∀ l ∈ AF.lengths, 2 ≤ l)
    (hp : p.Perm (List.range AF.dimension)) (h0 : AF.stride (p.headD 0) = 1)
    (hchain : p.Chain' (fun a b => AF.stride b = AF.stride a * AF.length a)) :
    sort (sort_by_stride [AF.strides]) (range AF.dimension) = p ∧
      fold AF.lengths [AF.strides] idx_AF =
        some { lengths := [AF.lengths.prod], strides := [[1]],
               idx := [idx_AF.getD (p.headD 0) default] } ∧
      fold_A AF idx_AF =
        some (⟨[AF.lengths.prod], AF.data, [1]⟩, [idx_AF.getD (p.headD 0) default]) :=
  ⟨packed_order_is_stride_order AF p hlen hp h0 hchain,
    fold_A_packed AF idx_AF p hidx hs hn hlen hp h0 hchain⟩

/-- Witness of C38 on a 2x3x4 view at address 10 with strides `(12, 1, 3)`, packed in the
axis order 1, 2, 0: it folds to one axis of length 24 and stride 1 labelled `b`. -/
theorem packed_view_folds_to_one_axis_witness :
    fold_A ⟨[2, 3, 4], 10, [12, 1, 3]⟩ ['a', 'b', 'c'] = some (⟨[24], 10, [1]⟩, ['b']) ∧
      [1, 2, 0].Perm (List.range (⟨[2, 3, 4], 10, [12, 1, 3]⟩ : tensor_view).dimension) ∧
      (sort (sort_by_stride [(⟨[2, 3, 4], 10, [12, 1, 3]⟩ : tensor_view).strides])
            (range (⟨[2, 3, 4], 10, [12, 1, 3]⟩ : tensor_view).dimension) = [1, 2, 0] ∧
        fold (⟨[2, 3, 4], 10, [12, 1, 3]⟩ : tensor_view).lengths
            [(⟨[2, 3, 4], 10, [12, 1, 3]⟩ : tensor_view).strides] ['a', 'b', 'c'] =
          some { lengths := [(⟨[2, 3, 4], 10, [12, 1, 3]⟩ : tensor_view).lengths.prod],
                 strides := [[1]],
                 idx := [['a', 'b', 'c'].getD ([1, 2, 0].headD 0) default] } ∧
        fold_A ⟨[2, 3, 4], 10, [12, 1, 3]⟩ ['a', 'b', 'c'] =
          some (⟨[(⟨[2, 3, 4], 10, [12, 1, 3]⟩ : tensor_view).lengths.prod],
              (⟨[2, 3, 4], 10, [12, 1, 3]⟩ : tensor_view).data, [1]⟩,
            [['a', 'b', 'c'].getD ([1, 2, 0].headD 0) default])) :=
  ⟨by decide, by decide,
    packed_view_folds_to_one_axis ⟨[2, 3, 4], 10, [12, 1, 3]⟩ ['a', 'b', 'c'] [1, 2, 0]
      (by decide) (by decide) (by decide) (by decide) (by decide) (by decide)
      (List.chain'_cons.2 ⟨by decide, List.chain'_cons.2 ⟨by decide, List.chain'_singleton _⟩⟩)⟩

/-- C39: when `matricize` accepts `A` and `split` and neither `m` nor `n` is 1, the view has
at least two axes, `0 < split < d`, and every coordinate `x` with one entry per axis has the
same offset through the matrix view, `sum_i x_i * stride(i) = r * rs + c * cs`, where `r` and
`c` are the linear indices of the entries of `x` before and from `split`, column-major when
`stride(0) < stride(d-1)` and row-major otherwise. -/
theorem matricize_consistent_outside_degenerate (A : tensor_view) (split : Nat)
    (AM : matrix_view) (h : matricize A split = some AM) (hm : AM.lengths.1 ≠ 1)
    (hn : AM.lengths.2 ≠ 1) :
    (0 < split ∧ split < A.dimension ∧ 2 ≤ A.dimension) ∧
      ∀ x : List Int, x.length = A.dimension →
        offset x A.strides =
          matricize_row A split x * AM.strides.1 + matricize_col A split x * AM.strides.2 :=
  ⟨matricize_general_split A split AM h hm hn,
    fun x hx => matricize_consistent_general A split AM h hm hn x hx⟩

/-- Witness of C39 on a packed 2x3x4 view, column-major with `split = 1` and row-major with
`split = 2`, at the coordinate `(1, 2, 3)`. -/
theorem matricize_consistent_outside_degenerate_witness :
    matricize ⟨[2, 3, 4], 10, [1, 2, 6]⟩ 1 = some ⟨(2, 12), 10, (1, 2)⟩ ∧
      matricize_row ⟨[2, 3, 4], 10, [1, 2, 6]⟩ 1 [1, 2, 3] = 1 ∧
      matricize_col ⟨[2, 3, 4], 10, [1, 2, 6]⟩ 1 [1, 2, 3] = 11 ∧
      offset [1, 2, 3] (⟨[2, 3, 4], 10, [1, 2, 6]⟩ : tensor_view).strides = 23 ∧
      matricize ⟨[2, 3, 4], 10, [12, 4, 1]⟩ 2 = some ⟨(6, 4), 10, (4, 1)⟩ ∧
      matricize_row ⟨[2, 3, 4], 10, [12, 4, 1]⟩ 2 [1, 2, 3] = 5 ∧
      matricize_col ⟨[2, 3, 4], 10, [12, 4, 1]⟩ 2 [1, 2, 3] = 3 ∧
      offset [1, 2, 3] (⟨[2, 3, 4], 10, [12, 4, 1]⟩ : tensor_view).strides = 23 ∧
      offset [1, 2, 3] (⟨[2, 3, 4], 10, [1, 2, 6]⟩ : tensor_view).strides =
        matricize_row ⟨[2, 3, 4], 10, [1, 2, 6]⟩ 1 [1, 2, 3] *
            (⟨(2, 12), 10, (1, 2)⟩ : matrix_view).strides.1 +
          matricize_col ⟨[2, 3, 4], 10, [1, 2, 6]⟩ 1 [1, 2, 3] *
            (⟨(2, 12), 10, (1, 2)⟩ : matrix_view).strides.2 :=
  ⟨by decide, by decide, by decide, by decide, by decide, by decide, by decide, by decide,
    (matricize_consistent_outside_degenerate ⟨[2, 3, 4], 10, [1, 2, 6]⟩ 1
      ⟨(2, 12), 10, (1, 2)⟩ (by decide) (by decide) (by decide)).2 [1, 2, 3] (by decide)⟩

/-- C40: for a length vector with all lengths at least 1 and a stride vector of the same
size, with any signs, any two coordinates in range have offsets that differ by at most
`tensor_storage_size(len, stride) - 1`, and two coordinates in range attain that difference;
and when the strides are the packed column-major layout of the lengths (the first stride is 1
and each next stride is the stride before it times the length before it),
`tensor_storage_size` is `tensor_size`. -/
theorem tensor_storage_size_bounds_offsets (len stride : List Int)
    (hsz : len.length = stride.length) (hlen : ∀ l ∈ len, 1 ≤ l) :
    (∀ x ∈ coordinates len, ∀ y ∈ coordinates len,
        |offset x stride - offset y stride| ≤
          tensor_storage_size len.length len (some stride) - 1) ∧
      (∃ x ∈ coordinates len, ∃ y ∈ coordinates len,
        offset x stride - offset y stride =
          tensor_storage_size len.length len (some stride) - 1) ∧
      ((len ≠ [] → stride.getD 0 0 = 1) →
        (∀ i, i + 1 < len.length → stride.getD (i + 1) 0 = stride.getD i 0 * len.getD i 0) →
        tensor_storage_size len.length len (some stride) = tensor_size len.length len) := by
  have e : tensor_storage_size len.length len (some stride) - 1 =
      (List.zipWith (fun l s => |s| * (l - 1)) len stride).sum := by
    rw [tensor_storage_size_eq_span len stride hsz]; ring
  rw [e]
  exact ⟨offset_diff_le_span len stride hsz, offset_diff_attains_span len stride hsz hlen,
    fun h0 hc => tensor_storage_size_packed len stride hsz hlen h0 hc⟩

/-- Witness of C40 on the 3x2 layout with strides `(-1, 4)`, whose storage size is 7: the
coordinates `(0, 1)` and `(2, 0)` lie at the offsets 4 and -2. -/
theorem tensor_storage_size_bounds_offsets_witness :
    tensor_storage_size 2 [3, 2] (some [-1, 4]) = 7 ∧
      [0, 1] ∈ coordinates [3, 2] ∧ [2, 0] ∈ coordinates [3, 2] ∧
      offset [0, 1] [-1, 4] - offset [2, 0] [-1, 4] = 6 ∧
      tensor_storage_size 3 [2, 3, 4] (some [1, 2, 6]) = 24 ∧ tensor_size 3 [2, 3, 4] = 24 ∧
      ((∀ x ∈ coordinates [3, 2], ∀ y ∈ coordinates [3, 2],
          |offset x [-1, 4] - offset y [-1, 4]| ≤
            tensor_storage_size [(3 : Int), 2].length [3, 2] (some [-1, 4]) - 1) ∧
        (∃ x ∈ coordinates [3, 2], ∃ y ∈ coordinates [3, 2],
          offset x [-1, 4] - offset y [-1, 4] =
            tensor_storage_size [(3 : Int), 2].length [3, 2] (some [-1, 4]) - 1) ∧
        (([(3 : Int), 2] ≠ [] → [(-1 : Int), 4].getD 0 0 = 1) →
          (∀ i, i + 1 < [(3 : Int), 2].length →
            [(-1 : Int), 4].getD (i + 1) 0 = [(-1 : Int), 4].getD i 0 * [(3 : Int), 2].getD i 0) →
          tensor_storage_size [(3 : Int), 2].length [3, 2] (some [-1, 4]) =
            tensor_size [(3 : Int), 2].length [3, 2])) :=
  ⟨by decide, by decide, by decide, by decide, by decide, by decide,
    tensor_storage_size_bounds_offsets [3, 2] [-1, 4] (by decide) (by decide)⟩

end tblis
